import Mathlib

/-!
# Fun-Language-Interpreter: a shallow embedding of `interpreterc.h`

The interpreter of the repository walks a NUL-terminated program text with a
`char*` cursor and evaluates while it parses.  The embedding keeps that shape:

* a byte is a `Nat`; a `char*` into the program buffer is the list of bytes
  from the pointed-to position up to (not including) the terminating NUL, so
  reading at `[]` yields the terminator `0` and `p + 1` is the tail;
* `uint64_t` values are `Nat`s reduced modulo `2 ^ 64` after each operation;
* `fail` (which calls `exit(1)`) and reads outside of an object stop the run
  with `Stop.fail` / `Stop.undefinedBehaviour`;
* the C loops and the recursion of the evaluator are bounded by a fuel
  argument; running out of it is the separate outcome `Stop.outOfFuel`.
-/

namespace FunInterp

/-! ## `<ctype.h>` in the "C" locale -/

/-- The C library `isspace`: space, `\t`, `\n`, `\v`, `\f`, `\r`. -/
def isspace (c : Nat) : Bool := c == 32 || (9 ≤ c && c ≤ 13)

/-- The C library `isdigit`. -/
def isdigit (c : Nat) : Bool := 48 ≤ c && c ≤ 57

/-- The C library `isalpha`. -/
def isalpha (c : Nat) : Bool := (65 ≤ c && c ≤ 90) || (97 ≤ c && c ≤ 122)

/-- The C library `isalnum`. -/
def isalnum (c : Nat) : Bool := isalpha c || isdigit c

/-- The bytes of a C string literal (without its terminating NUL). -/
def cstr (s : String) : List Nat := s.toList.map Char.toNat

/-- The modulus of `uint64_t` arithmetic. -/
def U64 : Nat := 2 ^ 64

/-! ## `slicec.h` -/

/-- `Slice`: `start` is the `char const*` (bytes from the pointer on), `len` the length. -/
structure Slice where
  start : List Nat
  len : Nat
  deriving DecidableEq, Repr

/-- `sliceConstructorLen`. -/
def sliceConstructorLen (s : List Nat) (l : Nat) : Slice := ⟨s, l⟩

/-- The loop of `sliceEqualString`: `p[i] != slice.start[i]` for `i < len`, then `p[len] == 0`. -/
def sliceEqualStringLoop : Nat → List Nat → List Nat → Bool
  | 0, _, p => p.headD 0 == 0
  | n + 1, s, p => if p.headD 0 != s.headD 0 then false else sliceEqualStringLoop n s.tail p.tail

/-- `sliceEqualString`. -/
def sliceEqualString (slice : Slice) (p : List Nat) : Bool :=
  sliceEqualStringLoop slice.len slice.start p

/-- The loop of `sliceEqualSlice` over `i < len`. -/
def sliceEqualSliceLoop : Nat → List Nat → List Nat → Bool
  | 0, _, _ => true
  | n + 1, s, o => if o.headD 0 != s.headD 0 then false else sliceEqualSliceLoop n s.tail o.tail

/-- `sliceEqualSlice`: equal lengths and equal bytes. -/
def sliceEqualSlice (slice other : Slice) : Bool :=
  if slice.len != other.len then false
  else sliceEqualSliceLoop slice.len slice.start other.start

/-- The conversion `(uint64_t)c` of a (signed) `char`. -/
def charToU64 (c : Nat) : Nat := if c < 128 then c else U64 - 256 + c

/-- The loop of `hashSlice`: `out = out * 33 + (uint64_t)c`. -/
def hashSliceLoop : Nat → List Nat → Nat → Nat
  | 0, _, out => out
  | n + 1, s, out => hashSliceLoop n s.tail ((out * 33 + charToU64 (s.headD 0)) % U64)

/-- `hashSlice`. -/
def hashSlice (key : Slice) : Nat := hashSliceLoop key.len key.start 5381

/-! ## `mapc.h`: the variable table -/

/-- `Node` of a bin's linked list (the `next` pointer is the list tail). -/
structure Node where
  key : Slice
  value : Nat
  deriving DecidableEq, Repr

/-- `UnorderedMap`.  The field `loadFactor` is the constant `0.75` and is not stored. -/
structure UnorderedMap where
  size : Nat
  capacity : Nat
  bins : List (List Node)
  deriving DecidableEq, Repr

/-- `mapCreate`: sixteen empty bins. -/
def mapCreate : UnorderedMap := ⟨0, 16, List.replicate 16 []⟩

/-- `mapInsertWithBin`: push a node at the head of bin `binIndex`. -/
def mapInsertWithBin (bins : List (List Node)) (binIndex : Nat) (key : Slice) (value : Nat) :
    List (List Node) :=
  bins.set binIndex (⟨key, value⟩ :: bins.getD binIndex [])

/-- `mapExpand`: double the capacity and re-insert every node, bin by bin, head first. -/
def mapExpand (map : UnorderedMap) : UnorderedMap :=
  let updatedCapacity := (map.capacity * 2) % U64
  let updatedBins := (map.bins.take map.capacity).foldl
    (fun acc bin => bin.foldl
      (fun acc current => mapInsertWithBin acc (hashSlice current.key % updatedCapacity)
        current.key current.value) acc)
    (List.replicate updatedCapacity [])
  { map with bins := updatedBins, capacity := updatedCapacity }

/-- The search loop of `mapInsert`: overwrite the value of the first node with an equal key. -/
def mapUpdateBin : List Node → Slice → Nat → Option (List Node)
  | [], _, _ => none
  | current :: next, key, value =>
    if sliceEqualSlice current.key key then some ({ current with value := value } :: next)
    else (mapUpdateBin next key value).map (fun l => current :: l)

/-- `mapInsert`.  `size > capacity * loadFactor` is `4 * size > 3 * capacity`. -/
def mapInsert (map : UnorderedMap) (key : Slice) (value : Nat) : UnorderedMap :=
  let hash := hashSlice key
  let binIndex := hash % map.capacity
  match mapUpdateBin (map.bins.getD binIndex []) key value with
  | some bin => { map with bins := map.bins.set binIndex bin }
  | none =>
    let map := { map with bins := mapInsertWithBin map.bins binIndex key value,
                          size := (map.size + 1) % U64 }
    if 4 * map.size > 3 * map.capacity then mapExpand map else map

/-- The search loop of `mapGet`. -/
def mapGetBin : List Node → Slice → Nat
  | [], _ => 0
  | current :: next, key => if sliceEqualSlice current.key key then current.value
                            else mapGetBin next key

/-- `mapGet`: the value of the key, `0` when absent. -/
def mapGet (map : UnorderedMap) (key : Slice) : Nat :=
  mapGetBin (map.bins.getD (hashSlice key % map.capacity) []) key

/-- The search loop of `mapContains`. -/
def mapContainsBin : List Node → Slice → Bool
  | [], _ => false
  | current :: next, key => if sliceEqualSlice current.key key then true
                            else mapContainsBin next key

/-- `mapContains`. -/
def mapContains (map : UnorderedMap) (key : Slice) : Bool :=
  mapContainsBin (map.bins.getD (hashSlice key % map.capacity) []) key

/-! ## `mapcfunction.h`: the function registry -/

/-- `Function`: name, body position, arity and the parameter array. -/
structure Function where
  name : Slice
  pointer : List Nat
  numParams : Nat
  parameters : List Slice
  deriving DecidableEq, Repr

/-- `FunctionNode`. -/
structure FunctionNode where
  key : Slice
  value : Function
  deriving DecidableEq, Repr

/-- `UnorderedFunctionMap`. -/
structure UnorderedFunctionMap where
  size : Nat
  capacity : Nat
  bins : List (List FunctionNode)
  deriving DecidableEq, Repr

/-- `functionMapCreate`. -/
def functionMapCreate : UnorderedFunctionMap := ⟨0, 16, List.replicate 16 []⟩

/-- `functionMapInsertWithBin`. -/
def functionMapInsertWithBin (bins : List (List FunctionNode)) (binIndex : Nat) (key : Slice)
    (value : Function) : List (List FunctionNode) :=
  bins.set binIndex (⟨key, value⟩ :: bins.getD binIndex [])

/-- `functionMapExpand`. -/
def functionMapExpand (map : UnorderedFunctionMap) : UnorderedFunctionMap :=
  let updatedCapacity := (map.capacity * 2) % U64
  let updatedBins := (map.bins.take map.capacity).foldl
    (fun acc bin => bin.foldl
      (fun acc current => functionMapInsertWithBin acc (hashSlice current.key % updatedCapacity)
        current.key current.value) acc)
    (List.replicate updatedCapacity [])
  { map with bins := updatedBins, capacity := updatedCapacity }

/-- The search loop of `functionMapInsert`. -/
def functionMapUpdateBin : List FunctionNode → Slice → Function → Option (List FunctionNode)
  | [], _, _ => none
  | current :: next, key, value =>
    if sliceEqualSlice current.key key then some ({ current with value := value } :: next)
    else (functionMapUpdateBin next key value).map (fun l => current :: l)

/-- `functionMapInsert`. -/
def functionMapInsert (map : UnorderedFunctionMap) (key : Slice) (value : Function) :
    UnorderedFunctionMap :=
  let hash := hashSlice key
  let binIndex := hash % map.capacity
  match functionMapUpdateBin (map.bins.getD binIndex []) key value with
  | some bin => { map with bins := map.bins.set binIndex bin }
  | none =>
    let map := { map with bins := functionMapInsertWithBin map.bins binIndex key value,
                          size := (map.size + 1) % U64 }
    if 4 * map.size > 3 * map.capacity then functionMapExpand map else map

/-- The search loop of `functionMapGet`. -/
def functionMapGetBin : List FunctionNode → Slice → Option Function
  | [], _ => none
  | current :: next, key => if sliceEqualSlice current.key key then some current.value
                            else functionMapGetBin next key

/-- `functionMapGet`: `none` is the `NULL` result. -/
def functionMapGet (map : UnorderedFunctionMap) (key : Slice) : Option Function :=
  functionMapGetBin (map.bins.getD (hashSlice key % map.capacity) []) key

/-! ## `interpreterc.h`: state and scanner -/

/-- `optional(Slice)`. -/
structure OptionalSlice where
  exists_ : Bool
  item : Slice
  deriving DecidableEq, Repr

/-- `optional(uint64_t)`. -/
structure OptionalInt where
  exists_ : Bool
  item : Nat
  deriving DecidableEq, Repr

/-- `Interpreter`.  `output` collects the numbers written by `printf("%lu\n", v)`, one per
line, oldest first. -/
structure Interpreter where
  program : List Nat
  current : List Nat
  functionReturn : OptionalInt
  currentSymbolTable : UnorderedMap
  symbolTable : UnorderedMap
  functionNameMap : UnorderedFunctionMap
  output : List Nat
  deriving DecidableEq, Repr

/-- How a run stops early: `fail` is the interpreter's own abort (`exit(1)` after the
diagnostic), `undefinedBehaviour` a read outside of the program buffer or of a parameter
array, `outOfFuel` the exhaustion of the bound of the embedding. -/
inductive Stop where
  | fail (interpreter : Interpreter)
  | undefinedBehaviour (interpreter : Interpreter)
  | outOfFuel
  deriving DecidableEq, Repr

/-- Outcome of an operation that returns `α` and updates the interpreter. -/
inductive Result (α : Type) where
  | ok (value : α) (interpreter : Interpreter)
  | stop (s : Stop)
  deriving DecidableEq, Repr

/-- Sequencing: a stop of the first operation is the stop of the whole. -/
def Result.bind {α β : Type} (r : Result α) (k : α → Interpreter → Result β) : Result β :=
  match r with
  | .ok v I => k v I
  | .stop s => .stop s

/-- `fail`. -/
def fail {α : Type} (interpreter : Interpreter) : Result α := .stop (.fail interpreter)

/-- The whitespace loop `while (isspace(*current)) current++` on the cursor. -/
def skipBytes : List Nat → List Nat
  | [] => []
  | c :: cs => if isspace c then skipBytes cs else c :: cs

/-- `skip`. -/
def skip (interpreter : Interpreter) : Interpreter :=
  { interpreter with current := skipBytes interpreter.current }

/-- `endOrFail`. -/
def endOrFail (interpreter : Interpreter) : Result Unit :=
  if (skipBytes interpreter.current).headD 0 != 0 then fail (skip interpreter)
  else .ok () (skip interpreter)

/-- The comparison loop of `consume`: `some rest` when every byte of `str` was found, `rest`
being the cursor advanced by the length of `str`; the terminator never equals an expected
byte. -/
def matchBytes : List Nat → List Nat → Option (List Nat)
  | [], current => some current
  | _ :: _, [] => none
  | expected :: str, found :: current =>
    if expected != found then none else matchBytes str current

/-- `consume`: skip whitespace, then match `str`; on a mismatch the cursor stays after the
skipped whitespace. -/
def consume (interpreter : Interpreter) (str : List Nat) : Bool × Interpreter :=
  match matchBytes str (skipBytes interpreter.current) with
  | some rest => (true, { interpreter with current := rest })
  | none => (false, { interpreter with current := skipBytes interpreter.current })

/-- `consumeOrFail`. -/
def consumeOrFail (interpreter : Interpreter) (str : List Nat) : Result Unit :=
  if !(consume interpreter str).1 then fail (consume interpreter str).2
  else .ok () (consume interpreter str).2

/-- The loop `while (isalnum(*current))` of `consumeIdentifier`; returns the number of bytes
passed and the new cursor. -/
def identifierLoop : List Nat → Nat × List Nat
  | [] => (0, [])
  | c :: cs => if isalnum c then ((identifierLoop cs).1 + 1, (identifierLoop cs).2) else (0, c :: cs)

/-- `consumeIdentifier`. -/
def consumeIdentifier (interpreter : Interpreter) : OptionalSlice × Interpreter :=
  match skipBytes interpreter.current with
  | [] => (⟨false, sliceConstructorLen [] 0⟩, { interpreter with current := [] })
  | c :: cs =>
    if isalpha c then
      (⟨true, sliceConstructorLen (c :: cs) ((identifierLoop cs).1 + 1)⟩,
        { interpreter with current := (identifierLoop cs).2 })
    else (⟨false, sliceConstructorLen [] 0⟩, { interpreter with current := c :: cs })

/-- The loop `while (isdigit(*current))` of `consumeLiteral` with the running value `v`. -/
def literalLoop : Nat → List Nat → Nat × List Nat
  | v, [] => (v, [])
  | v, c :: cs => if isdigit c then literalLoop ((10 * v + (c - 48)) % U64) cs else (v, c :: cs)

/-- `consumeLiteral`. -/
def consumeLiteral (interpreter : Interpreter) : OptionalInt × Interpreter :=
  match skipBytes interpreter.current with
  | [] => (⟨false, 0⟩, { interpreter with current := [] })
  | c :: cs =>
    if isdigit c then
      (⟨true, (literalLoop ((10 * 0 + (c - 48)) % U64) cs).1⟩,
        { interpreter with current := (literalLoop ((10 * 0 + (c - 48)) % U64) cs).2 })
    else (⟨false, 0⟩, { interpreter with current := c :: cs })

/-- The loop of `consumePast` with its brace counter.  When neither brace is next the cursor
moves one byte on; doing so at the terminator leaves the buffer. -/
def consumePastLoop : Nat → Nat → Interpreter → Result Unit
  | 0, _, _ => .stop .outOfFuel
  | fuel + 1, count, interpreter =>
    if count > 0 then
      if (consume interpreter (cstr "\x7b")).1 then
        consumePastLoop fuel (count + 1) (consume interpreter (cstr "\x7b")).2
      else if (consume (consume interpreter (cstr "\x7b")).2 (cstr "\x7d")).1 then
        if count - 1 == 0 then
          .ok () (consume (consume interpreter (cstr "\x7b")).2 (cstr "\x7d")).2
        else
          consumePastLoop fuel (count - 1)
            (consume (consume interpreter (cstr "\x7b")).2 (cstr "\x7d")).2
      else
        match (consume (consume interpreter (cstr "\x7b")).2 (cstr "\x7d")).2.current with
        | [] =>
          .stop (.undefinedBehaviour (consume (consume interpreter (cstr "\x7b")).2 (cstr "\x7d")).2)
        | _ :: cs =>
          consumePastLoop fuel count
            { (consume (consume interpreter (cstr "\x7b")).2 (cstr "\x7d")).2 with current := cs }
    else .ok () interpreter

/-- `consumePast`: skip to just after the brace closing the block that is already open. -/
def consumePast (fuel : Nat) (interpreter : Interpreter) : Result Unit :=
  consumePastLoop fuel 1 interpreter

/-- The comment loop of `statement`: `while (current[0] != '\n') current++`; `none` when the
loop passes the terminator. -/
def commentLoop : List Nat → Option (List Nat)
  | [] => none
  | c :: cs => if c != 10 then commentLoop cs else some (c :: cs)

/-- The first parameter loop of the `fun` statement: count the parameter names. -/
def countParameters : Nat → Nat → Interpreter → Result Nat
  | 0, _, _ => .stop .outOfFuel
  | fuel + 1, numParams, interpreter =>
    if (consume interpreter (cstr ")")).1 then .ok numParams (consume interpreter (cstr ")")).2
    else
      if (consumeIdentifier (consume interpreter (cstr ")")).2).1.exists_ then
        countParameters fuel ((numParams + 1) % U64)
          (consume (consumeIdentifier (consume interpreter (cstr ")")).2).2 (cstr ",")).2
      else fail (consumeIdentifier (consume interpreter (cstr ")")).2).2

/-- The second parameter loop of the `fun` statement: store the names; a store at an index
outside of the allocated array is undefined. -/
def readParameters : Nat → Nat → List Slice → Interpreter → Result (List Slice)
  | 0, _, _, _ => .stop .outOfFuel
  | fuel + 1, numParams, parameters, interpreter =>
    if (consume interpreter (cstr ")")).1 then .ok parameters (consume interpreter (cstr ")")).2
    else
      if parameters.length < numParams then
        readParameters fuel numParams
          (parameters ++ [(consumeIdentifier (consume interpreter (cstr ")")).2).1.item])
          (consume (consumeIdentifier (consume interpreter (cstr ")")).2).2 (cstr ",")).2
      else .stop (.undefinedBehaviour (consumeIdentifier (consume interpreter (cstr ")")).2).2)

/-! ## `interpreterc.h`: expressions, statements, calls

Every function takes the fuel first and then the arguments of the C function in their
order.  A `while (true)` loop of the source is the function named `…Loop` next to it.  A
scanner call `consume(interpreter, s)` returns the pair of its result and the interpreter
it leaves; `c.1` is the result and `c.2` the interpreter that the following code works on. -/

mutual

/-- `e1`: identifier (call or variable), literal, or parenthesised expression. -/
def e1 : Nat → Interpreter → Bool → Bool → Result Nat
  | 0, _, _, _ => .stop .outOfFuel
  | fuel + 1, interpreter, effects, insideFunction =>
    let id := consumeIdentifier interpreter
    if id.1.exists_ then
      let c := consume id.2 (cstr "(")
      if c.1 then
        match functionMapGet c.2.functionNameMap id.1.item with
        | some function => functionCall fuel c.2 effects function
        | none => fail c.2
      else if insideFunction && mapContains c.2.currentSymbolTable id.1.item then
        .ok (mapGet c.2.currentSymbolTable id.1.item) c.2
      else
        .ok (mapGet c.2.symbolTable id.1.item) c.2
    else
      let val := consumeLiteral id.2
      if val.1.exists_ then .ok val.1.item val.2
      else
        let c := consume val.2 (cstr "(")
        if c.1 then
          (expression fuel c.2 effects insideFunction).bind fun v interpreter =>
            .ok v (consume interpreter (cstr ")")).2
        else fail c.2
  termination_by structural fuel => fuel

/-- `e2`: logical not. -/
def e2 : Nat → Interpreter → Bool → Bool → Result Nat
  | 0, _, _, _ => .stop .outOfFuel
  | fuel + 1, interpreter, effects, insideFunction =>
    e2Loop fuel interpreter effects insideFunction false false
  termination_by structural fuel => fuel

/-- The loop of `e2` with its locals `neg` and `encounteredNeg`. -/
def e2Loop : Nat → Interpreter → Bool → Bool → Bool → Bool → Result Nat
  | 0, _, _, _, _, _ => .stop .outOfFuel
  | fuel + 1, interpreter, effects, insideFunction, neg, encounteredNeg =>
    let c := consume interpreter (cstr "!")
    if c.1 then e2Loop fuel c.2 effects insideFunction (!neg) true
    else
      (e1 fuel c.2 effects insideFunction).bind fun v interpreter =>
        .ok (if encounteredNeg && (if neg then (if v > 0 then 0 else 1) else v) > 1 then 1
             else (if neg then (if v > 0 then 0 else 1) else v)) interpreter
  termination_by structural fuel => fuel

/-- `e3`: `* / %`. -/
def e3 : Nat → Interpreter → Bool → Bool → Result Nat
  | 0, _, _, _ => .stop .outOfFuel
  | fuel + 1, interpreter, effects, insideFunction =>
    (e2 fuel interpreter effects insideFunction).bind fun v interpreter =>
      e3Loop fuel interpreter effects insideFunction v
  termination_by structural fuel => fuel

/-- The loop of `e3` with the running value `v`. -/
def e3Loop : Nat → Interpreter → Bool → Bool → Nat → Result Nat
  | 0, _, _, _, _ => .stop .outOfFuel
  | fuel + 1, interpreter, effects, insideFunction, v =>
    let c1 := consume interpreter (cstr "*")
    if c1.1 then
      (e2 fuel c1.2 effects insideFunction).bind fun right interpreter =>
        e3Loop fuel interpreter effects insideFunction ((v * right) % U64)
    else
      let c2 := consume c1.2 (cstr "/")
      if c2.1 then
        (e2 fuel c2.2 effects insideFunction).bind fun right interpreter =>
          e3Loop fuel interpreter effects insideFunction (if right == 0 then 0 else v / right)
      else
        let c3 := consume c2.2 (cstr "%")
        if c3.1 then
          (e2 fuel c3.2 effects insideFunction).bind fun right interpreter =>
            e3Loop fuel interpreter effects insideFunction (if right == 0 then 0 else v % right)
        else .ok v c3.2
  termination_by structural fuel => fuel

/-- `e4`: `+ -`. -/
def e4 : Nat → Interpreter → Bool → Bool → Result Nat
  | 0, _, _, _ => .stop .outOfFuel
  | fuel + 1, interpreter, effects, insideFunction =>
    (e3 fuel interpreter effects insideFunction).bind fun v interpreter =>
      e4Loop fuel interpreter effects insideFunction v
  termination_by structural fuel => fuel

/-- The loop of `e4`; `v - right` on `uint64_t` is `v + (2 ^ 64 - right)` modulo `2 ^ 64`. -/
def e4Loop : Nat → Interpreter → Bool → Bool → Nat → Result Nat
  | 0, _, _, _, _ => .stop .outOfFuel
  | fuel + 1, interpreter, effects, insideFunction, v =>
    let c1 := consume interpreter (cstr "+")
    if c1.1 then
      (e3 fuel c1.2 effects insideFunction).bind fun right interpreter =>
        e4Loop fuel interpreter effects insideFunction ((v + right) % U64)
    else
      let c2 := consume c1.2 (cstr "-")
      if c2.1 then
        (e3 fuel c2.2 effects insideFunction).bind fun right interpreter =>
          e4Loop fuel interpreter effects insideFunction ((v + (U64 - right % U64)) % U64)
      else .ok v c2.2
  termination_by structural fuel => fuel

/-- `e5`: pass-through (shifts are not implemented). -/
def e5 : Nat → Interpreter → Bool → Bool → Result Nat
  | 0, _, _, _ => .stop .outOfFuel
  | fuel + 1, interpreter, effects, insideFunction => e4 fuel interpreter effects insideFunction
  termination_by structural fuel => fuel

/-- `e6`: `< <= > >=`. -/
def e6 : Nat → Interpreter → Bool → Bool → Result Nat
  | 0, _, _, _ => .stop .outOfFuel
  | fuel + 1, interpreter, effects, insideFunction =>
    (e5 fuel interpreter effects insideFunction).bind fun v interpreter =>
      e6Loop fuel interpreter effects insideFunction v
  termination_by structural fuel => fuel

/-- The loop of `e6`. -/
def e6Loop : Nat → Interpreter → Bool → Bool → Nat → Result Nat
  | 0, _, _, _, _ => .stop .outOfFuel
  | fuel + 1, interpreter, effects, insideFunction, v =>
    let c1 := consume interpreter (cstr "<=")
    if c1.1 then
      (e5 fuel c1.2 effects insideFunction).bind fun u interpreter =>
        e6Loop fuel interpreter effects insideFunction (if v ≤ u then 1 else 0)
    else
      let c2 := consume c1.2 (cstr ">=")
      if c2.1 then
        (e5 fuel c2.2 effects insideFunction).bind fun u interpreter =>
          e6Loop fuel interpreter effects insideFunction (if v ≥ u then 1 else 0)
      else
        let c3 := consume c2.2 (cstr "<")
        if c3.1 then
          (e5 fuel c3.2 effects insideFunction).bind fun u interpreter =>
            e6Loop fuel interpreter effects insideFunction (if v < u then 1 else 0)
        else
          let c4 := consume c3.2 (cstr ">")
          if c4.1 then
            (e5 fuel c4.2 effects insideFunction).bind fun u interpreter =>
              e6Loop fuel interpreter effects insideFunction (if v > u then 1 else 0)
          else .ok v c4.2
  termination_by structural fuel => fuel

/-- `e7`: `== !=`. -/
def e7 : Nat → Interpreter → Bool → Bool → Result Nat
  | 0, _, _, _ => .stop .outOfFuel
  | fuel + 1, interpreter, effects, insideFunction =>
    (e6 fuel interpreter effects insideFunction).bind fun v interpreter =>
      e7Loop fuel interpreter effects insideFunction v
  termination_by structural fuel => fuel

/-- The loop of `e7`. -/
def e7Loop : Nat → Interpreter → Bool → Bool → Nat → Result Nat
  | 0, _, _, _, _ => .stop .outOfFuel
  | fuel + 1, interpreter, effects, insideFunction, v =>
    let c1 := consume interpreter (cstr "==")
    if c1.1 then
      (e6 fuel c1.2 effects insideFunction).bind fun u interpreter =>
        e7Loop fuel interpreter effects insideFunction (if v == u then 1 else 0)
    else
      let c2 := consume c1.2 (cstr "!=")
      if c2.1 then
        (e6 fuel c2.2 effects insideFunction).bind fun u interpreter =>
          e7Loop fuel interpreter effects insideFunction (if v != u then 1 else 0)
      else .ok v c2.2
  termination_by structural fuel => fuel

/-- `e8`: pass-through. -/
def e8 : Nat → Interpreter → Bool → Bool → Result Nat
  | 0, _, _, _ => .stop .outOfFuel
  | fuel + 1, interpreter, effects, insideFunction => e7 fuel interpreter effects insideFunction
  termination_by structural fuel => fuel

/-- `e9`: pass-through. -/
def e9 : Nat → Interpreter → Bool → Bool → Result Nat
  | 0, _, _, _ => .stop .outOfFuel
  | fuel + 1, interpreter, effects, insideFunction => e8 fuel interpreter effects insideFunction
  termination_by structural fuel => fuel

/-- `e10`: pass-through. -/
def e10 : Nat → Interpreter → Bool → Bool → Result Nat
  | 0, _, _, _ => .stop .outOfFuel
  | fuel + 1, interpreter, effects, insideFunction => e9 fuel interpreter effects insideFunction
  termination_by structural fuel => fuel

/-- `e11`: `&&`. -/
def e11 : Nat → Interpreter → Bool → Bool → Result Nat
  | 0, _, _, _ => .stop .outOfFuel
  | fuel + 1, interpreter, effects, insideFunction =>
    (e10 fuel interpreter effects insideFunction).bind fun v interpreter =>
      e11Loop fuel interpreter effects insideFunction v
  termination_by structural fuel => fuel

/-- The loop of `e11`: `v = e10(...) && v`. -/
def e11Loop : Nat → Interpreter → Bool → Bool → Nat → Result Nat
  | 0, _, _, _, _ => .stop .outOfFuel
  | fuel + 1, interpreter, effects, insideFunction, v =>
    let c := consume interpreter (cstr "&&")
    if c.1 then
      (e10 fuel c.2 effects insideFunction).bind fun u interpreter =>
        e11Loop fuel interpreter effects insideFunction (if u != 0 && v != 0 then 1 else 0)
    else .ok v c.2
  termination_by structural fuel => fuel

/-- `e12`: `||`. -/
def e12 : Nat → Interpreter → Bool → Bool → Result Nat
  | 0, _, _, _ => .stop .outOfFuel
  | fuel + 1, interpreter, effects, insideFunction =>
    (e11 fuel interpreter effects insideFunction).bind fun v interpreter =>
      e12Loop fuel interpreter effects insideFunction v
  termination_by structural fuel => fuel

/-- The loop of `e12`: `v = e11(...) || v`. -/
def e12Loop : Nat → Interpreter → Bool → Bool → Nat → Result Nat
  | 0, _, _, _, _ => .stop .outOfFuel
  | fuel + 1, interpreter, effects, insideFunction, v =>
    let c := consume interpreter (cstr "||")
    if c.1 then
      (e11 fuel c.2 effects insideFunction).bind fun u interpreter =>
        e12Loop fuel interpreter effects insideFunction (if u != 0 || v != 0 then 1 else 0)
    else .ok v c.2
  termination_by structural fuel => fuel

/-- `e13`: pass-through. -/
def e13 : Nat → Interpreter → Bool → Bool → Result Nat
  | 0, _, _, _ => .stop .outOfFuel
  | fuel + 1, interpreter, effects, insideFunction => e12 fuel interpreter effects insideFunction
  termination_by structural fuel => fuel

/-- `e14`: pass-through. -/
def e14 : Nat → Interpreter → Bool → Bool → Result Nat
  | 0, _, _, _ => .stop .outOfFuel
  | fuel + 1, interpreter, effects, insideFunction => e13 fuel interpreter effects insideFunction
  termination_by structural fuel => fuel

/-- `e15`: pass-through. -/
def e15 : Nat → Interpreter → Bool → Bool → Result Nat
  | 0, _, _, _ => .stop .outOfFuel
  | fuel + 1, interpreter, effects, insideFunction => e14 fuel interpreter effects insideFunction
  termination_by structural fuel => fuel

/-- `expression`. -/
def expression : Nat → Interpreter → Bool → Bool → Result Nat
  | 0, _, _, _ => .stop .outOfFuel
  | fuel + 1, interpreter, effects, insideFunction => e15 fuel interpreter effects insideFunction
  termination_by structural fuel => fuel

/-- `checkReturn`: a return is pending, or a `return` statement starts here. -/
def checkReturn : Nat → Interpreter → Bool → Bool → Result Bool
  | 0, _, _, _ => .stop .outOfFuel
  | fuel + 1, interpreter, effects, insideFunction =>
    if insideFunction && interpreter.functionReturn.exists_ then .ok true interpreter
    else
      let s := consumeIdentifier interpreter
      if insideFunction && s.1.exists_ && sliceEqualString s.1.item (cstr "return") then
        (expression fuel s.2 effects insideFunction).bind fun v interpreter =>
          .ok true { interpreter with functionReturn := ⟨true, v⟩ }
      else
        .ok false { s.2 with current := interpreter.current }
  termination_by structural fuel => fuel

/-- The block loop `while (!consume("}")) { if (checkReturn) { consumePast; return true; }
if (!statement) fail; }` that `statement` (both branches of `if`) and `whileStatement` run
on the body of a block.  The result is `true` when a return stopped the block. -/
def blockLoop : Nat → Interpreter → Bool → Bool → Result Bool
  | 0, _, _, _ => .stop .outOfFuel
  | fuel + 1, interpreter, effects, insideFunction =>
    let c := consume interpreter (cstr "\x7d")
    if c.1 then .ok false c.2
    else
      (checkReturn fuel c.2 effects insideFunction).bind fun r interpreter =>
        if r then
          (consumePast fuel interpreter).bind fun _ interpreter => .ok true interpreter
        else
          (statement fuel interpreter effects insideFunction).bind fun s interpreter =>
            if !s then fail interpreter
            else blockLoop fuel interpreter effects insideFunction
  termination_by structural fuel => fuel

/-- `whileStatement`. -/
def whileStatement : Nat → Interpreter → Bool → Bool → Result Bool
  | 0, _, _, _ => .stop .outOfFuel
  | fuel + 1, interpreter, effects, insideFunction =>
    whileStatementLoop fuel interpreter effects insideFunction interpreter.current
  termination_by structural fuel => fuel

/-- The outer loop of `whileStatement`; `currentPointer` is the position of the condition. -/
def whileStatementLoop : Nat → Interpreter → Bool → Bool → List Nat → Result Bool
  | 0, _, _, _, _ => .stop .outOfFuel
  | fuel + 1, interpreter, effects, insideFunction, currentPointer =>
    (consumeOrFail interpreter (cstr "(")).bind fun _ interpreter =>
    (expression fuel interpreter effects insideFunction).bind fun v interpreter =>
    (consumeOrFail interpreter (cstr ")")).bind fun _ interpreter =>
      if v == 0 then
        (consumeOrFail interpreter (cstr "\x7b")).bind fun _ interpreter =>
        (consumePast fuel interpreter).bind fun _ interpreter =>
          .ok false interpreter
      else
        (consumeOrFail interpreter (cstr "\x7b")).bind fun _ interpreter =>
        (blockLoop fuel interpreter effects insideFunction).bind fun returned interpreter =>
          if returned then .ok true interpreter
          else
            whileStatementLoop fuel { interpreter with current := currentPointer }
              effects insideFunction currentPointer
  termination_by structural fuel => fuel

/-- `performFunction`: run the body of `function` and drain the pending return. -/
def performFunction : Nat → Interpreter → Bool → Function → Result Nat
  | 0, _, _, _ => .stop .outOfFuel
  | fuel + 1, interpreter, effects, function =>
    (consumeOrFail { interpreter with current := function.pointer } (cstr "\x7b")).bind
      fun _ interpreter1 =>
    (performFunctionLoop fuel interpreter1 effects).bind fun v interpreter2 =>
      if interpreter2.functionReturn.exists_ then
        .ok interpreter2.functionReturn.item
          { interpreter2 with functionReturn := ⟨false, 0⟩, current := interpreter.current }
      else
        .ok v { interpreter2 with current := interpreter.current }
  termination_by structural fuel => fuel

/-- The body loop of `performFunction`; its value is the local `v` at the loop exit. -/
def performFunctionLoop : Nat → Interpreter → Bool → Result Nat
  | 0, _, _ => .stop .outOfFuel
  | fuel + 1, interpreter, effects =>
    let c := consume interpreter (cstr "\x7d")
    if c.1 then .ok 0 c.2
    else if c.2.functionReturn.exists_ then
      .ok c.2.functionReturn.item { c.2 with functionReturn := ⟨false, 0⟩ }
    else
      (checkReturn fuel c.2 effects true).bind fun r interpreter =>
        if r then
          .ok interpreter.functionReturn.item { interpreter with functionReturn := ⟨false, 0⟩ }
        else
          (statement fuel interpreter effects true).bind fun s interpreter =>
            if !s then fail interpreter
            else performFunctionLoop fuel interpreter effects
  termination_by structural fuel => fuel

/-- `functionCall`: evaluate the arguments into a fresh table, then run `print` or the body. -/
def functionCall : Nat → Interpreter → Bool → Function → Result Nat
  | 0, _, _, _ => .stop .outOfFuel
  | fuel + 1, interpreter, effects, function =>
    (functionCallLoop fuel (consume interpreter (cstr "(")).2 effects function mapCreate 0).bind
      fun (r : UnorderedMap × Nat) interpreter1 =>
      if r.2 != function.numParams then fail interpreter1
      else if sliceEqualString function.name (cstr "print") then
        match function.parameters.get? 0 with
        | none => .stop (.undefinedBehaviour { interpreter1 with currentSymbolTable := r.1 })
        | some parameter =>
          .ok 0 { interpreter1 with
            currentSymbolTable := interpreter.currentSymbolTable
            output := if effects then interpreter1.output ++ [mapGet r.1 parameter]
                      else interpreter1.output }
      else
        (performFunction fuel { interpreter1 with currentSymbolTable := r.1 } effects function).bind
          fun v interpreter2 =>
            .ok v { interpreter2 with currentSymbolTable := interpreter.currentSymbolTable }
  termination_by structural fuel => fuel

/-- The argument loop of `functionCall`: the new table and `parameterCount` are its locals.
Reading `function -> parameters[parameterCount]` past the array is undefined. -/
def functionCallLoop : Nat → Interpreter → Bool → Function → UnorderedMap → Nat →
    Result (UnorderedMap × Nat)
  | 0, _, _, _, _, _ => .stop .outOfFuel
  | fuel + 1, interpreter, effects, function, currentSymbolTable, parameterCount =>
    let c := consume interpreter (cstr ")")
    if c.1 then .ok (currentSymbolTable, parameterCount) c.2
    else
      (expression fuel c.2 effects true).bind fun value interpreter =>
        match function.parameters.get? parameterCount with
        | none => .stop (.undefinedBehaviour interpreter)
        | some parameter =>
          functionCallLoop fuel (consume interpreter (cstr ",")).2 effects function
            (mapInsert currentSymbolTable parameter value) ((parameterCount + 1) % U64)
  termination_by structural fuel => fuel

/-- The `if` statement after its keyword. -/
def ifStatement : Nat → Interpreter → Bool → Bool → Result Bool
  | 0, _, _, _ => .stop .outOfFuel
  | fuel + 1, interpreter, effects, insideFunction =>
    (consumeOrFail interpreter (cstr "(")).bind fun _ interpreter =>
    (expression fuel interpreter effects insideFunction).bind fun v interpreter =>
    (consumeOrFail interpreter (cstr ")")).bind fun _ interpreter =>
      if v == 0 then
        (consumeOrFail interpreter (cstr "\x7b")).bind fun _ interpreter =>
        (consumePast fuel interpreter).bind fun _ interpreter =>
          let checkElse := consumeIdentifier interpreter
          if sliceEqualString checkElse.1.item (cstr "else") then
            (consumeOrFail checkElse.2 (cstr "\x7b")).bind fun _ interpreter =>
            (blockLoop fuel interpreter effects insideFunction).bind fun _ interpreter =>
              .ok true interpreter
          else .ok true { checkElse.2 with current := interpreter.current }
      else
        (consumeOrFail interpreter (cstr "\x7b")).bind fun _ interpreter =>
        (blockLoop fuel interpreter effects insideFunction).bind fun returned interpreter =>
          if returned then .ok true interpreter
          else
            let checkElse := consumeIdentifier interpreter
            if sliceEqualString checkElse.1.item (cstr "else") then
              (consumeOrFail checkElse.2 (cstr "\x7b")).bind fun _ interpreter =>
              (consumePast fuel interpreter).bind fun _ interpreter =>
                .ok true interpreter
            else .ok true { checkElse.2 with current := interpreter.current }
  termination_by structural fuel => fuel

/-- `statement`: `true` when a statement was executed, `false` when none starts here. -/
def statement : Nat → Interpreter → Bool → Bool → Result Bool
  | 0, _, _, _ => .stop .outOfFuel
  | fuel + 1, interpreter, effects, insideFunction =>
    let c := consume interpreter (cstr "#")
    if c.1 then
      match commentLoop c.2.current with
      | none => .stop (.undefinedBehaviour c.2)
      | some rest => .ok true { c.2 with current := rest }
    else
    (checkReturn fuel c.2 effects insideFunction).bind fun r interpreter =>
    if r then .ok true interpreter
    else
    let id := consumeIdentifier interpreter
    if !id.1.exists_ then .ok false id.2
    else if sliceEqualString id.1.item (cstr "if") then
      ifStatement fuel id.2 effects insideFunction
    else if sliceEqualString id.1.item (cstr "while") then
      (whileStatement fuel id.2 effects insideFunction).bind fun _ interpreter =>
        .ok true interpreter
    else if sliceEqualString id.1.item (cstr "else") then fail id.2
    else if sliceEqualString id.1.item (cstr "fun") then
      if insideFunction then fail id.2
      else
        let functionName := consumeIdentifier id.2
        if !functionName.1.exists_ then fail functionName.2
        else
          let beforePointer := (consume functionName.2 (cstr "(")).2
          (countParameters fuel 0 beforePointer).bind fun numParams interpreter =>
          (readParameters fuel numParams []
            { interpreter with current := beforePointer.current }).bind
            fun parameters interpreter =>
          (consumeOrFail
            { interpreter with
              functionNameMap :=
                functionMapInsert interpreter.functionNameMap functionName.1.item
                  ⟨functionName.1.item, interpreter.current, numParams, parameters⟩ }
            (cstr "\x7b")).bind fun _ interpreter =>
          (consumePast fuel interpreter).bind fun _ interpreter =>
            .ok true interpreter
    else if sliceEqualString id.1.item (cstr "if") || sliceEqualString id.1.item (cstr "else")
        || sliceEqualString id.1.item (cstr "while") || sliceEqualString id.1.item (cstr "return")
        || sliceEqualString id.1.item (cstr "fun") then
      fail id.2
    else
      let c := consume id.2 (cstr "=")
      if c.1 then
        (expression fuel c.2 effects insideFunction).bind fun v interpreter =>
          if effects then
            if !insideFunction then
              .ok true { interpreter with
                symbolTable := mapInsert interpreter.symbolTable id.1.item v }
            else if mapContains interpreter.currentSymbolTable id.1.item then
              .ok true { interpreter with
                currentSymbolTable := mapInsert interpreter.currentSymbolTable id.1.item v }
            else if mapContains interpreter.symbolTable id.1.item then
              .ok true { interpreter with
                symbolTable := mapInsert interpreter.symbolTable id.1.item v }
            else
              .ok true { interpreter with
                currentSymbolTable := mapInsert interpreter.currentSymbolTable id.1.item v }
          else .ok true interpreter
      else
        match functionMapGet c.2.functionNameMap id.1.item with
        | some function =>
          (functionCall fuel c.2 effects function).bind fun _ interpreter =>
            .ok true interpreter
        | none => fail c.2
  termination_by structural fuel => fuel

end

/-- `statements`: `while (statement(interpreter, effects, false));`. -/
def statements : Nat → Interpreter → Bool → Result Unit
  | 0, _, _ => .stop .outOfFuel
  | fuel + 1, interpreter, effects =>
    (statement fuel interpreter effects false).bind fun b interpreter =>
      if b then statements fuel interpreter effects else .ok () interpreter

/-- `run`. -/
def run (fuel : Nat) (interpreter : Interpreter) : Result Unit :=
  (statements fuel interpreter true).bind fun _ interpreter => endOrFail interpreter

/-- `createPrintFunction`; the `pointer` field is left unset by the source and never read. -/
def createPrintFunction : Function :=
  ⟨sliceConstructorLen (cstr "print") 5, [], 1, [sliceConstructorLen (cstr ".") 1]⟩

/-- `interpreterConstructor` on the program text `prog`. -/
def interpreterConstructor (prog : List Nat) : Interpreter :=
  { program := prog
    current := prog
    functionReturn := ⟨false, 0⟩
    currentSymbolTable := mapCreate
    symbolTable := mapCreate
    functionNameMap :=
      functionMapInsert functionMapCreate (sliceConstructorLen (cstr "print") 5)
        createPrintFunction
    output := [] }

/-- The lines printed by a completed run of the program text `prog`; `none` when the run
stops early. -/
def runOutput (fuel : Nat) (prog : List Nat) : Option (List Nat) :=
  match run fuel (interpreterConstructor prog) with
  | .ok _ interpreter => some interpreter.output
  | .stop _ => none


/-! ## Vocabulary of the specification -/

/-- The interpreter `I` with its cursor moved to `c`. -/
def Interpreter.moveTo (I : Interpreter) (c : List Nat) : Interpreter := { I with current := c }

/-- With enough fuel the fuel-indexed computation `f` yields `r`. -/
def Returns {α : Type} (f : Nat → Result α) (r : Result α) : Prop :=
  ∃ n, ∀ fuel, n ≤ fuel → f fuel = r

/-- The binary operators of the expression language. -/
inductive BinOp where
  | mul | div | mod | add | sub | le | ge | lt | gt | eq | ne | and | or
  deriving DecidableEq, Repr

/-- The text of an operator. -/
def BinOp.text : BinOp → List Nat
  | .mul => cstr "*" | .div => cstr "/" | .mod => cstr "%"
  | .add => cstr "+" | .sub => cstr "-"
  | .le => cstr "<=" | .ge => cstr ">=" | .lt => cstr "<" | .gt => cstr ">"
  | .eq => cstr "==" | .ne => cstr "!="
  | .and => cstr "&&" | .or => cstr "||"

/-- The precedence level of an operator (smaller binds tighter), numbered as the functions
`e3`, `e4`, `e6`, `e7`, `e11`, `e12` that implement it. -/
def BinOp.level : BinOp → Nat
  | .mul => 3 | .div => 3 | .mod => 3
  | .add => 4 | .sub => 4
  | .le => 6 | .ge => 6 | .lt => 6 | .gt => 6
  | .eq => 7 | .ne => 7
  | .and => 11
  | .or => 12

/-- Reference semantics of an operator on unsigned 64-bit values: arithmetic modulo `2 ^ 64`,
division and remainder by zero are `0`, comparisons and connectives yield `0` or `1`. -/
def BinOp.apply : BinOp → Nat → Nat → Nat
  | .mul, a, b => (a * b) % 2 ^ 64
  | .div, a, b => if b = 0 then 0 else a / b
  | .mod, a, b => if b = 0 then 0 else a % b
  | .add, a, b => (a + b) % 2 ^ 64
  | .sub, a, b => (((a : Int) - (b : Int)) % 2 ^ 64).toNat
  | .le, a, b => if a ≤ b then 1 else 0
  | .ge, a, b => if a ≥ b then 1 else 0
  | .lt, a, b => if a < b then 1 else 0
  | .gt, a, b => if a > b then 1 else 0
  | .eq, a, b => if a = b then 1 else 0
  | .ne, a, b => if a ≠ b then 1 else 0
  | .and, a, b => if a ≠ 0 ∧ b ≠ 0 then 1 else 0
  | .or, a, b => if a ≠ 0 ∨ b ≠ 0 then 1 else 0

/-- Concrete syntax of a call-free expression.  Every token carries the whitespace written
in front of it: `lit ws ds` is the digits `ds` after `ws`, `var ws name` the identifier
`name` after `ws`, `paren ws e ws2` is `ws ( e ws2 )`, `not ws e` is `ws ! e` and
`bin op l ws r` is `l ws op r`. -/
inductive Expr where
  | lit (ws : List Nat) (ds : List Nat)
  | var (ws : List Nat) (name : List Nat)
  | paren (ws : List Nat) (e : Expr) (ws2 : List Nat)
  | not (ws : List Nat) (e : Expr)
  | bin (op : BinOp) (l : Expr) (ws : List Nat) (r : Expr)
  deriving DecidableEq, Repr

/-- The program text of an expression. -/
def Expr.render : Expr → List Nat
  | .lit ws ds => ws ++ ds
  | .var ws name => ws ++ name
  | .paren ws e ws2 => ws ++ cstr "(" ++ e.render ++ ws2 ++ cstr ")"
  | .not ws e => ws ++ cstr "!" ++ e.render
  | .bin op l ws r => l.render ++ ws ++ op.text ++ r.render

/-- The precedence level of the outermost construct. -/
def Expr.level : Expr → Nat
  | .lit _ _ => 1
  | .var _ _ => 1
  | .paren _ _ _ => 1
  | .not _ _ => 2
  | .bin op _ _ _ => op.level

/-- The bytes are an identifier: a letter followed by letters and digits. -/
def isIdentifierText : List Nat → Bool
  | [] => false
  | c :: cs => isalpha c && cs.all isalnum

/-- The text is an expression of the grammar: whitespace is whitespace, a literal is a
non-empty digit string, a variable is an identifier, the operand of `!` is a primary or
another `!`, and the operands of a binary operator respect precedence with left
associativity (the left operand may be of the same level, the right operand must bind
tighter). -/
def Expr.wellFormed : Expr → Bool
  | .lit ws ds => ws.all isspace && ds.all isdigit && !ds.isEmpty
  | .var ws name => ws.all isspace && isIdentifierText name
  | .paren ws e ws2 => ws.all isspace && ws2.all isspace && e.wellFormed
  | .not ws e => ws.all isspace && e.wellFormed && decide (e.level ≤ 2)
  | .bin op l ws r => ws.all isspace && l.wellFormed && r.wellFormed
      && decide (l.level ≤ op.level) && decide (r.level < op.level)

/-- The number written by a digit string. -/
def decimalValue (ds : List Nat) : Nat := ds.foldl (fun v c => 10 * v + (c - 48)) 0

/-- The reference evaluator, with `env` giving the values of the variables. -/
def Expr.valueIn (env : List Nat → Nat) : Expr → Nat
  | .lit _ ds => decimalValue ds % 2 ^ 64
  | .var _ name => env name
  | .paren _ e _ => e.valueIn env
  | .not _ e => if e.valueIn env = 0 then 1 else 0
  | .bin op l _ r => op.apply (l.valueIn env) (r.valueIn env)

/-- The expression contains no variable. -/
def Expr.variableFree : Expr → Bool
  | .lit _ _ => true
  | .var _ _ => false
  | .paren _ e _ => e.variableFree
  | .not _ e => e.variableFree
  | .bin _ l _ r => l.variableFree && r.variableFree

/-- The reference evaluator on a variable-free expression. -/
def Expr.value (e : Expr) : Nat := e.valueIn (fun _ => 0)

/-- The slice of the bytes `name`. -/
def nameSlice (name : List Nat) : Slice := sliceConstructorLen name name.length

/-- The value that `e1` reads for the variable `name`: the local table first when inside a
function, else the global table; `0` when the name is bound in neither. -/
def variableValue (I : Interpreter) (insideFunction : Bool) (name : List Nat) : Nat :=
  if insideFunction && mapContains I.currentSymbolTable (nameSlice name) then
    mapGet I.currentSymbolTable (nameSlice name)
  else mapGet I.symbolTable (nameSlice name)

/-- Nothing that follows at `rest` continues an expression: no letter or digit directly,
and after optional whitespace no binary operator and no opening parenthesis. -/
def EndsExpression (rest : List Nat) : Prop :=
  isalnum (rest.headD 0) = false ∧ matchBytes [40] (skipBytes rest) = none ∧
    ∀ op : BinOp, matchBytes op.text (skipBytes rest) = none

/-- The arithmetic that the loops `e3Loop` … `e12Loop` perform for an operator. -/
def BinOp.code : BinOp → Nat → Nat → Nat
  | .mul, v, u => (v * u) % U64
  | .div, v, u => if u == 0 then 0 else v / u
  | .mod, v, u => if u == 0 then 0 else v % u
  | .add, v, u => (v + u) % U64
  | .sub, v, u => (v + (U64 - u % U64)) % U64
  | .le, v, u => if v ≤ u then 1 else 0
  | .ge, v, u => if v ≥ u then 1 else 0
  | .lt, v, u => if v < u then 1 else 0
  | .gt, v, u => if v > u then 1 else 0
  | .eq, v, u => if v == u then 1 else 0
  | .ne, v, u => if v != u then 1 else 0
  | .and, v, u => if u != 0 && v != 0 then 1 else 0
  | .or, v, u => if u != 0 || v != 0 then 1 else 0

/-- The operators that the loop of level `k` tries, in the order of the source. -/
def opsAt : Nat → List BinOp
  | 3 => [.mul, .div, .mod]
  | 4 => [.add, .sub]
  | 6 => [.le, .ge, .lt, .gt]
  | 7 => [.eq, .ne]
  | 11 => [.and]
  | 12 => [.or]
  | _ => []

/-- The function of precedence level `k`: `e1` … `e15`, and `expression` above them. -/
def levelFn (k : Nat) : Nat → Interpreter → Bool → Bool → Result Nat :=
  match k with
  | 1 => e1 | 2 => e2 | 3 => e3 | 4 => e4 | 5 => e5 | 6 => e6 | 7 => e7 | 8 => e8
  | 9 => e9 | 10 => e10 | 11 => e11 | 12 => e12 | 13 => e13 | 14 => e14 | 15 => e15
  | _ => expression

/-- The loop of precedence level `k`. -/
def levelLoop (k : Nat) : Nat → Interpreter → Bool → Bool → Nat → Result Nat :=
  match k with
  | 3 => e3Loop | 4 => e4Loop | 6 => e6Loop | 7 => e7Loop | 11 => e11Loop
  | _ => e12Loop

/-- One turn of an operator loop that tries `ops` in order on top of the parser `sub`. -/
def loopBody (ops : List BinOp) (sub : Nat → Interpreter → Result Nat)
    (loop : Nat → Interpreter → Nat → Result Nat) (fuel : Nat) (I : Interpreter) (v : Nat) :
    Result Nat :=
  match ops with
  | [] => .ok v I
  | op :: ops =>
    if (consume I op.text).1 then
      (sub fuel (consume I op.text).2).bind fun u I2 => loop fuel I2 (op.code v u)
    else loopBody ops sub loop fuel (consume I op.text).2 v

/-- The operator of `ops` that matches first at the cursor `c`, with the cursor after it. -/
def selectOp : List BinOp → List Nat → Option (BinOp × List Nat)
  | [], _ => none
  | op :: ops, c =>
    match matchBytes op.text c with
    | some rest => some (op, rest)
    | none => selectOp ops c

/-- What `e2Loop` makes of the value `v` of its operand with the flags `neg` and
`encounteredNeg`. -/
def notResult (neg encounteredNeg : Bool) (v : Nat) : Nat :=
  if encounteredNeg && (if neg then (if v > 0 then 0 else 1) else v) > 1 then 1
  else (if neg then (if v > 0 then 0 else 1) else v)

/-- A byte that can start the text of an operand: whitespace, a letter, a digit, `(` or
`!`. -/
def startsOperand (c : Nat) : Bool := isspace c || isalnum c || c == 40 || c == 33

/-- No operator of a level up to `k` follows at `rest`, and no opening parenthesis. -/
def NoOpsUpTo (k : Nat) (rest : List Nat) : Prop :=
  matchBytes [40] (skipBytes rest) = none ∧
    ∀ op : BinOp, op.level ≤ k → matchBytes op.text (skipBytes rest) = none

/-- Level `k` (from `e3` on) parses the text of `e` to its value and stops in front of
`rest`, after the whitespace. -/
def ParsesAt (I : Interpreter) (eff ins : Bool) (k : Nat) (e : Expr) : Prop :=
  ∀ rest, isalnum (rest.headD 0) = false → NoOpsUpTo k rest →
    Returns (fun f => levelFn k f (I.moveTo (e.render ++ rest)) eff ins)
      (.ok (e.valueIn (variableValue I ins)) (I.moveTo (skipBytes rest)))

/-- Level `k` parses the text of `e` and then does what its loop does with the value of `e`
in front of `rest`. -/
def ContinuesAt (I : Interpreter) (eff ins : Bool) (k : Nat) (e : Expr) : Prop :=
  ∀ rest res, isalnum (rest.headD 0) = false → NoOpsUpTo (k - 1) rest →
    Returns (fun f => levelLoop k f (I.moveTo (skipBytes rest)) eff ins
      (e.valueIn (variableValue I ins))) res →
    Returns (fun f => levelFn k f (I.moveTo (e.render ++ rest)) eff ins) res

/-- The loop of `e2` parses the text of `e` under any state of its two flags and stops in
front of `rest`, possibly after some of its whitespace. -/
def NegatesAt (I : Interpreter) (eff ins : Bool) (e : Expr) : Prop :=
  ∀ rest neg enc, isalnum (rest.headD 0) = false → matchBytes [40] (skipBytes rest) = none →
    ∃ c, skipBytes c = skipBytes rest ∧
      Returns (fun f => e2Loop f (I.moveTo (e.render ++ rest)) eff ins neg enc)
        (.ok (notResult neg enc (e.valueIn (variableValue I ins))) (I.moveTo c))

/-- What the induction over an expression carries. -/
def ParseFacts (I : Interpreter) (eff ins : Bool) (e : Expr) : Prop :=
  (e.level ≤ 2 → NegatesAt I eff ins e) ∧
  (∀ k, 3 ≤ k → k ≤ 16 → e.level ≤ k → ParsesAt I eff ins k e) ∧
  (∀ k, opsAt (k + 1) ≠ [] → e.level ≤ k + 1 → ContinuesAt I eff ins (k + 1) e)

/-- The result `r` of a run with less fuel against the result `r2` with more: either the
fuel ran out, or the results agree. -/
def Result.le {α : Type} (r r2 : Result α) : Prop := r = .stop .outOfFuel ∨ r = r2

/-- Adding one unit of fuel to any function of the interpreter keeps a result that did not
run out of fuel. -/
def MonoAt (n : Nat) : Prop :=
  (∀ I eff ins, (e1 n I eff ins).le (e1 (n + 1) I eff ins)) ∧
  (∀ I eff ins, (e2 n I eff ins).le (e2 (n + 1) I eff ins)) ∧
  (∀ I eff ins a b, (e2Loop n I eff ins a b).le (e2Loop (n + 1) I eff ins a b)) ∧
  (∀ I eff ins, (e3 n I eff ins).le (e3 (n + 1) I eff ins)) ∧
  (∀ I eff ins v, (e3Loop n I eff ins v).le (e3Loop (n + 1) I eff ins v)) ∧
  (∀ I eff ins, (e4 n I eff ins).le (e4 (n + 1) I eff ins)) ∧
  (∀ I eff ins v, (e4Loop n I eff ins v).le (e4Loop (n + 1) I eff ins v)) ∧
  (∀ I eff ins, (e5 n I eff ins).le (e5 (n + 1) I eff ins)) ∧
  (∀ I eff ins, (e6 n I eff ins).le (e6 (n + 1) I eff ins)) ∧
  (∀ I eff ins v, (e6Loop n I eff ins v).le (e6Loop (n + 1) I eff ins v)) ∧
  (∀ I eff ins, (e7 n I eff ins).le (e7 (n + 1) I eff ins)) ∧
  (∀ I eff ins v, (e7Loop n I eff ins v).le (e7Loop (n + 1) I eff ins v)) ∧
  (∀ I eff ins, (e8 n I eff ins).le (e8 (n + 1) I eff ins)) ∧
  (∀ I eff ins, (e9 n I eff ins).le (e9 (n + 1) I eff ins)) ∧
  (∀ I eff ins, (e10 n I eff ins).le (e10 (n + 1) I eff ins)) ∧
  (∀ I eff ins, (e11 n I eff ins).le (e11 (n + 1) I eff ins)) ∧
  (∀ I eff ins v, (e11Loop n I eff ins v).le (e11Loop (n + 1) I eff ins v)) ∧
  (∀ I eff ins, (e12 n I eff ins).le (e12 (n + 1) I eff ins)) ∧
  (∀ I eff ins v, (e12Loop n I eff ins v).le (e12Loop (n + 1) I eff ins v)) ∧
  (∀ I eff ins, (e13 n I eff ins).le (e13 (n + 1) I eff ins)) ∧
  (∀ I eff ins, (e14 n I eff ins).le (e14 (n + 1) I eff ins)) ∧
  (∀ I eff ins, (e15 n I eff ins).le (e15 (n + 1) I eff ins)) ∧
  (∀ I eff ins, (expression n I eff ins).le (expression (n + 1) I eff ins)) ∧
  (∀ I eff ins, (checkReturn n I eff ins).le (checkReturn (n + 1) I eff ins)) ∧
  (∀ I eff ins, (blockLoop n I eff ins).le (blockLoop (n + 1) I eff ins)) ∧
  (∀ I eff ins, (whileStatement n I eff ins).le (whileStatement (n + 1) I eff ins)) ∧
  (∀ I eff ins p, (whileStatementLoop n I eff ins p).le (whileStatementLoop (n + 1) I eff ins p)) ∧
  (∀ I eff fn, (performFunction n I eff fn).le (performFunction (n + 1) I eff fn)) ∧
  (∀ I eff, (performFunctionLoop n I eff).le (performFunctionLoop (n + 1) I eff)) ∧
  (∀ I eff fn, (functionCall n I eff fn).le (functionCall (n + 1) I eff fn)) ∧
  (∀ I eff fn t c, (functionCallLoop n I eff fn t c).le (functionCallLoop (n + 1) I eff fn t c)) ∧
  (∀ I eff ins, (ifStatement n I eff ins).le (ifStatement (n + 1) I eff ins)) ∧
  (∀ I eff ins, (statement n I eff ins).le (statement (n + 1) I eff ins))

/-- What is observed of a finished run: how it ended and the lines it printed. -/
inductive Outcome where
  | completed (output : List Nat)
  | failed (output : List Nat)
  | undefinedBehaviour (output : List Nat)
  | outOfFuel
  deriving DecidableEq, Repr

/-- The observation of a result. -/
def Result.outcome {α : Type} : Result α → Outcome
  | .ok _ I => .completed I.output
  | .stop (.fail I) => .failed I.output
  | .stop (.undefinedBehaviour I) => .undefinedBehaviour I.output
  | .stop .outOfFuel => .outOfFuel

/-- The observation of `run` on the program text `prog` in a fresh interpreter. -/
def runOutcome (fuel : Nat) (prog : List Nat) : Outcome :=
  (run fuel (interpreterConstructor prog)).outcome

/-- Where a block that is open `count` times ends in `text`: the bytes after the brace that
closes it, counting `{` and `}` byte by byte; `none` when the text ends before. -/
def blockEnd : Nat → List Nat → Option (List Nat)
  | _, [] => none
  | count, c :: cs =>
    if c = 123 then blockEnd (count + 1) cs
    else if c = 125 then (if count = 1 then some cs else blockEnd (count - 1) cs)
    else blockEnd count cs

/-- The name is one of the words that `statement` does not accept as a variable or function
name. -/
def isKeyword (name : List Nat) : Bool :=
  sliceEqualString (nameSlice name) (cstr "if") || sliceEqualString (nameSlice name) (cstr "else")
    || sliceEqualString (nameSlice name) (cstr "while")
    || sliceEqualString (nameSlice name) (cstr "return")
    || sliceEqualString (nameSlice name) (cstr "fun")

/-- The interpreter after the assignment of `v` to the variable `id` (lines 662 to 689 of
`statement`): outside of a function the global table is written; inside, the local entry
if there is one, else the global entry if there is one, else a new local entry. -/
def assignVariable (I : Interpreter) (insideFunction : Bool) (id : Slice) (v : Nat) :
    Interpreter :=
  if !insideFunction then { I with symbolTable := mapInsert I.symbolTable id v }
  else if mapContains I.currentSymbolTable id then
    { I with currentSymbolTable := mapInsert I.currentSymbolTable id v }
  else if mapContains I.symbolTable id then
    { I with symbolTable := mapInsert I.symbolTable id v }
  else { I with currentSymbolTable := mapInsert I.currentSymbolTable id v }

/-! ## The pending-return slot at top level -/

/-- A result that, when it is a return, has an empty pending-return slot. -/
def Result.slotEmpty {α : Type} (r : Result α) : Prop :=
  ∀ v J, r = .ok v J → J.functionReturn.exists_ = false

/-- With fuel `n`, the expressions, the calls and the statements at top level
(`insideFunction = false`) that start with an empty pending-return slot return with an
empty slot. -/
def SlotAt (n : Nat) : Prop :=
  (∀ I eff ins, I.functionReturn.exists_ = false → (e1 n I eff ins).slotEmpty) ∧
  (∀ I eff ins, I.functionReturn.exists_ = false → (e2 n I eff ins).slotEmpty) ∧
  (∀ I eff ins a b, I.functionReturn.exists_ = false → (e2Loop n I eff ins a b).slotEmpty) ∧
  (∀ I eff ins, I.functionReturn.exists_ = false → (e3 n I eff ins).slotEmpty) ∧
  (∀ I eff ins v, I.functionReturn.exists_ = false → (e3Loop n I eff ins v).slotEmpty) ∧
  (∀ I eff ins, I.functionReturn.exists_ = false → (e4 n I eff ins).slotEmpty) ∧
  (∀ I eff ins v, I.functionReturn.exists_ = false → (e4Loop n I eff ins v).slotEmpty) ∧
  (∀ I eff ins, I.functionReturn.exists_ = false → (e5 n I eff ins).slotEmpty) ∧
  (∀ I eff ins, I.functionReturn.exists_ = false → (e6 n I eff ins).slotEmpty) ∧
  (∀ I eff ins v, I.functionReturn.exists_ = false → (e6Loop n I eff ins v).slotEmpty) ∧
  (∀ I eff ins, I.functionReturn.exists_ = false → (e7 n I eff ins).slotEmpty) ∧
  (∀ I eff ins v, I.functionReturn.exists_ = false → (e7Loop n I eff ins v).slotEmpty) ∧
  (∀ I eff ins, I.functionReturn.exists_ = false → (e8 n I eff ins).slotEmpty) ∧
  (∀ I eff ins, I.functionReturn.exists_ = false → (e9 n I eff ins).slotEmpty) ∧
  (∀ I eff ins, I.functionReturn.exists_ = false → (e10 n I eff ins).slotEmpty) ∧
  (∀ I eff ins, I.functionReturn.exists_ = false → (e11 n I eff ins).slotEmpty) ∧
  (∀ I eff ins v, I.functionReturn.exists_ = false → (e11Loop n I eff ins v).slotEmpty) ∧
  (∀ I eff ins, I.functionReturn.exists_ = false → (e12 n I eff ins).slotEmpty) ∧
  (∀ I eff ins v, I.functionReturn.exists_ = false → (e12Loop n I eff ins v).slotEmpty) ∧
  (∀ I eff ins, I.functionReturn.exists_ = false → (e13 n I eff ins).slotEmpty) ∧
  (∀ I eff ins, I.functionReturn.exists_ = false → (e14 n I eff ins).slotEmpty) ∧
  (∀ I eff ins, I.functionReturn.exists_ = false → (e15 n I eff ins).slotEmpty) ∧
  (∀ I eff ins, I.functionReturn.exists_ = false → (expression n I eff ins).slotEmpty) ∧
  (∀ I eff fn, I.functionReturn.exists_ = false → (functionCall n I eff fn).slotEmpty) ∧
  (∀ I eff fn t c, I.functionReturn.exists_ = false →
    (functionCallLoop n I eff fn t c).slotEmpty) ∧
  (∀ I eff, I.functionReturn.exists_ = false → (checkReturn n I eff false).slotEmpty) ∧
  (∀ I eff, I.functionReturn.exists_ = false → (blockLoop n I eff false).slotEmpty) ∧
  (∀ I eff, I.functionReturn.exists_ = false → (whileStatement n I eff false).slotEmpty) ∧
  (∀ I eff p, I.functionReturn.exists_ = false →
    (whileStatementLoop n I eff false p).slotEmpty) ∧
  (∀ I eff, I.functionReturn.exists_ = false → (ifStatement n I eff false).slotEmpty) ∧
  (∀ I eff, I.functionReturn.exists_ = false → (statement n I eff false).slotEmpty)

/-- The interpreters between two top-level statements of a run of `prog`: the fresh
interpreter, and every interpreter that a top-level statement returns with when it is
started at such an interpreter. -/
inductive TopLevelState (prog : List Nat) : Interpreter → Prop
  | start : TopLevelState prog (interpreterConstructor prog)
  | step (I J : Interpreter) (fuel : Nat) (b : Bool) :
    TopLevelState prog I → statement fuel I true false = .ok b J → TopLevelState prog J

/-! ## Vocabulary for tables and program texts -/

/-- The first `n` bytes read from a pointer, a read after the text giving `0`. -/
def readBytes : Nat → List Nat → List Nat
  | 0, _ => []
  | n + 1, s => s.headD 0 :: readBytes n s.tail

/-- The bytes that a slice denotes. -/
def Slice.bytes (k : Slice) : List Nat := readBytes k.len k.start

/-- A variable table of sixteen bins with at most `n` entries. -/
def FitsMap (m : UnorderedMap) (n : Nat) : Prop :=
  m.capacity = 16 ∧ m.bins.length = 16 ∧ m.size ≤ n

/-- A function registry of sixteen bins with at most `n` entries. -/
def FitsFunctionMap (m : UnorderedFunctionMap) (n : Nat) : Prop :=
  m.capacity = 16 ∧ m.bins.length = 16 ∧ m.size ≤ n

/-- The digits of `n`, most significant first, before the digits `acc`. -/
def decimalLoop : Nat → Nat → List Nat → List Nat
  | 0, _, acc => acc
  | fuel + 1, n, acc =>
    if n < 10 then (48 + n) :: acc else decimalLoop fuel (n / 10) ((48 + n % 10) :: acc)

/-- The decimal numeral of `n` as bytes. -/
def decimal (n : Nat) : List Nat := decimalLoop (n + 1) n []

/-- The text of a parameter list after its opening parenthesis: the names separated by
commas, the closing parenthesis, then `rest`. -/
def paramText : List (List Nat) → List Nat → List Nat
  | [], rest => 41 :: rest
  | [name], rest => name ++ 41 :: rest
  | name :: next :: names, rest => name ++ 44 :: paramText (next :: names) rest

/-! ## The programs of the examples -/

/-- The program `x = X fun add(a,b) { return a + b } print(add(x, Y))`. -/
def addProgram (X Y : Nat) : List Nat :=
  cstr "x = " ++ (decimal X ++ (cstr " fun add(a,b) \x7b return a + b \x7d print(add(x, "
    ++ (decimal Y ++ cstr "))")))

/-- The program `fun f(n) { if (n) { return 1 } return 0 } print(f(N)) print(f(M))`. -/
def signProgram (N M : Nat) : List Nat :=
  cstr "fun f(n) \x7b if (n) \x7b return 1 \x7d return 0 \x7d print(f(" ++
    (decimal N ++ (cstr ")) print(f(" ++ (decimal M ++ cstr "))")))

/-- The program `i = 0 while (i < K) { print(i) i = i + 1 }`. -/
def countProgram (K : Nat) : List Nat :=
  cstr "i = 0 while (i < " ++ (decimal K ++ cstr ") \x7b print(i) i = i + 1 \x7d")

/-! ## The keys of the global table during a call -/

/-- Every key that the table `T0` does not contain is not contained in `T` either. -/
def KeysWithin (T0 T : UnorderedMap) : Prop :=
  ∀ k, mapContains T0 k = false → mapContains T k = false

/-- A result that, when it is a return, leaves a global table with no key outside `T0`. -/
def Result.keeps {α : Type} (T0 : UnorderedMap) (r : Result α) : Prop :=
  ∀ v J, r = .ok v J → KeysWithin T0 J.symbolTable

/-- With fuel `n`, no function of the interpreter that runs inside a call (expressions,
calls, and statements with `insideFunction = true`) adds a key to the global table. -/
def KeepsAt (T0 : UnorderedMap) (n : Nat) : Prop :=
  (∀ I eff ins, KeysWithin T0 I.symbolTable → (e1 n I eff ins).keeps T0) ∧
  (∀ I eff ins, KeysWithin T0 I.symbolTable → (e2 n I eff ins).keeps T0) ∧
  (∀ I eff ins a b, KeysWithin T0 I.symbolTable → (e2Loop n I eff ins a b).keeps T0) ∧
  (∀ I eff ins, KeysWithin T0 I.symbolTable → (e3 n I eff ins).keeps T0) ∧
  (∀ I eff ins v, KeysWithin T0 I.symbolTable → (e3Loop n I eff ins v).keeps T0) ∧
  (∀ I eff ins, KeysWithin T0 I.symbolTable → (e4 n I eff ins).keeps T0) ∧
  (∀ I eff ins v, KeysWithin T0 I.symbolTable → (e4Loop n I eff ins v).keeps T0) ∧
  (∀ I eff ins, KeysWithin T0 I.symbolTable → (e5 n I eff ins).keeps T0) ∧
  (∀ I eff ins, KeysWithin T0 I.symbolTable → (e6 n I eff ins).keeps T0) ∧
  (∀ I eff ins v, KeysWithin T0 I.symbolTable → (e6Loop n I eff ins v).keeps T0) ∧
  (∀ I eff ins, KeysWithin T0 I.symbolTable → (e7 n I eff ins).keeps T0) ∧
  (∀ I eff ins v, KeysWithin T0 I.symbolTable → (e7Loop n I eff ins v).keeps T0) ∧
  (∀ I eff ins, KeysWithin T0 I.symbolTable → (e8 n I eff ins).keeps T0) ∧
  (∀ I eff ins, KeysWithin T0 I.symbolTable → (e9 n I eff ins).keeps T0) ∧
  (∀ I eff ins, KeysWithin T0 I.symbolTable → (e10 n I eff ins).keeps T0) ∧
  (∀ I eff ins, KeysWithin T0 I.symbolTable → (e11 n I eff ins).keeps T0) ∧
  (∀ I eff ins v, KeysWithin T0 I.symbolTable → (e11Loop n I eff ins v).keeps T0) ∧
  (∀ I eff ins, KeysWithin T0 I.symbolTable → (e12 n I eff ins).keeps T0) ∧
  (∀ I eff ins v, KeysWithin T0 I.symbolTable → (e12Loop n I eff ins v).keeps T0) ∧
  (∀ I eff ins, KeysWithin T0 I.symbolTable → (e13 n I eff ins).keeps T0) ∧
  (∀ I eff ins, KeysWithin T0 I.symbolTable → (e14 n I eff ins).keeps T0) ∧
  (∀ I eff ins, KeysWithin T0 I.symbolTable → (e15 n I eff ins).keeps T0) ∧
  (∀ I eff ins, KeysWithin T0 I.symbolTable → (expression n I eff ins).keeps T0) ∧
  (∀ I eff, KeysWithin T0 I.symbolTable → (checkReturn n I eff true).keeps T0) ∧
  (∀ I eff, KeysWithin T0 I.symbolTable → (blockLoop n I eff true).keeps T0) ∧
  (∀ I eff, KeysWithin T0 I.symbolTable → (whileStatement n I eff true).keeps T0) ∧
  (∀ I eff p, KeysWithin T0 I.symbolTable → (whileStatementLoop n I eff true p).keeps T0) ∧
  (∀ I eff fn, KeysWithin T0 I.symbolTable → (performFunction n I eff fn).keeps T0) ∧
  (∀ I eff, KeysWithin T0 I.symbolTable → (performFunctionLoop n I eff).keeps T0) ∧
  (∀ I eff fn, KeysWithin T0 I.symbolTable → (functionCall n I eff fn).keeps T0) ∧
  (∀ I eff fn t c, KeysWithin T0 I.symbolTable → (functionCallLoop n I eff fn t c).keeps T0) ∧
  (∀ I eff, KeysWithin T0 I.symbolTable → (ifStatement n I eff true).keeps T0) ∧
  (∀ I eff, KeysWithin T0 I.symbolTable → (statement n I eff true).keeps T0)

/-! ## Simple statements -/

/-- A statement without a block: the assignment `name = e` or the call `print(e)`, each
token with the whitespace written in front of it. -/
inductive Simple where
  | assign (ws name ws2 : List Nat) (e : Expr)
  | print (ws ws2 : List Nat) (e : Expr) (ws3 : List Nat)

/-- The text of a simple statement in front of the text `rest`. -/
def Simple.render : Simple → List Nat → List Nat
  | .assign ws name ws2 e, rest => ws ++ name ++ (ws2 ++ cstr "=" ++ (e.render ++ rest))
  | .print ws ws2 e ws3, rest =>
    ws ++ cstr "print" ++ (ws2 ++ 40 :: (e.render ++ (ws3 ++ 41 :: rest)))

/-- The text of a block after its opening brace: the statements, the whitespace `wsEnd`,
the closing brace, then `tail`. -/
def blockText : List Simple → List Nat → List Nat → List Nat
  | [], wsEnd, tail => wsEnd ++ 125 :: tail
  | s :: ss, wsEnd, tail => s.render (blockText ss wsEnd tail)

/-- The statement is written as the grammar asks: whitespace is whitespace, the statement
starts after some whitespace, the assigned name is an identifier other than a keyword, and
the expression is well formed. -/
def Simple.wellFormed : Simple → Bool
  | .assign ws name ws2 e =>
    ws.all isspace && !ws.isEmpty && isIdentifierText name && !isKeyword name &&
      ws2.all isspace && e.wellFormed
  | .print ws ws2 e ws3 =>
    ws.all isspace && !ws.isEmpty && ws2.all isspace && e.wellFormed && ws3.all isspace

/-- The effect of a simple statement, written in front of `rest`, on the interpreter: an
assignment writes the value of its expression as `statement` does (lines 662 to 689), a
call of `print` appends the value of its argument to the output; without `effects`
nothing happens. -/
def Simple.exec (eff ins : Bool) (I : Interpreter) : Simple → List Nat → Interpreter
  | .assign _ name ws2 e, rest =>
    if eff then
      assignVariable I ins
        (sliceConstructorLen (name ++ (ws2 ++ cstr "=" ++ (e.render ++ rest))) name.length)
        (e.valueIn (variableValue I ins))
    else I
  | .print _ _ e _, _ =>
    { I with output := if eff then I.output ++ [e.valueIn (variableValue I true)]
                       else I.output }

/-- The effect of the statements of a block, one after the other. -/
def execBlock (eff ins : Bool) : Interpreter → List Simple → List Nat → List Nat → Interpreter
  | I, [], _, _ => I
  | I, s :: ss, wsEnd, tail =>
    execBlock eff ins (s.exec eff ins I (blockText ss wsEnd tail)) ss wsEnd tail


/-! ## Vocabulary for the operators -/

/-- The text of repeated logical negations in front of the operand text `t`: one `!` per
entry of `wss`, each after the whitespace of the entry. -/
def notText : List (List Nat) → List Nat → List Nat
  | [], t => t
  | ws :: wss, t => ws ++ cstr "!" ++ notText wss t

/-- The relational and equality operators, those of `e6` and `e7`. -/
def BinOp.isComparison : BinOp → Bool
  | .le => true | .ge => true | .lt => true | .gt => true | .eq => true | .ne => true
  | _ => false

/-- The comparison of unsigned values that `e6` and `e7` make for an operator
(`v <= u`, `v >= u`, `v < u`, `v > u`, `v == u`, `v != u` in the source). -/
def BinOp.compares : BinOp → Nat → Nat → Bool
  | .le, v, u => decide (v ≤ u)
  | .ge, v, u => decide (v ≥ u)
  | .lt, v, u => decide (v < u)
  | .gt, v, u => decide (v > u)
  | .eq, v, u => decide (v = u)
  | .ne, v, u => decide (v ≠ u)
  | _, _, _ => false

/-- The bytes of the text at the cursor up to the terminator (the first zero byte or the
end of the text). -/
def upToTerminator (c : List Nat) : List Nat := c.takeWhile (fun b => b != 0)

/-- The program `fun f(n) { if (n == 0) { return 0 } return 1 + f(n - 1) } print(f(K))`. -/
def recProgram (K : Nat) : List Nat :=
  cstr "fun f(n) \x7b if (n == 0) \x7b return 0 \x7d return 1 + f(n - 1) \x7d print(f(" ++
    (decimal K ++ cstr "))")

/-! ## The local table during an expression -/

/-- A result that, when it is a return, has `L` as the active local table. -/
def Result.localIs {α : Type} (L : UnorderedMap) (r : Result α) : Prop :=
  ∀ v J, r = .ok v J → J.currentSymbolTable = L

/-- With fuel `n`, the functions of the precedence chain return with the active local table
they were entered with. -/
def LocalAt (L : UnorderedMap) (n : Nat) : Prop :=
  (∀ I eff ins, I.currentSymbolTable = L → (e1 n I eff ins).localIs L) ∧
  (∀ I eff ins, I.currentSymbolTable = L → (e2 n I eff ins).localIs L) ∧
  (∀ I eff ins a b, I.currentSymbolTable = L → (e2Loop n I eff ins a b).localIs L) ∧
  (∀ I eff ins, I.currentSymbolTable = L → (e3 n I eff ins).localIs L) ∧
  (∀ I eff ins v, I.currentSymbolTable = L → (e3Loop n I eff ins v).localIs L) ∧
  (∀ I eff ins, I.currentSymbolTable = L → (e4 n I eff ins).localIs L) ∧
  (∀ I eff ins v, I.currentSymbolTable = L → (e4Loop n I eff ins v).localIs L) ∧
  (∀ I eff ins, I.currentSymbolTable = L → (e5 n I eff ins).localIs L) ∧
  (∀ I eff ins, I.currentSymbolTable = L → (e6 n I eff ins).localIs L) ∧
  (∀ I eff ins v, I.currentSymbolTable = L → (e6Loop n I eff ins v).localIs L) ∧
  (∀ I eff ins, I.currentSymbolTable = L → (e7 n I eff ins).localIs L) ∧
  (∀ I eff ins v, I.currentSymbolTable = L → (e7Loop n I eff ins v).localIs L) ∧
  (∀ I eff ins, I.currentSymbolTable = L → (e8 n I eff ins).localIs L) ∧
  (∀ I eff ins, I.currentSymbolTable = L → (e9 n I eff ins).localIs L) ∧
  (∀ I eff ins, I.currentSymbolTable = L → (e10 n I eff ins).localIs L) ∧
  (∀ I eff ins, I.currentSymbolTable = L → (e11 n I eff ins).localIs L) ∧
  (∀ I eff ins v, I.currentSymbolTable = L → (e11Loop n I eff ins v).localIs L) ∧
  (∀ I eff ins, I.currentSymbolTable = L → (e12 n I eff ins).localIs L) ∧
  (∀ I eff ins v, I.currentSymbolTable = L → (e12Loop n I eff ins v).localIs L) ∧
  (∀ I eff ins, I.currentSymbolTable = L → (e13 n I eff ins).localIs L) ∧
  (∀ I eff ins, I.currentSymbolTable = L → (e14 n I eff ins).localIs L) ∧
  (∀ I eff ins, I.currentSymbolTable = L → (e15 n I eff ins).localIs L) ∧
  (∀ I eff ins, I.currentSymbolTable = L → (expression n I eff ins).localIs L)

/-! ## Execution without effects -/

/-- A result that, when it is a return, has the global table `S` and the output `O`. -/
def Result.quiet {α : Type} (S : UnorderedMap) (O : List Nat) (r : Result α) : Prop :=
  ∀ v J, r = .ok v J → J.symbolTable = S ∧ J.output = O

/-- With fuel `n` and `effects = false`, no function of the interpreter changes the global
table or the output. -/
def QuietAt (S : UnorderedMap) (O : List Nat) (n : Nat) : Prop :=
  (∀ I ins, I.symbolTable = S → I.output = O → (e1 n I false ins).quiet S O) ∧
  (∀ I ins, I.symbolTable = S → I.output = O → (e2 n I false ins).quiet S O) ∧
  (∀ I ins a b, I.symbolTable = S → I.output = O → (e2Loop n I false ins a b).quiet S O) ∧
  (∀ I ins, I.symbolTable = S → I.output = O → (e3 n I false ins).quiet S O) ∧
  (∀ I ins v, I.symbolTable = S → I.output = O → (e3Loop n I false ins v).quiet S O) ∧
  (∀ I ins, I.symbolTable = S → I.output = O → (e4 n I false ins).quiet S O) ∧
  (∀ I ins v, I.symbolTable = S → I.output = O → (e4Loop n I false ins v).quiet S O) ∧
  (∀ I ins, I.symbolTable = S → I.output = O → (e5 n I false ins).quiet S O) ∧
  (∀ I ins, I.symbolTable = S → I.output = O → (e6 n I false ins).quiet S O) ∧
  (∀ I ins v, I.symbolTable = S → I.output = O → (e6Loop n I false ins v).quiet S O) ∧
  (∀ I ins, I.symbolTable = S → I.output = O → (e7 n I false ins).quiet S O) ∧
  (∀ I ins v, I.symbolTable = S → I.output = O → (e7Loop n I false ins v).quiet S O) ∧
  (∀ I ins, I.symbolTable = S → I.output = O → (e8 n I false ins).quiet S O) ∧
  (∀ I ins, I.symbolTable = S → I.output = O → (e9 n I false ins).quiet S O) ∧
  (∀ I ins, I.symbolTable = S → I.output = O → (e10 n I false ins).quiet S O) ∧
  (∀ I ins, I.symbolTable = S → I.output = O → (e11 n I false ins).quiet S O) ∧
  (∀ I ins v, I.symbolTable = S → I.output = O → (e11Loop n I false ins v).quiet S O) ∧
  (∀ I ins, I.symbolTable = S → I.output = O → (e12 n I false ins).quiet S O) ∧
  (∀ I ins v, I.symbolTable = S → I.output = O → (e12Loop n I false ins v).quiet S O) ∧
  (∀ I ins, I.symbolTable = S → I.output = O → (e13 n I false ins).quiet S O) ∧
  (∀ I ins, I.symbolTable = S → I.output = O → (e14 n I false ins).quiet S O) ∧
  (∀ I ins, I.symbolTable = S → I.output = O → (e15 n I false ins).quiet S O) ∧
  (∀ I ins, I.symbolTable = S → I.output = O → (expression n I false ins).quiet S O) ∧
  (∀ I ins, I.symbolTable = S → I.output = O → (checkReturn n I false ins).quiet S O) ∧
  (∀ I ins, I.symbolTable = S → I.output = O → (blockLoop n I false ins).quiet S O) ∧
  (∀ I ins, I.symbolTable = S → I.output = O → (whileStatement n I false ins).quiet S O) ∧
  (∀ I ins p, I.symbolTable = S → I.output = O →
    (whileStatementLoop n I false ins p).quiet S O) ∧
  (∀ I fn, I.symbolTable = S → I.output = O → (performFunction n I false fn).quiet S O) ∧
  (∀ I, I.symbolTable = S → I.output = O → (performFunctionLoop n I false).quiet S O) ∧
  (∀ I fn, I.symbolTable = S → I.output = O → (functionCall n I false fn).quiet S O) ∧
  (∀ I fn t c, I.symbolTable = S → I.output = O →
    (functionCallLoop n I false fn t c).quiet S O) ∧
  (∀ I ins, I.symbolTable = S → I.output = O → (ifStatement n I false ins).quiet S O) ∧
  (∀ I ins, I.symbolTable = S → I.output = O → (statement n I false ins).quiet S O)

/-- With fuel `n` and `effects = false`, the statement-level functions return with the
active local table they were entered with. -/
def QuietLocalAt (L : UnorderedMap) (n : Nat) : Prop :=
  (∀ I ins, I.currentSymbolTable = L → (checkReturn n I false ins).localIs L) ∧
  (∀ I ins, I.currentSymbolTable = L → (blockLoop n I false ins).localIs L) ∧
  (∀ I ins, I.currentSymbolTable = L → (whileStatement n I false ins).localIs L) ∧
  (∀ I ins p, I.currentSymbolTable = L → (whileStatementLoop n I false ins p).localIs L) ∧
  (∀ I ins, I.currentSymbolTable = L → (ifStatement n I false ins).localIs L) ∧
  (∀ I ins, I.currentSymbolTable = L → (statement n I false ins).localIs L)

/-! ## The shape of a variable table -/

/-- The nodes of a table, bin by bin. -/
def mapNodes (m : UnorderedMap) : List Node := m.bins.flatten

/-- The placement of the nodes that `mapCreate` and `mapInsert` maintain: at least sixteen
bins, as many as the capacity says; every node in the bin of the hash of its key; no two
nodes with keys of the same bytes. -/
def MapPlaced (m : UnorderedMap) : Prop :=
  16 ≤ m.capacity ∧ m.bins.length = m.capacity ∧
  (∀ i, ∀ n ∈ m.bins.getD i [], hashSlice n.key % m.capacity = i) ∧
  ((mapNodes m).map fun n => n.key.bytes).Nodup

/-- The shape of a table between two calls: the nodes are placed, and the load is at most
three quarters. -/
def MapShape (m : UnorderedMap) : Prop := MapPlaced m ∧ 4 * m.size ≤ 3 * m.capacity

/-- The tables that are reachable from `mapCreate` by calls of `mapInsert`, each call on a
table of fewer than `2 ^ 52` bins (so that `capacity * 2` does not overflow and the
comparison of `size` with `capacity * loadFactor` in `double` is exact). -/
inductive MapReachable : UnorderedMap → Prop
  | create : MapReachable mapCreate
  | insert (m : UnorderedMap) (k : Slice) (v : Nat) :
    MapReachable m → m.capacity < 2 ^ 52 → MapReachable (mapInsert m k v)

/-- The re-insertion loop of `mapExpand` over a list of nodes. -/
def rehash (capacity : Nat) (acc : List (List Node)) (nodes : List Node) : List (List Node) :=
  nodes.foldl
    (fun acc current => mapInsertWithBin acc (hashSlice current.key % capacity) current.key
      current.value) acc

/-- The table with the keys `a`, `b`, ... (`n` one-letter names) bound to `0`, `1`, ...,
built by `n` calls of `mapInsert`. -/
def sampleTable : Nat → UnorderedMap
  | 0 => mapCreate
  | n + 1 => mapInsert (sampleTable n) (nameSlice [97 + n]) n

/-! ## Tables built by a bounded number of insertions -/

/-- A table of the right shape with at most `n` entries whose capacity is the initial sixteen
or was reached by doubling, so that it is less than eight thirds of the number of entries. -/
def MapTight (m : UnorderedMap) (n : Nat) : Prop :=
  MapShape m ∧ m.size ≤ n ∧ (m.capacity = 16 ∨ 3 * m.capacity < 8 * m.size)

/-- An interpreter as the examples use it: cursor `cur`, local table `loc`, global table
`glob`, no pending return, only `print` registered, nothing printed yet. -/
def sampleState (cur : List Nat) (loc glob : UnorderedMap) : Interpreter :=
  Interpreter.mk [] cur ⟨false, 0⟩ loc glob (interpreterConstructor []).functionNameMap []

/-- The table with the single entry `name ↦ v`. -/
def oneEntry (name : List Nat) (v : Nat) : UnorderedMap := mapInsert mapCreate (nameSlice name) v

/-! ## The arguments of a call -/

/-- The table after binding the values to the parameters, the first value to the first
parameter and so on, by `mapInsert` from left to right. -/
def bindParameters : UnorderedMap → List Slice → List Nat → UnorderedMap
  | m, p :: ps, v :: vs => bindParameters (mapInsert m p v) ps vs
  | m, _, _ => m

/-- The arguments of a call, read from the cursor of `I` behind the opening parenthesis,
evaluate from left to right to the values `vs`, and `J` is the interpreter behind the closing
parenthesis: while no `)` is next, an argument is an expression evaluated in the interpreter
that the argument before it left, with the local table of the caller still in place; a comma
after it is passed over. -/
inductive ArgumentsYield (eff : Bool) : Interpreter → List Nat → Interpreter → Prop
  | done (I : Interpreter) (t : List Nat) :
    skipBytes I.current = 41 :: t → ArgumentsYield eff I [] (I.moveTo t)
  | arg (I I2 J : Interpreter) (v : Nat) (vs : List Nat) :
    matchBytes [41] (skipBytes I.current) = none →
    Returns (fun f => expression f I eff true) (.ok v I2) →
    ArgumentsYield eff (consume I2 (cstr ",")).2 vs J →
    ArgumentsYield eff I (v :: vs) J

/-! ## Scanner lemmas -/

@[simp] theorem cstr_lparen : cstr "(" = [40] := rfl
@[simp] theorem cstr_rparen : cstr ")" = [41] := rfl
@[simp] theorem cstr_bang : cstr "!" = [33] := rfl
@[simp] theorem cstr_star : cstr "*" = [42] := rfl
@[simp] theorem cstr_slash : cstr "/" = [47] := rfl
@[simp] theorem cstr_percent : cstr "%" = [37] := rfl
@[simp] theorem cstr_plus : cstr "+" = [43] := rfl
@[simp] theorem cstr_minus : cstr "-" = [45] := rfl
@[simp] theorem cstr_le : cstr "<=" = [60, 61] := rfl
@[simp] theorem cstr_ge : cstr ">=" = [62, 61] := rfl
@[simp] theorem cstr_lt : cstr "<" = [60] := rfl
@[simp] theorem cstr_gt : cstr ">" = [62] := rfl
@[simp] theorem cstr_eqeq : cstr "==" = [61, 61] := rfl
@[simp] theorem cstr_ne : cstr "!=" = [33, 61] := rfl
@[simp] theorem cstr_andand : cstr "&&" = [38, 38] := rfl
@[simp] theorem cstr_oror : cstr "||" = [124, 124] := rfl
@[simp] theorem cstr_lbrace : cstr "\x7b" = [123] := rfl
@[simp] theorem cstr_rbrace : cstr "\x7d" = [125] := rfl
@[simp] theorem cstr_comma : cstr "," = [44] := rfl
@[simp] theorem cstr_assign : cstr "=" = [61] := rfl
@[simp] theorem cstr_hash : cstr "#" = [35] := rfl

@[simp] theorem moveTo_current (I : Interpreter) (c : List Nat) : (I.moveTo c).current = c := rfl
@[simp] theorem moveTo_moveTo (I : Interpreter) (c d : List Nat) :
    (I.moveTo c).moveTo d = I.moveTo d := rfl
@[simp] theorem moveTo_functionReturn (I : Interpreter) (c : List Nat) :
    (I.moveTo c).functionReturn = I.functionReturn := rfl
@[simp] theorem moveTo_currentSymbolTable (I : Interpreter) (c : List Nat) :
    (I.moveTo c).currentSymbolTable = I.currentSymbolTable := rfl
@[simp] theorem moveTo_symbolTable (I : Interpreter) (c : List Nat) :
    (I.moveTo c).symbolTable = I.symbolTable := rfl
@[simp] theorem moveTo_functionNameMap (I : Interpreter) (c : List Nat) :
    (I.moveTo c).functionNameMap = I.functionNameMap := rfl
@[simp] theorem moveTo_output (I : Interpreter) (c : List Nat) :
    (I.moveTo c).output = I.output := rfl
theorem moveTo_self (I : Interpreter) : I.moveTo I.current = I := rfl
theorem with_current_eq (I : Interpreter) (c : List Nat) :
    { I with current := c } = I.moveTo c := rfl

theorem skipBytes_ws (ws rest : List Nat) (h : ws.all isspace = true) :
    skipBytes (ws ++ rest) = skipBytes rest := by
  induction ws with
  | nil => rfl
  | cons c cs ih =>
    simp only [List.all_cons, Bool.and_eq_true] at h
    simp [skipBytes, h.1, ih h.2]

theorem skipBytes_cons_of_not_space (c : Nat) (cs : List Nat) (h : isspace c = false) :
    skipBytes (c :: cs) = c :: cs := by
  simp [skipBytes, h]

theorem skipBytes_idem (c : List Nat) : skipBytes (skipBytes c) = skipBytes c := by
  induction c with
  | nil => rfl
  | cons a as ih =>
    by_cases h : isspace a = true
    · simp [skipBytes, h, ih]
    · simp [skipBytes, h]

theorem consume_moveTo (I : Interpreter) (c s : List Nat) :
    consume (I.moveTo c) s =
      match matchBytes s (skipBytes c) with
      | some rest => (true, I.moveTo rest)
      | none => (false, I.moveTo (skipBytes c)) := rfl

theorem consume_skip (I : Interpreter) (c s : List Nat) :
    consume (I.moveTo (skipBytes c)) s = consume (I.moveTo c) s := by
  rw [consume_moveTo, consume_moveTo, skipBytes_idem]

theorem matchBytes_append (s rest : List Nat) : matchBytes s (s ++ rest) = some rest := by
  induction s with
  | nil => cases rest <;> rfl
  | cons a as ih => simp [matchBytes, ih]

/-! ## Fuel -/

theorem Returns.of_succ {α : Type} {g body : Nat → Result α} {r : Result α}
    (h : ∀ fuel, g (fuel + 1) = body fuel) (hb : Returns body r) : Returns g r := by
  obtain ⟨n, hn⟩ := hb
  refine ⟨n + 1, fun fuel hf => ?_⟩
  obtain ⟨m, rfl⟩ : ∃ m, fuel = m + 1 := ⟨fuel - 1, by omega⟩
  rw [h, hn m (by omega)]

theorem Returns.bind {α β : Type} {a : Nat → Result α} {k : Nat → α → Interpreter → Result β}
    {v : α} {I : Interpreter} {r : Result β}
    (ha : Returns a (.ok v I)) (hk : Returns (fun fuel => k fuel v I) r) :
    Returns (fun fuel => (a fuel).bind (k fuel)) r := by
  obtain ⟨n, hn⟩ := ha
  obtain ⟨m, hm⟩ := hk
  refine ⟨max n m, fun fuel hf => ?_⟩
  simp only [hn fuel (le_trans (le_max_left n m) hf), Result.bind]
  exact hm fuel (le_trans (le_max_right n m) hf)

theorem Returns.const {α : Type} (r : Result α) : Returns (fun _ => r) r := ⟨0, fun _ _ => rfl⟩

theorem Returns.congr {α : Type} {f g : Nat → Result α} {r : Result α}
    (h : ∀ fuel, f fuel = g fuel) (hg : Returns g r) : Returns f r := by
  obtain ⟨n, hn⟩ := hg
  exact ⟨n, fun fuel hf => by rw [h, hn fuel hf]⟩

/-! ## The precedence chain, uniformly -/

theorem levelFn_pass (k fuel : Nat) (I : Interpreter) (eff ins : Bool)
    (hk : 2 ≤ k) (hk2 : k ≤ 15) (h : opsAt (k + 1) = []) :
    levelFn (k + 1) (fuel + 1) I eff ins = levelFn k fuel I eff ins := by
  interval_cases k <;> simp [opsAt] at h <;> simp only [levelFn, Nat.reduceAdd]
  · rw [e5]
  · rw [e8]
  · rw [e9]
  · rw [e10]
  · rw [e13]
  · rw [e14]
  · rw [e15]
  · rw [expression]

theorem levelFn_loop (k fuel : Nat) (I : Interpreter) (eff ins : Bool)
    (h : opsAt (k + 1) ≠ []) :
    levelFn (k + 1) (fuel + 1) I eff ins =
      (levelFn k fuel I eff ins).bind fun v I2 => levelLoop (k + 1) fuel I2 eff ins v := by
  have hk : k = 2 ∨ k = 3 ∨ k = 5 ∨ k = 6 ∨ k = 10 ∨ k = 11 := by
    unfold opsAt at h
    split at h <;> simp_all
  rcases hk with rfl | rfl | rfl | rfl | rfl | rfl <;> simp only [levelFn, levelLoop, Nat.reduceAdd]
  · rw [e3]
  · rw [e4]
  · rw [e6]
  · rw [e7]
  · rw [e11]
  · rw [e12]

theorem levelLoop_zero (k : Nat) (I : Interpreter) (eff ins : Bool) (v : Nat) :
    levelLoop k 0 I eff ins v = .stop .outOfFuel := by
  unfold levelLoop
  split <;> simp [e3Loop, e4Loop, e6Loop, e7Loop, e11Loop, e12Loop]

theorem levelLoop_succ (k fuel : Nat) (I : Interpreter) (eff ins : Bool) (v : Nat)
    (h : opsAt (k + 1) ≠ []) :
    levelLoop (k + 1) (fuel + 1) I eff ins v =
      loopBody (opsAt (k + 1)) (fun f J => levelFn k f J eff ins)
        (fun f J w => levelLoop (k + 1) f J eff ins w) fuel I v := by
  have hk : k = 2 ∨ k = 3 ∨ k = 5 ∨ k = 6 ∨ k = 10 ∨ k = 11 := by
    unfold opsAt at h
    split at h <;> simp_all
  rcases hk with rfl | rfl | rfl | rfl | rfl | rfl <;>
    simp only [levelFn, levelLoop, Nat.reduceAdd, opsAt, loopBody, BinOp.text, BinOp.code]
  · rw [e3Loop]
  · rw [e4Loop]
  · rw [e6Loop]
  · rw [e7Loop]
  · rw [e11Loop]
  · rw [e12Loop]

theorem loopBody_select (sub : Nat → Interpreter → Result Nat)
    (loop : Nat → Interpreter → Nat → Result Nat) (fuel : Nat) (I : Interpreter) (v : Nat)
    (op : BinOp) (ops : List BinOp) (c : List Nat) :
    loopBody (op :: ops) sub loop fuel (I.moveTo c) v =
      match selectOp (op :: ops) (skipBytes c) with
      | some (o, c2) => (sub fuel (I.moveTo c2)).bind fun u I2 => loop fuel I2 (o.code v u)
      | none => .ok v (I.moveTo (skipBytes c)) := by
  induction ops generalizing op c with
  | nil =>
    simp only [loopBody, selectOp, consume_moveTo]
    cases matchBytes op.text (skipBytes c) <;> simp
  | cons o os ih =>
    rw [loopBody, selectOp, consume_moveTo]
    cases h : matchBytes op.text (skipBytes c) with
    | some rest => simp
    | none =>
      simp only [Bool.false_eq_true, if_false]
      rw [ih o (skipBytes c), skipBytes_idem]

theorem selectOp_none (ops : List BinOp) (c : List Nat)
    (h : ∀ op : BinOp, matchBytes op.text c = none) : selectOp ops c = none := by
  induction ops with
  | nil => rfl
  | cons o os ih => simp [selectOp, h o, ih]

theorem levelLoop_skip (k fuel : Nat) (I : Interpreter) (eff ins : Bool) (v : Nat)
    (c : List Nat) (h : opsAt (k + 1) ≠ []) :
    levelLoop (k + 1) fuel (I.moveTo (skipBytes c)) eff ins v =
      levelLoop (k + 1) fuel (I.moveTo c) eff ins v := by
  cases fuel with
  | zero => rw [levelLoop_zero, levelLoop_zero]
  | succ f =>
    rw [levelLoop_succ _ _ _ _ _ _ h, levelLoop_succ _ _ _ _ _ _ h]
    obtain ⟨o, os, ho⟩ : ∃ o os, opsAt (k + 1) = o :: os := by
      cases hq : opsAt (k + 1) with
      | nil => exact absurd hq h
      | cons o os => exact ⟨o, os, rfl⟩
    rw [ho, loopBody_select, loopBody_select, skipBytes_idem]

/-- The loop of a level stops where none of its operators follows. -/
theorem levelLoop_end (k : Nat) (I : Interpreter) (eff ins : Bool) (v : Nat) (rest : List Nat)
    (h : opsAt (k + 1) ≠ []) (hsel : selectOp (opsAt (k + 1)) (skipBytes rest) = none) :
    Returns (fun f => levelLoop (k + 1) f (I.moveTo (skipBytes rest)) eff ins v)
      (.ok v (I.moveTo (skipBytes rest))) := by
  refine Returns.of_succ (fun f => levelLoop_succ k f _ eff ins v h) ?_
  obtain ⟨o, os, ho⟩ : ∃ o os, opsAt (k + 1) = o :: os := by
    cases hq : opsAt (k + 1) with
    | nil => exact absurd hq h
    | cons o os => exact ⟨o, os, rfl⟩
  rw [ho] at hsel ⊢
  refine Returns.congr (fun f => loopBody_select _ _ f I v o os (skipBytes rest)) ?_
  simp only [skipBytes_idem, hsel]
  exact Returns.const _

/-- A level parses what the level below parses, and goes on with its loop. -/
theorem levelFn_lift (k : Nat) (I : Interpreter) (eff ins : Bool) (v : Nat)
    (text rest c : List Nat) (res : Result Nat) (h : opsAt (k + 1) ≠ [])
    (hc : skipBytes c = skipBytes rest)
    (hsub : Returns (fun f => levelFn k f (I.moveTo text) eff ins) (.ok v (I.moveTo c)))
    (hloop : Returns (fun f => levelLoop (k + 1) f (I.moveTo (skipBytes rest)) eff ins v) res) :
    Returns (fun f => levelFn (k + 1) f (I.moveTo text) eff ins) res := by
  refine Returns.of_succ (fun f => levelFn_loop k f _ eff ins h) ?_
  refine Returns.bind hsub ?_
  refine Returns.congr (fun f => ?_) hloop
  rw [← levelLoop_skip k f I eff ins v c h, hc]

/-- One more operator and operand in the loop of a level. -/
theorem levelLoop_step (k : Nat) (I : Interpreter) (eff ins : Bool) (vl vr : Nat) (op : BinOp)
    (restL textR rest c : List Nat) (res : Result Nat) (h : opsAt (k + 1) ≠ [])
    (hsel : selectOp (opsAt (k + 1)) (skipBytes restL) = some (op, textR ++ rest))
    (hc : skipBytes c = skipBytes rest)
    (hr : Returns (fun f => levelFn k f (I.moveTo (textR ++ rest)) eff ins) (.ok vr (I.moveTo c)))
    (hloop : Returns (fun f => levelLoop (k + 1) f (I.moveTo (skipBytes rest)) eff ins
      (op.code vl vr)) res) :
    Returns (fun f => levelLoop (k + 1) f (I.moveTo (skipBytes restL)) eff ins vl) res := by
  refine Returns.of_succ (fun f => levelLoop_succ k f _ eff ins vl h) ?_
  obtain ⟨o, os, ho⟩ : ∃ o os, opsAt (k + 1) = o :: os := by
    cases hq : opsAt (k + 1) with
    | nil => exact absurd hq h
    | cons o os => exact ⟨o, os, rfl⟩
  rw [ho] at hsel ⊢
  refine Returns.congr (fun f => loopBody_select _ _ f I vl o os (skipBytes restL)) ?_
  simp only [skipBytes_idem, hsel]
  refine Returns.bind hr ?_
  refine Returns.congr (fun f => ?_) hloop
  rw [← levelLoop_skip k f I eff ins _ c h, hc]

/-! ## Tokens -/

theorem opsAt_level_ne (op : BinOp) : opsAt op.level ≠ [] := by
  cases op <;> simp [opsAt, BinOp.level]

theorem three_le_level (op : BinOp) : 3 ≤ op.level := by
  cases op <;> simp [BinOp.level]

theorem level_le_twelve (op : BinOp) : op.level ≤ 12 := by
  cases op <;> simp [BinOp.level]

theorem startsOperand_ne_eq (c : Nat) (h : startsOperand c = true) : c ≠ 61 := by
  intro hc
  subst hc
  simp [startsOperand, isspace, isalnum, isalpha, isdigit] at h

theorem selectOp_text (op : BinOp) (c : Nat) (t : List Nat) (h : startsOperand c = true) :
    selectOp (opsAt op.level) (op.text ++ c :: t) = some (op, c :: t) := by
  have hc := startsOperand_ne_eq c h
  have hc2 : ¬ (61 = c) := fun h => hc h.symm
  cases op <;> simp [opsAt, BinOp.level, selectOp, BinOp.text, matchBytes, hc, hc2]

theorem text_head_not_space (op : BinOp) :
    ∃ a as, op.text = a :: as ∧ isspace a = false ∧ isalnum a = false ∧ a ≠ 40 := by
  cases op <;> simp [BinOp.text, isspace, isalnum, isalpha, isdigit]

theorem skipBytes_text (op : BinOp) (ws t : List Nat) (h : ws.all isspace = true) :
    skipBytes (ws ++ op.text ++ t) = op.text ++ t := by
  obtain ⟨a, as, ha, hs, _, _⟩ := text_head_not_space op
  rw [List.append_assoc, skipBytes_ws _ _ h, ha]
  exact skipBytes_cons_of_not_space _ _ hs

theorem matchBytes_other_level (o op : BinOp) (t : List Nat) (h : o.level < op.level) :
    matchBytes o.text (op.text ++ t) = none := by
  cases o <;> cases op <;> simp [BinOp.level] at h <;> simp [BinOp.text, matchBytes]

theorem matchBytes_rparen (o : BinOp) (t : List Nat) : matchBytes o.text (41 :: t) = none := by
  cases o <;> simp [BinOp.text, matchBytes]

theorem matchBytes_lparen_text (op : BinOp) (t : List Nat) :
    matchBytes [40] (op.text ++ t) = none := by
  cases op <;> simp [BinOp.text, matchBytes]

theorem isspace_not_alnum (w : Nat) (h : isspace w = true) : isalnum w = false := by
  simp only [isspace, Bool.or_eq_true, beq_iff_eq, Bool.and_eq_true, decide_eq_true_eq] at h
  simp only [isalnum, isalpha, isdigit, Bool.or_eq_false_iff, Bool.and_eq_false_iff,
    decide_eq_false_iff_not]
  omega

theorem headD_ws_append (ws t : List Nat) (a : Nat) (h : ws.all isspace = true)
    (ha : isalnum a = false) : isalnum ((ws ++ a :: t).headD 0) = false := by
  cases ws with
  | nil => simpa using ha
  | cons w ws =>
    simp only [List.all_cons, Bool.and_eq_true] at h
    simpa using isspace_not_alnum w h.1

theorem headD_text (op : BinOp) (ws t : List Nat) (h : ws.all isspace = true) :
    isalnum ((ws ++ op.text ++ t).headD 0) = false := by
  obtain ⟨a, as, ha, _, hd, _⟩ := text_head_not_space op
  rw [List.append_assoc, ha]
  exact headD_ws_append ws _ a h hd

theorem not_digit_of_not_alnum (c : Nat) (h : isalnum c = false) : isdigit c = false := by
  simp only [isalnum, Bool.or_eq_false_iff] at h
  exact h.2

theorem render_head (e : Expr) (h : e.wellFormed = true) :
    ∃ c cs, e.render = c :: cs ∧ startsOperand c = true := by
  induction e with
  | lit ws ds =>
    simp only [Expr.wellFormed, Bool.and_eq_true, Bool.not_eq_true', List.isEmpty_eq_false] at h
    obtain ⟨⟨hws, hds⟩, hne⟩ := h
    cases ws with
    | nil =>
      cases ds with
      | nil => simp at hne
      | cons d ds =>
        simp only [List.all_cons, Bool.and_eq_true] at hds
        exact ⟨d, ds, rfl, by simp [startsOperand, isalnum, hds.1]⟩
    | cons w ws =>
      simp only [List.all_cons, Bool.and_eq_true] at hws
      exact ⟨w, ws ++ ds, rfl, by simp [startsOperand, hws.1]⟩
  | var ws name =>
    simp only [Expr.wellFormed, Bool.and_eq_true] at h
    obtain ⟨hws, hname⟩ := h
    cases ws with
    | nil =>
      cases name with
      | nil => simp [isIdentifierText] at hname
      | cons c cs =>
        simp only [isIdentifierText, Bool.and_eq_true] at hname
        exact ⟨c, cs, rfl, by simp [startsOperand, isalnum, hname.1]⟩
    | cons w ws =>
      simp only [List.all_cons, Bool.and_eq_true] at hws
      exact ⟨w, ws ++ name, rfl, by simp [startsOperand, hws.1]⟩
  | paren ws e ws2 _ =>
    simp only [Expr.wellFormed, Bool.and_eq_true] at h
    cases ws with
    | nil => exact ⟨40, _, by simp [Expr.render]; rfl, by simp [startsOperand]⟩
    | cons w ws =>
      have hws := h.1.1
      simp only [List.all_cons, Bool.and_eq_true] at hws
      exact ⟨w, _, by simp [Expr.render]; rfl, by simp [startsOperand, hws.1]⟩
  | not ws e _ =>
    simp only [Expr.wellFormed, Bool.and_eq_true] at h
    cases ws with
    | nil => exact ⟨33, _, by simp [Expr.render]; rfl, by simp [startsOperand]⟩
    | cons w ws =>
      have hws := h.1.1
      simp only [List.all_cons, Bool.and_eq_true] at hws
      exact ⟨w, _, by simp [Expr.render]; rfl, by simp [startsOperand, hws.1]⟩
  | bin op l ws r ihl _ =>
    simp only [Expr.wellFormed, Bool.and_eq_true] at h
    obtain ⟨c, cs, hc, hs⟩ := ihl h.1.1.1.2
    exact ⟨c, _, by simp [Expr.render, hc]; rfl, hs⟩

/-! ## Values -/

theorem code_eq_apply (op : BinOp) (a b : Nat) : op.code a b = op.apply a b := by
  cases op <;> simp only [BinOp.code, BinOp.apply, U64]
  · simp
  · simp
  · omega
  all_goals simp
  · simp only [and_comm]
  · simp only [or_comm]

/-! ## Slices are compared and hashed by content -/

theorem sliceEqualSliceLoop_append (n : Nat) (s name t : List Nat) (h : n ≤ name.length) :
    sliceEqualSliceLoop n s (name ++ t) = sliceEqualSliceLoop n s name := by
  induction n generalizing s name with
  | zero => rfl
  | succ n ih =>
    cases name with
    | nil => simp at h
    | cons c cs =>
      simp only [List.length_cons, Nat.add_le_add_iff_right] at h
      simp only [sliceEqualSliceLoop, List.cons_append, List.headD_cons, List.tail_cons]
      rw [ih _ _ h]

theorem sliceEqualStringLoop_append (n : Nat) (name t p : List Nat) (h : n ≤ name.length) :
    sliceEqualStringLoop n (name ++ t) p = sliceEqualStringLoop n name p := by
  induction n generalizing name p with
  | zero => rfl
  | succ n ih =>
    cases name with
    | nil => simp at h
    | cons c cs =>
      simp only [List.length_cons, Nat.add_le_add_iff_right] at h
      simp only [sliceEqualStringLoop, List.cons_append, List.headD_cons, List.tail_cons]
      rw [ih _ _ h]

theorem hashSliceLoop_append (n : Nat) (name t : List Nat) (out : Nat) (h : n ≤ name.length) :
    hashSliceLoop n (name ++ t) out = hashSliceLoop n name out := by
  induction n generalizing name out with
  | zero => rfl
  | succ n ih =>
    cases name with
    | nil => simp at h
    | cons c cs =>
      simp only [List.length_cons, Nat.add_le_add_iff_right] at h
      simp only [hashSliceLoop, List.cons_append, List.headD_cons, List.tail_cons]
      rw [ih _ _ h]

theorem sliceEqualSlice_append (k : Slice) (name t : List Nat) :
    sliceEqualSlice k (sliceConstructorLen (name ++ t) name.length) =
      sliceEqualSlice k (nameSlice name) := by
  simp only [sliceEqualSlice, sliceConstructorLen, nameSlice]
  split
  · rfl
  · rename_i h
    simp only [bne_iff_ne, ne_eq, Decidable.not_not] at h
    rw [h, sliceEqualSliceLoop_append _ _ _ _ (le_refl _)]

theorem sliceEqualString_append (name t p : List Nat) :
    sliceEqualString (sliceConstructorLen (name ++ t) name.length) p =
      sliceEqualString (nameSlice name) p := by
  simp only [sliceEqualString, sliceConstructorLen, nameSlice]
  exact sliceEqualStringLoop_append _ _ _ _ (le_refl _)

theorem hashSlice_append (name t : List Nat) :
    hashSlice (sliceConstructorLen (name ++ t) name.length) = hashSlice (nameSlice name) := by
  simp only [hashSlice, sliceConstructorLen, nameSlice]
  exact hashSliceLoop_append _ _ _ _ (le_refl _)

theorem mapGetBin_append (bin : List Node) (name t : List Nat) :
    mapGetBin bin (sliceConstructorLen (name ++ t) name.length) = mapGetBin bin (nameSlice name) := by
  induction bin with
  | nil => rfl
  | cons n ns ih => simp only [mapGetBin, sliceEqualSlice_append, ih]

theorem mapContainsBin_append (bin : List Node) (name t : List Nat) :
    mapContainsBin bin (sliceConstructorLen (name ++ t) name.length) =
      mapContainsBin bin (nameSlice name) := by
  induction bin with
  | nil => rfl
  | cons n ns ih => simp only [mapContainsBin, sliceEqualSlice_append, ih]

theorem functionMapGetBin_append (bin : List FunctionNode) (name t : List Nat) :
    functionMapGetBin bin (sliceConstructorLen (name ++ t) name.length) =
      functionMapGetBin bin (nameSlice name) := by
  induction bin with
  | nil => rfl
  | cons n ns ih => simp only [functionMapGetBin, sliceEqualSlice_append, ih]

theorem mapGet_append (m : UnorderedMap) (name t : List Nat) :
    mapGet m (sliceConstructorLen (name ++ t) name.length) = mapGet m (nameSlice name) := by
  simp only [mapGet, hashSlice_append, mapGetBin_append]

theorem mapContains_append (m : UnorderedMap) (name t : List Nat) :
    mapContains m (sliceConstructorLen (name ++ t) name.length) =
      mapContains m (nameSlice name) := by
  simp only [mapContains, hashSlice_append, mapContainsBin_append]

theorem functionMapGet_append (m : UnorderedFunctionMap) (name t : List Nat) :
    functionMapGet m (sliceConstructorLen (name ++ t) name.length) =
      functionMapGet m (nameSlice name) := by
  simp only [functionMapGet, hashSlice_append, functionMapGetBin_append]

/-! ## Identifiers -/

theorem identifierLoop_append (cs rest : List Nat) (hcs : cs.all isalnum = true)
    (hrest : isalnum (rest.headD 0) = false) : identifierLoop (cs ++ rest) = (cs.length, rest) := by
  induction cs with
  | nil =>
    cases rest with
    | nil => rfl
    | cons c r =>
      simp only [List.headD_cons] at hrest
      simp [identifierLoop, hrest]
  | cons c cs ih =>
    simp only [List.all_cons, Bool.and_eq_true] at hcs
    simp [identifierLoop, hcs.1, ih hcs.2]

theorem isalpha_not_space (c : Nat) (h : isalpha c = true) :
    isspace c = false ∧ isdigit c = false ∧ c ≠ 33 ∧ c ≠ 40 ∧ c ≠ 35 ∧ c ≠ 125 := by
  simp only [isalpha, Bool.or_eq_true, Bool.and_eq_true, decide_eq_true_eq] at h
  simp only [isspace, isdigit, Bool.or_eq_false_iff, beq_eq_false_iff_ne, Bool.and_eq_false_iff,
    decide_eq_false_iff_not]
  omega

theorem consumeIdentifier_name (I : Interpreter) (ws name rest : List Nat)
    (hws : ws.all isspace = true) (hname : isIdentifierText name = true)
    (hrest : isalnum (rest.headD 0) = false) :
    consumeIdentifier (I.moveTo (ws ++ name ++ rest)) =
      (⟨true, sliceConstructorLen (name ++ rest) name.length⟩, I.moveTo rest) := by
  cases name with
  | nil => simp [isIdentifierText] at hname
  | cons c cs =>
    simp only [isIdentifierText, Bool.and_eq_true] at hname
    have hsp := (isalpha_not_space c hname.1).1
    have hsk : skipBytes (ws ++ (c :: cs) ++ rest) = c :: (cs ++ rest) := by
      rw [List.append_assoc, skipBytes_ws _ _ hws]
      exact skipBytes_cons_of_not_space _ _ hsp
    simp only [consumeIdentifier, moveTo_current, hsk, hname.1, if_true,
      identifierLoop_append cs rest hname.2 hrest]
    rfl

/-! ## Primary expressions -/

theorem Returns.of_forall_succ {α : Type} {g : Nat → Result α} {r : Result α}
    (h : ∀ fuel, g (fuel + 1) = r) : Returns g r :=
  Returns.of_succ h (Returns.const r)

theorem literalLoop_digits (ds rest : List Nat) (v : Nat) (hds : ds.all isdigit = true)
    (hrest : isdigit (rest.headD 0) = false) :
    literalLoop v (ds ++ rest) = (ds.foldl (fun v c => (10 * v + (c - 48)) % U64) v, rest) := by
  induction ds generalizing v with
  | nil =>
    cases rest with
    | nil => rfl
    | cons c cs =>
      simp only [List.headD_cons] at hrest
      simp [literalLoop, hrest]
  | cons d ds ih =>
    simp only [List.all_cons, Bool.and_eq_true] at hds
    simp [literalLoop, hds.1, ih _ hds.2]

theorem foldl_literal_mod (ds : List Nat) (v : Nat) :
    ds.foldl (fun v c => (10 * v + (c - 48)) % U64) (v % U64) =
      (ds.foldl (fun v c => 10 * v + (c - 48)) v) % U64 := by
  induction ds generalizing v with
  | nil => simp
  | cons d ds ih =>
    simp only [List.foldl_cons]
    rw [← ih]
    congr 1
    simp only [U64]
    omega

theorem consumeIdentifier_of_not_alpha (I : Interpreter) (t t2 : List Nat) (d : Nat)
    (ht : skipBytes t = d :: t2) (hd : isalpha d = false) :
    consumeIdentifier (I.moveTo t) = (⟨false, sliceConstructorLen [] 0⟩, I.moveTo (d :: t2)) := by
  simp [consumeIdentifier, ht, hd, Interpreter.moveTo]

theorem consumeLiteral_of_not_digit (I : Interpreter) (t t2 : List Nat) (d : Nat)
    (ht : skipBytes t = d :: t2) (hd : isdigit d = false) :
    consumeLiteral (I.moveTo t) = (⟨false, 0⟩, I.moveTo (d :: t2)) := by
  simp [consumeLiteral, ht, hd, Interpreter.moveTo]

theorem isdigit_not_space (d : Nat) (h : isdigit d = true) :
    isspace d = false ∧ isalpha d = false ∧ d ≠ 33 ∧ d ≠ 40 := by
  simp only [isdigit, Bool.and_eq_true, decide_eq_true_eq] at h
  simp only [isspace, isalpha, Bool.or_eq_false_iff, beq_eq_false_iff_ne, Bool.and_eq_false_iff,
    decide_eq_false_iff_not]
  omega

theorem consumeLiteral_digits (I : Interpreter) (ds rest : List Nat)
    (hds : ds.all isdigit = true) (hne : ds ≠ []) (hrest : isdigit (rest.headD 0) = false) :
    consumeLiteral (I.moveTo (ds ++ rest)) = (⟨true, decimalValue ds % 2 ^ 64⟩, I.moveTo rest) := by
  cases ds with
  | nil => exact absurd rfl hne
  | cons d ds =>
    simp only [List.all_cons, Bool.and_eq_true] at hds
    have hsp := (isdigit_not_space d hds.1).1
    have h0 : (10 * 0 + (d - 48)) % U64 = (10 * 0 + (d - 48)) % U64 % U64 := by simp
    simp only [consumeLiteral, moveTo_current, List.cons_append,
      skipBytes_cons_of_not_space _ _ hsp, hds.1, if_true,
      literalLoop_digits ds rest _ hds.2 hrest]
    rw [foldl_literal_mod]
    simp [decimalValue, U64, Interpreter.moveTo]

theorem e1_skip (fuel : Nat) (I : Interpreter) (eff ins : Bool) (t : List Nat) :
    e1 fuel (I.moveTo (skipBytes t)) eff ins = e1 fuel (I.moveTo t) eff ins := by
  cases fuel with
  | zero => rw [e1, e1]
  | succ f =>
    have h : consumeIdentifier (I.moveTo (skipBytes t)) = consumeIdentifier (I.moveTo t) := by
      simp [consumeIdentifier, skipBytes_idem, Interpreter.moveTo]
    rw [e1, e1, h]

theorem e1_literal (I : Interpreter) (eff ins : Bool) (ws ds rest : List Nat)
    (hws : ws.all isspace = true) (hds : ds.all isdigit = true) (hne : ds ≠ [])
    (hrest : isdigit (rest.headD 0) = false) :
    Returns (fun f => e1 f (I.moveTo (ws ++ ds ++ rest)) eff ins)
      (.ok (decimalValue ds % 2 ^ 64) (I.moveTo rest)) := by
  refine Returns.of_forall_succ (fun f => ?_)
  obtain ⟨d, ds2, rfl⟩ : ∃ d ds2, ds = d :: ds2 := by
    cases ds with
    | nil => exact absurd rfl hne
    | cons d ds2 => exact ⟨d, ds2, rfl⟩
  have hd : isdigit d = true := by
    simp only [List.all_cons, Bool.and_eq_true] at hds
    exact hds.1
  obtain ⟨hsp, hal, _, _⟩ := isdigit_not_space d hd
  have hsk : skipBytes (ws ++ (d :: ds2) ++ rest) = d :: (ds2 ++ rest) := by
    rw [List.append_assoc, skipBytes_ws _ _ hws]
    exact skipBytes_cons_of_not_space _ _ hsp
  rw [e1]
  simp only [consumeIdentifier_of_not_alpha I _ _ d hsk hal]
  have := consumeLiteral_digits I (d :: ds2) rest hds hne hrest
  simp only [List.cons_append] at this
  simp [this]

theorem e1_paren (I : Interpreter) (eff ins : Bool) (ws t c rest : List Nat) (v : Nat)
    (hws : ws.all isspace = true)
    (hexp : Returns (fun f => expression f (I.moveTo t) eff ins) (.ok v (I.moveTo c)))
    (hc : matchBytes [41] (skipBytes c) = some rest) :
    Returns (fun f => e1 f (I.moveTo (ws ++ cstr "(" ++ t)) eff ins) (.ok v (I.moveTo rest)) := by
  have hsk : skipBytes (ws ++ cstr "(" ++ t) = 40 :: t := by
    rw [List.append_assoc, skipBytes_ws _ _ hws]
    rfl
  have hstep : ∀ f, e1 (f + 1) (I.moveTo (ws ++ cstr "(" ++ t)) eff ins =
      (expression f (I.moveTo t) eff ins).bind fun v J => .ok v (consume J (cstr ")")).2 := by
    intro f
    rw [e1]
    simp only [consumeIdentifier_of_not_alpha I _ _ 40 hsk (by decide),
      consumeLiteral_of_not_digit I (40 :: t) t 40 rfl (by decide)]
    have hcons : consume (I.moveTo (40 :: t)) [40] = (true, I.moveTo t) := rfl
    simp [hcons]
  refine Returns.of_succ hstep ?_
  refine Returns.bind hexp ?_
  have : consume (I.moveTo c) (cstr ")") = (true, I.moveTo rest) := by
    rw [consume_moveTo, cstr_rparen, hc]
  simp only [this]
  exact Returns.const _

theorem e2Loop_not (I : Interpreter) (eff ins neg enc : Bool) (ws t : List Nat)
    (r : Result Nat) (hws : ws.all isspace = true)
    (h : Returns (fun f => e2Loop f (I.moveTo t) eff ins (!neg) true) r) :
    Returns (fun f => e2Loop f (I.moveTo (ws ++ cstr "!" ++ t)) eff ins neg enc) r := by
  refine Returns.of_succ (fun f => ?_) h
  have hsk : skipBytes (ws ++ cstr "!" ++ t) = 33 :: t := by
    rw [List.append_assoc, skipBytes_ws _ _ hws]
    rfl
  have hcons : consume (I.moveTo (ws ++ cstr "!" ++ t)) (cstr "!") = (true, I.moveTo t) := by
    rw [consume_moveTo, hsk]
    rfl
  rw [e2Loop]
  simp only [hcons, if_true]

theorem e2Loop_primary (I J : Interpreter) (eff ins neg enc : Bool) (t t2 : List Nat) (d v : Nat)
    (hsk : skipBytes t = d :: t2) (hd : d ≠ 33)
    (h : Returns (fun f => e1 f (I.moveTo t) eff ins) (.ok v J)) :
    Returns (fun f => e2Loop f (I.moveTo t) eff ins neg enc) (.ok (notResult neg enc v) J) := by
  have hcons : consume (I.moveTo t) (cstr "!") = (false, I.moveTo (skipBytes t)) := by
    rw [consume_moveTo, hsk]
    simp [matchBytes, Ne.symm hd]
  have hstep : ∀ f, e2Loop (f + 1) (I.moveTo t) eff ins neg enc =
      (e1 f (I.moveTo t) eff ins).bind fun v K => .ok (notResult neg enc v) K := by
    intro f
    rw [e2Loop]
    simp only [hcons, Bool.false_eq_true, if_false, e1_skip]
    rfl
  refine Returns.of_succ hstep ?_
  exact Returns.bind h (Returns.const _)

theorem notResult_not (neg enc : Bool) (x : Nat) :
    notResult (!neg) true x = notResult neg enc (if x = 0 then 1 else 0) := by
  cases neg <;> cases enc <;> simp only [notResult] <;> split_ifs <;> simp_all <;> omega

theorem notResult_plain (v : Nat) : notResult false false v = v := by
  simp [notResult]

theorem e1_variable (I : Interpreter) (eff ins : Bool) (ws name rest : List Nat)
    (hws : ws.all isspace = true) (hname : isIdentifierText name = true)
    (hrest : isalnum (rest.headD 0) = false) (hpar : matchBytes [40] (skipBytes rest) = none) :
    Returns (fun f => e1 f (I.moveTo (ws ++ name ++ rest)) eff ins)
      (.ok (variableValue I ins name) (I.moveTo (skipBytes rest))) := by
  refine Returns.of_forall_succ (fun f => ?_)
  have hcons : consume (I.moveTo rest) [40] = (false, I.moveTo (skipBytes rest)) := by
    rw [consume_moveTo, hpar]
  rw [e1]
  simp only [consumeIdentifier_name I ws name rest hws hname hrest, cstr_lparen, hcons,
    if_true, Bool.false_eq_true, if_false, moveTo_currentSymbolTable, moveTo_symbolTable,
    mapContains_append, mapGet_append, variableValue]
  split <;> rfl

/-! ## The induction over expressions -/

theorem mem_opsAt_level (k : Nat) (op : BinOp) (h : op ∈ opsAt k) : op.level = k := by
  unfold opsAt at h
  split at h <;> simp at h <;> cases op <;> simp_all [BinOp.level]

theorem selectOp_none_of_mem (ops : List BinOp) (c : List Nat)
    (h : ∀ op ∈ ops, matchBytes op.text c = none) : selectOp ops c = none := by
  induction ops with
  | nil => rfl
  | cons o os ih =>
    simp only [selectOp, h o (List.mem_cons_self _ _)]
    exact ih (fun op hop => h op (List.mem_cons_of_mem _ hop))

theorem selectOp_none_of_noOps (k : Nat) (rest : List Nat) (h : NoOpsUpTo k rest) :
    selectOp (opsAt k) (skipBytes rest) = none :=
  selectOp_none_of_mem _ _ (fun op hop => h.2 op (le_of_eq (mem_opsAt_level k op hop)))

theorem NoOpsUpTo.mono {k j : Nat} {rest : List Nat} (h : NoOpsUpTo k rest) (hj : j ≤ k) :
    NoOpsUpTo j rest := ⟨h.1, fun op hop => h.2 op (le_trans hop hj)⟩

theorem opsAt_ne_three_le (k : Nat) (h : opsAt k ≠ []) : 3 ≤ k ∧ k ≤ 12 := by
  unfold opsAt at h
  split at h <;> simp_all

theorem ParsesAt.climb {I : Interpreter} {eff ins : Bool} {k : Nat} {e : Expr}
    (hk : 3 ≤ k) (hk2 : k ≤ 15) (h : ParsesAt I eff ins k e) : ParsesAt I eff ins (k + 1) e := by
  intro rest hd hno
  by_cases hops : opsAt (k + 1) = []
  · exact Returns.of_succ (fun f => levelFn_pass k f _ eff ins (by omega) hk2 hops)
      (h rest hd (hno.mono (Nat.le_succ k)))
  · exact levelFn_lift k I eff ins _ _ rest _ _ hops (skipBytes_idem rest)
      (h rest hd (hno.mono (Nat.le_succ k)))
      (levelLoop_end k I eff ins _ rest hops (selectOp_none_of_noOps _ rest hno))

theorem level_cases (e : Expr) : e.level ≤ 2 ∨ (opsAt e.level ≠ [] ∧ 3 ≤ e.level) := by
  cases e with
  | lit ws ds => exact Or.inl (by simp [Expr.level])
  | var ws name => exact Or.inl (by simp [Expr.level])
  | paren ws e ws2 => exact Or.inl (by simp [Expr.level])
  | not ws e => exact Or.inl (by simp [Expr.level])
  | bin op l ws r => exact Or.inr ⟨opsAt_level_ne op, three_le_level op⟩

theorem level_le_sixteen (e : Expr) : e.level ≤ 16 := by
  rcases level_cases e with h | ⟨h, _⟩
  · omega
  · have := (opsAt_ne_three_le _ h).2
    omega

/-- What `e2` makes of an operand of `!` and primaries. -/
theorem NegatesAt.e2 {I : Interpreter} {eff ins : Bool} {e : Expr}
    (h : NegatesAt I eff ins e) (rest : List Nat) (hd : isalnum (rest.headD 0) = false)
    (hp : matchBytes [40] (skipBytes rest) = none) :
    ∃ c, skipBytes c = skipBytes rest ∧
      Returns (fun f => levelFn 2 f (I.moveTo (e.render ++ rest)) eff ins)
        (.ok (e.valueIn (variableValue I ins)) (I.moveTo c)) := by
  obtain ⟨c, hc, hr⟩ := h rest false false hd hp
  rw [notResult_plain] at hr
  refine ⟨c, hc, Returns.of_succ (fun f => ?_) hr⟩
  simp only [levelFn]
  rw [FunInterp.e2]

theorem ParsesAt.of_negates {I : Interpreter} {eff ins : Bool} {e : Expr}
    (h : NegatesAt I eff ins e) : ParsesAt I eff ins 3 e := by
  intro rest hd hno
  obtain ⟨c, hc, hr⟩ := h.e2 rest hd hno.1
  exact levelFn_lift 2 I eff ins _ _ rest c _ (by simp [opsAt]) hc hr
    (levelLoop_end 2 I eff ins _ rest (by simp [opsAt]) (selectOp_none_of_noOps _ rest hno))

theorem ParsesAt.of_continues {I : Interpreter} {eff ins : Bool} {k : Nat} {e : Expr}
    (hops : opsAt (k + 1) ≠ []) (h : ContinuesAt I eff ins (k + 1) e) :
    ParsesAt I eff ins (k + 1) e := by
  intro rest hd hno
  exact h rest _ hd (hno.mono (by omega))
    (levelLoop_end k I eff ins _ rest hops (selectOp_none_of_noOps _ rest hno))

/-- The parse of `e` by the level below a loop level. -/
theorem subParse {I : Interpreter} {eff ins : Bool} {e : Expr} (k : Nat) (hk : 2 ≤ k)
    (hk16 : k ≤ 16) (hl : e.level ≤ k)
    (hneg : e.level ≤ 2 → NegatesAt I eff ins e)
    (hparse : ∀ k, 3 ≤ k → k ≤ 16 → e.level ≤ k → ParsesAt I eff ins k e)
    (rest : List Nat) (hd : isalnum (rest.headD 0) = false) (hno : NoOpsUpTo k rest) :
    ∃ c, skipBytes c = skipBytes rest ∧
      Returns (fun f => levelFn k f (I.moveTo (e.render ++ rest)) eff ins)
        (.ok (e.valueIn (variableValue I ins)) (I.moveTo c)) := by
  by_cases h2 : k = 2
  · subst h2
    exact (hneg hl).e2 rest hd hno.1
  · exact ⟨skipBytes rest, skipBytes_idem rest, hparse k (by omega) hk16 hl rest hd hno⟩

theorem ParseFacts.mk {I : Interpreter} {eff ins : Bool} {e : Expr}
    (hneg : e.level ≤ 2 → NegatesAt I eff ins e)
    (hcont : ∀ k, e.level = k + 1 → opsAt (k + 1) ≠ [] → ContinuesAt I eff ins (k + 1) e) :
    ParseFacts I eff ins e := by
  have hparse : ∀ k, 3 ≤ k → k ≤ 16 → e.level ≤ k → ParsesAt I eff ins k e := by
    intro k hk
    induction k, hk using Nat.le_induction with
    | base =>
      intro _ hl
      by_cases hl2 : e.level ≤ 2
      · exact ParsesAt.of_negates (hneg hl2)
      · have hlev : e.level = 2 + 1 := by omega
        exact ParsesAt.of_continues (by simp [opsAt]) (hcont 2 hlev (by simp [opsAt]))
    | succ k hk ih =>
      intro hk16 hl
      by_cases hlk : e.level ≤ k
      · exact (ih (by omega) hlk).climb hk (by omega)
      · have hlev : e.level = k + 1 := by omega
        rcases level_cases e with h2 | ⟨hops, _⟩
        · omega
        · rw [hlev] at hops
          exact ParsesAt.of_continues hops (hcont k hlev hops)
  refine ⟨hneg, hparse, ?_⟩
  intro k hops hl
  by_cases hlk : e.level ≤ k
  · have hk := (opsAt_ne_three_le _ hops)
    intro rest res hd hno hloop
    simp only [Nat.add_sub_cancel] at hno
    obtain ⟨c, hc, hr⟩ := subParse k (by omega) (by omega) hlk hneg hparse rest hd hno
    exact levelFn_lift k I eff ins _ _ rest c _ hops hc hr hloop
  · exact hcont k (by omega) hops

theorem parseFacts (e : Expr) (hwf : e.wellFormed = true) (I : Interpreter) (eff ins : Bool) :
    ParseFacts I eff ins e := by
  induction e with
  | lit ws ds =>
    simp only [Expr.wellFormed, Bool.and_eq_true, Bool.not_eq_true', List.isEmpty_eq_false] at hwf
    obtain ⟨⟨hws, hds⟩, hne⟩ := hwf
    have hne2 : ds ≠ [] := by
      intro h
      subst h
      simp at hne
    refine ParseFacts.mk (fun _ rest neg enc hd _ => ?_) (fun k hk hops => ?_)
    · obtain ⟨d, ds2, rfl⟩ : ∃ d ds2, ds = d :: ds2 := by
        cases ds with
        | nil => exact absurd rfl hne2
        | cons d ds2 => exact ⟨d, ds2, rfl⟩
      have hdd : isdigit d = true := by
        simp only [List.all_cons, Bool.and_eq_true] at hds
        exact hds.1
      obtain ⟨hsp, _, h33, _⟩ := isdigit_not_space d hdd
      have hsk : skipBytes ((Expr.lit ws (d :: ds2)).render ++ rest) = d :: (ds2 ++ rest) := by
        simp only [Expr.render]
        rw [List.append_assoc, skipBytes_ws _ _ hws]
        exact skipBytes_cons_of_not_space _ _ hsp
      exact ⟨rest, rfl, e2Loop_primary I _ eff ins neg enc _ _ d _ hsk h33
        (e1_literal I eff ins ws (d :: ds2) rest hws hds hne2 (not_digit_of_not_alnum _ hd))⟩
    · have := (opsAt_ne_three_le _ hops).1
      simp only [Expr.level] at hk
      omega
  | var ws name =>
    simp only [Expr.wellFormed, Bool.and_eq_true] at hwf
    obtain ⟨hws, hname⟩ := hwf
    refine ParseFacts.mk (fun _ rest neg enc hd hp => ?_) (fun k hk hops => ?_)
    · obtain ⟨c, cs, rfl⟩ : ∃ c cs, name = c :: cs := by
        cases name with
        | nil => simp [isIdentifierText] at hname
        | cons c cs => exact ⟨c, cs, rfl⟩
      have hc : isalpha c = true := by
        simp only [isIdentifierText, Bool.and_eq_true] at hname
        exact hname.1
      obtain ⟨hsp, _, h33, _⟩ := isalpha_not_space c hc
      have hsk : skipBytes ((Expr.var ws (c :: cs)).render ++ rest) = c :: (cs ++ rest) := by
        simp only [Expr.render]
        rw [List.append_assoc, skipBytes_ws _ _ hws]
        exact skipBytes_cons_of_not_space _ _ hsp
      exact ⟨skipBytes rest, skipBytes_idem rest,
        e2Loop_primary I _ eff ins neg enc _ _ c _ hsk h33
          (e1_variable I eff ins ws (c :: cs) rest hws hname hd hp)⟩
    · have := (opsAt_ne_three_le _ hops).1
      simp only [Expr.level] at hk
      omega
  | paren ws e ws2 ih =>
    simp only [Expr.wellFormed, Bool.and_eq_true] at hwf
    obtain ⟨⟨hws, hws2⟩, hwfe⟩ := hwf
    refine ParseFacts.mk (fun _ rest neg enc hd _ => ?_) (fun k hk hops => ?_)
    · have hrender : (Expr.paren ws e ws2).render ++ rest
          = ws ++ cstr "(" ++ (e.render ++ (ws2 ++ 41 :: rest)) := by
        simp [Expr.render]
      have hsk : skipBytes ((Expr.paren ws e ws2).render ++ rest)
          = 40 :: (e.render ++ (ws2 ++ 41 :: rest)) := by
        rw [hrender, List.append_assoc, skipBytes_ws _ _ hws]
        rfl
      have hrest2 : isalnum ((ws2 ++ 41 :: rest).headD 0) = false :=
        headD_ws_append ws2 rest 41 hws2 (by decide)
      have hsk2 : skipBytes (ws2 ++ 41 :: rest) = 41 :: rest := by
        rw [skipBytes_ws _ _ hws2]
        rfl
      have hno : NoOpsUpTo 16 (ws2 ++ 41 :: rest) := by
        refine ⟨?_, fun op _ => ?_⟩
        · rw [hsk2]
          rfl
        · rw [hsk2]
          exact matchBytes_rparen op rest
      have hexp := (ih hwfe).2.1 16 (by norm_num) (le_refl _) (level_le_sixteen e) _ hrest2 hno
      rw [hsk2] at hexp
      have he1 := e1_paren I eff ins ws _ (41 :: rest) rest _ hws hexp rfl
      rw [← hrender] at he1
      exact ⟨rest, rfl, e2Loop_primary I _ eff ins neg enc _ _ 40 _ hsk (by decide) he1⟩
    · have := (opsAt_ne_three_le _ hops).1
      simp only [Expr.level] at hk
      omega
  | not ws e ih =>
    simp only [Expr.wellFormed, Bool.and_eq_true, decide_eq_true_eq] at hwf
    obtain ⟨⟨hws, hwfe⟩, hlev⟩ := hwf
    refine ParseFacts.mk (fun _ rest neg enc hd hp => ?_) (fun k hk hops => ?_)
    · obtain ⟨c, hc, hin⟩ := (ih hwfe).1 hlev rest (!neg) true hd hp
      rw [notResult_not neg enc] at hin
      have := e2Loop_not I eff ins neg enc ws (e.render ++ rest) _ hws hin
      exact ⟨c, hc, by simpa [Expr.render, Expr.valueIn] using this⟩
    · have := (opsAt_ne_three_le _ hops).1
      simp only [Expr.level] at hk
      omega
  | bin op l ws r ihl ihr =>
    simp only [Expr.wellFormed, Bool.and_eq_true, decide_eq_true_eq] at hwf
    obtain ⟨⟨⟨⟨hws, hwfl⟩, hwfr⟩, hll⟩, hlr⟩ := hwf
    refine ParseFacts.mk (fun h2 => ?_) (fun k hk hops => ?_)
    · simp only [Expr.level] at h2
      have := three_le_level op
      omega
    · simp only [Expr.level] at hk
      intro rest res hd hno hloop
      simp only [Nat.add_sub_cancel] at hno
      have hk3 := (opsAt_ne_three_le _ hops).1
      have h12 := level_le_twelve op
      obtain ⟨c, cs, hc, hstart⟩ := render_head r hwfr
      have hrender : (Expr.bin op l ws r).render ++ rest
          = l.render ++ (ws ++ op.text ++ (r.render ++ rest)) := by
        simp [Expr.render]
      have hskL : skipBytes (ws ++ op.text ++ (r.render ++ rest)) = op.text ++ (r.render ++ rest) :=
        skipBytes_text op ws _ hws
      have hdL : isalnum ((ws ++ op.text ++ (r.render ++ rest)).headD 0) = false :=
        headD_text op ws _ hws
      have hnoL : NoOpsUpTo k (ws ++ op.text ++ (r.render ++ rest)) := by
        refine ⟨?_, fun o ho => ?_⟩
        · rw [hskL]
          exact matchBytes_lparen_text op _
        · rw [hskL]
          exact matchBytes_other_level o op _ (by omega)
      rw [hrender]
      refine (ihl hwfl).2.2 k hops (by omega) _ res hdL (by simpa using hnoL) ?_
      have hsel : selectOp (opsAt (k + 1)) (skipBytes (ws ++ op.text ++ (r.render ++ rest)))
          = some (op, r.render ++ rest) := by
        rw [hskL, ← hk, hc, List.cons_append]
        exact selectOp_text op c _ hstart
      obtain ⟨c2, hc2, hr⟩ := subParse k (by omega) (by omega) (by omega) (ihr hwfr).1
        (ihr hwfr).2.1 rest hd hno
      refine levelLoop_step k I eff ins _ _ op _ _ rest c2 res hops hsel hc2 hr ?_
      rw [code_eq_apply op _ _]
      exact hloop

/-- `expression` on the text of a well-formed expression. -/
theorem expression_render (e : Expr) (hwf : e.wellFormed = true) (rest : List Nat)
    (hrest : EndsExpression rest) (I : Interpreter) (eff ins : Bool) :
    Returns (fun f => expression f (I.moveTo (e.render ++ rest)) eff ins)
      (.ok (e.valueIn (variableValue I ins)) (I.moveTo (skipBytes rest))) :=
  (parseFacts e hwf I eff ins).2.1 16 (by norm_num) (le_refl _) (level_le_sixteen e) rest
    hrest.1 ⟨hrest.2.1, fun op _ => hrest.2.2 op⟩

theorem valueIn_of_variableFree (e : Expr) (h : e.variableFree = true) (env : List Nat → Nat) :
    e.valueIn env = e.value := by
  induction e with
  | lit ws ds => rfl
  | var ws name => simp [Expr.variableFree] at h
  | paren ws e ws2 ih => exact ih h
  | not ws e ih =>
    simp only [Expr.valueIn, Expr.value] at ih ⊢
    rw [ih h]
  | bin op l ws r ihl ihr =>
    simp only [Expr.variableFree, Bool.and_eq_true] at h
    simp only [Expr.valueIn, Expr.value] at ihl ihr ⊢
    rw [ihl h.1, ihr h.2]

theorem endsExpression_nil : EndsExpression [] := by
  refine ⟨rfl, rfl, fun op => ?_⟩
  cases op <;> rfl

/-! ## More fuel does not change a result -/

theorem Result.le_refl {α : Type} (r : Result α) : r.le r := Or.inr rfl

theorem Result.le_bind {α β : Type} {r r2 : Result α} {k k2 : α → Interpreter → Result β}
    (h : r.le r2) (hk : ∀ v I, (k v I).le (k2 v I)) : (r.bind k).le (r2.bind k2) := by
  rcases h with h | h
  · subst h
    exact Or.inl rfl
  · subst h
    cases r with
    | ok v I => exact hk v I
    | stop s => exact Or.inr rfl

theorem Result.le_ite {α : Type} {c : Prop} [Decidable c] {a a2 b b2 : Result α}
    (ha : c → a.le a2) (hb : ¬ c → b.le b2) :
    (if c then a else b).le (if c then a2 else b2) := by
  by_cases h : c
  · simp only [h, if_true]
    exact ha h
  · simp only [h, if_false]
    exact hb h

theorem consumePastLoop_mono (n count : Nat) (I : Interpreter) :
    (consumePastLoop n count I).le (consumePastLoop (n + 1) count I) := by
  induction n generalizing count I with
  | zero => exact Or.inl rfl
  | succ n ih =>
    rw [consumePastLoop, consumePastLoop]
    refine Result.le_ite (fun _ => ?_) (fun _ => Result.le_refl _)
    refine Result.le_ite (fun _ => ih _ _) (fun _ => ?_)
    refine Result.le_ite (fun _ => ?_) (fun _ => ?_)
    · exact Result.le_ite (fun _ => Result.le_refl _) (fun _ => ih _ _)
    · split
      · exact Result.le_refl _
      · exact ih _ _

theorem consumePast_mono (n : Nat) (I : Interpreter) :
    (consumePast n I).le (consumePast (n + 1) I) := consumePastLoop_mono n 1 I

theorem countParameters_mono (n k : Nat) (I : Interpreter) :
    (countParameters n k I).le (countParameters (n + 1) k I) := by
  induction n generalizing k I with
  | zero => exact Or.inl rfl
  | succ n ih =>
    rw [countParameters, countParameters]
    refine Result.le_ite (fun _ => Result.le_refl _) (fun _ => ?_)
    exact Result.le_ite (fun _ => ih _ _) (fun _ => Result.le_refl _)

theorem readParameters_mono (n k : Nat) (ps : List Slice) (I : Interpreter) :
    (readParameters n k ps I).le (readParameters (n + 1) k ps I) := by
  induction n generalizing ps I with
  | zero => exact Or.inl rfl
  | succ n ih =>
    rw [readParameters, readParameters]
    refine Result.le_ite (fun _ => Result.le_refl _) (fun _ => ?_)
    exact Result.le_ite (fun _ => ih _ _) (fun _ => Result.le_refl _)

theorem monoAt_zero : MonoAt 0 := by
  unfold MonoAt
  refine ⟨?_, ?_, ?_, ?_, ?_, ?_, ?_, ?_, ?_, ?_, ?_, ?_, ?_, ?_, ?_, ?_, ?_, ?_, ?_, ?_, ?_,
    ?_, ?_, ?_, ?_, ?_, ?_, ?_, ?_, ?_, ?_, ?_, ?_⟩
  all_goals intros
  all_goals exact Or.inl (by
    first
    | rw [e1] | rw [e2] | rw [e2Loop] | rw [e3] | rw [e3Loop] | rw [e4] | rw [e4Loop] | rw [e5]
    | rw [e6] | rw [e6Loop] | rw [e7] | rw [e7Loop] | rw [e8] | rw [e9] | rw [e10] | rw [e11]
    | rw [e11Loop] | rw [e12] | rw [e12Loop] | rw [e13] | rw [e14] | rw [e15] | rw [expression]
    | rw [checkReturn] | rw [blockLoop] | rw [whileStatement] | rw [whileStatementLoop]
    | rw [performFunction] | rw [performFunctionLoop] | rw [functionCall]
    | rw [functionCallLoop] | rw [ifStatement] | rw [statement])

set_option maxHeartbeats 1600000 in
theorem monoAt_succ (n : Nat) (ih : MonoAt n) : MonoAt (n + 1) := by
  unfold MonoAt at ih ⊢
  obtain ⟨h1, h2, h2l, h3, h3l, h4, h4l, h5, h6, h6l, h7, h7l, h8, h9, h10, h11, h11l, h12,
    h12l, h13, h14, h15, hex, hcr, hbl, hws, hwl, hpf, hpl, hfc, hfl, hif, hst⟩ := ih
  refine ⟨?_, ?_, ?_, ?_, ?_, ?_, ?_, ?_, ?_, ?_, ?_, ?_, ?_, ?_, ?_, ?_, ?_, ?_, ?_, ?_, ?_,
    ?_, ?_, ?_, ?_, ?_, ?_, ?_, ?_, ?_, ?_, ?_, ?_⟩
  all_goals intros
  all_goals
    first
    | rw [e1, e1] | rw [e2, e2] | rw [e2Loop, e2Loop] | rw [e3, e3] | rw [e3Loop, e3Loop]
    | rw [e4, e4] | rw [e4Loop, e4Loop] | rw [e5, e5]
    | rw [e6, e6] | rw [e6Loop, e6Loop] | rw [e7, e7] | rw [e7Loop, e7Loop] | rw [e8, e8]
    | rw [e9, e9] | rw [e10, e10] | rw [e11, e11]
    | rw [e11Loop, e11Loop] | rw [e12, e12] | rw [e12Loop, e12Loop] | rw [e13, e13]
    | rw [e14, e14] | rw [e15, e15] | rw [expression, expression]
    | rw [checkReturn, checkReturn] | rw [blockLoop, blockLoop]
    | rw [whileStatement, whileStatement] | rw [whileStatementLoop, whileStatementLoop]
    | rw [performFunction, performFunction] | rw [performFunctionLoop, performFunctionLoop]
    | rw [functionCall, functionCall]
    | rw [functionCallLoop, functionCallLoop] | rw [ifStatement, ifStatement]
    | rw [statement, statement]
  all_goals try dsimp only
  all_goals
    repeat' with_reducible first
      | exact Result.le_refl _
      | exact h1 _ _ _ | exact h2 _ _ _ | exact h2l _ _ _ _ _ | exact h3 _ _ _
      | exact h3l _ _ _ _ | exact h4 _ _ _ | exact h4l _ _ _ _ | exact h5 _ _ _
      | exact h6 _ _ _ | exact h6l _ _ _ _ | exact h7 _ _ _ | exact h7l _ _ _ _
      | exact h8 _ _ _ | exact h9 _ _ _ | exact h10 _ _ _ | exact h11 _ _ _
      | exact h11l _ _ _ _ | exact h12 _ _ _ | exact h12l _ _ _ _ | exact h13 _ _ _
      | exact h14 _ _ _ | exact h15 _ _ _ | exact hex _ _ _ | exact hcr _ _ _
      | exact hbl _ _ _ | exact hws _ _ _ | exact hwl _ _ _ _ | exact hpf _ _ _
      | exact hpl _ _ | exact hfc _ _ _ | exact hfl _ _ _ _ _ | exact hif _ _ _
      | exact hst _ _ _
      | exact consumePast_mono _ _ | exact countParameters_mono _ _ _
      | exact readParameters_mono _ _ _ _
      | (refine Result.le_bind ?_ (fun _ _ => ?_))
      | (refine Result.le_ite (fun _ => ?_) (fun _ => ?_))
      | split

theorem monoAt (n : Nat) : MonoAt n := by
  induction n with
  | zero => exact monoAt_zero
  | succ n ih => exact monoAt_succ n ih

theorem Result.le.stable {α : Type} {f : Nat → Result α} (h : ∀ n, (f n).le (f (n + 1)))
    {n : Nat} {r : Result α} (hr : f n = r) (hne : r ≠ .stop .outOfFuel) :
    ∀ m, n ≤ m → f m = r := by
  intro m hm
  induction m, hm using Nat.le_induction with
  | base => exact hr
  | succ m _ ih =>
    rcases h m with h1 | h1
    · rw [ih] at h1
      exact absurd h1 hne
    · rw [← h1, ih]

theorem Result.le.returns {α : Type} {f : Nat → Result α} (h : ∀ n, (f n).le (f (n + 1)))
    {n : Nat} {r : Result α} (hr : f n = r) (hne : r ≠ .stop .outOfFuel) : Returns f r :=
  ⟨n, Result.le.stable h hr hne⟩

theorem statement_mono (n : Nat) (I : Interpreter) (eff ins : Bool) :
    (statement n I eff ins).le (statement (n + 1) I eff ins) := by
  have h := monoAt n
  unfold MonoAt at h
  exact h.2.2.2.2.2.2.2.2.2.2.2.2.2.2.2.2.2.2.2.2.2.2.2.2.2.2.2.2.2.2.2.2 I eff ins

theorem expression_mono (n : Nat) (I : Interpreter) (eff ins : Bool) :
    (expression n I eff ins).le (expression (n + 1) I eff ins) := by
  have h := monoAt n
  unfold MonoAt at h
  exact h.2.2.2.2.2.2.2.2.2.2.2.2.2.2.2.2.2.2.2.2.2.2.1 I eff ins

theorem blockLoop_mono (n : Nat) (I : Interpreter) (eff ins : Bool) :
    (blockLoop n I eff ins).le (blockLoop (n + 1) I eff ins) := by
  have h := monoAt n
  unfold MonoAt at h
  exact h.2.2.2.2.2.2.2.2.2.2.2.2.2.2.2.2.2.2.2.2.2.2.2.2.1 I eff ins

theorem functionCall_mono (n : Nat) (I : Interpreter) (eff : Bool) (fn : Function) :
    (functionCall n I eff fn).le (functionCall (n + 1) I eff fn) := by
  have h := monoAt n
  unfold MonoAt at h
  exact h.2.2.2.2.2.2.2.2.2.2.2.2.2.2.2.2.2.2.2.2.2.2.2.2.2.2.2.2.2.1 I eff fn

theorem statements_mono (n : Nat) (I : Interpreter) (eff : Bool) :
    (statements n I eff).le (statements (n + 1) I eff) := by
  induction n generalizing I with
  | zero => exact Or.inl rfl
  | succ n ih =>
    rw [statements, statements]
    refine Result.le_bind (statement_mono n I eff false) (fun b J => ?_)
    exact Result.le_ite (fun _ => ih J) (fun _ => Result.le_refl _)

theorem run_mono (n : Nat) (I : Interpreter) : (run n I).le (run (n + 1) I) :=
  Result.le_bind (statements_mono n I true) (fun _ _ => Result.le_refl _)

theorem outcome_eq_outOfFuel {α : Type} (r : Result α) (h : r.outcome = .outOfFuel) :
    r = .stop .outOfFuel := by
  cases r with
  | ok v I => simp [Result.outcome] at h
  | stop s => cases s <;> simp [Result.outcome] at h ⊢

/-- An observation made with some fuel is the observation with any larger fuel. -/
theorem runOutcome_stable {n : Nat} {prog : List Nat} {o : Outcome}
    (h : runOutcome n prog = o) (hne : o ≠ .outOfFuel) :
    ∀ fuel, n ≤ fuel → runOutcome fuel prog = o := by
  intro fuel hf
  have hne2 : run n (interpreterConstructor prog) ≠ .stop .outOfFuel := by
    intro hc
    apply hne
    rw [← h, runOutcome, hc]
    rfl
  have := Result.le.stable (fun n => run_mono n (interpreterConstructor prog)) rfl hne2 fuel hf
  rw [runOutcome, this]
  exact h

/-! ## Scanner steps -/

theorem consume_ok (I : Interpreter) (T s r : List Nat) (h : skipBytes T = s ++ r) :
    consume (I.moveTo T) s = (true, I.moveTo r) := by
  rw [consume_moveTo, h, matchBytes_append]

theorem consume_fail (I : Interpreter) (T s : List Nat) (h : matchBytes s (skipBytes T) = none) :
    consume (I.moveTo T) s = (false, I.moveTo (skipBytes T)) := by
  rw [consume_moveTo, h]

theorem consumeOrFail_ok (I : Interpreter) (T s r : List Nat) (h : skipBytes T = s ++ r) :
    consumeOrFail (I.moveTo T) s = .ok () (I.moveTo r) := by
  simp [consumeOrFail, consume_ok I T s r h]

theorem consumeOrFail_fail (I : Interpreter) (T s : List Nat)
    (h : matchBytes s (skipBytes T) = none) :
    consumeOrFail (I.moveTo T) s = .stop (.fail (I.moveTo (skipBytes T))) := by
  simp [consumeOrFail, consume_fail I T s h, fail]

theorem skipBytes_not_brace (n : Nat) (c : List Nat) :
    blockEnd n (skipBytes c) = blockEnd n c := by
  induction c with
  | nil => rfl
  | cons a as ih =>
    by_cases h : isspace a = true
    · have h1 : a ≠ 123 := by
        intro hc
        subst hc
        simp [isspace] at h
      have h2 : a ≠ 125 := by
        intro hc
        subst hc
        simp [isspace] at h
      simp [skipBytes, h, ih, blockEnd, h1, h2]
    · simp [skipBytes, h]

theorem skipBytes_length_le (c : List Nat) : (skipBytes c).length ≤ c.length := by
  induction c with
  | nil => simp [skipBytes]
  | cons a as ih =>
    simp only [skipBytes]
    split
    · simp only [List.length_cons]
      omega
    · simp

theorem consume_byte (I : Interpreter) (T as : List Nat) (a b : Nat)
    (hs : skipBytes T = a :: as) :
    consume (I.moveTo T) [b] = if b = a then (true, I.moveTo as) else (false, I.moveTo (a :: as)) := by
  rw [consume_moveTo, hs]
  by_cases h : b = a
  · subst h
    simp [matchBytes]
  · simp [matchBytes, h]

/-- `consumePast` ends where the block ends. -/
theorem consumePastLoop_blockEnd (I : Interpreter) (c r : List Nat) (count : Nat)
    (hcount : 0 < count) (h : blockEnd count c = some r) :
    ∀ fuel, c.length < fuel → consumePastLoop fuel count (I.moveTo c) = .ok () (I.moveTo r) := by
  generalize hn : c.length = n
  induction n using Nat.strong_induction_on generalizing c count with
  | _ n ih =>
    subst hn
    intro fuel hfuel
    obtain ⟨f, rfl⟩ : ∃ f, fuel = f + 1 := ⟨fuel - 1, by omega⟩
    rw [consumePastLoop]
    rw [← skipBytes_not_brace] at h
    have hlen := skipBytes_length_le c
    cases hs : skipBytes c with
    | nil => rw [hs] at h; simp [blockEnd] at h
    | cons a as =>
      rw [hs] at h hlen
      have hs2 : skipBytes (a :: as) = a :: as := by rw [← hs, skipBytes_idem]
      simp only [List.length_cons] at hlen
      simp only [blockEnd] at h
      simp only [hcount, if_true, cstr_lbrace, cstr_rbrace, consume_byte I c as a 123 hs]
      by_cases h1 : a = 123
      · subst h1
        simp only [if_true] at h ⊢
        exact ih as.length (by omega) as (count + 1) (by omega) h rfl f (by omega)
      · simp only [h1, if_false] at h
        have h1b : ¬ (123 = a) := fun hc => h1 hc.symm
        simp only [h1b, if_false, Bool.false_eq_true, consume_byte I (a :: as) as a 125 hs2]
        by_cases h2 : a = 125
        · subst h2
          simp only [if_true] at h ⊢
          by_cases h3 : count = 1
          · subst h3
            simp only [if_true, Option.some.injEq] at h
            subst h
            simp
          · simp only [h3, if_false] at h
            have h3b : (count - 1 == 0) = false := by
              simp only [beq_eq_false_iff_ne, ne_eq]
              omega
            simp only [h3b, Bool.false_eq_true, if_false]
            exact ih as.length (by omega) as (count - 1) (by omega) h rfl f (by omega)
        · simp only [h2, if_false] at h
          have h2b : ¬ (125 = a) := fun hc => h2 hc.symm
          simp only [h2b, if_false, Bool.false_eq_true, moveTo_current]
          exact ih as.length (by omega) as count hcount h rfl f (by omega)

theorem consumePast_blockEnd (I : Interpreter) (c r : List Nat) (h : blockEnd 1 c = some r) :
    Returns (fun f => consumePast f (I.moveTo c)) (.ok () (I.moveTo r)) :=
  ⟨c.length + 1, fun fuel hf => consumePastLoop_blockEnd I c r 1 (by norm_num) h fuel (by omega)⟩

theorem blockEnd_noBrace (A rest : List Nat) (count : Nat)
    (hA : A.all (fun c => c != 123 && c != 125) = true) :
    blockEnd count (A ++ rest) = blockEnd count rest := by
  induction A with
  | nil => rfl
  | cons a as ih =>
    simp only [List.all_cons, Bool.and_eq_true, bne_iff_ne, ne_eq] at hA
    simp only [List.cons_append, blockEnd, hA.1.1, hA.1.2, if_false]
    exact ih hA.2

/-! ## Composition of runs -/

theorem Returns.shift {α : Type} {g : Nat → Result α} {r : Result α} (k : Nat)
    (h : Returns g r) : Returns (fun f => g (f + k)) r := by
  obtain ⟨n, hn⟩ := h
  exact ⟨n, fun fuel hf => hn (fuel + k) (by omega)⟩

theorem Returns.of_add {α : Type} {g body : Nat → Result α} {r : Result α} (k : Nat)
    (h : ∀ fuel, g (fuel + k) = body fuel) (hb : Returns body r) : Returns g r := by
  obtain ⟨n, hn⟩ := hb
  refine ⟨n + k, fun fuel hf => ?_⟩
  obtain ⟨m, rfl⟩ : ∃ m, fuel = m + k := ⟨fuel - k, by omega⟩
  rw [h, hn m (by omega)]

theorem Returns.of_add_eq {α : Type} {g : Nat → Result α} {r : Result α} (k : Nat)
    (h : ∀ fuel, g (fuel + k) = r) : Returns g r :=
  Returns.of_add k h (Returns.const r)

theorem Returns.map {α β : Type} {a : Nat → Result α} {r : Result α}
    (k : α → Interpreter → Result β) (ha : Returns a r) :
    Returns (fun fuel => (a fuel).bind k) (r.bind k) := by
  obtain ⟨n, hn⟩ := ha
  exact ⟨n, fun fuel hf => by simp only [hn fuel hf]⟩

theorem Returns.bind_halt {α β : Type} {a : Nat → Result α}
    {k : Nat → α → Interpreter → Result β} {s : Stop} (ha : Returns a (.stop s)) :
    Returns (fun fuel => (a fuel).bind (k fuel)) (.stop s) := by
  obtain ⟨n, hn⟩ := ha
  exact ⟨n, fun fuel hf => by simp only [hn fuel hf, Result.bind]⟩

theorem Returns.unique {α : Type} {g : Nat → Result α} {r r2 : Result α}
    (h : Returns g r) (h2 : Returns g r2) : r = r2 := by
  obtain ⟨n, hn⟩ := h
  obtain ⟨m, hm⟩ := h2
  rw [← hn (max n m) (le_max_left _ _), hm (max n m) (le_max_right _ _)]

/-! ## Leading whitespace does not matter to an expression -/

theorem e2Loop_skip (fuel : Nat) (I : Interpreter) (eff ins neg enc : Bool) (T : List Nat) :
    e2Loop fuel (I.moveTo (skipBytes T)) eff ins neg enc = e2Loop fuel (I.moveTo T) eff ins neg enc := by
  cases fuel with
  | zero => rw [e2Loop, e2Loop]
  | succ f => rw [e2Loop, e2Loop, consume_skip]

theorem levelFn_zero (k : Nat) (I : Interpreter) (eff ins : Bool) :
    levelFn k 0 I eff ins = .stop .outOfFuel := by
  unfold levelFn
  split <;> simp [e1, e2, e3, e4, e5, e6, e7, e8, e9, e10, e11, e12, e13, e14, e15, expression]

theorem levelFn_skip (k : Nat) (hk : 2 ≤ k) (hk16 : k ≤ 16) (fuel : Nat) (I : Interpreter)
    (eff ins : Bool) (T : List Nat) :
    levelFn k fuel (I.moveTo (skipBytes T)) eff ins = levelFn k fuel (I.moveTo T) eff ins := by
  induction k, hk using Nat.le_induction generalizing fuel with
  | base =>
    cases fuel with
    | zero => rw [levelFn_zero, levelFn_zero]
    | succ f =>
      simp only [levelFn]
      rw [e2, e2, e2Loop_skip]
  | succ k hk ih =>
    cases fuel with
    | zero => rw [levelFn_zero, levelFn_zero]
    | succ f =>
      by_cases hops : opsAt (k + 1) = []
      · rw [levelFn_pass k f _ eff ins hk (by omega) hops,
          levelFn_pass k f _ eff ins hk (by omega) hops, ih (by omega)]
      · rw [levelFn_loop k f _ eff ins hops, levelFn_loop k f _ eff ins hops, ih (by omega)]

theorem expression_skip (fuel : Nat) (I : Interpreter) (eff ins : Bool) (T : List Nat) :
    expression fuel (I.moveTo (skipBytes T)) eff ins = expression fuel (I.moveTo T) eff ins :=
  levelFn_skip 16 (by norm_num) (le_refl _) fuel I eff ins T

/-! ## `checkReturn` -/

theorem consumeIdentifier_moveTo (I : Interpreter) (T : List Nat) :
    consumeIdentifier (I.moveTo T) =
      ((consumeIdentifier (I.moveTo T)).1, I.moveTo (consumeIdentifier (I.moveTo T)).2.current) := by
  simp only [consumeIdentifier, moveTo_current]
  split
  · rfl
  · split <;> rfl

theorem consumeIdentifier_snd (I : Interpreter) :
    { (consumeIdentifier I).2 with current := I.current } = I := by
  have h := consumeIdentifier_moveTo I I.current
  rw [moveTo_self] at h
  rw [h]
  rfl

theorem checkReturn_outside (fuel : Nat) (I : Interpreter) (eff : Bool) :
    checkReturn (fuel + 1) I eff false = .ok false I := by
  rw [checkReturn]
  simp [consumeIdentifier_snd]

theorem checkReturn_pending (fuel : Nat) (I : Interpreter) (eff : Bool)
    (h : I.functionReturn.exists_ = true) : checkReturn (fuel + 1) I eff true = .ok true I := by
  rw [checkReturn]
  simp [h]

theorem checkReturn_other (fuel : Nat) (I : Interpreter) (eff ins : Bool)
    (hp : ins = true → I.functionReturn.exists_ = false)
    (hid : ins = true →
      sliceEqualString (consumeIdentifier I).1.item (cstr "return") = false) :
    checkReturn (fuel + 1) I eff ins = .ok false I := by
  cases ins with
  | false => exact checkReturn_outside fuel I eff
  | true =>
    rw [checkReturn]
    simp [hp rfl, hid rfl, consumeIdentifier_snd]

theorem checkReturn_return (I I2 : Interpreter) (eff : Bool) (ws t : List Nat) (v : Nat)
    (hws : ws.all isspace = true) (ht : isalnum (t.headD 0) = false)
    (hp : I.functionReturn.exists_ = false)
    (hexpr : Returns (fun f => expression f (I.moveTo t) eff true) (.ok v I2)) :
    Returns (fun f => checkReturn f (I.moveTo (ws ++ cstr "return" ++ t)) eff true)
      (.ok true { I2 with functionReturn := ⟨true, v⟩ }) := by
  have hid := consumeIdentifier_name I ws (cstr "return") t hws (by decide) ht
  have hstep : ∀ f, checkReturn (f + 1) (I.moveTo (ws ++ cstr "return" ++ t)) eff true =
      (expression f (I.moveTo t) eff true).bind fun v J =>
        .ok true { J with functionReturn := ⟨true, v⟩ } := by
    intro f
    rw [checkReturn]
    have hs : sliceEqualString (sliceConstructorLen (cstr "return" ++ t) (cstr "return").length)
        (cstr "return") = true := by
      rw [sliceEqualString_append]
      decide
    simp only [moveTo_functionReturn, hp, hid, hs, Bool.and_false, Bool.and_true, Bool.true_and,
      Bool.false_eq_true, if_false, if_true]
  exact Returns.of_succ hstep (Returns.map _ hexpr)

/-! ## Statements that start with an identifier -/

@[simp] theorem Result.bind_ok {α β : Type} (v : α) (I : Interpreter)
    (k : α → Interpreter → Result β) : (Result.ok v I).bind k = k v I := rfl

@[simp] theorem Result.bind_stop {α β : Type} (s : Stop) (k : α → Interpreter → Result β) :
    (Result.stop s : Result α).bind k = .stop s := rfl

theorem isKeyword_false (name : List Nat) (h : isKeyword name = false) :
    sliceEqualString (nameSlice name) (cstr "if") = false ∧
    sliceEqualString (nameSlice name) (cstr "else") = false ∧
    sliceEqualString (nameSlice name) (cstr "while") = false ∧
    sliceEqualString (nameSlice name) (cstr "return") = false ∧
    sliceEqualString (nameSlice name) (cstr "fun") = false := by
  simp only [isKeyword, Bool.or_eq_false_iff] at h
  exact ⟨h.1.1.1.1, h.1.1.1.2, h.1.1.2, h.1.2, h.2⟩

/-- The start of `statement` on a text that begins with the identifier `name`: the comment
test fails, `checkReturn` finds no return, and the identifier is consumed. -/
theorem statement_prelude (I : Interpreter) (eff ins : Bool) (ws name rest : List Nat)
    (hws : ws.all isspace = true) (hname : isIdentifierText name = true)
    (hrest : isalnum (rest.headD 0) = false)
    (hp : ins = true → I.functionReturn.exists_ = false)
    (hnr : ins = true → sliceEqualString (nameSlice name) (cstr "return") = false) :
    consume (I.moveTo (ws ++ name ++ rest)) (cstr "#") = (false, I.moveTo (name ++ rest)) ∧
    (∀ f, checkReturn (f + 1) (I.moveTo (name ++ rest)) eff ins = .ok false (I.moveTo (name ++ rest))) ∧
    consumeIdentifier (I.moveTo (name ++ rest)) =
      (⟨true, sliceConstructorLen (name ++ rest) name.length⟩, I.moveTo rest) := by
  obtain ⟨c, cs, rfl⟩ : ∃ c cs, name = c :: cs := by
    cases name with
    | nil => simp [isIdentifierText] at hname
    | cons c cs => exact ⟨c, cs, rfl⟩
  have hc : isalpha c = true := by
    simp only [isIdentifierText, Bool.and_eq_true] at hname
    exact hname.1
  obtain ⟨hsp, _, _, _, h35, _⟩ := isalpha_not_space c hc
  have hsk : skipBytes (ws ++ (c :: cs) ++ rest) = (c :: cs) ++ rest := by
    rw [List.append_assoc, skipBytes_ws _ _ hws]
    exact skipBytes_cons_of_not_space _ _ hsp
  have hid := consumeIdentifier_name I [] (c :: cs) rest rfl hname hrest
  simp only [List.nil_append] at hid
  refine ⟨?_, fun f => ?_, hid⟩
  · have := consume_fail I (ws ++ (c :: cs) ++ rest) (cstr "#") (by
      rw [hsk]
      simp [matchBytes, Ne.symm h35])
    rw [this, hsk]
  · refine checkReturn_other f _ eff ins hp (fun hi => ?_)
    rw [hid]
    simp only [sliceEqualString_append]
    exact hnr hi

/-- An assignment statement `name = e`. -/
theorem statement_assign (I I2 : Interpreter) (eff ins : Bool) (ws name ws2 t : List Nat) (v : Nat)
    (hws : ws.all isspace = true) (hname : isIdentifierText name = true)
    (hkw : isKeyword name = false) (hws2 : ws2.all isspace = true)
    (hp : ins = true → I.functionReturn.exists_ = false)
    (hexpr : Returns (fun f => expression f (I.moveTo t) eff ins) (.ok v I2)) :
    Returns (fun f => statement f (I.moveTo (ws ++ name ++ (ws2 ++ cstr "=" ++ t))) eff ins)
      (.ok true (if eff then
        assignVariable I2 ins (sliceConstructorLen (name ++ (ws2 ++ cstr "=" ++ t)) name.length) v
        else I2)) := by
  obtain ⟨k1, k2, k3, k4, k5⟩ := isKeyword_false name hkw
  have hrest : isalnum ((ws2 ++ cstr "=" ++ t).headD 0) = false := by
    rw [List.append_assoc]
    exact headD_ws_append ws2 _ 61 hws2 (by decide)
  obtain ⟨h1, h2, h3⟩ := statement_prelude I eff ins ws name _ hws hname hrest hp (fun _ => k4)
  have hcons : consume (I.moveTo (ws2 ++ cstr "=" ++ t)) (cstr "=") = (true, I.moveTo t) :=
    consume_ok I _ _ t (by rw [List.append_assoc, skipBytes_ws _ _ hws2]; rfl)
  have hstep : ∀ f, statement (f + 2) (I.moveTo (ws ++ name ++ (ws2 ++ cstr "=" ++ t))) eff ins =
      (expression (f + 1) (I.moveTo t) eff ins).bind fun v J =>
        .ok true (if eff then
          assignVariable J ins (sliceConstructorLen (name ++ (ws2 ++ cstr "=" ++ t)) name.length) v
          else J) := by
    intro f
    rw [statement]
    simp only [h1, h2, h3, hcons, Result.bind_ok, Bool.false_eq_true, if_false, if_true,
      Bool.not_true, Bool.not_false, sliceEqualString_append, k1, k2, k3, k4, k5, Bool.or_self]
    congr 1
    funext v J
    cases eff <;> cases ins <;> simp only [assignVariable, if_true, if_false,
      Bool.false_eq_true, Bool.not_true, Bool.not_false]
    all_goals (repeat' split) <;> rfl
  exact Returns.of_add 2 hstep (Returns.map _ (Returns.shift 1 hexpr))

/-- A call statement `name(...)`: what the call does, discarding its value. -/
theorem statement_call (I : Interpreter) (eff ins : Bool) (ws name ws2 t : List Nat)
    (fn : Function) (r : Result Nat)
    (hws : ws.all isspace = true) (hname : isIdentifierText name = true)
    (hkw : isKeyword name = false) (hws2 : ws2.all isspace = true)
    (hp : ins = true → I.functionReturn.exists_ = false)
    (hfn : functionMapGet I.functionNameMap (nameSlice name) = some fn)
    (hcall : Returns (fun f => functionCall f (I.moveTo (40 :: t)) eff fn) r) :
    Returns (fun f => statement f (I.moveTo (ws ++ name ++ (ws2 ++ 40 :: t))) eff ins)
      (r.bind fun _ J => .ok true J) := by
  obtain ⟨k1, k2, k3, k4, k5⟩ := isKeyword_false name hkw
  have hrest : isalnum ((ws2 ++ 40 :: t).headD 0) = false :=
    headD_ws_append ws2 _ 40 hws2 (by decide)
  obtain ⟨h1, h2, h3⟩ := statement_prelude I eff ins ws name _ hws hname hrest hp (fun _ => k4)
  have hsk : skipBytes (ws2 ++ 40 :: t) = 40 :: t := by
    rw [skipBytes_ws _ _ hws2]
    rfl
  have hcons : consume (I.moveTo (ws2 ++ 40 :: t)) (cstr "=") = (false, I.moveTo (40 :: t)) := by
    rw [consume_fail I _ _ (by rw [hsk]; rfl), hsk]
  have hstep : ∀ f, statement (f + 2) (I.moveTo (ws ++ name ++ (ws2 ++ 40 :: t))) eff ins =
      (functionCall (f + 1) (I.moveTo (40 :: t)) eff fn).bind fun _ J => .ok true J := by
    intro f
    rw [statement]
    simp only [h1, h2, h3, hcons, Result.bind_ok, Bool.false_eq_true, if_false, if_true,
      Bool.not_true, Bool.not_false, sliceEqualString_append, k1, k2, k3, k4, k5, Bool.or_self,
      moveTo_functionNameMap, functionMapGet_append, hfn]
  exact Returns.of_add 2 hstep (Returns.map _ (Returns.shift 1 hcall))

/-- A call of an identifier that is not in the registry fails before anything else. -/
theorem statement_call_unknown (I : Interpreter) (eff ins : Bool) (ws name ws2 t : List Nat)
    (hws : ws.all isspace = true) (hname : isIdentifierText name = true)
    (hkw : isKeyword name = false) (hws2 : ws2.all isspace = true)
    (hp : ins = true → I.functionReturn.exists_ = false)
    (hfn : functionMapGet I.functionNameMap (nameSlice name) = none) :
    Returns (fun f => statement f (I.moveTo (ws ++ name ++ (ws2 ++ 40 :: t))) eff ins)
      (.stop (.fail (I.moveTo (40 :: t)))) := by
  obtain ⟨k1, k2, k3, k4, k5⟩ := isKeyword_false name hkw
  have hrest : isalnum ((ws2 ++ 40 :: t).headD 0) = false :=
    headD_ws_append ws2 _ 40 hws2 (by decide)
  obtain ⟨h1, h2, h3⟩ := statement_prelude I eff ins ws name _ hws hname hrest hp (fun _ => k4)
  have hsk : skipBytes (ws2 ++ 40 :: t) = 40 :: t := by
    rw [skipBytes_ws _ _ hws2]
    rfl
  have hcons : consume (I.moveTo (ws2 ++ 40 :: t)) (cstr "=") = (false, I.moveTo (40 :: t)) := by
    rw [consume_fail I _ _ (by rw [hsk]; rfl), hsk]
  refine Returns.of_add_eq 2 (fun f => ?_)
  rw [statement]
  simp only [h1, h2, h3, hcons, Result.bind_ok, Bool.false_eq_true, if_false, if_true,
    Bool.not_true, Bool.not_false, sliceEqualString_append, k1, k2, k3, k4, k5, Bool.or_self,
    moveTo_functionNameMap, functionMapGet_append, hfn, fail]

/-! ## Calls -/

theorem functionCallLoop_done (fuel : Nat) (I : Interpreter) (eff : Bool) (fn : Function)
    (table : UnorderedMap) (count : Nat) (T t : List Nat) (h : skipBytes T = 41 :: t) :
    functionCallLoop (fuel + 1) (I.moveTo T) eff fn table count = .ok (table, count) (I.moveTo t) := by
  rw [functionCallLoop]
  simp [consume_ok I T [41] t h]

theorem functionCallLoop_arg (I I2 : Interpreter) (eff : Bool) (fn : Function)
    (table : UnorderedMap) (count v : Nat) (T : List Nat) (p : Slice)
    (r : Result (UnorderedMap × Nat))
    (hT : matchBytes [41] (skipBytes T) = none)
    (hexpr : Returns (fun f => expression f (I.moveTo T) eff true) (.ok v I2))
    (hp : fn.parameters.get? count = some p)
    (hnext : Returns (fun f => functionCallLoop f (consume I2 (cstr ",")).2 eff fn
      (mapInsert table p v) ((count + 1) % U64)) r) :
    Returns (fun f => functionCallLoop f (I.moveTo T) eff fn table count) r := by
  have hstep : ∀ f, functionCallLoop (f + 1) (I.moveTo T) eff fn table count =
      (expression f (I.moveTo T) eff true).bind fun value J =>
        functionCallLoop f (consume J (cstr ",")).2 eff fn (mapInsert table p value)
          ((count + 1) % U64) := by
    intro f
    rw [functionCallLoop]
    simp only [consume_fail I T (cstr ")") hT, Bool.false_eq_true, if_false, expression_skip, hp]
  exact Returns.of_succ hstep (Returns.bind hexpr hnext)

theorem functionCallLoop_surplus (I I2 : Interpreter) (eff : Bool) (fn : Function)
    (table : UnorderedMap) (count v : Nat) (T : List Nat)
    (hT : matchBytes [41] (skipBytes T) = none)
    (hexpr : Returns (fun f => expression f (I.moveTo T) eff true) (.ok v I2))
    (hp : fn.parameters.get? count = none) :
    Returns (fun f => functionCallLoop f (I.moveTo T) eff fn table count)
      (.stop (.undefinedBehaviour I2)) := by
  have hstep : ∀ f, functionCallLoop (f + 1) (I.moveTo T) eff fn table count =
      (expression f (I.moveTo T) eff true).bind fun _ J => .stop (.undefinedBehaviour J) := by
    intro f
    rw [functionCallLoop]
    simp only [consume_fail I T (cstr ")") hT, Bool.false_eq_true, if_false, expression_skip, hp]
  exact Returns.of_succ hstep (Returns.bind hexpr (Returns.const _))

/-- A call of a function other than `print` whose arguments match its parameters. -/
theorem functionCall_user (I I1 I2 : Interpreter) (eff : Bool) (fn : Function)
    (table : UnorderedMap) (v : Nat)
    (hname : sliceEqualString fn.name (cstr "print") = false)
    (hargs : Returns (fun f => functionCallLoop f (consume I (cstr "(")).2 eff fn mapCreate 0)
      (.ok (table, fn.numParams) I1))
    (hbody : Returns (fun f => performFunction f { I1 with currentSymbolTable := table } eff fn)
      (.ok v I2)) :
    Returns (fun f => functionCall f I eff fn)
      (.ok v { I2 with currentSymbolTable := I.currentSymbolTable }) := by
  have hstep : ∀ f, functionCall (f + 1) I eff fn =
      (functionCallLoop f (consume I (cstr "(")).2 eff fn mapCreate 0).bind
        fun (r : UnorderedMap × Nat) J =>
          if r.2 != fn.numParams then fail J
          else (performFunction f { J with currentSymbolTable := r.1 } eff fn).bind
            fun v K => .ok v { K with currentSymbolTable := I.currentSymbolTable } := by
    intro f
    rw [functionCall]
    simp only [hname, Bool.false_eq_true, if_false]
  refine Returns.of_succ hstep (Returns.bind hargs ?_)
  simp only [bne_self_eq_false, Bool.false_eq_true, if_false]
  exact Returns.bind hbody (Returns.const _)

/-- A call of `print`: one line of output (with `effects`), value `0`. -/
theorem functionCall_print (I I1 : Interpreter) (eff : Bool) (fn : Function)
    (table : UnorderedMap) (p : Slice)
    (hname : sliceEqualString fn.name (cstr "print") = true)
    (hp : fn.parameters.get? 0 = some p)
    (hargs : Returns (fun f => functionCallLoop f (consume I (cstr "(")).2 eff fn mapCreate 0)
      (.ok (table, fn.numParams) I1)) :
    Returns (fun f => functionCall f I eff fn)
      (.ok 0 { I1 with
        currentSymbolTable := I.currentSymbolTable
        output := if eff then I1.output ++ [mapGet table p] else I1.output }) := by
  have hstep : ∀ f, functionCall (f + 1) I eff fn =
      (functionCallLoop f (consume I (cstr "(")).2 eff fn mapCreate 0).bind
        fun (r : UnorderedMap × Nat) J =>
          if r.2 != fn.numParams then fail J
          else .ok 0 { J with
            currentSymbolTable := I.currentSymbolTable
            output := if eff then J.output ++ [mapGet r.1 p] else J.output } := by
    intro f
    rw [functionCall]
    simp only [hname, if_true, hp]
  refine Returns.of_succ hstep (Returns.bind hargs ?_)
  simp only [bne_self_eq_false, Bool.false_eq_true, if_false]
  exact Returns.const _

theorem performFunction_body (I I2 : Interpreter) (eff : Bool) (fn : Function) (body : List Nat)
    (v : Nat) (hptr : skipBytes fn.pointer = 123 :: body)
    (hloop : Returns (fun f => performFunctionLoop f (I.moveTo body) eff) (.ok v I2)) :
    Returns (fun f => performFunction f I eff fn)
      (if I2.functionReturn.exists_ then
        .ok I2.functionReturn.item
          { I2 with functionReturn := ⟨false, 0⟩, current := I.current }
       else .ok v { I2 with current := I.current }) := by
  have hstep : ∀ f, performFunction (f + 1) I eff fn =
      (performFunctionLoop f (I.moveTo body) eff).bind fun v J =>
        if J.functionReturn.exists_ then
          .ok J.functionReturn.item { J with functionReturn := ⟨false, 0⟩, current := I.current }
        else .ok v { J with current := I.current } := by
    intro f
    rw [performFunction]
    have := consumeOrFail_ok I fn.pointer (cstr "\x7b") body hptr
    simp only [Interpreter.moveTo] at this
    simp only [this, Result.bind_ok]
    rfl
  exact Returns.of_succ hstep (Returns.bind hloop (Returns.const _))

theorem performFunctionLoop_close (fuel : Nat) (I : Interpreter) (eff : Bool) (T t : List Nat)
    (h : skipBytes T = 125 :: t) :
    performFunctionLoop (fuel + 1) (I.moveTo T) eff = .ok 0 (I.moveTo t) := by
  rw [performFunctionLoop]
  simp [consume_ok I T [125] t h]

theorem performFunctionLoop_pending (fuel : Nat) (I : Interpreter) (eff : Bool) (T : List Nat)
    (hT : matchBytes [125] (skipBytes T) = none) (hp : I.functionReturn.exists_ = true) :
    performFunctionLoop (fuel + 1) (I.moveTo T) eff =
      .ok I.functionReturn.item
        (Interpreter.moveTo { I with functionReturn := ⟨false, 0⟩ } (skipBytes T)) := by
  rw [performFunctionLoop]
  simp only [consume_fail I T (cstr "\x7d") hT, Bool.false_eq_true, if_false,
    moveTo_functionReturn, hp, if_true]
  rfl

theorem performFunctionLoop_return (I I1 : Interpreter) (eff : Bool) (T : List Nat)
    (hT : matchBytes [125] (skipBytes T) = none) (hp : I.functionReturn.exists_ = false)
    (hcr : Returns (fun f => checkReturn f (I.moveTo (skipBytes T)) eff true) (.ok true I1)) :
    Returns (fun f => performFunctionLoop f (I.moveTo T) eff)
      (.ok I1.functionReturn.item { I1 with functionReturn := ⟨false, 0⟩ }) := by
  have hstep : ∀ f, performFunctionLoop (f + 1) (I.moveTo T) eff =
      (checkReturn f (I.moveTo (skipBytes T)) eff true).bind fun r J =>
        if r then .ok J.functionReturn.item { J with functionReturn := ⟨false, 0⟩ }
        else (statement f J eff true).bind fun s K =>
          if !s then fail K else performFunctionLoop f K eff := by
    intro f
    rw [performFunctionLoop]
    simp only [consume_fail I T (cstr "\x7d") hT, Bool.false_eq_true, if_false,
      moveTo_functionReturn, hp]
  exact Returns.of_succ hstep (Returns.bind hcr (Returns.const _))

theorem performFunctionLoop_statement (I I1 I2 : Interpreter) (eff : Bool) (T : List Nat)
    (r : Result Nat)
    (hT : matchBytes [125] (skipBytes T) = none) (hp : I.functionReturn.exists_ = false)
    (hcr : Returns (fun f => checkReturn f (I.moveTo (skipBytes T)) eff true) (.ok false I1))
    (hst : Returns (fun f => statement f I1 eff true) (.ok true I2))
    (hnext : Returns (fun f => performFunctionLoop f I2 eff) r) :
    Returns (fun f => performFunctionLoop f (I.moveTo T) eff) r := by
  have hstep : ∀ f, performFunctionLoop (f + 1) (I.moveTo T) eff =
      (checkReturn f (I.moveTo (skipBytes T)) eff true).bind fun r J =>
        if r then .ok J.functionReturn.item { J with functionReturn := ⟨false, 0⟩ }
        else (statement f J eff true).bind fun s K =>
          if !s then fail K else performFunctionLoop f K eff := by
    intro f
    rw [performFunctionLoop]
    simp only [consume_fail I T (cstr "\x7d") hT, Bool.false_eq_true, if_false,
      moveTo_functionReturn, hp]
  refine Returns.of_succ hstep (Returns.bind hcr ?_)
  simp only [Bool.false_eq_true, if_false]
  refine Returns.bind hst ?_
  simp only [Bool.not_true, Bool.false_eq_true, if_false]
  exact hnext

/-! ## Blocks -/

theorem blockLoop_close (fuel : Nat) (I : Interpreter) (eff ins : Bool) (T t : List Nat)
    (h : skipBytes T = 125 :: t) :
    blockLoop (fuel + 1) (I.moveTo T) eff ins = .ok false (I.moveTo t) := by
  rw [blockLoop]
  simp [consume_ok I T [125] t h]

theorem blockLoop_return (I I1 I2 : Interpreter) (eff ins : Bool) (T : List Nat)
    (hT : matchBytes [125] (skipBytes T) = none)
    (hcr : Returns (fun f => checkReturn f (I.moveTo (skipBytes T)) eff ins) (.ok true I1))
    (hskip : Returns (fun f => consumePast f I1) (.ok () I2)) :
    Returns (fun f => blockLoop f (I.moveTo T) eff ins) (.ok true I2) := by
  have hstep : ∀ f, blockLoop (f + 1) (I.moveTo T) eff ins =
      (checkReturn f (I.moveTo (skipBytes T)) eff ins).bind fun r J =>
        if r then (consumePast f J).bind fun _ K => .ok true K
        else (statement f J eff ins).bind fun s K =>
          if !s then fail K else blockLoop f K eff ins := by
    intro f
    rw [blockLoop]
    simp only [consume_fail I T (cstr "\x7d") hT, Bool.false_eq_true, if_false]
  refine Returns.of_succ hstep (Returns.bind hcr ?_)
  simp only [if_true]
  exact Returns.bind hskip (Returns.const _)

theorem blockLoop_statement (I I1 I2 : Interpreter) (eff ins : Bool) (T : List Nat)
    (r : Result Bool)
    (hT : matchBytes [125] (skipBytes T) = none)
    (hcr : Returns (fun f => checkReturn f (I.moveTo (skipBytes T)) eff ins) (.ok false I1))
    (hst : Returns (fun f => statement f I1 eff ins) (.ok true I2))
    (hnext : Returns (fun f => blockLoop f I2 eff ins) r) :
    Returns (fun f => blockLoop f (I.moveTo T) eff ins) r := by
  have hstep : ∀ f, blockLoop (f + 1) (I.moveTo T) eff ins =
      (checkReturn f (I.moveTo (skipBytes T)) eff ins).bind fun r J =>
        if r then (consumePast f J).bind fun _ K => .ok true K
        else (statement f J eff ins).bind fun s K =>
          if !s then fail K else blockLoop f K eff ins := by
    intro f
    rw [blockLoop]
    simp only [consume_fail I T (cstr "\x7d") hT, Bool.false_eq_true, if_false]
  refine Returns.of_succ hstep (Returns.bind hcr ?_)
  simp only [Bool.false_eq_true, if_false]
  refine Returns.bind hst ?_
  simp only [Bool.not_true, Bool.false_eq_true, if_false]
  exact hnext

/-! ## `if` -/

/-- The common start of the `if` statement: condition and opening brace of the block. -/
theorem ifStatement_start (I : Interpreter) (eff ins : Bool) (T T1 : List Nat)
    (hT : skipBytes T = 40 :: T1) (f : Nat) :
    ifStatement (f + 1) (I.moveTo T) eff ins =
      (expression f (I.moveTo T1) eff ins).bind fun v K =>
        (consumeOrFail K (cstr ")")).bind fun _ K =>
          if v == 0 then
            (consumeOrFail K (cstr "\x7b")).bind fun _ K =>
            (consumePast f K).bind fun _ K =>
              if sliceEqualString (consumeIdentifier K).1.item (cstr "else") then
                (consumeOrFail (consumeIdentifier K).2 (cstr "\x7b")).bind fun _ K2 =>
                (blockLoop f K2 eff ins).bind fun _ K3 => .ok true K3
              else .ok true { (consumeIdentifier K).2 with current := K.current }
          else
            (consumeOrFail K (cstr "\x7b")).bind fun _ K =>
            (blockLoop f K eff ins).bind fun returned K =>
              if returned then .ok true K
              else
                if sliceEqualString (consumeIdentifier K).1.item (cstr "else") then
                  (consumeOrFail (consumeIdentifier K).2 (cstr "\x7b")).bind fun _ K2 =>
                  (consumePast f K2).bind fun _ K3 => .ok true K3
                else .ok true { (consumeIdentifier K).2 with current := K.current } := by
  rw [ifStatement]
  simp only [consumeOrFail_ok I T (cstr "(") T1 hT, Result.bind_ok]

theorem consumeIdentifier_else (K : Interpreter) (ws rE : List Nat)
    (hws : ws.all isspace = true) (hrE : isalnum (rE.headD 0) = false) :
    sliceEqualString (consumeIdentifier (K.moveTo (ws ++ cstr "else" ++ rE))).1.item (cstr "else")
      = true ∧
    (consumeIdentifier (K.moveTo (ws ++ cstr "else" ++ rE))).2 = K.moveTo rE := by
  rw [consumeIdentifier_name K ws (cstr "else") rE hws (by decide) hrE]
  refine ⟨?_, rfl⟩
  simp only [sliceEqualString_append]
  decide

/-- `if` with a nonzero condition and an `else` part: the block runs, the `else` block is
skipped. -/
theorem ifStatement_true_else (I J K : Interpreter) (eff ins : Bool)
    (T T1 c1 c2 A ws3 rE B rest : List Nat) (v : Nat)
    (hT : skipBytes T = 40 :: T1)
    (hcond : Returns (fun f => expression f (I.moveTo T1) eff ins) (.ok v (J.moveTo c1)))
    (hv : v ≠ 0)
    (hc1 : skipBytes c1 = 41 :: c2) (hc2 : skipBytes c2 = 123 :: A)
    (hblock : Returns (fun f => blockLoop f (J.moveTo A) eff ins)
      (.ok false (K.moveTo (ws3 ++ cstr "else" ++ rE))))
    (hws3 : ws3.all isspace = true) (hrE : isalnum (rE.headD 0) = false)
    (hrE2 : skipBytes rE = 123 :: B) (hB : blockEnd 1 B = some rest) :
    Returns (fun f => ifStatement f (I.moveTo T) eff ins) (.ok true (K.moveTo rest)) := by
  refine Returns.of_succ (ifStatement_start I eff ins T T1 hT) ?_
  refine Returns.bind hcond ?_
  have hv0 : (v == 0) = false := by simpa using hv
  simp only [consumeOrFail_ok J c1 (cstr ")") c2 hc1, Result.bind_ok, hv0, Bool.false_eq_true,
    if_false, consumeOrFail_ok J c2 (cstr "\x7b") A hc2]
  refine Returns.bind hblock ?_
  obtain ⟨he1, he2⟩ := consumeIdentifier_else K ws3 rE hws3 hrE
  simp only [Bool.false_eq_true, if_false, he1, he2, if_true,
    consumeOrFail_ok K rE (cstr "\x7b") B hrE2, Result.bind_ok]
  exact Returns.bind (consumePast_blockEnd K B rest hB) (Returns.const _)

/-- `if` with a nonzero condition whose block is stopped by a return. -/
theorem ifStatement_true_return (I J K : Interpreter) (eff ins : Bool)
    (T T1 c1 c2 A : List Nat) (v : Nat)
    (hT : skipBytes T = 40 :: T1)
    (hcond : Returns (fun f => expression f (I.moveTo T1) eff ins) (.ok v (J.moveTo c1)))
    (hv : v ≠ 0)
    (hc1 : skipBytes c1 = 41 :: c2) (hc2 : skipBytes c2 = 123 :: A)
    (hblock : Returns (fun f => blockLoop f (J.moveTo A) eff ins) (.ok true K)) :
    Returns (fun f => ifStatement f (I.moveTo T) eff ins) (.ok true K) := by
  refine Returns.of_succ (ifStatement_start I eff ins T T1 hT) ?_
  refine Returns.bind hcond ?_
  have hv0 : (v == 0) = false := by simpa using hv
  simp only [consumeOrFail_ok J c1 (cstr ")") c2 hc1, Result.bind_ok, hv0, Bool.false_eq_true,
    if_false, consumeOrFail_ok J c2 (cstr "\x7b") A hc2]
  refine Returns.bind hblock ?_
  simp only [if_true]
  exact Returns.const _

/-- `if` with a nonzero condition and no `else` part. -/
theorem ifStatement_true_plain (I J K : Interpreter) (eff ins : Bool)
    (T T1 c1 c2 A rA : List Nat) (v : Nat)
    (hT : skipBytes T = 40 :: T1)
    (hcond : Returns (fun f => expression f (I.moveTo T1) eff ins) (.ok v (J.moveTo c1)))
    (hv : v ≠ 0)
    (hc1 : skipBytes c1 = 41 :: c2) (hc2 : skipBytes c2 = 123 :: A)
    (hblock : Returns (fun f => blockLoop f (J.moveTo A) eff ins) (.ok false (K.moveTo rA)))
    (hrA : sliceEqualString (consumeIdentifier (K.moveTo rA)).1.item (cstr "else") = false) :
    Returns (fun f => ifStatement f (I.moveTo T) eff ins) (.ok true (K.moveTo rA)) := by
  refine Returns.of_succ (ifStatement_start I eff ins T T1 hT) ?_
  refine Returns.bind hcond ?_
  have hv0 : (v == 0) = false := by simpa using hv
  simp only [consumeOrFail_ok J c1 (cstr ")") c2 hc1, Result.bind_ok, hv0, Bool.false_eq_true,
    if_false, consumeOrFail_ok J c2 (cstr "\x7b") A hc2]
  refine Returns.bind hblock ?_
  simp only [Bool.false_eq_true, if_false, hrA, moveTo_current]
  rw [consumeIdentifier_moveTo]
  exact Returns.const _

/-- `if` with a zero condition and an `else` part: the block is skipped, the `else` block
runs. -/
theorem ifStatement_false_else (I J : Interpreter) (eff ins : Bool)
    (T T1 c1 c2 A ws3 rE B : List Nat) (r : Result Bool)
    (hT : skipBytes T = 40 :: T1)
    (hcond : Returns (fun f => expression f (I.moveTo T1) eff ins) (.ok 0 (J.moveTo c1)))
    (hc1 : skipBytes c1 = 41 :: c2) (hc2 : skipBytes c2 = 123 :: A)
    (hA : blockEnd 1 A = some (ws3 ++ cstr "else" ++ rE))
    (hws3 : ws3.all isspace = true) (hrE : isalnum (rE.headD 0) = false)
    (hrE2 : skipBytes rE = 123 :: B)
    (hblock : Returns (fun f => blockLoop f (J.moveTo B) eff ins) r) :
    Returns (fun f => ifStatement f (I.moveTo T) eff ins) (r.bind fun _ K => .ok true K) := by
  refine Returns.of_succ (ifStatement_start I eff ins T T1 hT) ?_
  refine Returns.bind hcond ?_
  simp only [consumeOrFail_ok J c1 (cstr ")") c2 hc1, Result.bind_ok, beq_self_eq_true,
    if_true, consumeOrFail_ok J c2 (cstr "\x7b") A hc2]
  refine Returns.bind (consumePast_blockEnd J A _ hA) ?_
  obtain ⟨he1, he2⟩ := consumeIdentifier_else J ws3 rE hws3 hrE
  simp only [he1, he2, if_true, consumeOrFail_ok J rE (cstr "\x7b") B hrE2, Result.bind_ok]
  exact Returns.map _ hblock

/-- `if` with a zero condition and no `else` part. -/
theorem ifStatement_false_plain (I J : Interpreter) (eff ins : Bool)
    (T T1 c1 c2 A rA : List Nat)
    (hT : skipBytes T = 40 :: T1)
    (hcond : Returns (fun f => expression f (I.moveTo T1) eff ins) (.ok 0 (J.moveTo c1)))
    (hc1 : skipBytes c1 = 41 :: c2) (hc2 : skipBytes c2 = 123 :: A)
    (hA : blockEnd 1 A = some rA)
    (hrA : sliceEqualString (consumeIdentifier (J.moveTo rA)).1.item (cstr "else") = false) :
    Returns (fun f => ifStatement f (I.moveTo T) eff ins) (.ok true (J.moveTo rA)) := by
  refine Returns.of_succ (ifStatement_start I eff ins T T1 hT) ?_
  refine Returns.bind hcond ?_
  simp only [consumeOrFail_ok J c1 (cstr ")") c2 hc1, Result.bind_ok, beq_self_eq_true,
    if_true, consumeOrFail_ok J c2 (cstr "\x7b") A hc2]
  refine Returns.bind (consumePast_blockEnd J A _ hA) ?_
  simp only [hrA, Bool.false_eq_true, if_false, moveTo_current]
  rw [consumeIdentifier_moveTo]
  exact Returns.const _

/-- The statement `if …` is what `ifStatement` does after the keyword. -/
theorem statement_if (I : Interpreter) (eff ins : Bool) (ws rest : List Nat) (r : Result Bool)
    (hws : ws.all isspace = true) (hrest : isalnum (rest.headD 0) = false)
    (hp : ins = true → I.functionReturn.exists_ = false)
    (hif : Returns (fun f => ifStatement f (I.moveTo rest) eff ins) r) :
    Returns (fun f => statement f (I.moveTo (ws ++ cstr "if" ++ rest)) eff ins) r := by
  obtain ⟨h1, h2, h3⟩ := statement_prelude I eff ins ws (cstr "if") rest hws (by decide) hrest hp
    (fun _ => by decide)
  have hstep : ∀ f, statement (f + 2) (I.moveTo (ws ++ cstr "if" ++ rest)) eff ins =
      ifStatement (f + 1) (I.moveTo rest) eff ins := by
    intro f
    rw [statement]
    have hs : sliceEqualString (sliceConstructorLen (cstr "if" ++ rest) (cstr "if").length)
        (cstr "if") = true := by
      rw [sliceEqualString_append]
      decide
    simp only [h1, h2, h3, Result.bind_ok, Bool.false_eq_true, if_false, if_true,
      Bool.not_true, hs]
  exact Returns.of_add 2 hstep (Returns.shift 1 hif)

/-! ## `while` -/

theorem whileStatementLoop_start (I : Interpreter) (eff ins : Bool) (P T1 P0 : List Nat)
    (hP : skipBytes P = 40 :: T1) (f : Nat) :
    whileStatementLoop (f + 1) (I.moveTo P) eff ins P0 =
      (expression f (I.moveTo T1) eff ins).bind fun v K =>
        (consumeOrFail K (cstr ")")).bind fun _ K =>
          if v == 0 then
            (consumeOrFail K (cstr "\x7b")).bind fun _ K =>
            (consumePast f K).bind fun _ K => .ok false K
          else
            (consumeOrFail K (cstr "\x7b")).bind fun _ K =>
            (blockLoop f K eff ins).bind fun returned K =>
              if returned then .ok true K
              else whileStatementLoop f { K with current := P0 } eff ins P0 := by
  rw [whileStatementLoop]
  simp only [consumeOrFail_ok I P (cstr "(") T1 hP, Result.bind_ok]

/-- The condition is zero: the body is skipped and the loop ends. -/
theorem whileStatementLoop_exit (I J : Interpreter) (eff ins : Bool)
    (P T1 c1 c2 A rest P0 : List Nat)
    (hP : skipBytes P = 40 :: T1)
    (hcond : Returns (fun f => expression f (I.moveTo T1) eff ins) (.ok 0 (J.moveTo c1)))
    (hc1 : skipBytes c1 = 41 :: c2) (hc2 : skipBytes c2 = 123 :: A)
    (hA : blockEnd 1 A = some rest) :
    Returns (fun f => whileStatementLoop f (I.moveTo P) eff ins P0) (.ok false (J.moveTo rest)) := by
  refine Returns.of_succ (whileStatementLoop_start I eff ins P T1 P0 hP) ?_
  refine Returns.bind hcond ?_
  simp only [consumeOrFail_ok J c1 (cstr ")") c2 hc1, Result.bind_ok, beq_self_eq_true,
    if_true, consumeOrFail_ok J c2 (cstr "\x7b") A hc2]
  exact Returns.bind (consumePast_blockEnd J A _ hA) (Returns.const _)

/-- The condition is nonzero and the body runs to its closing brace: the loop goes on from
the position of the condition. -/
theorem whileStatementLoop_iterate (I J K : Interpreter) (eff ins : Bool)
    (P T1 c1 c2 A P0 : List Nat) (v : Nat) (r : Result Bool)
    (hP : skipBytes P = 40 :: T1)
    (hcond : Returns (fun f => expression f (I.moveTo T1) eff ins) (.ok v (J.moveTo c1)))
    (hv : v ≠ 0)
    (hc1 : skipBytes c1 = 41 :: c2) (hc2 : skipBytes c2 = 123 :: A)
    (hblock : Returns (fun f => blockLoop f (J.moveTo A) eff ins) (.ok false K))
    (hnext : Returns (fun f => whileStatementLoop f (K.moveTo P0) eff ins P0) r) :
    Returns (fun f => whileStatementLoop f (I.moveTo P) eff ins P0) r := by
  refine Returns.of_succ (whileStatementLoop_start I eff ins P T1 P0 hP) ?_
  refine Returns.bind hcond ?_
  have hv0 : (v == 0) = false := by simpa using hv
  simp only [consumeOrFail_ok J c1 (cstr ")") c2 hc1, Result.bind_ok, hv0, Bool.false_eq_true,
    if_false, consumeOrFail_ok J c2 (cstr "\x7b") A hc2]
  refine Returns.bind hblock ?_
  simp only [Bool.false_eq_true, if_false]
  exact hnext

/-- The condition is nonzero and a return stops the body. -/
theorem whileStatementLoop_return (I J K : Interpreter) (eff ins : Bool)
    (P T1 c1 c2 A P0 : List Nat) (v : Nat)
    (hP : skipBytes P = 40 :: T1)
    (hcond : Returns (fun f => expression f (I.moveTo T1) eff ins) (.ok v (J.moveTo c1)))
    (hv : v ≠ 0)
    (hc1 : skipBytes c1 = 41 :: c2) (hc2 : skipBytes c2 = 123 :: A)
    (hblock : Returns (fun f => blockLoop f (J.moveTo A) eff ins) (.ok true K)) :
    Returns (fun f => whileStatementLoop f (I.moveTo P) eff ins P0) (.ok true K) := by
  refine Returns.of_succ (whileStatementLoop_start I eff ins P T1 P0 hP) ?_
  refine Returns.bind hcond ?_
  have hv0 : (v == 0) = false := by simpa using hv
  simp only [consumeOrFail_ok J c1 (cstr ")") c2 hc1, Result.bind_ok, hv0, Bool.false_eq_true,
    if_false, consumeOrFail_ok J c2 (cstr "\x7b") A hc2]
  refine Returns.bind hblock ?_
  simp only [if_true]
  exact Returns.const _

/-- The statement `while …` is the loop started at the position after the keyword. -/
theorem statement_while (I : Interpreter) (eff ins : Bool) (ws rest : List Nat) (r : Result Bool)
    (hws : ws.all isspace = true) (hrest : isalnum (rest.headD 0) = false)
    (hp : ins = true → I.functionReturn.exists_ = false)
    (hloop : Returns (fun f => whileStatementLoop f (I.moveTo rest) eff ins rest) r) :
    Returns (fun f => statement f (I.moveTo (ws ++ cstr "while" ++ rest)) eff ins)
      (r.bind fun _ K => .ok true K) := by
  obtain ⟨h1, h2, h3⟩ := statement_prelude I eff ins ws (cstr "while") rest hws (by decide) hrest
    hp (fun _ => by decide)
  have hstep : ∀ f, statement (f + 3) (I.moveTo (ws ++ cstr "while" ++ rest)) eff ins =
      (whileStatementLoop (f + 1) (I.moveTo rest) eff ins rest).bind fun _ K => .ok true K := by
    intro f
    rw [statement]
    have hs1 : sliceEqualString (sliceConstructorLen (cstr "while" ++ rest) (cstr "while").length)
        (cstr "if") = false := by
      rw [sliceEqualString_append]
      decide
    have hs2 : sliceEqualString (sliceConstructorLen (cstr "while" ++ rest) (cstr "while").length)
        (cstr "while") = true := by
      rw [sliceEqualString_append]
      decide
    simp only [h1, h2, h3, Result.bind_ok, Bool.false_eq_true, if_false, if_true,
      Bool.not_true, hs1, hs2]
    rw [whileStatement]
    rfl
  exact Returns.of_add 3 hstep (Returns.map _ (Returns.shift 1 hloop))

/-! ## The top-level loop -/

theorem statements_cons (I I1 : Interpreter) (eff : Bool) (r : Result Unit)
    (hst : Returns (fun f => statement f I eff false) (.ok true I1))
    (hnext : Returns (fun f => statements f I1 eff) r) :
    Returns (fun f => statements f I eff) r := by
  have hstep : ∀ f, statements (f + 1) I eff =
      (statement f I eff false).bind fun b J =>
        if b then statements f J eff else .ok () J := by
    intro f
    rw [statements]
  refine Returns.of_succ hstep (Returns.bind hst ?_)
  simp only [if_true]
  exact hnext

theorem statements_nil (I I1 : Interpreter) (eff : Bool)
    (hst : Returns (fun f => statement f I eff false) (.ok false I1)) :
    Returns (fun f => statements f I eff) (.ok () I1) := by
  have hstep : ∀ f, statements (f + 1) I eff =
      (statement f I eff false).bind fun b J =>
        if b then statements f J eff else .ok () J := by
    intro f
    rw [statements]
  refine Returns.of_succ hstep (Returns.bind hst ?_)
  simp only [Bool.false_eq_true, if_false]
  exact Returns.const _

theorem statements_stop (I : Interpreter) (eff : Bool) (s : Stop)
    (hst : Returns (fun f => statement f I eff false) (.stop s)) :
    Returns (fun f => statements f I eff) (.stop s) := by
  have hstep : ∀ f, statements (f + 1) I eff =
      (statement f I eff false).bind fun b J =>
        if b then statements f J eff else .ok () J := by
    intro f
    rw [statements]
  exact Returns.of_succ hstep (Returns.bind_halt hst)

/-- Where no statement starts, `statement` reports so and skips the whitespace. -/
theorem statement_none (I : Interpreter) (eff : Bool) (T : List Nat)
    (hT : (skipBytes T).headD 0 ≠ 35) (hT2 : isalpha ((skipBytes T).headD 0) = false) :
    Returns (fun f => statement f (I.moveTo T) eff false) (.ok false (I.moveTo (skipBytes T))) := by
  refine Returns.of_add_eq 2 (fun f => ?_)
  rw [statement]
  have h1 : consume (I.moveTo T) (cstr "#") = (false, I.moveTo (skipBytes T)) := by
    refine consume_fail I T _ ?_
    cases hs : skipBytes T with
    | nil => rfl
    | cons a as =>
      rw [hs] at hT
      simp only [List.headD_cons] at hT
      simp [matchBytes, Ne.symm hT]
  have h3 : consumeIdentifier (I.moveTo (skipBytes T)) =
      (⟨false, sliceConstructorLen [] 0⟩, I.moveTo (skipBytes T)) := by
    cases hs : skipBytes T with
    | nil => rfl
    | cons a as =>
      rw [hs] at hT2
      simp only [List.headD_cons] at hT2
      have := consumeIdentifier_of_not_alpha I (skipBytes T) as a
        (by rw [skipBytes_idem, hs]) hT2
      rw [hs] at this
      exact this
  simp only [h1, checkReturn_outside, Result.bind_ok, Bool.false_eq_true, if_false, h3,
    Bool.not_false, if_true]

theorem run_eq (I I1 : Interpreter)
    (h : Returns (fun f => statements f I true) (.ok () I1)) :
    Returns (fun f => run f I) (endOrFail I1) := by
  have := Returns.map (fun _ J => endOrFail J) h
  exact this

/-! ## Calls inside expressions -/

theorem levelFn_lift_to (k : Nat) (I J : Interpreter) (eff ins : Bool) (v : Nat)
    (text rest c : List Nat) (res : Result Nat) (h : opsAt (k + 1) ≠ [])
    (hc : skipBytes c = skipBytes rest)
    (hsub : Returns (fun f => levelFn k f (I.moveTo text) eff ins) (.ok v (J.moveTo c)))
    (hloop : Returns (fun f => levelLoop (k + 1) f (J.moveTo (skipBytes rest)) eff ins v) res) :
    Returns (fun f => levelFn (k + 1) f (I.moveTo text) eff ins) res := by
  refine Returns.of_succ (fun f => levelFn_loop k f _ eff ins h) ?_
  refine Returns.bind hsub ?_
  refine Returns.congr (fun f => ?_) hloop
  rw [← levelLoop_skip k f J eff ins v c h, hc]

/-- A primary expression that nothing continues is the whole expression. -/
theorem expression_of_primary (I J : Interpreter) (eff ins : Bool) (T c t2 : List Nat) (d v : Nat)
    (hsk : skipBytes T = d :: t2) (hd : d ≠ 33)
    (he1 : Returns (fun f => e1 f (I.moveTo T) eff ins) (.ok v (J.moveTo c)))
    (hno : NoOpsUpTo 16 c) :
    Returns (fun f => expression f (I.moveTo T) eff ins) (.ok v (J.moveTo (skipBytes c))) := by
  have h2 : Returns (fun f => levelFn 2 f (I.moveTo T) eff ins) (.ok v (J.moveTo c)) := by
    have := e2Loop_primary I (J.moveTo c) eff ins false false T t2 d v hsk hd he1
    rw [notResult_plain] at this
    refine Returns.of_succ (fun f => ?_) this
    simp only [levelFn]
    rw [e2]
  have h3 : Returns (fun f => levelFn 3 f (I.moveTo T) eff ins) (.ok v (J.moveTo (skipBytes c))) :=
    levelFn_lift_to 2 I J eff ins v T c c _ (by simp [opsAt]) rfl h2
      (levelLoop_end 2 J eff ins v c (by simp [opsAt])
        (selectOp_none_of_noOps _ c (hno.mono (by norm_num))))
  have hk : ∀ k, 3 ≤ k → k ≤ 16 →
      Returns (fun f => levelFn k f (I.moveTo T) eff ins) (.ok v (J.moveTo (skipBytes c))) := by
    intro k hk3
    induction k, hk3 using Nat.le_induction with
    | base => exact fun _ => h3
    | succ k hk3 ih =>
      intro hk16
      by_cases hops : opsAt (k + 1) = []
      · exact Returns.of_succ (fun f => levelFn_pass k f _ eff ins (by omega) (by omega) hops)
          (ih (by omega))
      · exact levelFn_lift_to k I J eff ins v T c (skipBytes c) _ hops (skipBytes_idem c)
          (ih (by omega))
          (levelLoop_end k J eff ins v c hops
            (selectOp_none_of_noOps _ c (hno.mono (by omega))))
  exact hk 16 (by norm_num) (le_refl _)

/-- The primary expression `name(...)` is the call of the registered function. -/
theorem e1_call (I : Interpreter) (eff ins : Bool) (ws name rest t : List Nat) (fn : Function)
    (r : Result Nat)
    (hws : ws.all isspace = true) (hname : isIdentifierText name = true)
    (hrest : isalnum (rest.headD 0) = false) (hr : skipBytes rest = 40 :: t)
    (hfn : functionMapGet I.functionNameMap (nameSlice name) = some fn)
    (hcall : Returns (fun f => functionCall f (I.moveTo t) eff fn) r) :
    Returns (fun f => e1 f (I.moveTo (ws ++ name ++ rest)) eff ins) r := by
  refine Returns.of_succ (fun f => ?_) hcall
  rw [e1]
  simp only [consumeIdentifier_name I ws name rest hws hname hrest,
    consume_ok I rest (cstr "(") t hr, if_true, moveTo_functionNameMap, functionMapGet_append,
    hfn]

/-- The primary expression `name(...)` with an unregistered name fails. -/
theorem e1_call_unknown (I : Interpreter) (eff ins : Bool) (ws name rest t : List Nat)
    (hws : ws.all isspace = true) (hname : isIdentifierText name = true)
    (hrest : isalnum (rest.headD 0) = false) (hr : skipBytes rest = 40 :: t)
    (hfn : functionMapGet I.functionNameMap (nameSlice name) = none) :
    Returns (fun f => e1 f (I.moveTo (ws ++ name ++ rest)) eff ins) (.stop (.fail (I.moveTo t))) := by
  refine Returns.of_forall_succ (fun f => ?_)
  rw [e1]
  simp only [consumeIdentifier_name I ws name rest hws hname hrest,
    consume_ok I rest (cstr "(") t hr, if_true, moveTo_functionNameMap, functionMapGet_append,
    hfn, fail]

/-! ## Function definitions -/

/-- The statement `fun name(params) { body }` at top level: the registry gets the record of
the function, and the body is skipped. -/
theorem statement_fun (I : Interpreter) (eff : Bool) (ws ws1 fname r2 r3 r4 body rest : List Nat)
    (n : Nat) (params : List Slice)
    (hws : ws.all isspace = true) (hws1 : ws1.all isspace = true) (hws1ne : ws1 ≠ [])
    (hname : isIdentifierText fname = true) (hr2a : isalnum (r2.headD 0) = false)
    (hr2 : (consume (I.moveTo r2) (cstr "(")).2 = I.moveTo r3)
    (hcount : Returns (fun f => countParameters f 0 (I.moveTo r3)) (.ok n (I.moveTo r4)))
    (hread : Returns (fun f => readParameters f n [] (I.moveTo r3)) (.ok params (I.moveTo r4)))
    (hr4 : skipBytes r4 = 123 :: body) (hbody : blockEnd 1 body = some rest) :
    Returns (fun f => statement f (I.moveTo (ws ++ cstr "fun" ++ (ws1 ++ fname ++ r2))) eff false)
      (.ok true (Interpreter.moveTo
        { I with functionNameMap :=
            (functionMapInsert I.functionNameMap
              (sliceConstructorLen (fname ++ r2) fname.length)
              ⟨sliceConstructorLen (fname ++ r2) fname.length, r4, n, params⟩) } rest)) := by
  have hrest : isalnum ((ws1 ++ fname ++ r2).headD 0) = false := by
    cases ws1 with
    | nil => exact absurd rfl hws1ne
    | cons w ws1 =>
      simp only [List.all_cons, Bool.and_eq_true] at hws1
      simpa using isspace_not_alnum w hws1.1
  obtain ⟨h1, h2, h3⟩ := statement_prelude I eff false ws (cstr "fun") _ hws (by decide) hrest
    (fun h => by simp at h) (fun _ => by decide)
  have hid := consumeIdentifier_name I ws1 fname r2 hws1 hname hr2a
  have hs : ∀ p, sliceEqualString (sliceConstructorLen (cstr "fun" ++ (ws1 ++ fname ++ r2))
      (cstr "fun").length) p = sliceEqualString (nameSlice (cstr "fun")) p :=
    fun p => sliceEqualString_append _ _ p
  have hstep : ∀ f, statement (f + 2) (I.moveTo (ws ++ cstr "fun" ++ (ws1 ++ fname ++ r2))) eff false =
      (countParameters (f + 1) 0 (I.moveTo r3)).bind fun numParams J =>
        (readParameters (f + 1) numParams [] { J with current := r3 }).bind fun parameters J =>
          (consumeOrFail { J with functionNameMap :=
              (functionMapInsert J.functionNameMap (sliceConstructorLen (fname ++ r2) fname.length)
                ⟨sliceConstructorLen (fname ++ r2) fname.length, J.current, numParams, parameters⟩) }
            (cstr "\x7b")).bind fun _ J =>
          (consumePast (f + 1) J).bind fun _ J => .ok true J := by
    intro f
    rw [statement]
    have k1 : sliceEqualString (nameSlice (cstr "fun")) (cstr "if") = false := by decide
    have k2 : sliceEqualString (nameSlice (cstr "fun")) (cstr "while") = false := by decide
    have k3 : sliceEqualString (nameSlice (cstr "fun")) (cstr "else") = false := by decide
    have k4 : sliceEqualString (nameSlice (cstr "fun")) (cstr "fun") = true := by decide
    simp only [h1, h2, h3, Result.bind_ok, Bool.false_eq_true, if_false, if_true,
      Bool.not_true, Bool.not_false, hs, k1, k2, k3, k4, hid, hr2, moveTo_current]
  refine Returns.of_add 2 hstep ?_
  refine Returns.bind (Returns.shift 1 hcount) ?_
  refine Returns.bind (Returns.shift 1 hread) ?_
  have hcf := consumeOrFail_ok { I with functionNameMap :=
      (functionMapInsert I.functionNameMap
        (sliceConstructorLen (fname ++ r2) fname.length)
        ⟨sliceConstructorLen (fname ++ r2) fname.length, r4, n, params⟩) } r4 (cstr "\x7b") body hr4
  refine Returns.congr (g := fun f => (consumePast (f + 1) (Interpreter.moveTo { I with functionNameMap :=
      (functionMapInsert I.functionNameMap
        (sliceConstructorLen (fname ++ r2) fname.length)
        ⟨sliceConstructorLen (fname ++ r2) fname.length, r4, n, params⟩) } body)).bind
          fun _ J => .ok true J) (fun f => ?_) ?_
  · have : ∀ K : Interpreter, K = Interpreter.moveTo { I with functionNameMap :=
        (functionMapInsert I.functionNameMap
          (sliceConstructorLen (fname ++ r2) fname.length)
          ⟨sliceConstructorLen (fname ++ r2) fname.length, r4, n, params⟩) } r4 →
        (consumeOrFail K (cstr "\x7b")).bind (fun _ J => (consumePast (f + 1) J).bind
          fun _ J => Result.ok true J) = (consumePast (f + 1) (Interpreter.moveTo { I with functionNameMap :=
      (functionMapInsert I.functionNameMap
        (sliceConstructorLen (fname ++ r2) fname.length)
        ⟨sliceConstructorLen (fname ++ r2) fname.length, r4, n, params⟩) } body)).bind
          fun _ J => .ok true J := by
      intro K hK
      rw [hK, hcf]
      rfl
    exact this _ rfl
  · exact Returns.bind (Returns.shift 1 (consumePast_blockEnd _ body rest hbody)) (Returns.const _)

/-! ## Tables: lookups after insertions -/

theorem readBytes_length (n : Nat) (s : List Nat) : (readBytes n s).length = n := by
  induction n generalizing s with
  | zero => rfl
  | succ n ih => simp [readBytes, ih]

theorem sliceEqualSliceLoop_iff (n : Nat) (s o : List Nat) :
    sliceEqualSliceLoop n s o = true ↔ readBytes n s = readBytes n o := by
  induction n generalizing s o with
  | zero => simp [sliceEqualSliceLoop, readBytes]
  | succ n ih =>
    simp only [sliceEqualSliceLoop, readBytes, List.cons.injEq]
    by_cases h : o.headD 0 = s.headD 0
    · simp only [h, bne_self_eq_false, Bool.false_eq_true, if_false, true_and]
      exact ih _ _
    · simp only [bne_iff_ne, ne_eq, h, not_false_eq_true, if_true, Bool.false_eq_true,
        false_iff, not_and]
      intro hx
      exact absurd hx.symm h

theorem sliceEqualSlice_iff (a b : Slice) :
    sliceEqualSlice a b = true ↔ a.bytes = b.bytes := by
  unfold sliceEqualSlice Slice.bytes
  by_cases h : a.len = b.len
  · simp only [h, bne_self_eq_false, Bool.false_eq_true, if_false]
    rw [← h, sliceEqualSliceLoop_iff]
  · simp only [bne_iff_ne, ne_eq, h, not_false_eq_true, if_true, Bool.false_eq_true, false_iff]
    intro hb
    have := congrArg List.length hb
    rw [readBytes_length, readBytes_length] at this
    exact h this

theorem sliceEqualSlice_eq (a b : Slice) : sliceEqualSlice a b = decide (a.bytes = b.bytes) := by
  by_cases h : a.bytes = b.bytes
  · simp [h, (sliceEqualSlice_iff a b).2 h]
  · have : sliceEqualSlice a b ≠ true := fun hc => h ((sliceEqualSlice_iff a b).1 hc)
    simp [h, this]

theorem hashSliceLoop_readBytes (n : Nat) (s : List Nat) (out : Nat) :
    hashSliceLoop n s out =
      (readBytes n s).foldl (fun out c => (out * 33 + charToU64 c) % U64) out := by
  induction n generalizing s out with
  | zero => rfl
  | succ n ih => simp [hashSliceLoop, readBytes, ih]

theorem hashSlice_bytes (a b : Slice) (h : a.bytes = b.bytes) : hashSlice a = hashSlice b := by
  have hl : a.len = b.len := by
    have := congrArg List.length h
    simpa [Slice.bytes, readBytes_length] using this
  unfold hashSlice
  rw [hashSliceLoop_readBytes, hashSliceLoop_readBytes]
  unfold Slice.bytes at h
  rw [h]

theorem readBytes_append (name t : List Nat) : readBytes name.length (name ++ t) = name := by
  induction name with
  | nil => rfl
  | cons c cs ih => simp [readBytes, ih]

@[simp] theorem bytes_append (name t : List Nat) :
    (sliceConstructorLen (name ++ t) name.length).bytes = name :=
  readBytes_append name t

@[simp] theorem bytes_nameSlice (name : List Nat) : (nameSlice name).bytes = name := by
  have := readBytes_append name []
  simpa [nameSlice, Slice.bytes, sliceConstructorLen] using this

/-! ### The variable table -/

theorem mapUpdateBin_none (bin : List Node) (k : Slice) (v : Nat) :
    mapUpdateBin bin k v = none ↔ mapContainsBin bin k = false := by
  induction bin with
  | nil => simp [mapUpdateBin, mapContainsBin]
  | cons c cs ih =>
    simp only [mapUpdateBin, mapContainsBin]
    by_cases h : sliceEqualSlice c.key k = true
    · simp [h]
    · simp [h, ih]

theorem mapGetBin_absent (bin : List Node) (k : Slice) (h : mapContainsBin bin k = false) :
    mapGetBin bin k = 0 := by
  induction bin with
  | nil => rfl
  | cons c cs ih =>
    simp only [mapContainsBin] at h
    simp only [mapGetBin]
    by_cases hc : sliceEqualSlice c.key k = true
    · simp [hc] at h
    · simp only [hc, Bool.false_eq_true, if_false] at h ⊢
      exact ih h

/-- A key that the table does not contain reads as `0`. -/
theorem mapGet_absent (m : UnorderedMap) (k : Slice) (h : mapContains m k = false) :
    mapGet m k = 0 :=
  mapGetBin_absent _ k h

theorem mapGetBin_update (bin bin2 : List Node) (k k2 : Slice) (v : Nat)
    (h : mapUpdateBin bin k v = some bin2) :
    mapGetBin bin2 k2 = if k.bytes = k2.bytes then v else mapGetBin bin k2 := by
  induction bin generalizing bin2 with
  | nil => simp [mapUpdateBin] at h
  | cons c cs ih =>
    simp only [mapUpdateBin] at h
    by_cases hc : c.key.bytes = k.bytes
    · simp only [sliceEqualSlice_eq, hc, decide_True, if_true, Option.some.injEq] at h
      subst h
      by_cases hk : k.bytes = k2.bytes
      · simp [mapGetBin, sliceEqualSlice_eq, hc, hk]
      · simp [mapGetBin, sliceEqualSlice_eq, hc, hk]
    · simp only [sliceEqualSlice_eq, hc, decide_False, Bool.false_eq_true, if_false,
        Option.map_eq_some'] at h
      obtain ⟨l, hl, rfl⟩ := h
      simp only [mapGetBin, sliceEqualSlice_eq]
      by_cases hk : k.bytes = k2.bytes
      · have : ¬ c.key.bytes = k2.bytes := fun hx => hc (hx.trans hk.symm)
        simp only [this, decide_False, Bool.false_eq_true, if_false, ih l hl, hk, if_true]
      · simp only [ih l hl, hk, if_false]

theorem mapContainsBin_update (bin bin2 : List Node) (k k2 : Slice) (v : Nat)
    (h : mapUpdateBin bin k v = some bin2) :
    mapContainsBin bin2 k2 = mapContainsBin bin k2 := by
  induction bin generalizing bin2 with
  | nil => simp [mapUpdateBin] at h
  | cons c cs ih =>
    simp only [mapUpdateBin] at h
    by_cases hc : sliceEqualSlice c.key k = true
    · simp only [hc, if_true, Option.some.injEq] at h
      subst h
      simp [mapContainsBin]
    · simp only [hc, Bool.false_eq_true, if_false, Option.map_eq_some'] at h
      obtain ⟨l, hl, rfl⟩ := h
      simp only [mapContainsBin, ih l hl]

theorem mapContainsBin_length (bins : List (List Node)) (i : Nat) (k : Slice)
    (h : mapContainsBin (bins.getD i []) k = true) : i < bins.length := by
  by_contra hi
  rw [List.getD_eq_default _ _ (by omega)] at h
  simp [mapContainsBin] at h

/-- Writing a key that the table contains: the table keeps its shape, the key and the keys
with the same bytes read as the new value, every other key as before. -/
theorem mapGet_insert_present (m : UnorderedMap) (k k2 : Slice) (v : Nat)
    (h : mapContains m k = true) :
    mapGet (mapInsert m k v) k2 = if k.bytes = k2.bytes then v else mapGet m k2 := by
  unfold mapContains at h
  have hlen := mapContainsBin_length _ _ _ h
  cases hu : mapUpdateBin (m.bins.getD (hashSlice k % m.capacity) []) k v with
  | none => rw [(mapUpdateBin_none _ _ _).1 hu] at h; simp at h
  | some bin =>
    simp only [mapInsert, hu, mapGet]
    by_cases hk : k.bytes = k2.bytes
    · rw [← hashSlice_bytes k k2 hk, List.getD_eq_getElem _ _ (by simpa using hlen)]
      simp only [List.getElem_set_self, hk, if_true]
      have := mapGetBin_update _ _ k k2 v hu
      simpa [hk] using this
    · simp only [hk, if_false]
      by_cases hi : hashSlice k % m.capacity = hashSlice k2 % m.capacity
      · rw [← hi, List.getD_eq_getElem _ _ (by simpa using hlen)]
        simp only [List.getElem_set_self]
        have := mapGetBin_update _ _ k k2 v hu
        simpa [hk] using this
      · simp only [List.getD_eq_getElem?_getD, List.getElem?_set_ne hi]

theorem mapContains_insert_present (m : UnorderedMap) (k k2 : Slice) (v : Nat)
    (h : mapContains m k = true) :
    mapContains (mapInsert m k v) k2 = mapContains m k2 := by
  unfold mapContains at h
  have hlen := mapContainsBin_length _ _ _ h
  cases hu : mapUpdateBin (m.bins.getD (hashSlice k % m.capacity) []) k v with
  | none => rw [(mapUpdateBin_none _ _ _).1 hu] at h; simp at h
  | some bin =>
    simp only [mapInsert, hu, mapContains]
    by_cases hi : hashSlice k % m.capacity = hashSlice k2 % m.capacity
    · rw [← hi, List.getD_eq_getElem _ _ (by simpa using hlen)]
      simp only [List.getElem_set_self]
      exact mapContainsBin_update _ _ k k2 v hu
    · simp only [List.getD_eq_getElem?_getD, List.getElem?_set_ne hi]

theorem mapInsert_fresh (m : UnorderedMap) (k : Slice) (v n : Nat) (hm : FitsMap m n)
    (hn : n ≤ 11) (h : mapContains m k = false) :
    mapInsert m k v =
      { m with bins := m.bins.set (hashSlice k % 16)
                 (⟨k, v⟩ :: m.bins.getD (hashSlice k % 16) []),
               size := m.size + 1 } := by
  obtain ⟨hc, hl, hs⟩ := hm
  unfold mapContains at h
  have hu := (mapUpdateBin_none _ k v).2 h
  rw [hc] at hu
  simp only [mapInsert, mapInsertWithBin, hc, hu]
  have h1 : (m.size + 1) % U64 = m.size + 1 := Nat.mod_eq_of_lt (by simp only [U64]; omega)
  rw [h1]
  have h2 : ¬ 4 * (m.size + 1) > 3 * 16 := by omega
  simp only [h2, if_false]

theorem fitsMap_create : FitsMap mapCreate 0 := by
  simp [FitsMap, mapCreate]

theorem fitsMap_insert (m : UnorderedMap) (k : Slice) (v n : Nat) (hm : FitsMap m n)
    (hn : n ≤ 11) : FitsMap (mapInsert m k v) (n + 1) := by
  cases h : mapContains m k with
  | false =>
    rw [mapInsert_fresh m k v n hm hn h]
    obtain ⟨hc, hl, hs⟩ := hm
    exact ⟨hc, by simp [hl], by simp; omega⟩
  | true =>
    obtain ⟨hc, hl, hs⟩ := hm
    unfold mapContains at h
    cases hu : mapUpdateBin (m.bins.getD (hashSlice k % m.capacity) []) k v with
    | none => rw [(mapUpdateBin_none _ _ _).1 hu] at h; simp at h
    | some bin =>
      simp only [mapInsert, hu]
      exact ⟨hc, by simp [hl], by simp only; omega⟩

/-- After a write in a table with room, the key and the keys with the same bytes read as the
written value, every other key as before. -/
theorem mapGet_insert (m : UnorderedMap) (k k2 : Slice) (v n : Nat) (hm : FitsMap m n)
    (hn : n ≤ 11) :
    mapGet (mapInsert m k v) k2 = if k.bytes = k2.bytes then v else mapGet m k2 := by
  cases h : mapContains m k with
  | true => exact mapGet_insert_present m k k2 v h
  | false =>
    rw [mapInsert_fresh m k v n hm hn h]
    obtain ⟨hc, hl, hs⟩ := hm
    have hlt : hashSlice k % 16 < m.bins.length := by omega
    simp only [mapGet, hc]
    by_cases hk : k.bytes = k2.bytes
    · rw [← hashSlice_bytes k k2 hk, List.getD_eq_getElem _ _ (by simpa using hlt)]
      simp [mapGetBin, sliceEqualSlice_eq, hk]
    · simp only [hk, if_false]
      by_cases hi : hashSlice k % 16 = hashSlice k2 % 16
      · rw [← hi, List.getD_eq_getElem _ _ (by simpa using hlt)]
        simp [mapGetBin, sliceEqualSlice_eq, hk]
      · simp only [List.getD_eq_getElem?_getD, List.getElem?_set_ne hi]

theorem mapContains_insert (m : UnorderedMap) (k k2 : Slice) (v n : Nat) (hm : FitsMap m n)
    (hn : n ≤ 11) :
    mapContains (mapInsert m k v) k2 = (decide (k.bytes = k2.bytes) || mapContains m k2) := by
  cases h : mapContains m k with
  | true =>
    rw [mapContains_insert_present m k k2 v h]
    by_cases hk : k.bytes = k2.bytes
    · have : mapContains m k2 = true := by
        unfold mapContains at h ⊢
        rw [← hashSlice_bytes k k2 hk]
        generalize m.bins.getD (hashSlice k % m.capacity) [] = bin at h
        induction bin with
        | nil => simp [mapContainsBin] at h
        | cons c cs ih =>
          simp only [mapContainsBin, sliceEqualSlice_eq] at h ⊢
          by_cases hc : c.key.bytes = k.bytes
          · simp [hc.trans hk]
          · have : ¬ c.key.bytes = k2.bytes := fun hx => hc (hx.trans hk.symm)
            simp only [hc, this, decide_False, Bool.false_eq_true, if_false] at h ⊢
            exact ih h
      simp [this]
    · simp [hk]
  | false =>
    rw [mapInsert_fresh m k v n hm hn h]
    obtain ⟨hc, hl, hs⟩ := hm
    have hlt : hashSlice k % 16 < m.bins.length := by omega
    simp only [mapContains, hc]
    by_cases hk : k.bytes = k2.bytes
    · rw [← hashSlice_bytes k k2 hk, List.getD_eq_getElem _ _ (by simpa using hlt)]
      simp [mapContainsBin, sliceEqualSlice_eq, hk]
    · simp only [hk, decide_False, Bool.false_or]
      by_cases hi : hashSlice k % 16 = hashSlice k2 % 16
      · rw [← hi, List.getD_eq_getElem _ _ (by simpa using hlt)]
        simp [mapContainsBin, sliceEqualSlice_eq, hk]
      · simp only [List.getD_eq_getElem?_getD, List.getElem?_set_ne hi]

theorem mapContains_create (k : Slice) : mapContains mapCreate k = false := by
  unfold mapContains mapCreate
  simp only
  have : (List.replicate 16 ([] : List Node)).getD (hashSlice k % 16) [] = [] := by
    rw [List.getD_eq_getElem _ _ (by simp; omega)]
    exact List.getElem_replicate _ _
  rw [this]
  rfl

/-! ### The function registry -/

theorem functionMapUpdateBin_none (bin : List FunctionNode) (k : Slice) (v : Function) :
    functionMapUpdateBin bin k v = none ↔ functionMapGetBin bin k = none := by
  induction bin with
  | nil => simp [functionMapUpdateBin, functionMapGetBin]
  | cons c cs ih =>
    simp only [functionMapUpdateBin, functionMapGetBin]
    by_cases h : sliceEqualSlice c.key k = true
    · simp [h]
    · simp [h, ih]

theorem functionMapGetBin_update (bin bin2 : List FunctionNode) (k k2 : Slice) (v : Function)
    (h : functionMapUpdateBin bin k v = some bin2) :
    functionMapGetBin bin2 k2 = if k.bytes = k2.bytes then some v else functionMapGetBin bin k2 := by
  induction bin generalizing bin2 with
  | nil => simp [functionMapUpdateBin] at h
  | cons c cs ih =>
    simp only [functionMapUpdateBin] at h
    by_cases hc : c.key.bytes = k.bytes
    · simp only [sliceEqualSlice_eq, hc, decide_True, if_true, Option.some.injEq] at h
      subst h
      by_cases hk : k.bytes = k2.bytes
      · simp [functionMapGetBin, sliceEqualSlice_eq, hc, hk]
      · simp [functionMapGetBin, sliceEqualSlice_eq, hc, hk]
    · simp only [sliceEqualSlice_eq, hc, decide_False, Bool.false_eq_true, if_false,
        Option.map_eq_some'] at h
      obtain ⟨l, hl, rfl⟩ := h
      simp only [functionMapGetBin, sliceEqualSlice_eq]
      by_cases hk : k.bytes = k2.bytes
      · have : ¬ c.key.bytes = k2.bytes := fun hx => hc (hx.trans hk.symm)
        simp only [this, decide_False, Bool.false_eq_true, if_false, ih l hl, hk, if_true]
      · simp only [ih l hl, hk, if_false]

theorem functionMapGetBin_length (bins : List (List FunctionNode)) (i : Nat) (k : Slice)
    (f : Function) (h : functionMapGetBin (bins.getD i []) k = some f) : i < bins.length := by
  by_contra hi
  rw [List.getD_eq_default _ _ (by omega)] at h
  simp [functionMapGetBin] at h

/-- Registering a name that the registry contains: the name and the names with the same
bytes now give the new record, every other name gives what it gave before. -/
theorem functionMapGet_insert_present (m : UnorderedFunctionMap) (k k2 : Slice)
    (v old : Function) (h : functionMapGet m k = some old) :
    functionMapGet (functionMapInsert m k v) k2 =
      if k.bytes = k2.bytes then some v else functionMapGet m k2 := by
  unfold functionMapGet at h
  have hlen := functionMapGetBin_length _ _ _ _ h
  cases hu : functionMapUpdateBin (m.bins.getD (hashSlice k % m.capacity) []) k v with
  | none => rw [(functionMapUpdateBin_none _ _ _).1 hu] at h; simp at h
  | some bin =>
    simp only [functionMapInsert, hu, functionMapGet]
    by_cases hk : k.bytes = k2.bytes
    · rw [← hashSlice_bytes k k2 hk, List.getD_eq_getElem _ _ (by simpa using hlen)]
      simp only [List.getElem_set_self, hk, if_true]
      have := functionMapGetBin_update _ _ k k2 v hu
      simpa [hk] using this
    · simp only [hk, if_false]
      by_cases hi : hashSlice k % m.capacity = hashSlice k2 % m.capacity
      · rw [← hi, List.getD_eq_getElem _ _ (by simpa using hlen)]
        simp only [List.getElem_set_self]
        have := functionMapGetBin_update _ _ k k2 v hu
        simpa [hk] using this
      · simp only [List.getD_eq_getElem?_getD, List.getElem?_set_ne hi]

theorem functionMapInsert_fresh (m : UnorderedFunctionMap) (k : Slice) (v : Function) (n : Nat)
    (hm : FitsFunctionMap m n) (hn : n ≤ 11) (h : functionMapGet m k = none) :
    functionMapInsert m k v =
      { m with bins := m.bins.set (hashSlice k % 16)
                 (⟨k, v⟩ :: m.bins.getD (hashSlice k % 16) []),
               size := m.size + 1 } := by
  obtain ⟨hc, hl, hs⟩ := hm
  unfold functionMapGet at h
  have hu := (functionMapUpdateBin_none _ k v).2 h
  rw [hc] at hu
  simp only [functionMapInsert, functionMapInsertWithBin, hc, hu]
  have h1 : (m.size + 1) % U64 = m.size + 1 := Nat.mod_eq_of_lt (by simp only [U64]; omega)
  rw [h1]
  have h2 : ¬ 4 * (m.size + 1) > 3 * 16 := by omega
  simp only [h2, if_false]

theorem fitsFunctionMap_insert (m : UnorderedFunctionMap) (k : Slice) (v : Function) (n : Nat)
    (hm : FitsFunctionMap m n) (hn : n ≤ 11) :
    FitsFunctionMap (functionMapInsert m k v) (n + 1) := by
  cases h : functionMapGet m k with
  | none =>
    rw [functionMapInsert_fresh m k v n hm hn h]
    obtain ⟨hc, hl, hs⟩ := hm
    exact ⟨hc, by simp [hl], by simp; omega⟩
  | some old =>
    obtain ⟨hc, hl, hs⟩ := hm
    unfold functionMapGet at h
    cases hu : functionMapUpdateBin (m.bins.getD (hashSlice k % m.capacity) []) k v with
    | none => rw [(functionMapUpdateBin_none _ _ _).1 hu] at h; simp at h
    | some bin =>
      simp only [functionMapInsert, hu]
      exact ⟨hc, by simp [hl], by simp only; omega⟩

/-- After a registration in a registry with room, the name and the names with the same bytes
give the new record, every other name gives what it gave before. -/
theorem functionMapGet_insert (m : UnorderedFunctionMap) (k k2 : Slice) (v : Function)
    (n : Nat) (hm : FitsFunctionMap m n) (hn : n ≤ 11) :
    functionMapGet (functionMapInsert m k v) k2 =
      if k.bytes = k2.bytes then some v else functionMapGet m k2 := by
  cases h : functionMapGet m k with
  | some old => exact functionMapGet_insert_present m k k2 v old h
  | none =>
    rw [functionMapInsert_fresh m k v n hm hn h]
    obtain ⟨hc, hl, hs⟩ := hm
    have hlt : hashSlice k % 16 < m.bins.length := by omega
    simp only [functionMapGet, hc]
    by_cases hk : k.bytes = k2.bytes
    · rw [← hashSlice_bytes k k2 hk, List.getD_eq_getElem _ _ (by simpa using hlt)]
      simp [functionMapGetBin, sliceEqualSlice_eq, hk]
    · simp only [hk, if_false]
      by_cases hi : hashSlice k % 16 = hashSlice k2 % 16
      · rw [← hi, List.getD_eq_getElem _ _ (by simpa using hlt)]
        simp [functionMapGetBin, sliceEqualSlice_eq, hk]
      · simp only [List.getD_eq_getElem?_getD, List.getElem?_set_ne hi]

/-- In a fresh interpreter `print` is the only registered name. -/
theorem functionMapGet_constructor (prog : List Nat) (k : Slice) :
    functionMapGet (interpreterConstructor prog).functionNameMap k =
      if cstr "print" = k.bytes then some createPrintFunction else none := by
  have h0 : ∀ k : Slice, functionMapGet functionMapCreate k = none := by
    intro k
    unfold functionMapGet functionMapCreate
    simp only
    have : (List.replicate 16 ([] : List FunctionNode)).getD (hashSlice k % 16) [] = [] := by
      rw [List.getD_eq_getElem _ _ (by simp; omega)]
      exact List.getElem_replicate _ _
    rw [this]
    rfl
  have := functionMapGet_insert functionMapCreate (sliceConstructorLen (cstr "print") 5) k
    createPrintFunction 0 (by simp [FitsFunctionMap, functionMapCreate]) (by omega)
  rw [h0] at this
  exact this

theorem fitsFunctionMap_constructor (prog : List Nat) :
    FitsFunctionMap (interpreterConstructor prog).functionNameMap 1 :=
  fitsFunctionMap_insert functionMapCreate _ _ 0 (by simp [FitsFunctionMap, functionMapCreate])
    (by omega)

theorem functionMapGet_constructor_print (prog : List Nat) :
    functionMapGet (interpreterConstructor prog).functionNameMap (nameSlice (cstr "print")) =
      some createPrintFunction := by
  rw [functionMapGet_constructor, bytes_nameSlice]
  simp

/-! ## Decimal numerals -/

theorem decimalLoop_spec (fuel n : Nat) (acc : List Nat) (h : n < fuel) :
    ∃ ds, decimalLoop fuel n acc = ds ++ acc ∧ ds ≠ [] ∧ ds.all isdigit = true ∧
      ∀ v, ds.foldl (fun v c => 10 * v + (c - 48)) v = v * 10 ^ ds.length + n := by
  induction fuel generalizing n acc with
  | zero => omega
  | succ fuel ih =>
    simp only [decimalLoop]
    by_cases hn : n < 10
    · refine ⟨[48 + n], by simp [hn], by simp, ?_, ?_⟩
      · simp only [List.all_cons, List.all_nil, Bool.and_true, isdigit]
        simp only [Bool.and_eq_true, decide_eq_true_eq]
        omega
      · intro v
        simp only [List.foldl_cons, List.foldl_nil, List.length_singleton, pow_one]
        omega
    · simp only [hn, if_false]
      obtain ⟨ds, h1, h2, h3, h4⟩ := ih (n / 10) ((48 + n % 10) :: acc) (by omega)
      refine ⟨ds ++ [48 + n % 10], by simp [h1], by simp, ?_, ?_⟩
      · simp only [List.all_append, h3, List.all_cons, List.all_nil, Bool.and_true, isdigit,
          Bool.true_and]
        simp only [Bool.and_eq_true, decide_eq_true_eq]
        omega
      · intro v
        simp only [List.foldl_append, h4, List.foldl_cons, List.foldl_nil, List.length_append,
          List.length_singleton, pow_succ]
        have : n = 10 * (n / 10) + n % 10 := by omega
        generalize 10 ^ ds.length = p at *
        have e : 10 * (v * p + n / 10) + (48 + n % 10 - 48) = v * (p * 10) + (10 * (n / 10) + n % 10) := by
          rw [Nat.add_sub_cancel_left]
          ring
        rw [e, ← this]

theorem decimal_ne_nil (n : Nat) : decimal n ≠ [] := by
  obtain ⟨ds, h1, h2, _, _⟩ := decimalLoop_spec (n + 1) n [] (by omega)
  rw [decimal, h1, List.append_nil]
  exact h2

theorem decimal_digits (n : Nat) : (decimal n).all isdigit = true := by
  obtain ⟨ds, h1, _, h3, _⟩ := decimalLoop_spec (n + 1) n [] (by omega)
  rw [decimal, h1, List.append_nil]
  exact h3

theorem decimalValue_decimal (n : Nat) : decimalValue (decimal n) = n := by
  obtain ⟨ds, h1, _, _, h4⟩ := decimalLoop_spec (n + 1) n [] (by omega)
  rw [decimal, h1, List.append_nil, decimalValue, h4]
  simp

/-- A decimal numeral after whitespace is a well-formed literal. -/
theorem wellFormed_decimal (ws : List Nat) (hws : ws.all isspace = true) (n : Nat) :
    (Expr.lit ws (decimal n)).wellFormed = true := by
  simp only [Expr.wellFormed, hws, decimal_digits, Bool.and_self, Bool.true_and,
    Bool.not_eq_true', List.isEmpty_eq_false]
  cases h : decimal n with
  | nil => exact absurd h (decimal_ne_nil n)
  | cons a as => simp

theorem valueIn_decimal (env : List Nat → Nat) (ws : List Nat) (n : Nat) (h : n < 2 ^ 64) :
    (Expr.lit ws (decimal n)).valueIn env = n := by
  simp only [Expr.valueIn, decimalValue_decimal]
  exact Nat.mod_eq_of_lt h

/-! ## Helpers for the symbolic execution of programs -/

theorem sliceEqualStringLoop_readBytes (n : Nat) (s p : List Nat) :
    sliceEqualStringLoop n s p = sliceEqualStringLoop n (readBytes n s) p := by
  induction n generalizing s p with
  | zero => rfl
  | succ n ih =>
    simp only [sliceEqualStringLoop, readBytes, List.headD_cons, List.tail_cons]
    rw [ih]

/-- Whether a slice equals a string depends on the bytes of the slice only. -/
theorem sliceEqualString_bytes (k : Slice) (p : List Nat) :
    sliceEqualString k p = sliceEqualString (nameSlice k.bytes) p := by
  simp only [sliceEqualString, nameSlice, sliceConstructorLen, Slice.bytes, readBytes_length]
  rw [sliceEqualStringLoop_readBytes]

theorem endsExpression_of_head (rest tail : List Nat) (c : Nat)
    (h1 : isalnum (rest.headD 0) = false) (h : skipBytes rest = c :: tail)
    (hc : c ∉ [40, 42, 47, 37, 43, 45, 60, 62, 61, 33, 38, 124]) : EndsExpression rest := by
  refine ⟨h1, ?_, fun op => ?_⟩
  · rw [h]
    simp only [List.mem_cons, List.mem_singleton, not_or, List.not_mem_nil, not_false_eq_true,
      and_true] at hc
    simp only [matchBytes, bne_iff_ne, ne_eq, ite_eq_left_iff, Decidable.not_not]
    simp
    omega
  · rw [h]
    simp only [List.mem_cons, List.mem_singleton, not_or, List.not_mem_nil, not_false_eq_true,
      and_true] at hc
    cases op <;> simp [BinOp.text, matchBytes] <;> intros <;> omega

theorem EndsExpression.noOps {rest : List Nat} (h : EndsExpression rest) (k : Nat) :
    NoOpsUpTo k rest :=
  ⟨h.2.1, fun op _ => h.2.2 op⟩

theorem expression_value (e : Expr) (hwf : e.wellFormed = true) (rest : List Nat)
    (hrest : EndsExpression rest) (I : Interpreter) (eff ins : Bool) (v : Nat)
    (hv : e.valueIn (variableValue I ins) = v) :
    Returns (fun f => expression f (I.moveTo (e.render ++ rest)) eff ins)
      (.ok v (I.moveTo (skipBytes rest))) :=
  hv ▸ expression_render e hwf rest hrest I eff ins

theorem decimal_cons (n : Nat) : ∃ d ds, decimal n = d :: ds ∧ isdigit d = true := by
  have h1 := decimal_ne_nil n
  have h2 := decimal_digits n
  cases h : decimal n with
  | nil => exact absurd h h1
  | cons d ds =>
    rw [h] at h2
    simp only [List.all_cons, Bool.and_eq_true] at h2
    exact ⟨d, ds, rfl, h2.1⟩

/-- A decimal numeral is not whitespace: skipping stops in front of it. -/
theorem skipBytes_decimal (n : Nat) (r : List Nat) :
    skipBytes (decimal n ++ r) = decimal n ++ r := by
  obtain ⟨d, ds, h, hd⟩ := decimal_cons n
  rw [h, List.cons_append]
  exact skipBytes_cons_of_not_space _ _ (isdigit_not_space d hd).1

/-- A decimal numeral does not start with the byte `c` when `c` is not a digit. -/
theorem matchBytes_decimal (c : Nat) (s : List Nat) (n : Nat) (r : List Nat)
    (hc : isdigit c = false) : matchBytes (c :: s) (decimal n ++ r) = none := by
  obtain ⟨d, ds, h, hd⟩ := decimal_cons n
  rw [h, List.cons_append]
  have : c ≠ d := fun hx => by rw [hx, hd] at hc; exact absurd hc (by decide)
  simp [matchBytes, this]

theorem Returns.to {α : Type} {g : Nat → Result α} {r r2 : Result α} (h : Returns g r)
    (hr : r = r2) : Returns g r2 :=
  hr ▸ h

/-- The observation of a run that `run` is shown to return. -/
theorem runOutcome_of_returns (prog : List Nat) (I : Interpreter)
    (h : Returns (fun f => run f (interpreterConstructor prog)) (.ok () I)) :
    ∃ n, ∀ fuel, n ≤ fuel → runOutcome fuel prog = .completed I.output := by
  obtain ⟨n, hn⟩ := h
  exact ⟨n, fun fuel hf => by have := hn fuel hf; simp only at this; rw [runOutcome, this]; rfl⟩

/-- Whether a table contains a key depends on the bytes of the key only. -/
theorem mapContains_bytes (m : UnorderedMap) (k k2 : Slice) (h : k.bytes = k2.bytes) :
    mapContains m k = mapContains m k2 := by
  unfold mapContains
  rw [hashSlice_bytes k k2 h]
  generalize m.bins.getD (hashSlice k2 % m.capacity) [] = bin
  induction bin with
  | nil => rfl
  | cons c cs ih => simp only [mapContainsBin, sliceEqualSlice_eq, h, ih]

/-- The value of a key depends on the bytes of the key only. -/
theorem mapGet_bytes (m : UnorderedMap) (k k2 : Slice) (h : k.bytes = k2.bytes) :
    mapGet m k = mapGet m k2 := by
  unfold mapGet
  rw [hashSlice_bytes k k2 h]
  generalize m.bins.getD (hashSlice k2 % m.capacity) [] = bin
  induction bin with
  | nil => rfl
  | cons c cs ih => simp only [mapGetBin, sliceEqualSlice_eq, h, ih]

theorem map_bytes_one (slices : List Slice) (a : List Nat)
    (h : slices.map Slice.bytes = [a]) : ∃ pa, slices = [pa] ∧ pa.bytes = a := by
  match slices, h with
  | [pa], h => exact ⟨pa, rfl, by simpa using h⟩

theorem map_bytes_two (slices : List Slice) (a b : List Nat)
    (h : slices.map Slice.bytes = [a, b]) :
    ∃ pa pb, slices = [pa, pb] ∧ pa.bytes = a ∧ pb.bytes = b := by
  match slices, h with
  | [pa, pb], h =>
    simp only [List.map_cons, List.map_nil, List.cons.injEq, and_true] at h
    exact ⟨pa, pb, rfl, h.1, h.2⟩

theorem skipBytes_name (name rest : List Nat) (h : isIdentifierText name = true) :
    ∃ c cs, name = c :: cs ∧ isalpha c = true ∧ skipBytes (name ++ rest) = name ++ rest := by
  cases name with
  | nil => simp [isIdentifierText] at h
  | cons c cs =>
    simp only [isIdentifierText, Bool.and_eq_true] at h
    exact ⟨c, cs, rfl, h.1, skipBytes_cons_of_not_space _ _ (isalpha_not_space c h.1).1⟩

theorem paramText_cons (name : List Nat) (names : List (List Nat)) (rest : List Nat) :
    ∃ sep, paramText (name :: names) rest = [] ++ name ++ sep ∧
      isalnum (sep.headD 0) = false ∧
      ∀ I : Interpreter, (consume (I.moveTo sep) (cstr ",")).2 = I.moveTo (paramText names rest) := by
  cases names with
  | nil =>
    refine ⟨41 :: rest, rfl, rfl, fun I => ?_⟩
    rw [consume_fail I _ _ (by rfl)]
    rfl
  | cons next names =>
    refine ⟨44 :: paramText (next :: names) rest, rfl, rfl, fun I => ?_⟩
    rw [consume_ok I _ (cstr ",") (paramText (next :: names) rest) (by rfl)]

theorem consume_rparen_name (I : Interpreter) (name sep : List Nat)
    (h : isIdentifierText name = true) :
    consume (I.moveTo ([] ++ name ++ sep)) (cstr ")") = (false, I.moveTo ([] ++ name ++ sep)) := by
  obtain ⟨c, cs, rfl, hc, hs⟩ := skipBytes_name name sep h
  have h41 : c ≠ 41 := fun hx => by rw [hx] at hc; exact absurd hc (by decide)
  have := consume_fail I ([] ++ (c :: cs) ++ sep) (cstr ")")
    (by rw [List.nil_append, hs]; simp [matchBytes, Ne.symm h41])
  rw [this, List.nil_append, hs]

/-- The two scans of a parameter list: the count is the number of names, and the stored
slices are the names in their order. -/
theorem parameters_scan (I : Interpreter) (names : List (List Nat)) (rest : List Nat)
    (hnames : ∀ name ∈ names, isIdentifierText name = true) (numParams : Nat) :
    ∀ (count : Nat) (ps : List Slice), count + names.length < U64 →
      ps.length + names.length ≤ numParams →
      ∃ slices : List Slice, slices.map Slice.bytes = names ∧
        Returns (fun f => countParameters f count (I.moveTo (paramText names rest)))
          (.ok (count + names.length) (I.moveTo rest)) ∧
        Returns (fun f => readParameters f numParams ps (I.moveTo (paramText names rest)))
          (.ok (ps ++ slices) (I.moveTo rest)) := by
  induction names with
  | nil =>
    intro count ps _ _
    have hc : consume (I.moveTo (paramText [] rest)) (cstr ")") = (true, I.moveTo rest) :=
      consume_ok I _ _ rest (by rfl)
    refine ⟨[], rfl, Returns.of_forall_succ fun f => ?_, Returns.of_forall_succ fun f => ?_⟩
    · rw [countParameters, hc]
      rfl
    · rw [readParameters, hc]
      simp
  | cons name names ih =>
    intro count ps hcount hlen
    have hname := hnames name (List.mem_cons_self _ _)
    obtain ⟨sep, htext, hsep, hcomma⟩ := paramText_cons name names rest
    have hc := consume_rparen_name I name sep hname
    have hid := consumeIdentifier_name I [] name sep rfl hname hsep
    simp only [List.length_cons] at hcount hlen
    obtain ⟨slices, hs, h1, h2⟩ := ih (fun n hn => hnames n (List.mem_cons_of_mem _ hn))
      (count + 1) (ps ++ [sliceConstructorLen (name ++ sep) name.length]) (by omega)
      (by simp only [List.length_append, List.length_singleton]; omega)
    refine ⟨sliceConstructorLen (name ++ sep) name.length :: slices, ?_, ?_, ?_⟩
    · simp only [List.map_cons, bytes_append, hs]
    · refine Returns.of_succ (fun f => ?_) (Returns.to h1 (by rw [List.length_cons]; congr 1; omega))
      rw [countParameters, htext, hc]
      simp only [Bool.false_eq_true, if_false, hid, if_true, hcomma]
      rw [Nat.mod_eq_of_lt (by omega)]
    · refine Returns.of_succ (fun f => ?_) (Returns.to h2 (by simp))
      rw [readParameters, htext, hc]
      have : ps.length < numParams := by omega
      simp only [Bool.false_eq_true, if_false, hid, this, if_true, hcomma]

/-- The statement `fun name(p1,...,pn) { body }` at top level registers the record of the
function (its name, the position of its body, its parameter names) and skips the body. -/
theorem statement_fun_names (I : Interpreter) (eff : Bool) (ws ws1 fname : List Nat)
    (names : List (List Nat)) (r4 body rest : List Nat)
    (hws : ws.all isspace = true) (hws1 : ws1.all isspace = true) (hws1ne : ws1 ≠ [])
    (hname : isIdentifierText fname = true)
    (hnames : ∀ name ∈ names, isIdentifierText name = true) (hlen : names.length < U64)
    (hr4 : skipBytes r4 = 123 :: body) (hbody : blockEnd 1 body = some rest) :
    ∃ (key : Slice) (slices : List Slice), key.bytes = fname ∧
      slices.map Slice.bytes = names ∧
      Returns (fun f => statement f
          (I.moveTo (ws ++ cstr "fun" ++ (ws1 ++ fname ++ 40 :: paramText names r4))) eff false)
        (.ok true (Interpreter.moveTo
          { I with functionNameMap :=
              (functionMapInsert I.functionNameMap key ⟨key, r4, names.length, slices⟩) }
          rest)) := by
  obtain ⟨slices, hs, h1, h2⟩ := parameters_scan I names r4 hnames names.length 0 []
    (by omega) (by simp)
  rw [Nat.zero_add] at h1
  rw [List.nil_append] at h2
  exact ⟨_, slices, bytes_append _ _, hs,
    statement_fun I eff ws ws1 fname (40 :: paramText names r4) (paramText names r4) r4 body rest
      names.length slices hws hws1 hws1ne hname rfl
      (by rw [consume_ok I _ (cstr "(") (paramText names r4) (by rfl)]) h1 h2 hr4 hbody⟩

/-! ## The run of the `add` program -/

/-- The run of the program `x = X fun add(a,b) { return a + b } print(add(x, Y))`, step by
step: the two statements in front of the call leave a global table `glob` in which `x` is
`X` and a registry `fns` in which `add` has the parameters `a`, `b`; the arguments of the
call evaluate, from left to right and with the tables of the caller, to `X` and `Y`; the
argument loop binds `a` to `X` and `b` to `Y`; the call yields the sum; the run prints it. -/
theorem addProgram_trace (X Y : Nat) (hX : X < 2 ^ 64) (hY : Y < 2 ^ 64) :
    ∃ (glob : UnorderedMap) (fns : UnorderedFunctionMap) (add : Function) (pa pb : Slice),
      pa.bytes = cstr "a" ∧ pb.bytes = cstr "b" ∧ add.parameters = [pa, pb] ∧
      mapGet glob (nameSlice (cstr "x")) = X ∧
      functionMapGet fns (nameSlice (cstr "add")) = some add ∧
      (∃ S1 : Interpreter,
        Returns (fun f => statement f (interpreterConstructor (addProgram X Y)) true false)
          (.ok true S1) ∧
        Returns (fun f => statement f S1 true false)
          (.ok true ⟨addProgram X Y, cstr " print(add(x, " ++ (decimal Y ++ cstr "))"),
            ⟨false, 0⟩, mapCreate, glob, fns, []⟩)) ∧
      ArgumentsYield true
        ⟨addProgram X Y, cstr "x, " ++ (decimal Y ++ cstr "))"), ⟨false, 0⟩, mapCreate, glob,
          fns, []⟩ [X, Y]
        ⟨addProgram X Y, cstr ")", ⟨false, 0⟩, mapCreate, glob, fns, []⟩ ∧
      Returns (fun f => functionCallLoop f
          ⟨addProgram X Y, cstr "x, " ++ (decimal Y ++ cstr "))"), ⟨false, 0⟩, mapCreate, glob,
            fns, []⟩ true add mapCreate 0)
        (.ok (mapInsert (mapInsert mapCreate pa X) pb Y, 2)
          ⟨addProgram X Y, cstr ")", ⟨false, 0⟩, mapCreate, glob, fns, []⟩) ∧
      variableValue ⟨addProgram X Y, [], ⟨false, 0⟩, mapInsert (mapInsert mapCreate pa X) pb Y, glob, fns, []⟩ true (cstr "a") = X ∧
      variableValue ⟨addProgram X Y, [], ⟨false, 0⟩, mapInsert (mapInsert mapCreate pa X) pb Y, glob, fns, []⟩ true (cstr "b") = Y ∧
      Returns (fun f => functionCall f
          ⟨addProgram X Y, cstr "x, " ++ (decimal Y ++ cstr "))"), ⟨false, 0⟩, mapCreate, glob,
            fns, []⟩ true add)
        (.ok ((X + Y) % 2 ^ 64)
          ⟨addProgram X Y, cstr ")", ⟨false, 0⟩, mapCreate, glob, fns, []⟩) ∧
      Returns (fun f => run f (interpreterConstructor (addProgram X Y)))
        (.ok () ⟨addProgram X Y, [], ⟨false, 0⟩, mapCreate, glob, fns, [(X + Y) % 2 ^ 64]⟩) := by
  -- `x = X`
  obtain ⟨kx, hkx, h1⟩ : ∃ k : Slice, k.bytes = cstr "x" ∧
      Returns (fun f => statement f (interpreterConstructor (addProgram X Y)) true false)
        (.ok true ⟨addProgram X Y,
          cstr "fun add(a,b) \x7b return a + b \x7d print(add(x, " ++ (decimal Y ++ cstr "))"),
          ⟨false, 0⟩, mapCreate, mapInsert mapCreate k X,
          (interpreterConstructor (addProgram X Y)).functionNameMap, []⟩) :=
    ⟨_, bytes_append _ _,
      statement_assign (interpreterConstructor (addProgram X Y)) _ true false []
        (cstr "x") (cstr " ")
        (cstr " " ++ decimal X ++ (cstr " fun add(a,b) \x7b return a + b \x7d print(add(x, "
          ++ (decimal Y ++ cstr "))"))) X rfl (by decide) (by decide) (by decide)
        (fun h => by simp at h)
        (expression_value (.lit (cstr " ") (decimal X)) (wellFormed_decimal _ (by decide) X)
          _ (by exact endsExpression_of_head _ _ 102 rfl rfl (by decide)) _ true false X
          (valueIn_decimal _ _ _ hX))⟩
  -- `fun add(a,b) { return a + b }`
  obtain ⟨kadd, pa, pb, hkadd, hpa, hpb, h2⟩ : ∃ kadd pa pb : Slice,
      kadd.bytes = cstr "add" ∧ pa.bytes = cstr "a" ∧ pb.bytes = cstr "b" ∧
      Returns (fun f => statement f ⟨addProgram X Y,
          cstr "fun add(a,b) \x7b return a + b \x7d print(add(x, " ++ (decimal Y ++ cstr "))"),
          ⟨false, 0⟩, mapCreate, mapInsert mapCreate kx X,
          (interpreterConstructor (addProgram X Y)).functionNameMap, []⟩ true false)
        (.ok true ⟨addProgram X Y, cstr " print(add(x, " ++ (decimal Y ++ cstr "))"),
          ⟨false, 0⟩, mapCreate, mapInsert mapCreate kx X,
          functionMapInsert (interpreterConstructor (addProgram X Y)).functionNameMap kadd
            ⟨kadd, cstr " \x7b return a + b \x7d print(add(x, " ++ (decimal Y ++ cstr "))"), 2,
              [pa, pb]⟩, []⟩) := by
    obtain ⟨key, slices, hkey, hs, h⟩ := statement_fun_names
      ⟨addProgram X Y, [], ⟨false, 0⟩, mapCreate, mapInsert mapCreate kx X,
        (interpreterConstructor (addProgram X Y)).functionNameMap, []⟩ true [] (cstr " ")
      (cstr "add") [cstr "a", cstr "b"]
      (cstr " \x7b return a + b \x7d print(add(x, " ++ (decimal Y ++ cstr "))"))
      (cstr " return a + b \x7d print(add(x, " ++ (decimal Y ++ cstr "))"))
      (cstr " print(add(x, " ++ (decimal Y ++ cstr "))"))
      rfl rfl (by decide) (by decide) (by decide) (by decide) rfl rfl
    obtain ⟨pa, pb, rfl, hpa, hpb⟩ := map_bytes_two slices _ _ hs
    exact ⟨key, pa, pb, hkey, hpa, hpb, h⟩
  have hprint : functionMapGet
      (functionMapInsert (interpreterConstructor (addProgram X Y)).functionNameMap kadd
        ⟨kadd, cstr " \x7b return a + b \x7d print(add(x, " ++ (decimal Y ++ cstr "))"), 2,
          [pa, pb]⟩) (nameSlice (cstr "print")) = some createPrintFunction := by
    rw [functionMapGet_insert _ _ _ _ 1 (fitsFunctionMap_constructor _) (by omega), hkadd,
      bytes_nameSlice, if_neg (by decide), functionMapGet_constructor_print]
  have hadd : functionMapGet
      (functionMapInsert (interpreterConstructor (addProgram X Y)).functionNameMap kadd
        ⟨kadd, cstr " \x7b return a + b \x7d print(add(x, " ++ (decimal Y ++ cstr "))"), 2,
          [pa, pb]⟩) (nameSlice (cstr "add")) =
      some ⟨kadd, cstr " \x7b return a + b \x7d print(add(x, " ++ (decimal Y ++ cstr "))"), 2,
          [pa, pb]⟩ := by
    rw [functionMapGet_insert _ _ _ _ 1 (fitsFunctionMap_constructor _) (by omega), hkadd,
      bytes_nameSlice, if_pos rfl]
  have hx : mapGet (mapInsert mapCreate kx X) (nameSlice (cstr "x")) = X := by
    rw [mapGet_insert _ _ _ _ 0 fitsMap_create (by omega), hkx, bytes_nameSlice, if_pos rfl]
  generalize functionMapInsert (interpreterConstructor (addProgram X Y)).functionNameMap kadd
        ⟨kadd, cstr " \x7b return a + b \x7d print(add(x, " ++ (decimal Y ++ cstr "))"), 2,
          [pa, pb]⟩ = fns at h2 hprint hadd
  generalize mapInsert mapCreate kx X = glob at h1 h2 hx
  -- the arguments of `add(x, Y)`
  have hargs : Returns (fun f => functionCallLoop f
        ⟨addProgram X Y, cstr "x, " ++ (decimal Y ++ cstr "))"), ⟨false, 0⟩, mapCreate, glob,
          fns, []⟩ true
        ⟨kadd, cstr " \x7b return a + b \x7d print(add(x, " ++ (decimal Y ++ cstr "))"), 2,
          [pa, pb]⟩ mapCreate 0)
      (.ok (mapInsert (mapInsert mapCreate pa X) pb Y, 2)
        ⟨addProgram X Y, cstr ")", ⟨false, 0⟩, mapCreate, glob, fns, []⟩) := by
    refine functionCallLoop_arg ⟨addProgram X Y, [], ⟨false, 0⟩, mapCreate, glob, fns, []⟩ _
      true _ mapCreate 0 X (cstr "x, " ++ (decimal Y ++ cstr "))")) pa _ rfl
      (expression_value (.var [] (cstr "x")) (by decide) (cstr ", " ++ (decimal Y ++ cstr "))"))
        (endsExpression_of_head _ _ 44 rfl rfl (by decide)) _ true true X
        (by simp only [Expr.valueIn, variableValue, mapContains_create]; exact hx)) rfl ?_
    refine functionCallLoop_arg ⟨addProgram X Y, [], ⟨false, 0⟩, mapCreate, glob, fns, []⟩ _
      true _ _ 1 Y (cstr " " ++ (decimal Y ++ cstr "))")) pb _
      (by rw [show cstr " " ++ (decimal Y ++ cstr "))") = cstr " " ++ (decimal Y ++ cstr "))")
            from rfl, skipBytes_ws _ _ (by decide), skipBytes_decimal]
          exact matchBytes_decimal _ _ _ _ (by decide))
      (expression_value (.lit (cstr " ") (decimal Y)) (wellFormed_decimal _ (by decide) Y)
        (cstr "))") (endsExpression_of_head _ _ 41 rfl rfl (by decide)) _ true true Y
        (valueIn_decimal _ _ _ hY)) rfl ?_
    exact Returns.of_add_eq 1 fun f => functionCallLoop_done f
      ⟨addProgram X Y, [], ⟨false, 0⟩, mapCreate, glob, fns, []⟩ true _ _ _ (cstr "))")
      (cstr ")") rfl
  have hyield : ArgumentsYield true
      ⟨addProgram X Y, cstr "x, " ++ (decimal Y ++ cstr "))"), ⟨false, 0⟩, mapCreate, glob, fns, []⟩
      [X, Y] ⟨addProgram X Y, cstr ")", ⟨false, 0⟩, mapCreate, glob, fns, []⟩ := by
    refine ArgumentsYield.arg _
      ⟨addProgram X Y, cstr ", " ++ (decimal Y ++ cstr "))"), ⟨false, 0⟩, mapCreate, glob, fns, []⟩
      _ X [Y] rfl
      (expression_value (.var [] (cstr "x")) (by decide) (cstr ", " ++ (decimal Y ++ cstr "))"))
        (endsExpression_of_head _ _ 44 rfl rfl (by decide))
        ⟨addProgram X Y, [], ⟨false, 0⟩, mapCreate, glob, fns, []⟩ true true X
        (by simp only [Expr.valueIn, variableValue, mapContains_create]; exact hx)) ?_
    refine ArgumentsYield.arg
      ⟨addProgram X Y, cstr " " ++ (decimal Y ++ cstr "))"), ⟨false, 0⟩, mapCreate, glob, fns, []⟩
      ⟨addProgram X Y, cstr "))", ⟨false, 0⟩, mapCreate, glob, fns, []⟩ _ Y [] ?_
      (expression_value (.lit (cstr " ") (decimal Y)) (wellFormed_decimal _ (by decide) Y)
        (cstr "))") (endsExpression_of_head _ _ 41 rfl rfl (by decide))
        ⟨addProgram X Y, [], ⟨false, 0⟩, mapCreate, glob, fns, []⟩ true true Y
        (valueIn_decimal _ _ _ hY)) ?_
    · show matchBytes [41] (skipBytes (cstr " " ++ (decimal Y ++ cstr "))"))) = none
      rw [skipBytes_ws _ _ (by decide), skipBytes_decimal]
      exact matchBytes_decimal _ _ _ _ (by decide)
    · exact ArgumentsYield.done
        ⟨addProgram X Y, cstr "))", ⟨false, 0⟩, mapCreate, glob, fns, []⟩ (cstr ")") rfl
  -- the body of `add`
  have ha : variableValue ⟨addProgram X Y, [], ⟨false, 0⟩,
      mapInsert (mapInsert mapCreate pa X) pb Y, glob, fns, []⟩ true (cstr "a") = X := by
    simp [variableValue, mapContains_insert _ _ _ _ 1 (fitsMap_insert _ _ _ 0 fitsMap_create
      (by omega)) (by omega), mapGet_insert _ _ _ _ 1 (fitsMap_insert _ _ _ 0 fitsMap_create
      (by omega)) (by omega), mapContains_insert _ _ _ _ 0 fitsMap_create (by omega),
      mapGet_insert _ _ _ _ 0 fitsMap_create (by omega), hpa, hpb,
      show ¬ cstr "b" = cstr "a" from by decide]
  have hb : variableValue ⟨addProgram X Y, [], ⟨false, 0⟩,
      mapInsert (mapInsert mapCreate pa X) pb Y, glob, fns, []⟩ true (cstr "b") = Y := by
    simp [variableValue, mapContains_insert _ _ _ _ 1 (fitsMap_insert _ _ _ 0 fitsMap_create
      (by omega)) (by omega), mapGet_insert _ _ _ _ 1 (fitsMap_insert _ _ _ 0 fitsMap_create
      (by omega)) (by omega), hpb]
  have hbody : Returns (fun f => performFunction f
        ⟨addProgram X Y, cstr ")", ⟨false, 0⟩, mapInsert (mapInsert mapCreate pa X) pb Y, glob,
          fns, []⟩ true
        ⟨kadd, cstr " \x7b return a + b \x7d print(add(x, " ++ (decimal Y ++ cstr "))"), 2,
          [pa, pb]⟩)
      (.ok ((X + Y) % 2 ^ 64)
        ⟨addProgram X Y, cstr ")", ⟨false, 0⟩, mapInsert (mapInsert mapCreate pa X) pb Y, glob,
          fns, []⟩) := by
    refine performFunction_body
      ⟨addProgram X Y, cstr ")", ⟨false, 0⟩, mapInsert (mapInsert mapCreate pa X) pb Y, glob,
        fns, []⟩
      ⟨addProgram X Y, cstr "\x7d print(add(x, " ++ (decimal Y ++ cstr "))"), ⟨false, 0⟩,
        mapInsert (mapInsert mapCreate pa X) pb Y, glob, fns, []⟩ true
      ⟨kadd, cstr " \x7b return a + b \x7d print(add(x, " ++ (decimal Y ++ cstr "))"), 2,
        [pa, pb]⟩
      (cstr " return a + b \x7d print(add(x, " ++ (decimal Y ++ cstr "))")) _ rfl ?_
    refine performFunctionLoop_return ⟨addProgram X Y, [], ⟨false, 0⟩,
      mapInsert (mapInsert mapCreate pa X) pb Y, glob, fns, []⟩
      ⟨addProgram X Y, cstr "\x7d print(add(x, " ++ (decimal Y ++ cstr "))"),
        ⟨true, (X + Y) % 2 ^ 64⟩, mapInsert (mapInsert mapCreate pa X) pb Y, glob, fns, []⟩ true
      (cstr " return a + b \x7d print(add(x, " ++ (decimal Y ++ cstr "))")) rfl rfl ?_
    exact checkReturn_return ⟨addProgram X Y, [], ⟨false, 0⟩,
      mapInsert (mapInsert mapCreate pa X) pb Y, glob, fns, []⟩ _ true []
      (cstr " a + b \x7d print(add(x, " ++ (decimal Y ++ cstr "))")) ((X + Y) % 2 ^ 64) rfl rfl rfl
      (expression_value (.bin .add (.var (cstr " ") (cstr "a")) (cstr " ")
          (.var (cstr " ") (cstr "b"))) (by decide)
        (cstr " \x7d print(add(x, " ++ (decimal Y ++ cstr "))"))
        (endsExpression_of_head _ _ 125 rfl rfl (by decide)) _ true true _
        (by simp only [Expr.valueIn, BinOp.apply, ha, hb]))
  -- the call `add(x, Y)`
  have hcall : Returns (fun f => functionCall f
        ⟨addProgram X Y, cstr "x, " ++ (decimal Y ++ cstr "))"), ⟨false, 0⟩, mapCreate, glob,
          fns, []⟩ true
        ⟨kadd, cstr " \x7b return a + b \x7d print(add(x, " ++ (decimal Y ++ cstr "))"), 2,
          [pa, pb]⟩)
      (.ok ((X + Y) % 2 ^ 64)
        ⟨addProgram X Y, cstr ")", ⟨false, 0⟩, mapCreate, glob, fns, []⟩) :=
    functionCall_user
      ⟨addProgram X Y, cstr "x, " ++ (decimal Y ++ cstr "))"), ⟨false, 0⟩, mapCreate, glob,
        fns, []⟩
      ⟨addProgram X Y, cstr ")", ⟨false, 0⟩, mapCreate, glob, fns, []⟩
      ⟨addProgram X Y, cstr ")", ⟨false, 0⟩, mapInsert (mapInsert mapCreate pa X) pb Y, glob,
          fns, []⟩ true
      ⟨kadd, cstr " \x7b return a + b \x7d print(add(x, " ++ (decimal Y ++ cstr "))"), 2,
        [pa, pb]⟩ (mapInsert (mapInsert mapCreate pa X) pb Y) ((X + Y) % 2 ^ 64)
      (by rw [sliceEqualString_bytes, hkadd]; decide) hargs hbody
  have hexpr : Returns (fun f => expression f
        ⟨addProgram X Y, cstr "add(x, " ++ (decimal Y ++ cstr "))"), ⟨false, 0⟩, mapCreate, glob,
          fns, []⟩ true true)
      (.ok ((X + Y) % 2 ^ 64)
        ⟨addProgram X Y, cstr ")", ⟨false, 0⟩, mapCreate, glob, fns, []⟩) :=
    expression_of_primary
      ⟨addProgram X Y, [], ⟨false, 0⟩, mapCreate, glob, fns, []⟩
      ⟨addProgram X Y, [], ⟨false, 0⟩, mapCreate, glob, fns, []⟩ true true
      (cstr "add(x, " ++ (decimal Y ++ cstr "))")) (cstr ")")
      (cstr "dd(x, " ++ (decimal Y ++ cstr "))")) 97 _ rfl (by decide)
      (e1_call ⟨addProgram X Y, [], ⟨false, 0⟩, mapCreate, glob, fns, []⟩ true true []
        (cstr "add") (cstr "(x, " ++ (decimal Y ++ cstr "))"))
        (cstr "x, " ++ (decimal Y ++ cstr "))")) _ _ rfl (by decide) rfl rfl hadd hcall)
      ((endsExpression_of_head (cstr ")") [] 41 rfl rfl (by decide)).noOps 16)
  -- the call `print(...)`
  have hprintcall : Returns (fun f => functionCall f
        ⟨addProgram X Y, cstr "(add(x, " ++ (decimal Y ++ cstr "))"), ⟨false, 0⟩, mapCreate,
          glob, fns, []⟩ true createPrintFunction)
      (.ok 0 ⟨addProgram X Y, [], ⟨false, 0⟩, mapCreate, glob, fns, [(X + Y) % 2 ^ 64]⟩) := by
    refine Returns.to (functionCall_print
      ⟨addProgram X Y, cstr "(add(x, " ++ (decimal Y ++ cstr "))"), ⟨false, 0⟩, mapCreate,
          glob, fns, []⟩
      ⟨addProgram X Y, [], ⟨false, 0⟩, mapCreate, glob, fns, []⟩ true createPrintFunction
      (mapInsert mapCreate (sliceConstructorLen (cstr ".") 1) ((X + Y) % 2 ^ 64))
      (sliceConstructorLen (cstr ".") 1) rfl rfl ?_) ?_
    · refine functionCallLoop_arg ⟨addProgram X Y, [], ⟨false, 0⟩, mapCreate, glob, fns, []⟩
        ⟨addProgram X Y, cstr ")", ⟨false, 0⟩, mapCreate, glob, fns, []⟩
        true createPrintFunction mapCreate 0 ((X + Y) % 2 ^ 64)
        (cstr "add(x, " ++ (decimal Y ++ cstr "))")) (sliceConstructorLen (cstr ".") 1) _ rfl
        hexpr rfl ?_
      exact Returns.of_add_eq 1 fun f => functionCallLoop_done f
        ⟨addProgram X Y, [], ⟨false, 0⟩, mapCreate, glob, fns, []⟩ true _ _ _ (cstr ")") [] rfl
    · simp [mapGet_insert _ _ _ _ 0 fitsMap_create (by omega)]
  -- the statement `print(add(x, Y))`
  have h3 : Returns (fun f => statement f
        ⟨addProgram X Y, cstr " print(add(x, " ++ (decimal Y ++ cstr "))"), ⟨false, 0⟩,
          mapCreate, glob, fns, []⟩ true false)
      (.ok true ⟨addProgram X Y, [], ⟨false, 0⟩, mapCreate, glob, fns, [(X + Y) % 2 ^ 64]⟩) :=
    statement_call ⟨addProgram X Y, [], ⟨false, 0⟩, mapCreate, glob, fns, []⟩ true false
      (cstr " ") (cstr "print") [] (cstr "add(x, " ++ (decimal Y ++ cstr "))"))
      createPrintFunction _ rfl (by decide) (by decide) rfl (fun h => by simp at h) hprint
      hprintcall
  have h4 := statement_none
    ⟨addProgram X Y, [], ⟨false, 0⟩, mapCreate, glob, fns, [(X + Y) % 2 ^ 64]⟩ true []
    (by decide) (by decide)
  exact ⟨glob, fns, _, pa, pb, hpa, hpb, rfl, hx, hadd, ⟨_, h1, h2⟩, hyield, hargs, ha, hb,
    hcall, run_eq _ _ (statements_cons _ _ _ _ h1 (statements_cons _ _ _ _ h2
      (statements_cons _ _ _ _ h3 (statements_nil _ _ _ h4))))⟩

/-- The run of the program `x = X fun add(a,b) { return a + b } print(add(x, Y))`. -/
theorem addProgram_run (X Y : Nat) (hX : X < 2 ^ 64) (hY : Y < 2 ^ 64) :
    ∃ I : Interpreter, I.output = [(X + Y) % 2 ^ 64] ∧
      Returns (fun f => run f (interpreterConstructor (addProgram X Y))) (.ok () I) := by
  obtain ⟨glob, fns, add, pa, pb, -, -, -, -, -, -, -, -, -, -, -, h⟩ := addProgram_trace X Y hX hY
  exact ⟨_, rfl, h⟩


/-! ## The run of the `f(n)` program -/

/-- The body of `fun f(n) { if (n) { return 1 } return 0 }` with `n` bound to `N`. -/
theorem sign_body (p c P : List Nat) (glob : UnorderedMap) (fns : UnorderedFunctionMap)
    (out : List Nat) (kf pn : Slice) (hpn : pn.bytes = cstr "n") (N : Nat) :
    Returns (fun f => performFunction f
        ⟨p, c, ⟨false, 0⟩, mapInsert mapCreate pn N, glob, fns, out⟩ true
        ⟨kf, cstr " \x7b if (n) \x7b return 1 \x7d return 0 \x7d" ++ P, 1, [pn]⟩)
      (.ok (if N = 0 then 0 else 1)
        ⟨p, c, ⟨false, 0⟩, mapInsert mapCreate pn N, glob, fns, out⟩) := by
  have hn : variableValue ⟨p, [], ⟨false, 0⟩, mapInsert mapCreate pn N, glob, fns, out⟩ true
      (cstr "n") = N := by
    simp [variableValue, mapContains_insert _ _ _ _ 0 fitsMap_create (by omega),
      mapGet_insert _ _ _ _ 0 fitsMap_create (by omega), hpn]
  have hcond : Returns (fun f => expression f
        ⟨p, cstr "n) \x7b return 1 \x7d return 0 \x7d" ++ P, ⟨false, 0⟩,
          mapInsert mapCreate pn N, glob, fns, out⟩ true true)
      (.ok N ⟨p, cstr ") \x7b return 1 \x7d return 0 \x7d" ++ P, ⟨false, 0⟩,
          mapInsert mapCreate pn N, glob, fns, out⟩) :=
    expression_value (.var [] (cstr "n")) (by decide)
      (cstr ") \x7b return 1 \x7d return 0 \x7d" ++ P)
      (endsExpression_of_head _ _ 41 rfl rfl (by decide))
      ⟨p, [], ⟨false, 0⟩, mapInsert mapCreate pn N, glob, fns, out⟩ true true N
      (by simp only [Expr.valueIn, hn])
  have hcr : Returns (fun f => checkReturn f
        ⟨p, cstr "if (n) \x7b return 1 \x7d return 0 \x7d" ++ P, ⟨false, 0⟩,
          mapInsert mapCreate pn N, glob, fns, out⟩ true true)
      (.ok false ⟨p, cstr "if (n) \x7b return 1 \x7d return 0 \x7d" ++ P, ⟨false, 0⟩,
          mapInsert mapCreate pn N, glob, fns, out⟩) :=
    Returns.of_forall_succ fun f => checkReturn_other f _ true true (fun _ => rfl) (fun _ => rfl)
  by_cases hN : N = 0
  · subst hN
    rw [if_pos rfl]
    have hst : Returns (fun f => statement f
          ⟨p, cstr "if (n) \x7b return 1 \x7d return 0 \x7d" ++ P, ⟨false, 0⟩,
            mapInsert mapCreate pn 0, glob, fns, out⟩ true true)
        (.ok true ⟨p, cstr " return 0 \x7d" ++ P, ⟨false, 0⟩,
            mapInsert mapCreate pn 0, glob, fns, out⟩) :=
      statement_if ⟨p, [], ⟨false, 0⟩, mapInsert mapCreate pn 0, glob, fns, out⟩ true true []
        (cstr " (n) \x7b return 1 \x7d return 0 \x7d" ++ P) _ rfl rfl (fun _ => rfl)
        (ifStatement_false_plain
          ⟨p, [], ⟨false, 0⟩, mapInsert mapCreate pn 0, glob, fns, out⟩
          ⟨p, [], ⟨false, 0⟩, mapInsert mapCreate pn 0, glob, fns, out⟩ true true
          (cstr " (n) \x7b return 1 \x7d return 0 \x7d" ++ P)
          (cstr "n) \x7b return 1 \x7d return 0 \x7d" ++ P)
          (cstr ") \x7b return 1 \x7d return 0 \x7d" ++ P)
          (cstr " \x7b return 1 \x7d return 0 \x7d" ++ P)
          (cstr " return 1 \x7d return 0 \x7d" ++ P)
          (cstr " return 0 \x7d" ++ P) rfl hcond rfl rfl rfl rfl)
    refine performFunction_body
      ⟨p, c, ⟨false, 0⟩, mapInsert mapCreate pn 0, glob, fns, out⟩
      ⟨p, cstr "\x7d" ++ P, ⟨false, 0⟩, mapInsert mapCreate pn 0, glob, fns, out⟩ true
      ⟨kf, cstr " \x7b if (n) \x7b return 1 \x7d return 0 \x7d" ++ P, 1, [pn]⟩
      (cstr " if (n) \x7b return 1 \x7d return 0 \x7d" ++ P) 0 rfl ?_
    refine performFunctionLoop_statement
      ⟨p, [], ⟨false, 0⟩, mapInsert mapCreate pn 0, glob, fns, out⟩ _ _ true
      (cstr " if (n) \x7b return 1 \x7d return 0 \x7d" ++ P) _ rfl rfl hcr hst ?_
    exact performFunctionLoop_return
      ⟨p, [], ⟨false, 0⟩, mapInsert mapCreate pn 0, glob, fns, out⟩
      ⟨p, cstr "\x7d" ++ P, ⟨true, 0⟩, mapInsert mapCreate pn 0, glob, fns, out⟩ true
      (cstr " return 0 \x7d" ++ P) rfl rfl
      (checkReturn_return ⟨p, [], ⟨false, 0⟩, mapInsert mapCreate pn 0, glob, fns, out⟩ _
        true [] (cstr " 0 \x7d" ++ P) 0 rfl rfl rfl
        (expression_value (.lit (cstr " ") (cstr "0")) (by decide) (cstr " \x7d" ++ P)
          (endsExpression_of_head _ _ 125 rfl rfl (by decide)) _ true true 0 rfl))
  · rw [if_neg hN]
    have hblock : Returns (fun f => blockLoop f
          ⟨p, cstr " return 1 \x7d return 0 \x7d" ++ P, ⟨false, 0⟩,
            mapInsert mapCreate pn N, glob, fns, out⟩ true true)
        (.ok true ⟨p, cstr " return 0 \x7d" ++ P, ⟨true, 1⟩,
            mapInsert mapCreate pn N, glob, fns, out⟩) :=
      blockLoop_return ⟨p, [], ⟨false, 0⟩, mapInsert mapCreate pn N, glob, fns, out⟩
        ⟨p, cstr "\x7d return 0 \x7d" ++ P, ⟨true, 1⟩, mapInsert mapCreate pn N, glob, fns, out⟩
        ⟨p, cstr " return 0 \x7d" ++ P, ⟨true, 1⟩, mapInsert mapCreate pn N, glob, fns, out⟩
        true true (cstr " return 1 \x7d return 0 \x7d" ++ P) rfl
        (checkReturn_return ⟨p, [], ⟨false, 0⟩, mapInsert mapCreate pn N, glob, fns, out⟩ _
          true [] (cstr " 1 \x7d return 0 \x7d" ++ P) 1 rfl rfl rfl
          (expression_value (.lit (cstr " ") (cstr "1")) (by decide)
            (cstr " \x7d return 0 \x7d" ++ P)
            (endsExpression_of_head _ _ 125 rfl rfl (by decide)) _ true true 1 rfl))
        (consumePast_blockEnd
          ⟨p, [], ⟨true, 1⟩, mapInsert mapCreate pn N, glob, fns, out⟩ _ _ rfl)
    have hst : Returns (fun f => statement f
          ⟨p, cstr "if (n) \x7b return 1 \x7d return 0 \x7d" ++ P, ⟨false, 0⟩,
            mapInsert mapCreate pn N, glob, fns, out⟩ true true)
        (.ok true ⟨p, cstr " return 0 \x7d" ++ P, ⟨true, 1⟩,
            mapInsert mapCreate pn N, glob, fns, out⟩) :=
      statement_if ⟨p, [], ⟨false, 0⟩, mapInsert mapCreate pn N, glob, fns, out⟩ true true []
        (cstr " (n) \x7b return 1 \x7d return 0 \x7d" ++ P) _ rfl rfl (fun _ => rfl)
        (ifStatement_true_return
          ⟨p, [], ⟨false, 0⟩, mapInsert mapCreate pn N, glob, fns, out⟩
          ⟨p, [], ⟨false, 0⟩, mapInsert mapCreate pn N, glob, fns, out⟩ _ true true
          (cstr " (n) \x7b return 1 \x7d return 0 \x7d" ++ P)
          (cstr "n) \x7b return 1 \x7d return 0 \x7d" ++ P)
          (cstr ") \x7b return 1 \x7d return 0 \x7d" ++ P)
          (cstr " \x7b return 1 \x7d return 0 \x7d" ++ P)
          (cstr " return 1 \x7d return 0 \x7d" ++ P) N rfl hcond hN rfl rfl hblock)
    refine performFunction_body
      ⟨p, c, ⟨false, 0⟩, mapInsert mapCreate pn N, glob, fns, out⟩
      ⟨p, cstr "return 0 \x7d" ++ P, ⟨false, 0⟩, mapInsert mapCreate pn N, glob, fns, out⟩ true
      ⟨kf, cstr " \x7b if (n) \x7b return 1 \x7d return 0 \x7d" ++ P, 1, [pn]⟩
      (cstr " if (n) \x7b return 1 \x7d return 0 \x7d" ++ P) 1 rfl ?_
    refine performFunctionLoop_statement
      ⟨p, [], ⟨false, 0⟩, mapInsert mapCreate pn N, glob, fns, out⟩ _ _ true
      (cstr " if (n) \x7b return 1 \x7d return 0 \x7d" ++ P) _ rfl rfl hcr hst ?_
    exact Returns.of_add_eq 1 fun f => performFunctionLoop_pending f
      ⟨p, [], ⟨true, 1⟩, mapInsert mapCreate pn N, glob, fns, out⟩ true
      (cstr " return 0 \x7d" ++ P) rfl rfl

/-- The statement `print(f(N))` with `f` the function of `signProgram`. -/
theorem sign_print (p P R : List Nat) (glob : UnorderedMap) (fns : UnorderedFunctionMap)
    (out : List Nat) (kf pn : Slice) (hkf : kf.bytes = cstr "f") (hpn : pn.bytes = cstr "n")
    (hprint : functionMapGet fns (nameSlice (cstr "print")) = some createPrintFunction)
    (hf : functionMapGet fns (nameSlice (cstr "f")) =
      some ⟨kf, cstr " \x7b if (n) \x7b return 1 \x7d return 0 \x7d" ++ P, 1, [pn]⟩)
    (N : Nat) (hN : N < 2 ^ 64) :
    Returns (fun f => statement f
        ⟨p, cstr " print(f(" ++ (decimal N ++ (cstr "))" ++ R)), ⟨false, 0⟩, mapCreate, glob,
          fns, out⟩ true false)
      (.ok true ⟨p, R, ⟨false, 0⟩, mapCreate, glob, fns, out ++ [if N = 0 then 0 else 1]⟩) := by
  have hargs : Returns (fun f => functionCallLoop f
        ⟨p, decimal N ++ (cstr "))" ++ R), ⟨false, 0⟩, mapCreate, glob, fns, out⟩ true
        ⟨kf, cstr " \x7b if (n) \x7b return 1 \x7d return 0 \x7d" ++ P, 1, [pn]⟩ mapCreate 0)
      (.ok (mapInsert mapCreate pn N, 1)
        ⟨p, cstr ")" ++ R, ⟨false, 0⟩, mapCreate, glob, fns, out⟩) := by
    refine functionCallLoop_arg ⟨p, [], ⟨false, 0⟩, mapCreate, glob, fns, out⟩ _
      true _ mapCreate 0 N (decimal N ++ (cstr "))" ++ R)) pn _
      (by rw [skipBytes_decimal]; exact matchBytes_decimal _ _ _ _ (by decide))
      (expression_value (.lit [] (decimal N)) (wellFormed_decimal _ (by decide) N)
        (cstr "))" ++ R) (endsExpression_of_head _ _ 41 rfl rfl (by decide)) _ true true N
        (valueIn_decimal _ _ _ hN)) rfl ?_
    exact Returns.of_add_eq 1 fun f => functionCallLoop_done f
      ⟨p, [], ⟨false, 0⟩, mapCreate, glob, fns, out⟩ true _ _ _ (cstr "))" ++ R)
      (cstr ")" ++ R) rfl
  have hcall : Returns (fun f => functionCall f
        ⟨p, decimal N ++ (cstr "))" ++ R), ⟨false, 0⟩, mapCreate, glob, fns, out⟩ true
        ⟨kf, cstr " \x7b if (n) \x7b return 1 \x7d return 0 \x7d" ++ P, 1, [pn]⟩)
      (.ok (if N = 0 then 0 else 1)
        ⟨p, cstr ")" ++ R, ⟨false, 0⟩, mapCreate, glob, fns, out⟩) :=
    functionCall_user
      ⟨p, decimal N ++ (cstr "))" ++ R), ⟨false, 0⟩, mapCreate, glob, fns, out⟩
      ⟨p, cstr ")" ++ R, ⟨false, 0⟩, mapCreate, glob, fns, out⟩
      ⟨p, cstr ")" ++ R, ⟨false, 0⟩, mapInsert mapCreate pn N, glob, fns, out⟩ true
      ⟨kf, cstr " \x7b if (n) \x7b return 1 \x7d return 0 \x7d" ++ P, 1, [pn]⟩
      (mapInsert mapCreate pn N) (if N = 0 then 0 else 1)
      (by rw [sliceEqualString_bytes, hkf]; decide)
      (by
        have hc := consume_fail ⟨p, [], ⟨false, 0⟩, mapCreate, glob, fns, out⟩
          (decimal N ++ (cstr "))" ++ R)) (cstr "(")
          (by rw [skipBytes_decimal]; exact matchBytes_decimal _ _ _ _ (by decide))
        rw [skipBytes_decimal] at hc
        have hc2 : (consume ⟨p, decimal N ++ (cstr "))" ++ R), ⟨false, 0⟩, mapCreate, glob,
            fns, out⟩ (cstr "(")).2 =
            ⟨p, decimal N ++ (cstr "))" ++ R), ⟨false, 0⟩, mapCreate, glob, fns, out⟩ := by
          have := congrArg Prod.snd hc
          exact this
        rw [hc2]
        exact hargs)
      (sign_body p (cstr ")" ++ R) P glob fns out kf pn hpn N)
  have hexpr : Returns (fun f => expression f
        ⟨p, cstr "f(" ++ (decimal N ++ (cstr "))" ++ R)), ⟨false, 0⟩, mapCreate, glob, fns,
          out⟩ true true)
      (.ok (if N = 0 then 0 else 1)
        ⟨p, cstr ")" ++ R, ⟨false, 0⟩, mapCreate, glob, fns, out⟩) :=
    expression_of_primary
      ⟨p, [], ⟨false, 0⟩, mapCreate, glob, fns, out⟩
      ⟨p, [], ⟨false, 0⟩, mapCreate, glob, fns, out⟩ true true
      (cstr "f(" ++ (decimal N ++ (cstr "))" ++ R))) (cstr ")" ++ R)
      (cstr "(" ++ (decimal N ++ (cstr "))" ++ R))) 102 _ rfl (by decide)
      (e1_call ⟨p, [], ⟨false, 0⟩, mapCreate, glob, fns, out⟩ true true []
        (cstr "f") (cstr "(" ++ (decimal N ++ (cstr "))" ++ R)))
        (decimal N ++ (cstr "))" ++ R)) _ _ rfl (by decide) rfl rfl hf hcall)
      ((endsExpression_of_head (cstr ")" ++ R) R 41 rfl rfl (by decide)).noOps 16)
  have hprintcall : Returns (fun f => functionCall f
        ⟨p, cstr "(f(" ++ (decimal N ++ (cstr "))" ++ R)), ⟨false, 0⟩, mapCreate, glob, fns,
          out⟩ true createPrintFunction)
      (.ok 0 ⟨p, R, ⟨false, 0⟩, mapCreate, glob, fns, out ++ [if N = 0 then 0 else 1]⟩) := by
    refine Returns.to (functionCall_print
      ⟨p, cstr "(f(" ++ (decimal N ++ (cstr "))" ++ R)), ⟨false, 0⟩, mapCreate, glob, fns, out⟩
      ⟨p, R, ⟨false, 0⟩, mapCreate, glob, fns, out⟩ true createPrintFunction
      (mapInsert mapCreate (sliceConstructorLen (cstr ".") 1) (if N = 0 then 0 else 1))
      (sliceConstructorLen (cstr ".") 1) rfl rfl ?_) ?_
    · refine functionCallLoop_arg ⟨p, [], ⟨false, 0⟩, mapCreate, glob, fns, out⟩
        ⟨p, cstr ")" ++ R, ⟨false, 0⟩, mapCreate, glob, fns, out⟩
        true createPrintFunction mapCreate 0 (if N = 0 then 0 else 1)
        (cstr "f(" ++ (decimal N ++ (cstr "))" ++ R))) (sliceConstructorLen (cstr ".") 1) _ rfl
        hexpr rfl ?_
      exact Returns.of_add_eq 1 fun f => functionCallLoop_done f
        ⟨p, [], ⟨false, 0⟩, mapCreate, glob, fns, out⟩ true _ _ _ (cstr ")" ++ R) R rfl
    · simp [mapGet_insert _ _ _ _ 0 fitsMap_create (by omega)]
  exact statement_call ⟨p, [], ⟨false, 0⟩, mapCreate, glob, fns, out⟩ true false
    (cstr " ") (cstr "print") [] (cstr "f(" ++ (decimal N ++ (cstr "))" ++ R)))
    createPrintFunction _ rfl (by decide) (by decide) rfl (fun h => by simp at h) hprint
    hprintcall

/-- The run of `fun f(n) { if (n) { return 1 } return 0 } print(f(N)) print(f(M))`. -/
theorem signProgram_run (N M : Nat) (hN : N < 2 ^ 64) (hM : M < 2 ^ 64) :
    ∃ I : Interpreter, I.output = [if N = 0 then 0 else 1, if M = 0 then 0 else 1] ∧
      Returns (fun f => run f (interpreterConstructor (signProgram N M))) (.ok () I) := by
  obtain ⟨kf, pn, hkf, hpn, h1⟩ : ∃ kf pn : Slice, kf.bytes = cstr "f" ∧ pn.bytes = cstr "n" ∧
      Returns (fun f => statement f (interpreterConstructor (signProgram N M)) true false)
        (.ok true ⟨signProgram N M,
          cstr " print(f(" ++ (decimal N ++ (cstr "))" ++ (cstr " print(f(" ++
            (decimal M ++ (cstr "))" ++ []))))),
          ⟨false, 0⟩, mapCreate, mapCreate,
          functionMapInsert (interpreterConstructor (signProgram N M)).functionNameMap kf
            ⟨kf, cstr " \x7b if (n) \x7b return 1 \x7d return 0 \x7d" ++
              (cstr " print(f(" ++ (decimal N ++ (cstr ")) print(f(" ++
                (decimal M ++ cstr "))")))), 1, [pn]⟩, []⟩) := by
    obtain ⟨key, slices, hkey, hs, h⟩ := statement_fun_names
      (interpreterConstructor (signProgram N M)) true [] (cstr " ") (cstr "f") [cstr "n"]
      (cstr " \x7b if (n) \x7b return 1 \x7d return 0 \x7d" ++
        (cstr " print(f(" ++ (decimal N ++ (cstr ")) print(f(" ++ (decimal M ++ cstr "))")))))
      (cstr " if (n) \x7b return 1 \x7d return 0 \x7d" ++
        (cstr " print(f(" ++ (decimal N ++ (cstr ")) print(f(" ++ (decimal M ++ cstr "))")))))
      (cstr " print(f(" ++ (decimal N ++ (cstr ")) print(f(" ++ (decimal M ++ cstr "))"))))
      rfl rfl (by decide) (by decide) (by decide) (by decide) rfl rfl
    obtain ⟨pn, rfl, hpn⟩ := map_bytes_one slices _ hs
    exact ⟨key, pn, hkey, hpn, h⟩
  have hprint : functionMapGet
      (functionMapInsert (interpreterConstructor (signProgram N M)).functionNameMap kf
        ⟨kf, cstr " \x7b if (n) \x7b return 1 \x7d return 0 \x7d" ++
          (cstr " print(f(" ++ (decimal N ++ (cstr ")) print(f(" ++
            (decimal M ++ cstr "))")))), 1, [pn]⟩) (nameSlice (cstr "print")) =
      some createPrintFunction := by
    rw [functionMapGet_insert _ _ _ _ 1 (fitsFunctionMap_constructor _) (by omega), hkf,
      bytes_nameSlice, if_neg (by decide), functionMapGet_constructor_print]
  have hf : functionMapGet
      (functionMapInsert (interpreterConstructor (signProgram N M)).functionNameMap kf
        ⟨kf, cstr " \x7b if (n) \x7b return 1 \x7d return 0 \x7d" ++
          (cstr " print(f(" ++ (decimal N ++ (cstr ")) print(f(" ++
            (decimal M ++ cstr "))")))), 1, [pn]⟩) (nameSlice (cstr "f")) =
      some ⟨kf, cstr " \x7b if (n) \x7b return 1 \x7d return 0 \x7d" ++
          (cstr " print(f(" ++ (decimal N ++ (cstr ")) print(f(" ++
            (decimal M ++ cstr "))")))), 1, [pn]⟩ := by
    rw [functionMapGet_insert _ _ _ _ 1 (fitsFunctionMap_constructor _) (by omega), hkf,
      bytes_nameSlice, if_pos rfl]
  generalize functionMapInsert (interpreterConstructor (signProgram N M)).functionNameMap kf
        ⟨kf, cstr " \x7b if (n) \x7b return 1 \x7d return 0 \x7d" ++
          (cstr " print(f(" ++ (decimal N ++ (cstr ")) print(f(" ++
            (decimal M ++ cstr "))")))), 1, [pn]⟩ = fns at h1 hprint hf
  have h2 := sign_print (signProgram N M) _ (cstr " print(f(" ++ (decimal M ++ (cstr "))" ++ [])))
    mapCreate fns [] kf pn hkf hpn hprint hf N hN
  have h3 := sign_print (signProgram N M) _ [] mapCreate fns
    ([] ++ [if N = 0 then 0 else 1]) kf pn hkf hpn hprint hf M hM
  have h4 := statement_none
    ⟨signProgram N M, [], ⟨false, 0⟩, mapCreate, mapCreate, fns,
      [] ++ [if N = 0 then 0 else 1] ++ [if M = 0 then 0 else 1]⟩ true [] (by decide) (by decide)
  exact ⟨_, rfl, run_eq _ _ (statements_cons _ _ _ _ h1 (statements_cons _ _ _ _ h2
    (statements_cons _ _ _ _ h3 (statements_nil _ _ _ h4))))⟩


/-! ## The run of the counting loop -/

/-- One pass through the body `{ print(i) i = i + 1 }` with `i = j`. -/
theorem count_body (p : List Nat) (glob : UnorderedMap) (fns : UnorderedFunctionMap)
    (out : List Nat) (j : Nat) (hj : j + 1 < 2 ^ 64)
    (hprint : functionMapGet fns (nameSlice (cstr "print")) = some createPrintFunction)
    (hc : mapContains glob (nameSlice (cstr "i")) = true)
    (hg : mapGet glob (nameSlice (cstr "i")) = j) :
    ∃ glob2 : UnorderedMap, mapContains glob2 (nameSlice (cstr "i")) = true ∧
      mapGet glob2 (nameSlice (cstr "i")) = j + 1 ∧
      Returns (fun f => blockLoop f
          ⟨p, cstr " print(i) i = i + 1 \x7d", ⟨false, 0⟩, mapCreate, glob, fns, out⟩ true false)
        (.ok false ⟨p, [], ⟨false, 0⟩, mapCreate, glob2, fns, out ++ [j]⟩) := by
  -- `print(i)`
  have hprintcall : Returns (fun f => functionCall f
        ⟨p, cstr "(i) i = i + 1 \x7d", ⟨false, 0⟩, mapCreate, glob, fns, out⟩ true
        createPrintFunction)
      (.ok 0 ⟨p, cstr " i = i + 1 \x7d", ⟨false, 0⟩, mapCreate, glob, fns, out ++ [j]⟩) := by
    refine Returns.to (functionCall_print
      ⟨p, cstr "(i) i = i + 1 \x7d", ⟨false, 0⟩, mapCreate, glob, fns, out⟩
      ⟨p, cstr " i = i + 1 \x7d", ⟨false, 0⟩, mapCreate, glob, fns, out⟩ true
      createPrintFunction (mapInsert mapCreate (sliceConstructorLen (cstr ".") 1) j)
      (sliceConstructorLen (cstr ".") 1) rfl rfl ?_) ?_
    · refine functionCallLoop_arg ⟨p, [], ⟨false, 0⟩, mapCreate, glob, fns, out⟩
        ⟨p, cstr ") i = i + 1 \x7d", ⟨false, 0⟩, mapCreate, glob, fns, out⟩
        true createPrintFunction mapCreate 0 j
        (cstr "i) i = i + 1 \x7d") (sliceConstructorLen (cstr ".") 1) _ rfl
        (expression_value (.var [] (cstr "i")) (by decide) (cstr ") i = i + 1 \x7d")
          (endsExpression_of_head _ _ 41 rfl rfl (by decide))
          ⟨p, [], ⟨false, 0⟩, mapCreate, glob, fns, out⟩ true true j
          (by simp only [Expr.valueIn, variableValue, mapContains_create]; exact hg)) rfl ?_
      exact Returns.of_add_eq 1 fun f => functionCallLoop_done f
        ⟨p, [], ⟨false, 0⟩, mapCreate, glob, fns, out⟩ true _ _ _ (cstr ") i = i + 1 \x7d")
          (cstr " i = i + 1 \x7d") rfl
    · simp [mapGet_insert _ _ _ _ 0 fitsMap_create (by omega)]
  have h1 : Returns (fun f => statement f
        ⟨p, cstr "print(i) i = i + 1 \x7d", ⟨false, 0⟩, mapCreate, glob, fns, out⟩ true false)
      (.ok true ⟨p, cstr " i = i + 1 \x7d", ⟨false, 0⟩, mapCreate, glob, fns, out ++ [j]⟩) :=
    statement_call ⟨p, [], ⟨false, 0⟩, mapCreate, glob, fns, out⟩ true false
      [] (cstr "print") [] (cstr "i) i = i + 1 \x7d")
      createPrintFunction _ rfl (by decide) (by decide) rfl (fun h => by simp at h) hprint
      hprintcall
  -- `i = i + 1`
  obtain ⟨k, hk, h2⟩ : ∃ k : Slice, k.bytes = cstr "i" ∧
      Returns (fun f => statement f
          ⟨p, cstr "i = i + 1 \x7d", ⟨false, 0⟩, mapCreate, glob, fns, out ++ [j]⟩ true false)
        (.ok true ⟨p, cstr "\x7d", ⟨false, 0⟩, mapCreate, mapInsert glob k (j + 1), fns,
          out ++ [j]⟩) :=
    ⟨_, bytes_append _ _,
      statement_assign ⟨p, [], ⟨false, 0⟩, mapCreate, glob, fns, out ++ [j]⟩ _ true false []
        (cstr "i") (cstr " ") (cstr " i + 1 \x7d") (j + 1) rfl (by decide) (by decide)
        (by decide) (fun h => by simp at h)
        (expression_value (.bin .add (.var (cstr " ") (cstr "i")) (cstr " ")
            (.lit (cstr " ") (cstr "1"))) (by decide) (cstr " \x7d")
          (endsExpression_of_head _ _ 125 rfl rfl (by decide)) _ true false (j + 1)
          (by
            simp only [Expr.valueIn, BinOp.apply, variableValue, Bool.false_and,
              Bool.false_eq_true, if_false]
            rw [hg, show decimalValue (cstr "1") % 2 ^ 64 = 1 from rfl]
            exact Nat.mod_eq_of_lt hj))⟩
  have hk2 : k.bytes = (nameSlice (cstr "i")).bytes := by rw [hk, bytes_nameSlice]
  have hck : mapContains glob k = true := by rw [mapContains_bytes glob k _ hk2]; exact hc
  refine ⟨mapInsert glob k (j + 1), ?_, ?_, ?_⟩
  · rw [mapContains_insert_present glob k _ _ hck]; exact hc
  · rw [mapGet_insert_present glob k _ _ hck, if_pos hk2]
  · refine blockLoop_statement ⟨p, [], ⟨false, 0⟩, mapCreate, glob, fns, out⟩ _ _ true false
      (cstr " print(i) i = i + 1 \x7d") _ rfl
      (Returns.of_forall_succ fun f => checkReturn_outside f _ true) h1 ?_
    refine blockLoop_statement ⟨p, [], ⟨false, 0⟩, mapCreate, glob, fns, out ++ [j]⟩ _ _
      true false (cstr " i = i + 1 \x7d") _ rfl
      (Returns.of_forall_succ fun f => checkReturn_outside f _ true) h2 ?_
    exact Returns.of_add_eq 1 fun f => blockLoop_close f
      ⟨p, [], ⟨false, 0⟩, mapCreate, mapInsert glob k (j + 1), fns, out ++ [j]⟩ true false
      (cstr "\x7d") [] rfl

/-- The condition `i < K` with `i = j`. -/
theorem count_condition (p : List Nat) (glob : UnorderedMap) (fns : UnorderedFunctionMap)
    (out : List Nat) (j K : Nat) (hK : K < 2 ^ 64)
    (hg : mapGet glob (nameSlice (cstr "i")) = j) :
    Returns (fun f => expression f
        ⟨p, cstr "i < " ++ (decimal K ++ cstr ") \x7b print(i) i = i + 1 \x7d"), ⟨false, 0⟩,
          mapCreate, glob, fns, out⟩ true false)
      (.ok (if j < K then 1 else 0)
        ⟨p, cstr ") \x7b print(i) i = i + 1 \x7d", ⟨false, 0⟩, mapCreate, glob, fns, out⟩) :=
  expression_value (.bin .lt (.var [] (cstr "i")) (cstr " ") (.lit (cstr " ") (decimal K)))
    (by rw [Expr.wellFormed, wellFormed_decimal _ (by decide) K]; rfl)
    (cstr ") \x7b print(i) i = i + 1 \x7d")
    (endsExpression_of_head _ _ 41 rfl rfl (by decide))
    ⟨p, [], ⟨false, 0⟩, mapCreate, glob, fns, out⟩ true false _
    (by
      simp only [Expr.valueIn, BinOp.apply, variableValue, Bool.false_and, Bool.false_eq_true,
        if_false, decimalValue_decimal]
      rw [hg, Nat.mod_eq_of_lt hK])

/-- The loop `while (i < K) { print(i) i = i + 1 }` from `i = j` on. -/
theorem count_loop (p : List Nat) (fns : UnorderedFunctionMap) (K : Nat) (hK : K < 2 ^ 64)
    (hprint : functionMapGet fns (nameSlice (cstr "print")) = some createPrintFunction) :
    ∀ (d j : Nat), j + d = K → ∀ (glob : UnorderedMap) (out : List Nat),
      mapContains glob (nameSlice (cstr "i")) = true →
      mapGet glob (nameSlice (cstr "i")) = j →
      ∃ glob2 : UnorderedMap, mapGet glob2 (nameSlice (cstr "i")) = K ∧
        Returns (fun f => whileStatementLoop f
            ⟨p, cstr " (i < " ++ (decimal K ++ cstr ") \x7b print(i) i = i + 1 \x7d"),
              ⟨false, 0⟩, mapCreate, glob, fns, out⟩ true false
            (cstr " (i < " ++ (decimal K ++ cstr ") \x7b print(i) i = i + 1 \x7d")))
          (.ok false ⟨p, [], ⟨false, 0⟩, mapCreate, glob2, fns, out ++ List.range' j d⟩) := by
  intro d
  induction d with
  | zero =>
    intro j hjK glob out _ hg
    have hcond := count_condition p glob fns out j K hK hg
    rw [if_neg (by omega)] at hcond
    refine ⟨glob, by rw [hg]; omega, ?_⟩
    rw [List.range'_zero, List.append_nil]
    exact whileStatementLoop_exit ⟨p, [], ⟨false, 0⟩, mapCreate, glob, fns, out⟩
      ⟨p, [], ⟨false, 0⟩, mapCreate, glob, fns, out⟩ true false
      (cstr " (i < " ++ (decimal K ++ cstr ") \x7b print(i) i = i + 1 \x7d"))
      (cstr "i < " ++ (decimal K ++ cstr ") \x7b print(i) i = i + 1 \x7d"))
      (cstr ") \x7b print(i) i = i + 1 \x7d") (cstr " \x7b print(i) i = i + 1 \x7d")
      (cstr " print(i) i = i + 1 \x7d") [] _ rfl hcond rfl rfl rfl
  | succ d ih =>
    intro j hjK glob out hc hg
    have hcond := count_condition p glob fns out j K hK hg
    rw [if_pos (by omega)] at hcond
    obtain ⟨glob1, hc1, hg1, hbody⟩ := count_body p glob fns out j (by omega) hprint hc hg
    obtain ⟨glob2, hg2, hloop⟩ := ih (j + 1) (by omega) glob1 (out ++ [j]) hc1 hg1
    refine ⟨glob2, hg2, ?_⟩
    rw [List.range'_succ, show out ++ j :: List.range' (j + 1) d =
      out ++ [j] ++ List.range' (j + 1) d from by simp]
    exact whileStatementLoop_iterate ⟨p, [], ⟨false, 0⟩, mapCreate, glob, fns, out⟩
      ⟨p, [], ⟨false, 0⟩, mapCreate, glob, fns, out⟩
      ⟨p, [], ⟨false, 0⟩, mapCreate, glob1, fns, out ++ [j]⟩ true false
      (cstr " (i < " ++ (decimal K ++ cstr ") \x7b print(i) i = i + 1 \x7d"))
      (cstr "i < " ++ (decimal K ++ cstr ") \x7b print(i) i = i + 1 \x7d"))
      (cstr ") \x7b print(i) i = i + 1 \x7d") (cstr " \x7b print(i) i = i + 1 \x7d")
      (cstr " print(i) i = i + 1 \x7d") _ 1 _ rfl hcond (by decide) rfl rfl hbody hloop

/-- The run of `i = 0 while (i < K) { print(i) i = i + 1 }`. -/
theorem countProgram_run (K : Nat) (hK : K < 2 ^ 64) :
    ∃ I : Interpreter, I.output = List.range K ∧
      mapGet I.symbolTable (nameSlice (cstr "i")) = K ∧
      Returns (fun f => run f (interpreterConstructor (countProgram K))) (.ok () I) := by
  obtain ⟨k, hk, h1⟩ : ∃ k : Slice, k.bytes = cstr "i" ∧
      Returns (fun f => statement f (interpreterConstructor (countProgram K)) true false)
        (.ok true ⟨countProgram K,
          cstr "while (i < " ++ (decimal K ++ cstr ") \x7b print(i) i = i + 1 \x7d"),
          ⟨false, 0⟩, mapCreate, mapInsert mapCreate k 0,
          (interpreterConstructor (countProgram K)).functionNameMap, []⟩) :=
    ⟨_, bytes_append _ _,
      statement_assign (interpreterConstructor (countProgram K)) _ true false []
        (cstr "i") (cstr " ")
        (cstr " 0" ++ (cstr " while (i < " ++
          (decimal K ++ cstr ") \x7b print(i) i = i + 1 \x7d"))) 0 rfl (by decide) (by decide)
        (by decide) (fun h => by simp at h)
        (expression_value (.lit (cstr " ") (cstr "0")) (by decide)
          _ (by exact endsExpression_of_head _ _ 119 rfl rfl (by decide)) _ true false 0 rfl)⟩
  have hk2 : k.bytes = (nameSlice (cstr "i")).bytes := by rw [hk, bytes_nameSlice]
  obtain ⟨glob2, hg2, hloop⟩ := count_loop (countProgram K)
    (interpreterConstructor (countProgram K)).functionNameMap K hK
    (functionMapGet_constructor_print _) K 0 (by omega) (mapInsert mapCreate k 0) []
    (by rw [mapContains_insert _ _ _ _ 0 fitsMap_create (by omega)]; simp [hk2])
    (by rw [mapGet_insert _ _ _ _ 0 fitsMap_create (by omega), if_pos hk2])
  have h2 := statement_while ⟨countProgram K, [], ⟨false, 0⟩, mapCreate, mapInsert mapCreate k 0,
      (interpreterConstructor (countProgram K)).functionNameMap, []⟩ true false []
    (cstr " (i < " ++ (decimal K ++ cstr ") \x7b print(i) i = i + 1 \x7d")) _ rfl rfl
    (fun h => by simp at h) hloop
  have h3 := statement_none
    ⟨countProgram K, [], ⟨false, 0⟩, mapCreate, glob2,
      (interpreterConstructor (countProgram K)).functionNameMap, [] ++ List.range' 0 K⟩ true []
    (by decide) (by decide)
  refine ⟨_, ?_, ?_, run_eq _ _ (statements_cons _ _ _ _ h1 (statements_cons _ _ _ _ h2
    (statements_nil _ _ _ h3)))⟩
  · show [] ++ List.range' 0 K = List.range K
    rw [List.nil_append, List.range_eq_range']
  · exact hg2


/-! ## No call adds a key to the global table -/

theorem KeysWithin.refl (T : UnorderedMap) : KeysWithin T T := fun _ h => h

theorem keysWithin_insert_present {T0 T : UnorderedMap} {k : Slice} {v : Nat}
    (hk : mapContains T k = true) (h : KeysWithin T0 T) : KeysWithin T0 (mapInsert T k v) :=
  fun k2 h2 => by rw [mapContains_insert_present T k k2 v hk]; exact h k2 h2

theorem Result.keeps_stop {α : Type} (T0 : UnorderedMap) (s : Stop) :
    (Result.stop s : Result α).keeps T0 := fun _ _ h => by cases h

theorem Result.keeps_fail {α : Type} (T0 : UnorderedMap) (I : Interpreter) :
    (fail I : Result α).keeps T0 := fun _ _ h => by cases h

theorem Result.keeps_ok {α : Type} {T0 : UnorderedMap} {v : α} {J : Interpreter}
    (h : KeysWithin T0 J.symbolTable) : (Result.ok v J).keeps T0 := by
  intro v2 J2 h2
  cases h2
  exact h

theorem Result.keeps_bind {α β : Type} {T0 : UnorderedMap} {r : Result α}
    {g : α → Interpreter → Result β} (hr : r.keeps T0)
    (hg : ∀ v J, KeysWithin T0 J.symbolTable → (g v J).keeps T0) : (r.bind g).keeps T0 := by
  cases r with
  | ok v J => exact hg v J (hr v J rfl)
  | stop s => exact Result.keeps_stop T0 s

theorem Result.keeps_ite {α : Type} {T0 : UnorderedMap} {c : Prop} [Decidable c]
    {a b : Result α} (ha : c → a.keeps T0) (hb : ¬ c → b.keeps T0) :
    (if c then a else b).keeps T0 := by
  split
  · exact ha ‹_›
  · exact hb ‹_›

@[simp] theorem consume_symbolTable (I : Interpreter) (s : List Nat) :
    (consume I s).2.symbolTable = I.symbolTable := by
  unfold consume
  split <;> rfl

@[simp] theorem consumeIdentifier_symbolTable (I : Interpreter) :
    (consumeIdentifier I).2.symbolTable = I.symbolTable := by
  unfold consumeIdentifier
  split
  · rfl
  · split <;> rfl

@[simp] theorem consumeLiteral_symbolTable (I : Interpreter) :
    (consumeLiteral I).2.symbolTable = I.symbolTable := by
  unfold consumeLiteral
  split
  · rfl
  · split <;> rfl

theorem consumeOrFail_keeps (T0 : UnorderedMap) (I : Interpreter) (s : List Nat)
    (h : KeysWithin T0 I.symbolTable) : (consumeOrFail I s).keeps T0 := by
  unfold consumeOrFail
  split
  · exact Result.keeps_fail T0 _
  · exact Result.keeps_ok (by rw [consume_symbolTable]; exact h)

theorem consumePastLoop_keeps (T0 : UnorderedMap) (fuel count : Nat) (I : Interpreter)
    (h : KeysWithin T0 I.symbolTable) : (consumePastLoop fuel count I).keeps T0 := by
  induction fuel generalizing count I with
  | zero => exact Result.keeps_stop T0 _
  | succ fuel ih =>
    rw [consumePastLoop]
    repeat' first
      | exact Result.keeps_stop T0 _
      | exact ih _ _ (by simpa using h)
      | exact Result.keeps_ok (by simpa using h)
      | split

theorem consumePast_keeps (T0 : UnorderedMap) (fuel : Nat) (I : Interpreter)
    (h : KeysWithin T0 I.symbolTable) : (consumePast fuel I).keeps T0 :=
  consumePastLoop_keeps T0 fuel 1 I h

theorem keepsAt_zero (T0 : UnorderedMap) : KeepsAt T0 0 := by
  unfold KeepsAt
  refine ⟨?_, ?_, ?_, ?_, ?_, ?_, ?_, ?_, ?_, ?_, ?_, ?_, ?_, ?_, ?_, ?_, ?_, ?_, ?_, ?_, ?_,
    ?_, ?_, ?_, ?_, ?_, ?_, ?_, ?_, ?_, ?_, ?_, ?_⟩
  all_goals intros
  all_goals
    first
    | rw [e1] | rw [e2] | rw [e2Loop] | rw [e3] | rw [e3Loop] | rw [e4] | rw [e4Loop] | rw [e5]
    | rw [e6] | rw [e6Loop] | rw [e7] | rw [e7Loop] | rw [e8] | rw [e9] | rw [e10] | rw [e11]
    | rw [e11Loop] | rw [e12] | rw [e12Loop] | rw [e13] | rw [e14] | rw [e15] | rw [expression]
    | rw [checkReturn] | rw [blockLoop] | rw [whileStatement] | rw [whileStatementLoop]
    | rw [performFunction] | rw [performFunctionLoop] | rw [functionCall]
    | rw [functionCallLoop] | rw [ifStatement] | rw [statement]
  all_goals exact Result.keeps_stop T0 _

set_option maxHeartbeats 1600000 in
theorem keepsAt_succ (T0 : UnorderedMap) (n : Nat) (ih : KeepsAt T0 n) : KeepsAt T0 (n + 1) := by
  unfold KeepsAt at ih ⊢
  obtain ⟨h1, h2, h2l, h3, h3l, h4, h4l, h5, h6, h6l, h7, h7l, h8, h9, h10, h11, h11l, h12,
    h12l, h13, h14, h15, hex, hcr, hbl, hws, hwl, hpf, hpl, hfc, hfl, hif, hst⟩ := ih
  refine ⟨?_, ?_, ?_, ?_, ?_, ?_, ?_, ?_, ?_, ?_, ?_, ?_, ?_, ?_, ?_, ?_, ?_, ?_, ?_, ?_, ?_,
    ?_, ?_, ?_, ?_, ?_, ?_, ?_, ?_, ?_, ?_, ?_, ?_⟩
  all_goals intros
  all_goals
    first
    | rw [e1] | rw [e2] | rw [e2Loop] | rw [e3] | rw [e3Loop] | rw [e4] | rw [e4Loop] | rw [e5]
    | rw [e6] | rw [e6Loop] | rw [e7] | rw [e7Loop] | rw [e8] | rw [e9] | rw [e10] | rw [e11]
    | rw [e11Loop] | rw [e12] | rw [e12Loop] | rw [e13] | rw [e14] | rw [e15] | rw [expression]
    | rw [checkReturn] | rw [blockLoop] | rw [whileStatement] | rw [whileStatementLoop]
    | rw [performFunction] | rw [performFunctionLoop] | rw [functionCall]
    | rw [functionCallLoop] | rw [ifStatement] | rw [statement]
  all_goals try dsimp only
  all_goals try simp only [if_true, Bool.not_true, Bool.false_eq_true, if_false, Bool.true_and]
  all_goals
    repeat' with_reducible first
      | exact Result.keeps_stop T0 _
      | exact Result.keeps_fail T0 _
      | assumption
      | (refine Result.keeps_ok ?_)
      | (refine h1 _ _ _ ?_) | (refine h2 _ _ _ ?_) | (refine h2l _ _ _ _ _ ?_)
      | (refine h3 _ _ _ ?_) | (refine h3l _ _ _ _ ?_) | (refine h4 _ _ _ ?_)
      | (refine h4l _ _ _ _ ?_) | (refine h5 _ _ _ ?_) | (refine h6 _ _ _ ?_)
      | (refine h6l _ _ _ _ ?_) | (refine h7 _ _ _ ?_) | (refine h7l _ _ _ _ ?_)
      | (refine h8 _ _ _ ?_) | (refine h9 _ _ _ ?_) | (refine h10 _ _ _ ?_)
      | (refine h11 _ _ _ ?_) | (refine h11l _ _ _ _ ?_) | (refine h12 _ _ _ ?_)
      | (refine h12l _ _ _ _ ?_) | (refine h13 _ _ _ ?_) | (refine h14 _ _ _ ?_)
      | (refine h15 _ _ _ ?_) | (refine hex _ _ _ ?_) | (refine hcr _ _ ?_)
      | (refine hbl _ _ ?_) | (refine hws _ _ ?_) | (refine hwl _ _ _ ?_)
      | (refine hpf _ _ _ ?_) | (refine hpl _ _ ?_) | (refine hfc _ _ _ ?_)
      | (refine hfl _ _ _ _ _ ?_) | (refine hif _ _ ?_) | (refine hst _ _ ?_)
      | (refine consumeOrFail_keeps T0 _ _ ?_)
      | (refine consumePast_keeps T0 _ _ ?_)
      | (refine Result.keeps_bind ?_ (fun _ _ _ => ?_))
      | (refine Result.keeps_ite (fun _ => ?_) (fun _ => ?_))
      | (refine keysWithin_insert_present (by assumption) ?_)
      | (simp only [consume_symbolTable, consumeIdentifier_symbolTable,
          consumeLiteral_symbolTable]; done)
      | (simp only [consume_symbolTable, consumeIdentifier_symbolTable,
          consumeLiteral_symbolTable]; assumption)
      | split

theorem keepsAt (T0 : UnorderedMap) (n : Nat) : KeepsAt T0 n := by
  induction n with
  | zero => exact keepsAt_zero T0
  | succ n ih => exact keepsAt_succ T0 n ih

/-- No call adds a key to the global table: a name that the table does not contain before
a call is not contained after it. -/
theorem functionCall_keeps (fuel : Nat) (I J : Interpreter) (eff : Bool) (fn : Function)
    (v : Nat) (h : functionCall fuel I eff fn = .ok v J) (k : Slice)
    (hk : mapContains I.symbolTable k = false) : mapContains J.symbolTable k = false :=
  (keepsAt I.symbolTable fuel).2.2.2.2.2.2.2.2.2.2.2.2.2.2.2.2.2.2.2.2.2.2.2.2.2.2.2.2.2.1
    I eff fn (KeysWithin.refl _) v J h k hk

/-- No statement inside a function adds a key to the global table. -/
theorem statement_keeps (fuel : Nat) (I J : Interpreter) (eff b : Bool)
    (h : statement fuel I eff true = .ok b J) (k : Slice)
    (hk : mapContains I.symbolTable k = false) : mapContains J.symbolTable k = false :=
  (keepsAt I.symbolTable fuel).2.2.2.2.2.2.2.2.2.2.2.2.2.2.2.2.2.2.2.2.2.2.2.2.2.2.2.2.2.2.2.2
    I eff (KeysWithin.refl _) b J h k hk

/-- No expression adds a key to the global table. -/
theorem expression_keeps (fuel : Nat) (I J : Interpreter) (eff ins : Bool) (v : Nat)
    (h : expression fuel I eff ins = .ok v J) (k : Slice)
    (hk : mapContains I.symbolTable k = false) : mapContains J.symbolTable k = false :=
  (keepsAt I.symbolTable fuel).2.2.2.2.2.2.2.2.2.2.2.2.2.2.2.2.2.2.2.2.2.2.1
    I eff ins (KeysWithin.refl _) v J h k hk

/-- A call returns with the local table of the caller. -/
theorem functionCall_restores (fuel : Nat) (I J : Interpreter) (eff : Bool) (fn : Function)
    (v : Nat) (h : functionCall fuel I eff fn = .ok v J) :
    J.currentSymbolTable = I.currentSymbolTable := by
  cases fuel with
  | zero => rw [functionCall] at h; cases h
  | succ fuel =>
    rw [functionCall] at h
    cases hl : functionCallLoop fuel (consume I (cstr "(")).2 eff fn mapCreate 0 with
    | stop s => rw [hl] at h; cases h
    | ok r K =>
      rw [hl] at h
      simp only [Result.bind_ok] at h
      split at h
      · cases h
      · split at h
        · split at h
          · cases h
          · cases h
            rfl
        · cases hp : performFunction fuel { K with currentSymbolTable := r.1 } eff fn with
          | stop s => rw [hp] at h; cases h
          | ok w L =>
            rw [hp] at h
            cases h
            rfl

/-! ## Blocks of simple statements -/

theorem skipBytes_render (e : Expr) (hwf : e.wellFormed = true) (rest : List Nat) :
    ∃ c cs, skipBytes (e.render ++ rest) = c :: cs ∧ (isalnum c = true ∨ c = 40 ∨ c = 33) := by
  induction e generalizing rest with
  | lit ws ds =>
    simp only [Expr.wellFormed, Bool.and_eq_true, Bool.not_eq_true', List.isEmpty_eq_false] at hwf
    obtain ⟨⟨hws, hds⟩, hne⟩ := hwf
    cases ds with
    | nil => simp at hne
    | cons d ds =>
      simp only [List.all_cons, Bool.and_eq_true] at hds
      refine ⟨d, ds ++ rest, ?_, Or.inl (by simp [isalnum, hds.1])⟩
      simp only [Expr.render, List.append_assoc, List.cons_append]
      rw [skipBytes_ws _ _ hws]
      exact skipBytes_cons_of_not_space _ _ (isdigit_not_space d hds.1).1
  | var ws name =>
    simp only [Expr.wellFormed, Bool.and_eq_true] at hwf
    obtain ⟨c, cs, rfl, hc, hs⟩ := skipBytes_name name rest hwf.2
    refine ⟨c, cs ++ rest, ?_, Or.inl (by simp [isalnum, hc])⟩
    simp only [Expr.render, List.append_assoc]
    rw [skipBytes_ws _ _ hwf.1]
    exact hs
  | paren ws e ws2 _ =>
    simp only [Expr.wellFormed, Bool.and_eq_true] at hwf
    refine ⟨40, e.render ++ (ws2 ++ 41 :: rest), ?_, Or.inr (Or.inl rfl)⟩
    simp only [Expr.render, List.append_assoc, cstr_lparen, cstr_rparen, List.singleton_append]
    rw [skipBytes_ws _ _ hwf.1.1]
    rfl
  | not ws e _ =>
    simp only [Expr.wellFormed, Bool.and_eq_true] at hwf
    refine ⟨33, e.render ++ rest, ?_, Or.inr (Or.inr rfl)⟩
    simp only [Expr.render, List.append_assoc, cstr_bang, List.singleton_append]
    rw [skipBytes_ws _ _ hwf.1.1]
    rfl
  | bin op l ws r ihl _ =>
    simp only [Expr.wellFormed, Bool.and_eq_true] at hwf
    have := ihl hwf.1.1.1.2 (ws ++ op.text ++ r.render ++ rest)
    simpa only [Expr.render, List.append_assoc] using this

theorem assignVariable_moveTo (I : Interpreter) (ins : Bool) (k : Slice) (v : Nat)
    (c : List Nat) :
    assignVariable (I.moveTo c) ins k v = (assignVariable I ins k v).moveTo c := by
  unfold assignVariable
  simp only [moveTo_currentSymbolTable, moveTo_symbolTable]
  split
  · rfl
  · split
    · rfl
    · split <;> rfl

theorem Simple.exec_functionReturn (eff ins : Bool) (I : Interpreter) (s : Simple)
    (rest : List Nat) : (s.exec eff ins I rest).functionReturn = I.functionReturn := by
  cases s with
  | assign ws name ws2 e =>
    simp only [Simple.exec, assignVariable]
    repeat' split
    all_goals rfl
  | print ws ws2 e ws3 => rfl

theorem Simple.exec_functionNameMap (eff ins : Bool) (I : Interpreter) (s : Simple)
    (rest : List Nat) : (s.exec eff ins I rest).functionNameMap = I.functionNameMap := by
  cases s with
  | assign ws name ws2 e =>
    simp only [Simple.exec, assignVariable]
    repeat' split
    all_goals rfl
  | print ws ws2 e ws3 => rfl

/-- A simple statement starts, after its whitespace, with a letter. -/
theorem Simple.skipBytes_statement (s : Simple) (hwf : s.wellFormed = true) (rest : List Nat) :
    ∃ a as, skipBytes (s.render rest) = a :: as ∧ isalpha a = true ∧
      (s.render rest).headD 0 ≠ 0 ∧ isalnum ((s.render rest).headD 0) = false := by
  cases s with
  | assign ws name ws2 e =>
    simp only [Simple.wellFormed, Bool.and_eq_true, Bool.not_eq_true',
      List.isEmpty_eq_false] at hwf
    obtain ⟨⟨⟨⟨⟨hws, hne⟩, hname⟩, _⟩, _⟩, _⟩ := hwf
    obtain ⟨a, as, rfl, ha, hs⟩ := skipBytes_name name (ws2 ++ cstr "=" ++ (e.render ++ rest)) hname
    refine ⟨a, as ++ (ws2 ++ cstr "=" ++ (e.render ++ rest)), ?_, ha, ?_, ?_⟩
    · simp only [Simple.render, List.append_assoc]
      rw [skipBytes_ws _ _ hws]
      simpa only [List.append_assoc] using hs
    all_goals
      cases ws with
      | nil => simp at hne
      | cons w ws =>
        simp only [List.all_cons, Bool.and_eq_true] at hws
        simp only [Simple.render, List.cons_append, List.headD_cons]
        first
        | exact isspace_not_alnum w hws.1
        | (intro h0; rw [h0] at hws; exact absurd hws.1 (by decide))
  | print ws ws2 e ws3 =>
    simp only [Simple.wellFormed, Bool.and_eq_true, Bool.not_eq_true',
      List.isEmpty_eq_false] at hwf
    obtain ⟨⟨⟨⟨hws, hne⟩, _⟩, _⟩, _⟩ := hwf
    refine ⟨112, cstr "rint" ++ (ws2 ++ 40 :: (e.render ++ (ws3 ++ 41 :: rest))), ?_,
      by decide, ?_, ?_⟩
    · simp only [Simple.render, List.append_assoc]
      rw [skipBytes_ws _ _ hws]
      rfl
    all_goals
      cases ws with
      | nil => simp at hne
      | cons w ws =>
        simp only [List.all_cons, Bool.and_eq_true] at hws
        simp only [Simple.render, List.cons_append, List.headD_cons]
        first
        | exact isspace_not_alnum w hws.1
        | (intro h0; rw [h0] at hws; exact absurd hws.1 (by decide))

theorem not_mem_operators_of_alpha (a : Nat) (h : isalpha a = true) :
    a ∉ [40, 42, 47, 37, 43, 45, 60, 62, 61, 33, 38, 124] := by
  simp only [isalpha, Bool.or_eq_true, Bool.and_eq_true, decide_eq_true_eq] at h
  simp only [List.mem_cons, List.mem_singleton, List.not_mem_nil, or_false, not_or]
  omega

/-- The text of a block of simple statements does not continue an expression. -/
theorem endsExpression_blockText (ss : List Simple) (wsEnd tail : List Nat)
    (hwf : ∀ s ∈ ss, s.wellFormed = true) (hwsEnd : wsEnd.all isspace = true) :
    EndsExpression (blockText ss wsEnd tail) := by
  cases ss with
  | nil =>
    refine endsExpression_of_head _ tail 125 (headD_ws_append wsEnd tail 125 hwsEnd (by decide))
      ?_ (by decide)
    rw [blockText, skipBytes_ws _ _ hwsEnd]
    rfl
  | cons s ss =>
    obtain ⟨a, as, hs, ha, _, hh⟩ := Simple.skipBytes_statement s (hwf s (List.mem_cons_self _ _))
      (blockText ss wsEnd tail)
    exact endsExpression_of_head _ as a hh hs (not_mem_operators_of_alpha a ha)

/-- What `statement` does on a simple statement is its effect `Simple.exec`, and the cursor
it leaves does not depend on `effects`. -/
theorem statement_simple_all (s : Simple) (hwf : s.wellFormed = true) (rest : List Nat)
    (hrest : EndsExpression rest) (I : Interpreter) (ins : Bool)
    (hp : ins = true → I.functionReturn.exists_ = false)
    (hprint : functionMapGet I.functionNameMap (nameSlice (cstr "print")) =
      some createPrintFunction) :
    ∃ c, skipBytes c = skipBytes rest ∧ ∀ eff : Bool,
      Returns (fun f => statement f (I.moveTo (skipBytes (s.render rest))) eff ins)
        (.ok true ((s.exec eff ins I rest).moveTo c)) := by
  cases s with
  | assign ws name ws2 e =>
    simp only [Simple.wellFormed, Bool.and_eq_true, Bool.not_eq_true',
      List.isEmpty_eq_false] at hwf
    obtain ⟨⟨⟨⟨⟨hws, _⟩, hname⟩, hkw⟩, hws2⟩, he⟩ := hwf
    obtain ⟨a, as, rfl, ha, hs⟩ := skipBytes_name name (ws2 ++ cstr "=" ++ (e.render ++ rest)) hname
    refine ⟨skipBytes rest, skipBytes_idem rest, fun eff => ?_⟩
    have hsk : skipBytes ((Simple.assign ws (a :: as) ws2 e).render rest) =
        [] ++ (a :: as) ++ (ws2 ++ cstr "=" ++ (e.render ++ rest)) := by
      simp only [Simple.render, List.append_assoc]
      rw [skipBytes_ws _ _ hws]
      simpa only [List.append_assoc, List.nil_append] using hs
    rw [hsk]
    refine Returns.to (statement_assign I _ eff ins [] (a :: as) ws2 (e.render ++ rest) _ rfl
      hname hkw hws2 hp (expression_render e he rest hrest I eff ins)) ?_
    simp only [Simple.exec]
    split
    · rw [assignVariable_moveTo]
    · rfl
  | print ws ws2 e ws3 =>
    simp only [Simple.wellFormed, Bool.and_eq_true, Bool.not_eq_true',
      List.isEmpty_eq_false] at hwf
    obtain ⟨⟨⟨⟨hws, _⟩, hws2⟩, he⟩, hws3⟩ := hwf
    refine ⟨rest, rfl, fun eff => ?_⟩
    have hsk : skipBytes ((Simple.print ws ws2 e ws3).render rest) =
        [] ++ cstr "print" ++ (ws2 ++ 40 :: (e.render ++ (ws3 ++ 41 :: rest))) := by
      simp only [Simple.render, List.append_assoc]
      rw [skipBytes_ws _ _ hws]
      rfl
    rw [hsk]
    obtain ⟨c, cs, hc, hcc⟩ := skipBytes_render e he (ws3 ++ 41 :: rest)
    have hT : matchBytes [41] (skipBytes (e.render ++ (ws3 ++ 41 :: rest))) = none := by
      rw [hc]
      have : c ≠ 41 := by
        rcases hcc with h | h | h
        · intro h2; rw [h2] at h; exact absurd h (by decide)
        · omega
        · omega
      simp [matchBytes, Ne.symm this]
    have hsk3 : skipBytes (ws3 ++ 41 :: rest) = 41 :: rest := by
      rw [skipBytes_ws _ _ hws3]
      rfl
    have hends : EndsExpression (ws3 ++ 41 :: rest) :=
      endsExpression_of_head _ rest 41 (headD_ws_append ws3 rest 41 hws3 (by decide)) hsk3
        (by decide)
    have hexpr := expression_render e he (ws3 ++ 41 :: rest) hends I eff true
    rw [hsk3] at hexpr
    have hargs : Returns (fun f => functionCallLoop f
          (consume (I.moveTo (40 :: (e.render ++ (ws3 ++ 41 :: rest)))) (cstr "(")).2 eff
          createPrintFunction mapCreate 0)
        (.ok (mapInsert mapCreate (sliceConstructorLen (cstr ".") 1)
          (e.valueIn (variableValue I true)), createPrintFunction.numParams)
          (I.moveTo rest)) := by
      rw [consume_ok I _ (cstr "(") (e.render ++ (ws3 ++ 41 :: rest)) (by rfl)]
      refine functionCallLoop_arg I (I.moveTo (41 :: rest)) eff createPrintFunction mapCreate 0
        _ (e.render ++ (ws3 ++ 41 :: rest)) (sliceConstructorLen (cstr ".") 1) _ hT hexpr rfl ?_
      rw [consume_fail I (41 :: rest) (cstr ",") (by rfl)]
      exact Returns.of_add_eq 1 fun f => functionCallLoop_done f I eff _ _ _
        (skipBytes (41 :: rest)) rest rfl
    have hcall := functionCall_print (I.moveTo (40 :: (e.render ++ (ws3 ++ 41 :: rest))))
      (I.moveTo rest) eff createPrintFunction _ (sliceConstructorLen (cstr ".") 1) rfl rfl hargs
    refine Returns.to (statement_call I eff ins [] (cstr "print") ws2
      (e.render ++ (ws3 ++ 41 :: rest)) createPrintFunction _ rfl (by decide) (by decide) hws2
      hp hprint hcall) ?_
    simp only [Result.bind_ok, Simple.exec, moveTo_output, moveTo_currentSymbolTable,
      mapGet_insert _ _ _ _ 0 fitsMap_create (by omega), if_true]
    rfl

/-- What `statement` does on a simple statement is its effect `Simple.exec`. -/
theorem statement_simple (s : Simple) (hwf : s.wellFormed = true) (rest : List Nat)
    (hrest : EndsExpression rest) (I : Interpreter) (eff ins : Bool)
    (hp : ins = true → I.functionReturn.exists_ = false)
    (hprint : functionMapGet I.functionNameMap (nameSlice (cstr "print")) =
      some createPrintFunction) :
    ∃ c, skipBytes c = skipBytes rest ∧
      Returns (fun f => statement f (I.moveTo (skipBytes (s.render rest))) eff ins)
        (.ok true ((s.exec eff ins I rest).moveTo c)) := by
  obtain ⟨c, hc, h⟩ := statement_simple_all s hwf rest hrest I ins hp hprint
  exact ⟨c, hc, h eff⟩

/-- A block of simple statements runs to its closing brace, and what it does is the effect
of its statements one after the other. -/
theorem blockLoop_simple (wsEnd tail : List Nat) (hwsEnd : wsEnd.all isspace = true)
    (eff ins : Bool) (ss : List Simple) :
    (∀ s ∈ ss, s.wellFormed = true) → ∀ (I : Interpreter) (c : List Nat),
      skipBytes c = skipBytes (blockText ss wsEnd tail) →
      (ins = true → I.functionReturn.exists_ = false) →
      functionMapGet I.functionNameMap (nameSlice (cstr "print")) = some createPrintFunction →
      Returns (fun f => blockLoop f (I.moveTo c) eff ins)
        (.ok false ((execBlock eff ins I ss wsEnd tail).moveTo tail)) := by
  induction ss with
  | nil =>
    intro _ I c hc _ _
    refine Returns.of_add_eq 1 fun f => blockLoop_close f I eff ins c tail ?_
    rw [hc, blockText, skipBytes_ws _ _ hwsEnd]
    rfl
  | cons s ss ih =>
    intro hwf I c hc hp hprint
    have hs := hwf s (List.mem_cons_self _ _)
    have hss : ∀ x ∈ ss, x.wellFormed = true := fun x hx => hwf x (List.mem_cons_of_mem _ hx)
    obtain ⟨a, as, hsk, ha, _, _⟩ := Simple.skipBytes_statement s hs (blockText ss wsEnd tail)
    have hc2 : skipBytes c = skipBytes (s.render (blockText ss wsEnd tail)) := hc
    have hT : matchBytes [125] (skipBytes c) = none := by
      rw [hc2, hsk]
      have : a ≠ 125 := fun h => by rw [h] at ha; exact absurd ha (by decide)
      simp [matchBytes, Ne.symm this]
    obtain ⟨c2, hc2s, hst⟩ := statement_simple s hs (blockText ss wsEnd tail)
      (endsExpression_blockText ss wsEnd tail hss hwsEnd) I eff ins hp hprint
    rw [← hc2] at hst
    have hid : ins = true →
        sliceEqualString (consumeIdentifier (I.moveTo (skipBytes c))).1.item (cstr "return") =
          false := by
      intro _
      rw [hc2]
      cases s with
      | assign ws name ws2 e =>
        simp only [Simple.wellFormed, Bool.and_eq_true, Bool.not_eq_true',
          List.isEmpty_eq_false] at hs
        obtain ⟨⟨⟨⟨⟨hws, _⟩, hname⟩, hkw⟩, _⟩, _⟩ := hs
        obtain ⟨b, bs, rfl, hb, hsb⟩ := skipBytes_name name
          (ws2 ++ cstr "=" ++ (e.render ++ blockText ss wsEnd tail)) hname
        have hsk2 : skipBytes ((Simple.assign ws (b :: bs) ws2 e).render
            (blockText ss wsEnd tail)) =
            [] ++ (b :: bs) ++ (ws2 ++ cstr "=" ++ (e.render ++ blockText ss wsEnd tail)) := by
          simp only [Simple.render, List.append_assoc]
          rw [skipBytes_ws _ _ hws]
          simpa only [List.append_assoc, List.nil_append] using hsb
        rw [hsk2, consumeIdentifier_name I [] (b :: bs) _ rfl hname
          (by rw [List.append_assoc]; exact headD_ws_append ws2 _ 61 (by assumption) (by decide))]
        simp only [sliceEqualString_append]
        exact (isKeyword_false _ hkw).2.2.2.1
      | print ws ws2 e ws3 =>
        simp only [Simple.wellFormed, Bool.and_eq_true, Bool.not_eq_true',
          List.isEmpty_eq_false] at hs
        obtain ⟨⟨⟨⟨hws, _⟩, hws2⟩, _⟩, _⟩ := hs
        have hsk2 : skipBytes ((Simple.print ws ws2 e ws3).render (blockText ss wsEnd tail)) =
            [] ++ cstr "print" ++
              (ws2 ++ 40 :: (e.render ++ (ws3 ++ 41 :: blockText ss wsEnd tail))) := by
          simp only [Simple.render, List.append_assoc]
          rw [skipBytes_ws _ _ hws]
          rfl
        rw [hsk2, consumeIdentifier_name I [] (cstr "print") _ rfl (by decide)
          (headD_ws_append ws2 _ 40 hws2 (by decide))]
        simp only [sliceEqualString_append]
        decide
    refine blockLoop_statement I (I.moveTo (skipBytes c)) _ eff ins c _ hT
      (Returns.of_forall_succ fun f => checkReturn_other f _ eff ins hp hid) hst ?_
    exact ih hss (s.exec eff ins I (blockText ss wsEnd tail)) c2 hc2s
      (fun h => by rw [Simple.exec_functionReturn]; exact hp h)
      (by rw [Simple.exec_functionNameMap]; exact hprint)

theorem all_noBrace_of_space (ws : List Nat) (h : ws.all isspace = true) :
    ws.all (fun c => c != 123 && c != 125) = true := by
  simp only [List.all_eq_true, Bool.and_eq_true, bne_iff_ne, ne_eq] at h ⊢
  intro c hc
  have := h c hc
  constructor <;> (intro h0; rw [h0] at this; exact absurd this (by decide))

theorem all_noBrace_of_alnum (ws : List Nat) (h : ws.all isalnum = true) :
    ws.all (fun c => c != 123 && c != 125) = true := by
  simp only [List.all_eq_true, Bool.and_eq_true, bne_iff_ne, ne_eq] at h ⊢
  intro c hc
  have := h c hc
  constructor <;> (intro h0; rw [h0] at this; exact absurd this (by decide))

theorem all_noBrace_of_name (name : List Nat) (h : isIdentifierText name = true) :
    name.all (fun c => c != 123 && c != 125) = true := by
  cases name with
  | nil => rfl
  | cons a as =>
    simp only [isIdentifierText, Bool.and_eq_true] at h
    have h1 := all_noBrace_of_alnum as h.2
    have h2 : (a != 123 && a != 125) = true := by
      have ha := h.1
      simp only [Bool.and_eq_true, bne_iff_ne, ne_eq]
      constructor <;> (intro h0; rw [h0] at ha; exact absurd ha (by decide))
    simp only [List.all_cons, h1, h2, Bool.and_self]

/-- The text of a well-formed expression contains no brace. -/
theorem render_noBrace (e : Expr) (hwf : e.wellFormed = true) :
    e.render.all (fun c => c != 123 && c != 125) = true := by
  induction e with
  | lit ws ds =>
    simp only [Expr.wellFormed, Bool.and_eq_true] at hwf
    have hd : ds.all (fun c => c != 123 && c != 125) = true := by
      have h := hwf.1.2
      simp only [List.all_eq_true, Bool.and_eq_true, bne_iff_ne, ne_eq] at h ⊢
      intro c hc
      have := h c hc
      constructor <;> (intro h0; rw [h0] at this; exact absurd this (by decide))
    simp only [Expr.render, List.all_append, all_noBrace_of_space ws hwf.1.1, hd, Bool.and_self]
  | var ws name =>
    simp only [Expr.wellFormed, Bool.and_eq_true] at hwf
    simp only [Expr.render, List.all_append, all_noBrace_of_space ws hwf.1,
      all_noBrace_of_name name hwf.2, Bool.and_self]
  | paren ws e ws2 ih =>
    simp only [Expr.wellFormed, Bool.and_eq_true] at hwf
    simp only [Expr.render, List.all_append, all_noBrace_of_space ws hwf.1.1,
      all_noBrace_of_space ws2 hwf.1.2, ih hwf.2, Bool.and_self, Bool.true_and, Bool.and_true]
    decide
  | not ws e ih =>
    simp only [Expr.wellFormed, Bool.and_eq_true] at hwf
    simp only [Expr.render, List.all_append, all_noBrace_of_space ws hwf.1.1, ih hwf.1.2,
      Bool.and_self, Bool.true_and, Bool.and_true]
    decide
  | bin op l ws r ihl ihr =>
    simp only [Expr.wellFormed, Bool.and_eq_true] at hwf
    simp only [Expr.render, List.all_append, all_noBrace_of_space ws hwf.1.1.1.1,
      ihl hwf.1.1.1.2, ihr hwf.1.1.2, Bool.and_self, Bool.true_and, Bool.and_true]
    cases op <;> decide

/-- Skipping a block of simple statements ends after its closing brace. -/
theorem blockEnd_blockText (wsEnd tail : List Nat) (hwsEnd : wsEnd.all isspace = true)
    (ss : List Simple) (hwf : ∀ s ∈ ss, s.wellFormed = true) :
    blockEnd 1 (blockText ss wsEnd tail) = some tail := by
  induction ss with
  | nil =>
    rw [blockText, blockEnd_noBrace wsEnd _ 1 (all_noBrace_of_space wsEnd hwsEnd)]
    rfl
  | cons s ss ih =>
    have hs := hwf s (List.mem_cons_self _ _)
    have hss : ∀ x ∈ ss, x.wellFormed = true := fun x hx => hwf x (List.mem_cons_of_mem _ hx)
    rw [blockText]
    cases s with
    | assign ws name ws2 e =>
      simp only [Simple.wellFormed, Bool.and_eq_true, Bool.not_eq_true',
        List.isEmpty_eq_false] at hs
      obtain ⟨⟨⟨⟨⟨hws, _⟩, hname⟩, _⟩, hws2⟩, he⟩ := hs
      simp only [Simple.render, List.append_assoc]
      rw [blockEnd_noBrace ws _ 1 (all_noBrace_of_space ws hws),
        blockEnd_noBrace name _ 1 (all_noBrace_of_name name hname),
        blockEnd_noBrace ws2 _ 1 (all_noBrace_of_space ws2 hws2),
        blockEnd_noBrace (cstr "=") _ 1 (by decide),
        blockEnd_noBrace e.render _ 1 (render_noBrace e he)]
      exact ih hss
    | print ws ws2 e ws3 =>
      simp only [Simple.wellFormed, Bool.and_eq_true, Bool.not_eq_true',
        List.isEmpty_eq_false] at hs
      obtain ⟨⟨⟨⟨hws, _⟩, hws2⟩, he⟩, hws3⟩ := hs
      simp only [Simple.render, List.append_assoc]
      rw [blockEnd_noBrace ws _ 1 (all_noBrace_of_space ws hws),
        blockEnd_noBrace (cstr "print") _ 1 (by decide),
        blockEnd_noBrace ws2 _ 1 (all_noBrace_of_space ws2 hws2),
        show (40 :: (e.render ++ (ws3 ++ 41 :: blockText ss wsEnd tail))) =
          [40] ++ (e.render ++ (ws3 ++ ([41] ++ blockText ss wsEnd tail))) from rfl,
        blockEnd_noBrace [40] _ 1 (by decide),
        blockEnd_noBrace e.render _ 1 (render_noBrace e he),
        blockEnd_noBrace ws3 _ 1 (all_noBrace_of_space ws3 hws3),
        blockEnd_noBrace [41] _ 1 (by decide)]
      exact ih hss


/-! ## Operands that change the interpreter -/

/-- One more operator and operand in the loop of a level, the operand leaving the
interpreter `J`. -/
theorem levelLoop_step_to (k : Nat) (I J : Interpreter) (eff ins : Bool) (vl vr : Nat)
    (op : BinOp) (restL T rest c : List Nat) (res : Result Nat) (h : opsAt (k + 1) ≠ [])
    (hsel : selectOp (opsAt (k + 1)) (skipBytes restL) = some (op, T))
    (hc : skipBytes c = skipBytes rest)
    (hr : Returns (fun f => levelFn k f (I.moveTo T) eff ins) (.ok vr (J.moveTo c)))
    (hloop : Returns (fun f => levelLoop (k + 1) f (J.moveTo (skipBytes rest)) eff ins
      (op.code vl vr)) res) :
    Returns (fun f => levelLoop (k + 1) f (I.moveTo (skipBytes restL)) eff ins vl) res := by
  refine Returns.of_succ (fun f => levelLoop_succ k f _ eff ins vl h) ?_
  obtain ⟨o, os, ho⟩ : ∃ o os, opsAt (k + 1) = o :: os := by
    cases hq : opsAt (k + 1) with
    | nil => exact absurd hq h
    | cons o os => exact ⟨o, os, rfl⟩
  rw [ho] at hsel ⊢
  refine Returns.congr (fun f => loopBody_select _ _ f I vl o os (skipBytes restL)) ?_
  simp only [skipBytes_idem, hsel]
  refine Returns.bind hr ?_
  refine Returns.congr (fun f => ?_) hloop
  rw [← levelLoop_skip k f J eff ins _ c h, hc]

/-- A primary expression that no operator of a level up to `k` continues is the expression
of level `k`. -/
theorem levelFn_of_primary (I J : Interpreter) (eff ins : Bool) (T c t2 : List Nat) (d v : Nat)
    (hsk : skipBytes T = d :: t2) (hd : d ≠ 33)
    (he1 : Returns (fun f => e1 f (I.moveTo T) eff ins) (.ok v (J.moveTo c)))
    (k : Nat) (hk3 : 3 ≤ k) (hk16 : k ≤ 16) (hno : NoOpsUpTo k c) :
    Returns (fun f => levelFn k f (I.moveTo T) eff ins) (.ok v (J.moveTo (skipBytes c))) := by
  have h2 : Returns (fun f => levelFn 2 f (I.moveTo T) eff ins) (.ok v (J.moveTo c)) := by
    have := e2Loop_primary I (J.moveTo c) eff ins false false T t2 d v hsk hd he1
    rw [notResult_plain] at this
    refine Returns.of_succ (fun f => ?_) this
    simp only [levelFn]
    rw [e2]
  have h3 : Returns (fun f => levelFn 3 f (I.moveTo T) eff ins) (.ok v (J.moveTo (skipBytes c))) :=
    levelFn_lift_to 2 I J eff ins v T c c _ (by simp [opsAt]) rfl h2
      (levelLoop_end 2 J eff ins v c (by simp [opsAt])
        (selectOp_none_of_noOps _ c (hno.mono (by omega))))
  revert hk16 hno
  induction k, hk3 using Nat.le_induction with
  | base => exact fun _ _ => h3
  | succ k hk3 ih =>
    intro hk16 hno
    by_cases hops : opsAt (k + 1) = []
    · exact Returns.of_succ (fun f => levelFn_pass k f _ eff ins (by omega) (by omega) hops)
        (ih (by omega) (hno.mono (by omega)))
    · exact levelFn_lift_to k I J eff ins v T c (skipBytes c) _ hops (skipBytes_idem c)
        (ih (by omega) (hno.mono (by omega)))
        (levelLoop_end k J eff ins v c hops (selectOp_none_of_noOps _ c hno))

/-! ## How a stop travels up the precedence chain -/

theorem e2Loop_primary_stop (I : Interpreter) (eff ins neg enc : Bool) (t t2 : List Nat)
    (d : Nat) (s : Stop) (hsk : skipBytes t = d :: t2) (hd : d ≠ 33)
    (h : Returns (fun f => e1 f (I.moveTo t) eff ins) (.stop s)) :
    Returns (fun f => e2Loop f (I.moveTo t) eff ins neg enc) (.stop s) := by
  have hcons : consume (I.moveTo t) (cstr "!") = (false, I.moveTo (skipBytes t)) := by
    rw [consume_moveTo, hsk]
    simp [matchBytes, Ne.symm hd]
  have hstep : ∀ f, e2Loop (f + 1) (I.moveTo t) eff ins neg enc =
      (e1 f (I.moveTo t) eff ins).bind fun v K => .ok (notResult neg enc v) K := by
    intro f
    rw [e2Loop]
    simp only [hcons, Bool.false_eq_true, if_false, e1_skip]
    rfl
  exact Returns.of_succ hstep (Returns.bind_halt h)

theorem levelFn_stop (I : Interpreter) (eff ins : Bool) (s : Stop) (k j : Nat)
    (hk : 2 ≤ k) (hkj : k ≤ j) (hj : j ≤ 16)
    (h : Returns (fun f => levelFn k f I eff ins) (.stop s)) :
    Returns (fun f => levelFn j f I eff ins) (.stop s) := by
  induction j, hkj using Nat.le_induction with
  | base => exact h
  | succ j hkj ih =>
    by_cases hops : opsAt (j + 1) = []
    · exact Returns.of_succ (fun f => levelFn_pass j f _ eff ins (by omega) (by omega) hops)
        (ih (by omega))
    · exact Returns.of_succ (fun f => levelFn_loop j f _ eff ins hops)
        (Returns.bind_halt (ih (by omega)))

/-- An expression whose first primary expression stops, stops in the same way. -/
theorem expression_stop_of_primary (I : Interpreter) (eff ins : Bool) (T t2 : List Nat)
    (d : Nat) (s : Stop) (hsk : skipBytes T = d :: t2) (hd : d ≠ 33)
    (he1 : Returns (fun f => e1 f (I.moveTo T) eff ins) (.stop s)) :
    Returns (fun f => expression f (I.moveTo T) eff ins) (.stop s) := by
  have h2 : Returns (fun f => levelFn 2 f (I.moveTo T) eff ins) (.stop s) := by
    refine Returns.of_succ (fun f => ?_)
      (e2Loop_primary_stop I eff ins false false T t2 d s hsk hd he1)
    simp only [levelFn]
    rw [e2]
  exact levelFn_stop (I.moveTo T) eff ins s 2 16 (le_refl _) (by norm_num) (le_refl _) h2

/-- An operand after an operator that stops, stops the loop of the level in the same way. -/
theorem levelLoop_step_stop (k : Nat) (I : Interpreter) (eff ins : Bool) (vl : Nat)
    (op : BinOp) (restL T : List Nat) (s : Stop) (h : opsAt (k + 1) ≠ [])
    (hsel : selectOp (opsAt (k + 1)) (skipBytes restL) = some (op, T))
    (hr : Returns (fun f => levelFn k f (I.moveTo T) eff ins) (.stop s)) :
    Returns (fun f => levelLoop (k + 1) f (I.moveTo (skipBytes restL)) eff ins vl) (.stop s) := by
  refine Returns.of_succ (fun f => levelLoop_succ k f _ eff ins vl h) ?_
  obtain ⟨o, os, ho⟩ : ∃ o os, opsAt (k + 1) = o :: os := by
    cases hq : opsAt (k + 1) with
    | nil => exact absurd hq h
    | cons o os => exact ⟨o, os, rfl⟩
  rw [ho] at hsel ⊢
  refine Returns.congr (fun f => loopBody_select _ _ f I vl o os (skipBytes restL)) ?_
  simp only [skipBytes_idem, hsel]
  exact Returns.bind_halt hr

/-! ## Repeated negation -/

/-- The loop of `e2` on `k` negations and an operand of value `x`: the flag `neg` is flipped
`k` times, and `encounteredNeg` is set if there is a negation. -/
theorem e2Loop_notText (I J : Interpreter) (eff ins : Bool) (wss : List (List Nat))
    (t t2 : List Nat) (d x : Nat) (hws : ∀ ws ∈ wss, ws.all isspace = true)
    (hsk : skipBytes t = d :: t2) (hd : d ≠ 33)
    (h : Returns (fun f => e1 f (I.moveTo t) eff ins) (.ok x J)) (neg enc : Bool) :
    Returns (fun f => e2Loop f (I.moveTo (notText wss t)) eff ins neg enc)
      (.ok (notResult (if wss.length % 2 = 1 then !neg else neg) (enc || !wss.isEmpty) x) J) := by
  induction wss generalizing neg enc with
  | nil =>
    have := e2Loop_primary I J eff ins neg enc t t2 d x hsk hd h
    simpa [notText] using this
  | cons ws wss ih =>
    have h2 := ih (fun w hw => hws w (List.mem_cons_of_mem _ hw)) (!neg) true
    have h3 := e2Loop_not I eff ins neg enc ws (notText wss t) _
      (hws ws (List.mem_cons_self _ _)) h2
    have hv : notResult (if wss.length % 2 = 1 then !!neg else !neg) (true || !wss.isEmpty) x =
        notResult (if (ws :: wss).length % 2 = 1 then !neg else neg)
          (enc || !(ws :: wss).isEmpty) x := by
      rcases Nat.mod_two_eq_zero_or_one wss.length with hp | hp
      · have hq : (wss.length + 1) % 2 = 1 := by omega
        simp [hp, hq]
      · have hq : (wss.length + 1) % 2 = 0 := by omega
        simp [hp, hq]
    rw [hv] at h3
    exact h3

theorem notResult_parity (k x : Nat) :
    notResult (if k % 2 = 1 then true else false) true x =
      if k % 2 = 1 then (if x = 0 then 1 else 0) else (if x = 0 then 0 else 1) := by
  rcases Nat.mod_two_eq_zero_or_one k with hp | hp <;>
    rcases Nat.eq_zero_or_pos x with hx | hx
  · simp [hp, notResult, hx]
  · have hx0 : x ≠ 0 := by omega
    simp only [hp, notResult]
    simp [hx0]
    omega
  · simp [hp, notResult, hx]
  · have hx0 : x ≠ 0 := by omega
    simp [hp, notResult, hx0, hx]

/-! ## Comparisons -/

/-- The reference value of a comparison is `1` or `0` as the comparison holds or not. -/
theorem apply_of_isComparison (op : BinOp) (h : op.isComparison = true) (a b : Nat) :
    op.apply a b = if op.compares a b = true then 1 else 0 := by
  cases op <;> simp [BinOp.isComparison] at h <;> simp [BinOp.apply, BinOp.compares]

/-! ## Two operands around an operator -/

/-- More fuel does not change a result of a level of the precedence chain. -/
theorem levelFn_mono (k n : Nat) (I : Interpreter) (eff ins : Bool) :
    (levelFn k n I eff ins).le (levelFn k (n + 1) I eff ins) := by
  have h := monoAt n
  unfold MonoAt at h
  obtain ⟨h1, h2, -, h3, -, h4, -, h5, h6, -, h7, -, h8, h9, h10, h11, -, h12, -, h13, h14, h15,
    h16, -⟩ := h
  unfold levelFn
  split
  · exact h1 I eff ins
  · exact h2 I eff ins
  · exact h3 I eff ins
  · exact h4 I eff ins
  · exact h5 I eff ins
  · exact h6 I eff ins
  · exact h7 I eff ins
  · exact h8 I eff ins
  · exact h9 I eff ins
  · exact h10 I eff ins
  · exact h11 I eff ins
  · exact h12 I eff ins
  · exact h13 I eff ins
  · exact h14 I eff ins
  · exact h15 I eff ins
  · exact h16 I eff ins

/-- Two operands of level `k` around one operator of level `k + 1`, nothing of that level
behind: both operands are evaluated, the second in the interpreter the first leaves. -/
theorem levelFn_two_operands (k : Nat) (op : BinOp) (I J K : Interpreter) (eff ins : Bool)
    (T cL tR cR : List Nat) (a b : Nat) (hops : opsAt (k + 1) ≠ [])
    (hL : Returns (fun f => levelFn k f (I.moveTo T) eff ins) (.ok a (J.moveTo cL)))
    (hsel : selectOp (opsAt (k + 1)) (skipBytes cL) = some (op, tR))
    (hR : Returns (fun f => levelFn k f (J.moveTo tR) eff ins) (.ok b (K.moveTo cR)))
    (hend : selectOp (opsAt (k + 1)) (skipBytes cR) = none) :
    Returns (fun f => levelFn (k + 1) f (I.moveTo T) eff ins)
      (.ok (op.code a b) (K.moveTo (skipBytes cR))) :=
  levelFn_lift_to k I J eff ins a T cL cL _ hops rfl hL
    (levelLoop_step_to k J K eff ins a b op cL tR cR cR _ hops hsel rfl hR
      (levelLoop_end k K eff ins (op.code a b) cR hops hend))

/-- A value of level `k` that no operator of the levels above `k` continues is the value of
every level above. -/
theorem levelFn_climb (I J : Interpreter) (eff ins : Bool) (T c : List Nat) (v : Nat)
    (k j : Nat) (hk : 3 ≤ k) (hkj : k ≤ j) (hj : j ≤ 16)
    (h : Returns (fun f => levelFn k f (I.moveTo T) eff ins) (.ok v (J.moveTo (skipBytes c))))
    (hno : ∀ op : BinOp, k < op.level → matchBytes op.text (skipBytes c) = none) :
    Returns (fun f => levelFn j f (I.moveTo T) eff ins) (.ok v (J.moveTo (skipBytes c))) := by
  induction j, hkj using Nat.le_induction with
  | base => exact h
  | succ j hkj ih =>
    by_cases hops : opsAt (j + 1) = []
    · exact Returns.of_succ (fun f => levelFn_pass j f _ eff ins (by omega) (by omega) hops)
        (ih (by omega))
    · exact levelFn_lift_to j I J eff ins v T c (skipBytes c) _ hops (skipBytes_idem c)
        (ih (by omega))
        (levelLoop_end j J eff ins v c hops
          (selectOp_none_of_mem _ _ (fun op hop => hno op (by
            rw [mem_opsAt_level (j + 1) op hop]
            omega))))

/-! ## The end of a run -/

/-- After the whitespace the cursor is not at the terminator exactly when a byte that is
not whitespace comes before the terminator. -/
theorem headD_skipBytes_ne_zero (c : List Nat) :
    (skipBytes c).headD 0 ≠ 0 ↔ ∃ b ∈ upToTerminator c, isspace b = false := by
  induction c with
  | nil => simp [skipBytes, upToTerminator]
  | cons a cs ih =>
    by_cases hs : isspace a = true
    · have ha : a ≠ 0 := by
        intro h0
        rw [h0] at hs
        exact absurd hs (by decide)
      have hsk : skipBytes (a :: cs) = skipBytes cs := by simp [skipBytes, hs]
      have hup : upToTerminator (a :: cs) = a :: upToTerminator cs := by
        simp [upToTerminator, List.takeWhile_cons, ha]
      rw [hsk, hup, ih]
      constructor
      · rintro ⟨b, hb, hb2⟩
        exact ⟨b, List.mem_cons_of_mem _ hb, hb2⟩
      · rintro ⟨b, hb, hb2⟩
        rcases List.mem_cons.1 hb with rfl | hb
        · rw [hs] at hb2
          exact absurd hb2 (by decide)
        · exact ⟨b, hb, hb2⟩
    · have hs2 : isspace a = false := by simpa using hs
      have hsk : skipBytes (a :: cs) = a :: cs := by simp [skipBytes, hs2]
      rw [hsk]
      by_cases ha : a = 0
      · have hup : upToTerminator (a :: cs) = [] := by
          simp [upToTerminator, List.takeWhile_cons, ha]
        rw [hup]
        simp [ha]
      · have hup : upToTerminator (a :: cs) = a :: upToTerminator cs := by
          simp [upToTerminator, List.takeWhile_cons, ha]
        rw [hup]
        simp only [List.headD_cons, ne_eq, ha, not_false_eq_true, true_iff]
        exact ⟨a, List.mem_cons_self _ _, hs2⟩

/-- What `run` yields when the statement loop fails. -/
theorem run_of_statements_fail (I J : Interpreter)
    (h : Returns (fun f => statements f I true) (.stop (.fail J))) :
    Returns (fun f => run f I) (.stop (.fail J)) :=
  Returns.bind_halt h

/-- What `run` yields when the statement loop ends. -/
theorem run_of_statements_ok (I K : Interpreter)
    (h : Returns (fun f => statements f I true) (.ok () K)) :
    Returns (fun f => run f I) (endOrFail K) :=
  Returns.bind h (Returns.const _)

/-- A result of `run` comes from a result of the statement loop. -/
theorem statements_of_run (I : Interpreter) (r : Result Unit) (hne : r ≠ .stop .outOfFuel)
    (h : Returns (fun f => run f I) r) :
    ∃ r2, Returns (fun f => statements f I true) r2 ∧
      r = r2.bind fun _ K => endOrFail K := by
  obtain ⟨n, hn⟩ := h
  have hrun := hn n (le_refl _)
  simp only [run] at hrun
  have hne2 : statements n I true ≠ .stop .outOfFuel := by
    intro hc
    rw [hc] at hrun
    exact hne hrun.symm
  exact ⟨statements n I true, Result.le.returns (fun m => statements_mono m I true) rfl hne2,
    hrun.symm⟩

/-! ## Bodies with balanced braces -/

theorem Result.localIs_stop {α : Type} (L : UnorderedMap) (s : Stop) :
    (Result.stop s : Result α).localIs L := fun _ _ h => by cases h

theorem Result.localIs_fail {α : Type} (L : UnorderedMap) (I : Interpreter) :
    (fail I : Result α).localIs L := fun _ _ h => by cases h

theorem Result.localIs_ok {α : Type} {L : UnorderedMap} {v : α} {J : Interpreter}
    (h : J.currentSymbolTable = L) : (Result.ok v J).localIs L := by
  intro v2 J2 h2
  cases h2
  exact h

theorem Result.localIs_bind {α β : Type} {L : UnorderedMap} {r : Result α}
    {g : α → Interpreter → Result β} (hr : r.localIs L)
    (hg : ∀ v J, J.currentSymbolTable = L → (g v J).localIs L) : (r.bind g).localIs L := by
  cases r with
  | ok v J => exact hg v J (hr v J rfl)
  | stop s => exact Result.localIs_stop L s

theorem Result.localIs_ite {α : Type} {L : UnorderedMap} {c : Prop} [Decidable c]
    {a b : Result α} (ha : c → a.localIs L) (hb : ¬ c → b.localIs L) :
    (if c then a else b).localIs L := by
  split
  · exact ha ‹_›
  · exact hb ‹_›

@[simp] theorem consume_currentSymbolTable (I : Interpreter) (s : List Nat) :
    (consume I s).2.currentSymbolTable = I.currentSymbolTable := by
  unfold consume
  split <;> rfl

@[simp] theorem consumeIdentifier_currentSymbolTable (I : Interpreter) :
    (consumeIdentifier I).2.currentSymbolTable = I.currentSymbolTable := by
  unfold consumeIdentifier
  split
  · rfl
  · split <;> rfl

@[simp] theorem consumeLiteral_currentSymbolTable (I : Interpreter) :
    (consumeLiteral I).2.currentSymbolTable = I.currentSymbolTable := by
  unfold consumeLiteral
  split
  · rfl
  · split <;> rfl

theorem functionCall_localIs (L : UnorderedMap) (fuel : Nat) (I : Interpreter) (eff : Bool)
    (fn : Function) (h : I.currentSymbolTable = L) : (functionCall fuel I eff fn).localIs L :=
  fun v J hJ => (functionCall_restores fuel I J eff fn v hJ).trans h

theorem localAt_zero (L : UnorderedMap) : LocalAt L 0 := by
  unfold LocalAt
  refine ⟨?_, ?_, ?_, ?_, ?_, ?_, ?_, ?_, ?_, ?_, ?_, ?_, ?_, ?_, ?_, ?_, ?_, ?_, ?_, ?_, ?_,
    ?_, ?_⟩
  all_goals intros
  all_goals
    first
    | rw [e1] | rw [e2] | rw [e2Loop] | rw [e3] | rw [e3Loop] | rw [e4] | rw [e4Loop] | rw [e5]
    | rw [e6] | rw [e6Loop] | rw [e7] | rw [e7Loop] | rw [e8] | rw [e9] | rw [e10] | rw [e11]
    | rw [e11Loop] | rw [e12] | rw [e12Loop] | rw [e13] | rw [e14] | rw [e15] | rw [expression]
  all_goals exact Result.localIs_stop L _

set_option maxHeartbeats 1600000 in
theorem localAt_succ (L : UnorderedMap) (n : Nat) (ih : LocalAt L n) : LocalAt L (n + 1) := by
  unfold LocalAt at ih ⊢
  obtain ⟨h1, h2, h2l, h3, h3l, h4, h4l, h5, h6, h6l, h7, h7l, h8, h9, h10, h11, h11l, h12,
    h12l, h13, h14, h15, hex⟩ := ih
  refine ⟨?_, ?_, ?_, ?_, ?_, ?_, ?_, ?_, ?_, ?_, ?_, ?_, ?_, ?_, ?_, ?_, ?_, ?_, ?_, ?_, ?_,
    ?_, ?_⟩
  all_goals intros
  all_goals
    first
    | rw [e1] | rw [e2] | rw [e2Loop] | rw [e3] | rw [e3Loop] | rw [e4] | rw [e4Loop] | rw [e5]
    | rw [e6] | rw [e6Loop] | rw [e7] | rw [e7Loop] | rw [e8] | rw [e9] | rw [e10] | rw [e11]
    | rw [e11Loop] | rw [e12] | rw [e12Loop] | rw [e13] | rw [e14] | rw [e15] | rw [expression]
  all_goals try dsimp only
  all_goals
    repeat' with_reducible first
      | exact Result.localIs_stop L _
      | exact Result.localIs_fail L _
      | assumption
      | (refine Result.localIs_ok ?_)
      | (refine h1 _ _ _ ?_) | (refine h2 _ _ _ ?_) | (refine h2l _ _ _ _ _ ?_)
      | (refine h3 _ _ _ ?_) | (refine h3l _ _ _ _ ?_) | (refine h4 _ _ _ ?_)
      | (refine h4l _ _ _ _ ?_) | (refine h5 _ _ _ ?_) | (refine h6 _ _ _ ?_)
      | (refine h6l _ _ _ _ ?_) | (refine h7 _ _ _ ?_) | (refine h7l _ _ _ _ ?_)
      | (refine h8 _ _ _ ?_) | (refine h9 _ _ _ ?_) | (refine h10 _ _ _ ?_)
      | (refine h11 _ _ _ ?_) | (refine h11l _ _ _ _ ?_) | (refine h12 _ _ _ ?_)
      | (refine h12l _ _ _ _ ?_) | (refine h13 _ _ _ ?_) | (refine h14 _ _ _ ?_)
      | (refine h15 _ _ _ ?_) | (refine hex _ _ _ ?_)
      | (refine functionCall_localIs L _ _ _ _ ?_)
      | (refine Result.localIs_bind ?_ (fun _ _ _ => ?_))
      | (refine Result.localIs_ite (fun _ => ?_) (fun _ => ?_))
      | (simp only [consume_currentSymbolTable, consumeIdentifier_currentSymbolTable,
          consumeLiteral_currentSymbolTable]; done)
      | (simp only [consume_currentSymbolTable, consumeIdentifier_currentSymbolTable,
          consumeLiteral_currentSymbolTable]; assumption)
      | split

theorem localAt (L : UnorderedMap) (n : Nat) : LocalAt L n := by
  induction n with
  | zero => exact localAt_zero L
  | succ n ih => exact localAt_succ L n ih

/-- An expression returns with the local table it was entered with. -/
theorem expression_local (fuel : Nat) (I J : Interpreter) (eff ins : Bool) (v : Nat)
    (h : expression fuel I eff ins = .ok v J) : J.currentSymbolTable = I.currentSymbolTable :=
  (localAt I.currentSymbolTable fuel).2.2.2.2.2.2.2.2.2.2.2.2.2.2.2.2.2.2.2.2.2.2
    I eff ins rfl v J h

/-! ## Calls of `print` inside expressions -/

/-- A call `print(e)` as a primary expression, for an argument text that does not begin with
`(`: when `e` evaluates to `v` leaving the interpreter `I2` in front of the closing
parenthesis, the call yields `0`, appends `v` to the output when `effects` is set, and
leaves everything else of `I2` as it is. -/
theorem e1_print (I I2 : Interpreter) (eff ins : Bool) (ws ws2 T rest : List Nat) (v : Nat)
    (hws : ws.all isspace = true) (hws2 : ws2.all isspace = true)
    (hfn : functionMapGet I.functionNameMap (nameSlice (cstr "print")) = some createPrintFunction)
    (hT : matchBytes [41] (skipBytes T) = none) (hT2 : matchBytes [40] (skipBytes T) = none)
    (hexpr : Returns (fun f => expression f (I.moveTo T) eff true) (.ok v I2))
    (hc : skipBytes I2.current = 41 :: rest) :
    Returns (fun f => e1 f (I.moveTo (ws ++ cstr "print" ++ (ws2 ++ 40 :: T))) eff ins)
      (.ok 0 { I2 with
        current := rest
        output := if eff then I2.output ++ [v] else I2.output }) := by
  have hrest : isalnum ((ws2 ++ 40 :: T).headD 0) = false :=
    headD_ws_append ws2 _ 40 hws2 (by decide)
  have hsk : skipBytes (ws2 ++ 40 :: T) = 40 :: T := by
    rw [skipBytes_ws _ _ hws2]
    rfl
  have hloc : I2.currentSymbolTable = I.currentSymbolTable := by
    obtain ⟨n, hn⟩ := hexpr
    exact expression_local n (I.moveTo T) I2 eff true v (hn n (le_refl _))
  have hcomma : consume I2 (cstr ",") = (false, I2.moveTo (skipBytes I2.current)) := by
    exact consume_fail I2 I2.current (cstr ",") (by rw [hc]; rfl)
  have hdone : Returns (fun f => functionCallLoop f (consume I2 (cstr ",")).2 eff
      createPrintFunction (mapInsert mapCreate (sliceConstructorLen (cstr ".") 1) v)
      ((0 + 1) % U64))
      (.ok (mapInsert mapCreate (sliceConstructorLen (cstr ".") 1) v, 1) (I2.moveTo rest)) := by
    rw [hcomma]
    exact Returns.of_forall_succ (fun f => functionCallLoop_done f I2 eff createPrintFunction _ _
      (skipBytes I2.current) rest (by rw [skipBytes_idem, hc]))
  have hexpr2 : Returns (fun f => expression f (I.moveTo (skipBytes T)) eff true) (.ok v I2) :=
    Returns.congr (fun f => expression_skip f I eff true T) hexpr
  have hargs : Returns (fun f => functionCallLoop f (consume (I.moveTo T) (cstr "(")).2 eff
      createPrintFunction mapCreate 0)
      (.ok (mapInsert mapCreate (sliceConstructorLen (cstr ".") 1) v,
        createPrintFunction.numParams) (I2.moveTo rest)) := by
    rw [consume_fail I T (cstr "(") hT2]
    exact functionCallLoop_arg I I2 eff createPrintFunction mapCreate 0 v (skipBytes T)
      (sliceConstructorLen (cstr ".") 1) _ (by rw [skipBytes_idem]; exact hT) hexpr2 rfl hdone
  have hcall := functionCall_print (I.moveTo T) (I2.moveTo rest) eff createPrintFunction _
    (sliceConstructorLen (cstr ".") 1) (by decide) rfl hargs
  have hget : mapGet (mapInsert mapCreate (sliceConstructorLen (cstr ".") 1) v)
      (sliceConstructorLen (cstr ".") 1) = v := by
    rw [mapGet_insert _ _ _ _ 0 fitsMap_create (by norm_num), if_pos rfl]
  have hres : ({ I2.moveTo rest with
        currentSymbolTable := (I.moveTo T).currentSymbolTable
        output := if eff then (I2.moveTo rest).output ++
          [mapGet (mapInsert mapCreate (sliceConstructorLen (cstr ".") 1) v)
            (sliceConstructorLen (cstr ".") 1)] else (I2.moveTo rest).output } : Interpreter) =
      { I2 with current := rest, output := if eff then I2.output ++ [v] else I2.output } := by
    rw [hget]
    cases I2
    simp only [Interpreter.moveTo] at hloc ⊢
    subst hloc
    rfl
  rw [hres] at hcall
  exact e1_call I eff ins ws (cstr "print") (ws2 ++ 40 :: T) T createPrintFunction _ hws
    (by decide) hrest hsk hfn hcall

/-! ## The run of the recursive program -/

/-- The value of `n` in the body of `f` when the local table binds it to `N`. -/
theorem rec_n (p cur : List Nat) (glob : UnorderedMap) (fns : UnorderedFunctionMap)
    (out : List Nat) (pn : Slice) (hpn : pn.bytes = cstr "n") (N : Nat) :
    variableValue ⟨p, cur, ⟨false, 0⟩, mapInsert mapCreate pn N, glob, fns, out⟩ true
      (cstr "n") = N := by
  simp [variableValue, mapContains_insert _ _ _ _ 0 fitsMap_create (by omega),
    mapGet_insert _ _ _ _ 0 fitsMap_create (by omega), hpn]

/-- The return expression `1 + f(n - 1)` when the call `f(n - 1)` yields `M`. -/
theorem rec_sum (p P : List Nat) (loc glob : UnorderedMap) (fns : UnorderedFunctionMap)
    (out : List Nat) (M : Nat)
    (hcall : Returns (fun f => e1 f
        ⟨p, cstr " f(n - 1) \x7d" ++ P, ⟨false, 0⟩, loc, glob, fns, out⟩ true true)
      (.ok M ⟨p, cstr " \x7d" ++ P, ⟨false, 0⟩, loc, glob, fns, out⟩)) :
    Returns (fun f => expression f
        ⟨p, cstr " 1 + f(n - 1) \x7d" ++ P, ⟨false, 0⟩, loc, glob, fns, out⟩ true true)
      (.ok ((1 + M) % U64) ⟨p, cstr "\x7d" ++ P, ⟨false, 0⟩, loc, glob, fns, out⟩) := by
  have hlit : Returns (fun f => levelFn 3 f
        ⟨p, cstr " 1 + f(n - 1) \x7d" ++ P, ⟨false, 0⟩, loc, glob, fns, out⟩ true true)
      (.ok 1 ⟨p, cstr "+ f(n - 1) \x7d" ++ P, ⟨false, 0⟩, loc, glob, fns, out⟩) :=
    levelFn_of_primary ⟨p, [], ⟨false, 0⟩, loc, glob, fns, out⟩
      ⟨p, [], ⟨false, 0⟩, loc, glob, fns, out⟩ true true
      (cstr " 1 + f(n - 1) \x7d" ++ P) (cstr " + f(n - 1) \x7d" ++ P)
      (cstr " + f(n - 1) \x7d" ++ P) 49 1 rfl (by decide)
      (e1_literal ⟨p, [], ⟨false, 0⟩, loc, glob, fns, out⟩ true true (cstr " ") (cstr "1")
        (cstr " + f(n - 1) \x7d" ++ P) (by decide) (by decide) (by decide) rfl)
      3 (le_refl _) (by norm_num)
      ⟨rfl, fun op hop => by cases op <;> simp [BinOp.level] at hop <;> rfl⟩
  have hright : Returns (fun f => levelFn 3 f
        ⟨p, cstr " f(n - 1) \x7d" ++ P, ⟨false, 0⟩, loc, glob, fns, out⟩ true true)
      (.ok M ⟨p, cstr "\x7d" ++ P, ⟨false, 0⟩, loc, glob, fns, out⟩) :=
    levelFn_of_primary ⟨p, [], ⟨false, 0⟩, loc, glob, fns, out⟩
      ⟨p, [], ⟨false, 0⟩, loc, glob, fns, out⟩ true true
      (cstr " f(n - 1) \x7d" ++ P) (cstr " \x7d" ++ P)
      (cstr "(n - 1) \x7d" ++ P) 102 M rfl (by decide) hcall
      3 (le_refl _) (by norm_num)
      ((endsExpression_of_head (cstr " \x7d" ++ P) P 125 rfl rfl (by decide)).noOps 3)
  have h4 : Returns (fun f => levelFn 4 f
        ⟨p, cstr " 1 + f(n - 1) \x7d" ++ P, ⟨false, 0⟩, loc, glob, fns, out⟩ true true)
      (.ok (BinOp.add.code 1 M)
        ⟨p, cstr "\x7d" ++ P, ⟨false, 0⟩, loc, glob, fns, out⟩) :=
    levelFn_lift_to 3 ⟨p, [], ⟨false, 0⟩, loc, glob, fns, out⟩
      ⟨p, [], ⟨false, 0⟩, loc, glob, fns, out⟩ true true 1
      (cstr " 1 + f(n - 1) \x7d" ++ P) (cstr "+ f(n - 1) \x7d" ++ P)
      (cstr "+ f(n - 1) \x7d" ++ P) _ (by simp [opsAt]) rfl hlit
      (levelLoop_step_to 3 ⟨p, [], ⟨false, 0⟩, loc, glob, fns, out⟩
        ⟨p, [], ⟨false, 0⟩, loc, glob, fns, out⟩ true true 1 M .add
        (cstr "+ f(n - 1) \x7d" ++ P) (cstr " f(n - 1) \x7d" ++ P)
        (cstr "\x7d" ++ P) (cstr "\x7d" ++ P) _ (by simp [opsAt]) rfl rfl hright
        (levelLoop_end 3 ⟨p, [], ⟨false, 0⟩, loc, glob, fns, out⟩ true true _
          (cstr "\x7d" ++ P) (by simp [opsAt]) rfl))
  exact levelFn_climb ⟨p, [], ⟨false, 0⟩, loc, glob, fns, out⟩
    ⟨p, [], ⟨false, 0⟩, loc, glob, fns, out⟩ true true
    (cstr " 1 + f(n - 1) \x7d" ++ P) (cstr "\x7d" ++ P) _ 4 16 (by norm_num) (by norm_num)
    (le_refl _) h4 (fun op _ => by cases op <;> rfl)


/-- The body of `f` with `n` bound to `N`: the call yields `N` and leaves the interpreter as
it was, the pending-return slot empty again and the cursor back at the call. -/
theorem rec_body (P : List Nat) (fns : UnorderedFunctionMap) (kf pn : Slice)
    (hkf : kf.bytes = cstr "f") (hpn : pn.bytes = cstr "n")
    (hf : functionMapGet fns (nameSlice (cstr "f")) =
      some ⟨kf, cstr " \x7b if (n == 0) \x7b return 0 \x7d return 1 + f(n - 1) \x7d" ++ P, 1,
        [pn]⟩)
    (N : Nat) (hN : N < 2 ^ 64) (p c : List Nat) (glob : UnorderedMap) (out : List Nat) :
    Returns (fun f => performFunction f
        ⟨p, c, ⟨false, 0⟩, mapInsert mapCreate pn N, glob, fns, out⟩ true
        ⟨kf, cstr " \x7b if (n == 0) \x7b return 0 \x7d return 1 + f(n - 1) \x7d" ++ P, 1,
          [pn]⟩)
      (.ok N ⟨p, c, ⟨false, 0⟩, mapInsert mapCreate pn N, glob, fns, out⟩) := by
  induction N generalizing c with
  | zero =>
    have hcond : Returns (fun f => expression f
          ⟨p, cstr "n == 0) \x7b return 0 \x7d return 1 + f(n - 1) \x7d" ++ P, ⟨false, 0⟩,
            mapInsert mapCreate pn 0, glob, fns, out⟩ true true)
        (.ok 1 ⟨p, cstr ") \x7b return 0 \x7d return 1 + f(n - 1) \x7d" ++ P, ⟨false, 0⟩,
            mapInsert mapCreate pn 0, glob, fns, out⟩) :=
      expression_value (.bin .eq (.var [] (cstr "n")) (cstr " ") (.lit (cstr " ") (cstr "0")))
        (by decide) (cstr ") \x7b return 0 \x7d return 1 + f(n - 1) \x7d" ++ P)
        (endsExpression_of_head _ _ 41 rfl rfl (by decide))
        ⟨p, [], ⟨false, 0⟩, mapInsert mapCreate pn 0, glob, fns, out⟩ true true 1
        (by
          simp only [Expr.valueIn, rec_n p [] glob fns out pn hpn 0]
          rfl)
    have hcr : Returns (fun f => checkReturn f
          ⟨p, cstr "if (n == 0) \x7b return 0 \x7d return 1 + f(n - 1) \x7d" ++ P, ⟨false, 0⟩,
            mapInsert mapCreate pn 0, glob, fns, out⟩ true true)
        (.ok false
          ⟨p, cstr "if (n == 0) \x7b return 0 \x7d return 1 + f(n - 1) \x7d" ++ P, ⟨false, 0⟩,
            mapInsert mapCreate pn 0, glob, fns, out⟩) :=
      Returns.of_forall_succ fun f => checkReturn_other f _ true true (fun _ => rfl) (fun _ => rfl)
    have hblock : Returns (fun f => blockLoop f
          ⟨p, cstr " return 0 \x7d return 1 + f(n - 1) \x7d" ++ P, ⟨false, 0⟩,
            mapInsert mapCreate pn 0, glob, fns, out⟩ true true)
        (.ok true ⟨p, cstr " return 1 + f(n - 1) \x7d" ++ P, ⟨true, 0⟩,
            mapInsert mapCreate pn 0, glob, fns, out⟩) :=
      blockLoop_return ⟨p, [], ⟨false, 0⟩, mapInsert mapCreate pn 0, glob, fns, out⟩
        ⟨p, cstr "\x7d return 1 + f(n - 1) \x7d" ++ P, ⟨true, 0⟩, mapInsert mapCreate pn 0,
          glob, fns, out⟩
        ⟨p, cstr " return 1 + f(n - 1) \x7d" ++ P, ⟨true, 0⟩, mapInsert mapCreate pn 0, glob,
          fns, out⟩
        true true (cstr " return 0 \x7d return 1 + f(n - 1) \x7d" ++ P) rfl
        (checkReturn_return ⟨p, [], ⟨false, 0⟩, mapInsert mapCreate pn 0, glob, fns, out⟩ _
          true [] (cstr " 0 \x7d return 1 + f(n - 1) \x7d" ++ P) 0 rfl rfl rfl
          (expression_value (.lit (cstr " ") (cstr "0")) (by decide)
            (cstr " \x7d return 1 + f(n - 1) \x7d" ++ P)
            (endsExpression_of_head _ _ 125 rfl rfl (by decide)) _ true true 0 rfl))
        (consumePast_blockEnd
          ⟨p, [], ⟨true, 0⟩, mapInsert mapCreate pn 0, glob, fns, out⟩ _ _ rfl)
    have hst : Returns (fun f => statement f
          ⟨p, cstr "if (n == 0) \x7b return 0 \x7d return 1 + f(n - 1) \x7d" ++ P, ⟨false, 0⟩,
            mapInsert mapCreate pn 0, glob, fns, out⟩ true true)
        (.ok true ⟨p, cstr " return 1 + f(n - 1) \x7d" ++ P, ⟨true, 0⟩,
            mapInsert mapCreate pn 0, glob, fns, out⟩) :=
      statement_if ⟨p, [], ⟨false, 0⟩, mapInsert mapCreate pn 0, glob, fns, out⟩ true true []
        (cstr " (n == 0) \x7b return 0 \x7d return 1 + f(n - 1) \x7d" ++ P) _ rfl rfl
        (fun _ => rfl)
        (ifStatement_true_return
          ⟨p, [], ⟨false, 0⟩, mapInsert mapCreate pn 0, glob, fns, out⟩
          ⟨p, [], ⟨false, 0⟩, mapInsert mapCreate pn 0, glob, fns, out⟩ _ true true
          (cstr " (n == 0) \x7b return 0 \x7d return 1 + f(n - 1) \x7d" ++ P)
          (cstr "n == 0) \x7b return 0 \x7d return 1 + f(n - 1) \x7d" ++ P)
          (cstr ") \x7b return 0 \x7d return 1 + f(n - 1) \x7d" ++ P)
          (cstr " \x7b return 0 \x7d return 1 + f(n - 1) \x7d" ++ P)
          (cstr " return 0 \x7d return 1 + f(n - 1) \x7d" ++ P) 1 rfl hcond (by decide) rfl rfl
          hblock)
    refine performFunction_body
      ⟨p, c, ⟨false, 0⟩, mapInsert mapCreate pn 0, glob, fns, out⟩
      ⟨p, cstr "return 1 + f(n - 1) \x7d" ++ P, ⟨false, 0⟩, mapInsert mapCreate pn 0, glob,
        fns, out⟩ true
      ⟨kf, cstr " \x7b if (n == 0) \x7b return 0 \x7d return 1 + f(n - 1) \x7d" ++ P, 1, [pn]⟩
      (cstr " if (n == 0) \x7b return 0 \x7d return 1 + f(n - 1) \x7d" ++ P) 0 rfl ?_
    refine performFunctionLoop_statement
      ⟨p, [], ⟨false, 0⟩, mapInsert mapCreate pn 0, glob, fns, out⟩ _ _ true
      (cstr " if (n == 0) \x7b return 0 \x7d return 1 + f(n - 1) \x7d" ++ P) _ rfl rfl hcr hst
      ?_
    exact Returns.of_add_eq 1 fun f => performFunctionLoop_pending f
      ⟨p, [], ⟨true, 0⟩, mapInsert mapCreate pn 0, glob, fns, out⟩ true
      (cstr " return 1 + f(n - 1) \x7d" ++ P) rfl rfl
  | succ N ih =>
    have hN2 : N < 2 ^ 64 := by omega
    have hcond : Returns (fun f => expression f
          ⟨p, cstr "n == 0) \x7b return 0 \x7d return 1 + f(n - 1) \x7d" ++ P, ⟨false, 0⟩,
            mapInsert mapCreate pn (N + 1), glob, fns, out⟩ true true)
        (.ok 0 ⟨p, cstr ") \x7b return 0 \x7d return 1 + f(n - 1) \x7d" ++ P, ⟨false, 0⟩,
            mapInsert mapCreate pn (N + 1), glob, fns, out⟩) :=
      expression_value (.bin .eq (.var [] (cstr "n")) (cstr " ") (.lit (cstr " ") (cstr "0")))
        (by decide) (cstr ") \x7b return 0 \x7d return 1 + f(n - 1) \x7d" ++ P)
        (endsExpression_of_head _ _ 41 rfl rfl (by decide))
        ⟨p, [], ⟨false, 0⟩, mapInsert mapCreate pn (N + 1), glob, fns, out⟩ true true 0
        (by
          simp only [Expr.valueIn, rec_n p [] glob fns out pn hpn (N + 1)]
          show (if N + 1 = decimalValue (cstr "0") % 2 ^ 64 then 1 else 0) = 0
          rw [if_neg]
          show N + 1 ≠ 0
          omega)
    have hcr : Returns (fun f => checkReturn f
          ⟨p, cstr "if (n == 0) \x7b return 0 \x7d return 1 + f(n - 1) \x7d" ++ P, ⟨false, 0⟩,
            mapInsert mapCreate pn (N + 1), glob, fns, out⟩ true true)
        (.ok false
          ⟨p, cstr "if (n == 0) \x7b return 0 \x7d return 1 + f(n - 1) \x7d" ++ P, ⟨false, 0⟩,
            mapInsert mapCreate pn (N + 1), glob, fns, out⟩) :=
      Returns.of_forall_succ fun f => checkReturn_other f _ true true (fun _ => rfl) (fun _ => rfl)
    have hst : Returns (fun f => statement f
          ⟨p, cstr "if (n == 0) \x7b return 0 \x7d return 1 + f(n - 1) \x7d" ++ P, ⟨false, 0⟩,
            mapInsert mapCreate pn (N + 1), glob, fns, out⟩ true true)
        (.ok true ⟨p, cstr " return 1 + f(n - 1) \x7d" ++ P, ⟨false, 0⟩,
            mapInsert mapCreate pn (N + 1), glob, fns, out⟩) :=
      statement_if ⟨p, [], ⟨false, 0⟩, mapInsert mapCreate pn (N + 1), glob, fns, out⟩ true
        true [] (cstr " (n == 0) \x7b return 0 \x7d return 1 + f(n - 1) \x7d" ++ P) _ rfl rfl
        (fun _ => rfl)
        (ifStatement_false_plain
          ⟨p, [], ⟨false, 0⟩, mapInsert mapCreate pn (N + 1), glob, fns, out⟩
          ⟨p, [], ⟨false, 0⟩, mapInsert mapCreate pn (N + 1), glob, fns, out⟩ true true
          (cstr " (n == 0) \x7b return 0 \x7d return 1 + f(n - 1) \x7d" ++ P)
          (cstr "n == 0) \x7b return 0 \x7d return 1 + f(n - 1) \x7d" ++ P)
          (cstr ") \x7b return 0 \x7d return 1 + f(n - 1) \x7d" ++ P)
          (cstr " \x7b return 0 \x7d return 1 + f(n - 1) \x7d" ++ P)
          (cstr " return 0 \x7d return 1 + f(n - 1) \x7d" ++ P)
          (cstr " return 1 + f(n - 1) \x7d" ++ P) rfl hcond rfl rfl rfl rfl)
    -- the argument `n - 1` of the inner call
    have harg : Returns (fun f => expression f
          ⟨p, cstr "n - 1) \x7d" ++ P, ⟨false, 0⟩, mapInsert mapCreate pn (N + 1), glob, fns,
            out⟩ true true)
        (.ok N ⟨p, cstr ") \x7d" ++ P, ⟨false, 0⟩, mapInsert mapCreate pn (N + 1), glob, fns,
            out⟩) :=
      expression_value (.bin .sub (.var [] (cstr "n")) (cstr " ") (.lit (cstr " ") (cstr "1")))
        (by decide) (cstr ") \x7d" ++ P)
        (endsExpression_of_head _ _ 41 rfl rfl (by decide))
        ⟨p, [], ⟨false, 0⟩, mapInsert mapCreate pn (N + 1), glob, fns, out⟩ true true N
        (by
          simp only [Expr.valueIn, rec_n p [] glob fns out pn hpn (N + 1)]
          show ((((N + 1 : Nat) : Int) - ((decimalValue (cstr "1") % 2 ^ 64 : Nat) : Int))
            % 2 ^ 64).toNat = N
          have h1 : decimalValue (cstr "1") % 2 ^ 64 = 1 := rfl
          rw [h1]
          omega)
    have hargs : Returns (fun f => functionCallLoop f
          ⟨p, cstr "n - 1) \x7d" ++ P, ⟨false, 0⟩, mapInsert mapCreate pn (N + 1), glob, fns,
            out⟩ true
          ⟨kf, cstr " \x7b if (n == 0) \x7b return 0 \x7d return 1 + f(n - 1) \x7d" ++ P, 1,
            [pn]⟩ mapCreate 0)
        (.ok (mapInsert mapCreate pn N, 1)
          ⟨p, cstr " \x7d" ++ P, ⟨false, 0⟩, mapInsert mapCreate pn (N + 1), glob, fns,
            out⟩) := by
      refine functionCallLoop_arg
        ⟨p, [], ⟨false, 0⟩, mapInsert mapCreate pn (N + 1), glob, fns, out⟩ _
        true _ mapCreate 0 N (cstr "n - 1) \x7d" ++ P) pn _ rfl harg rfl ?_
      exact Returns.of_add_eq 1 fun f => functionCallLoop_done f
        ⟨p, [], ⟨false, 0⟩, mapInsert mapCreate pn (N + 1), glob, fns, out⟩ true _ _ _
        (cstr ") \x7d" ++ P) (cstr " \x7d" ++ P) rfl
    have hcall : Returns (fun f => functionCall f
          ⟨p, cstr "n - 1) \x7d" ++ P, ⟨false, 0⟩, mapInsert mapCreate pn (N + 1), glob, fns,
            out⟩ true
          ⟨kf, cstr " \x7b if (n == 0) \x7b return 0 \x7d return 1 + f(n - 1) \x7d" ++ P, 1,
            [pn]⟩)
        (.ok N ⟨p, cstr " \x7d" ++ P, ⟨false, 0⟩, mapInsert mapCreate pn (N + 1), glob, fns,
            out⟩) :=
      functionCall_user
        ⟨p, cstr "n - 1) \x7d" ++ P, ⟨false, 0⟩, mapInsert mapCreate pn (N + 1), glob, fns,
          out⟩
        ⟨p, cstr " \x7d" ++ P, ⟨false, 0⟩, mapInsert mapCreate pn (N + 1), glob, fns, out⟩
        ⟨p, cstr " \x7d" ++ P, ⟨false, 0⟩, mapInsert mapCreate pn N, glob, fns, out⟩ true
        ⟨kf, cstr " \x7b if (n == 0) \x7b return 0 \x7d return 1 + f(n - 1) \x7d" ++ P, 1,
          [pn]⟩
        (mapInsert mapCreate pn N) N
        (by rw [sliceEqualString_bytes, hkf]; decide)
        (by exact hargs)
        (ih hN2 (cstr " \x7d" ++ P))
    have he1 : Returns (fun f => e1 f
          ⟨p, cstr " f(n - 1) \x7d" ++ P, ⟨false, 0⟩, mapInsert mapCreate pn (N + 1), glob,
            fns, out⟩ true true)
        (.ok N ⟨p, cstr " \x7d" ++ P, ⟨false, 0⟩, mapInsert mapCreate pn (N + 1), glob, fns,
            out⟩) :=
      e1_call ⟨p, [], ⟨false, 0⟩, mapInsert mapCreate pn (N + 1), glob, fns, out⟩ true true
        (cstr " ") (cstr "f") (cstr "(n - 1) \x7d" ++ P) (cstr "n - 1) \x7d" ++ P) _ _
        (by decide) (by decide) rfl rfl hf hcall
    have hsum := rec_sum p P (mapInsert mapCreate pn (N + 1)) glob fns out N he1
    have hval : (1 + N) % U64 = N + 1 := by
      have : U64 = 2 ^ 64 := rfl
      rw [this, Nat.mod_eq_of_lt (by omega)]
      omega
    rw [hval] at hsum
    refine performFunction_body
      ⟨p, c, ⟨false, 0⟩, mapInsert mapCreate pn (N + 1), glob, fns, out⟩
      ⟨p, cstr "\x7d" ++ P, ⟨false, 0⟩, mapInsert mapCreate pn (N + 1), glob, fns, out⟩ true
      ⟨kf, cstr " \x7b if (n == 0) \x7b return 0 \x7d return 1 + f(n - 1) \x7d" ++ P, 1, [pn]⟩
      (cstr " if (n == 0) \x7b return 0 \x7d return 1 + f(n - 1) \x7d" ++ P) (N + 1) rfl ?_
    refine performFunctionLoop_statement
      ⟨p, [], ⟨false, 0⟩, mapInsert mapCreate pn (N + 1), glob, fns, out⟩ _ _ true
      (cstr " if (n == 0) \x7b return 0 \x7d return 1 + f(n - 1) \x7d" ++ P) _ rfl rfl hcr hst
      ?_
    exact performFunctionLoop_return
      ⟨p, [], ⟨false, 0⟩, mapInsert mapCreate pn (N + 1), glob, fns, out⟩
      ⟨p, cstr "\x7d" ++ P, ⟨true, N + 1⟩, mapInsert mapCreate pn (N + 1), glob, fns, out⟩ true
      (cstr " return 1 + f(n - 1) \x7d" ++ P) rfl rfl
      (checkReturn_return
        ⟨p, [], ⟨false, 0⟩, mapInsert mapCreate pn (N + 1), glob, fns, out⟩ _
        true [] (cstr " 1 + f(n - 1) \x7d" ++ P) (N + 1) rfl rfl rfl hsum)


/-- The statement `print(f(K))` with `f` the function of `recProgram`. -/
theorem rec_print (p P R : List Nat) (glob : UnorderedMap) (fns : UnorderedFunctionMap)
    (out : List Nat) (kf pn : Slice) (hkf : kf.bytes = cstr "f") (hpn : pn.bytes = cstr "n")
    (hprint : functionMapGet fns (nameSlice (cstr "print")) = some createPrintFunction)
    (hf : functionMapGet fns (nameSlice (cstr "f")) = some ⟨kf, (cstr " \x7b if (n == 0) \x7b return 0 \x7d return 1 + f(n - 1) \x7d") ++ P, 1, [pn]⟩)
    (K : Nat) (hK : K < 2 ^ 64) :
    Returns (fun f => statement f
        ⟨p, cstr " print(f(" ++ (decimal K ++ (cstr "))" ++ R)), ⟨false, 0⟩, mapCreate, glob,
          fns, out⟩ true false)
      (.ok true ⟨p, R, ⟨false, 0⟩, mapCreate, glob, fns, out ++ [K]⟩) := by
  have hargs : Returns (fun f => functionCallLoop f
        ⟨p, decimal K ++ (cstr "))" ++ R), ⟨false, 0⟩, mapCreate, glob, fns, out⟩ true
        ⟨kf, (cstr " \x7b if (n == 0) \x7b return 0 \x7d return 1 + f(n - 1) \x7d") ++ P, 1, [pn]⟩ mapCreate 0)
      (.ok (mapInsert mapCreate pn K, 1)
        ⟨p, cstr ")" ++ R, ⟨false, 0⟩, mapCreate, glob, fns, out⟩) := by
    refine functionCallLoop_arg ⟨p, [], ⟨false, 0⟩, mapCreate, glob, fns, out⟩ _
      true _ mapCreate 0 K (decimal K ++ (cstr "))" ++ R)) pn _
      (by rw [skipBytes_decimal]; exact matchBytes_decimal _ _ _ _ (by decide))
      (expression_value (.lit [] (decimal K)) (wellFormed_decimal _ (by decide) K)
        (cstr "))" ++ R) (endsExpression_of_head _ _ 41 rfl rfl (by decide)) _ true true K
        (valueIn_decimal _ _ _ hK)) rfl ?_
    exact Returns.of_add_eq 1 fun f => functionCallLoop_done f
      ⟨p, [], ⟨false, 0⟩, mapCreate, glob, fns, out⟩ true _ _ _ (cstr "))" ++ R)
      (cstr ")" ++ R) rfl
  have hcall : Returns (fun f => functionCall f
        ⟨p, decimal K ++ (cstr "))" ++ R), ⟨false, 0⟩, mapCreate, glob, fns, out⟩ true
        ⟨kf, (cstr " \x7b if (n == 0) \x7b return 0 \x7d return 1 + f(n - 1) \x7d") ++ P, 1, [pn]⟩)
      (.ok K ⟨p, cstr ")" ++ R, ⟨false, 0⟩, mapCreate, glob, fns, out⟩) :=
    functionCall_user
      ⟨p, decimal K ++ (cstr "))" ++ R), ⟨false, 0⟩, mapCreate, glob, fns, out⟩
      ⟨p, cstr ")" ++ R, ⟨false, 0⟩, mapCreate, glob, fns, out⟩
      ⟨p, cstr ")" ++ R, ⟨false, 0⟩, mapInsert mapCreate pn K, glob, fns, out⟩ true
      ⟨kf, (cstr " \x7b if (n == 0) \x7b return 0 \x7d return 1 + f(n - 1) \x7d") ++ P, 1, [pn]⟩
      (mapInsert mapCreate pn K) K
      (by rw [sliceEqualString_bytes, hkf]; decide)
      (by
        have hc := consume_fail ⟨p, [], ⟨false, 0⟩, mapCreate, glob, fns, out⟩
          (decimal K ++ (cstr "))" ++ R)) (cstr "(")
          (by rw [skipBytes_decimal]; exact matchBytes_decimal _ _ _ _ (by decide))
        rw [skipBytes_decimal] at hc
        have hc2 : (consume ⟨p, decimal K ++ (cstr "))" ++ R), ⟨false, 0⟩, mapCreate, glob,
            fns, out⟩ (cstr "(")).2 =
            ⟨p, decimal K ++ (cstr "))" ++ R), ⟨false, 0⟩, mapCreate, glob, fns, out⟩ := by
          have := congrArg Prod.snd hc
          exact this
        rw [hc2]
        exact hargs)
      (rec_body P fns kf pn hkf hpn hf K hK p (cstr ")" ++ R) glob out)
  have hexpr : Returns (fun f => expression f
        ⟨p, cstr "f(" ++ (decimal K ++ (cstr "))" ++ R)), ⟨false, 0⟩, mapCreate, glob, fns,
          out⟩ true true)
      (.ok K ⟨p, cstr ")" ++ R, ⟨false, 0⟩, mapCreate, glob, fns, out⟩) :=
    expression_of_primary
      ⟨p, [], ⟨false, 0⟩, mapCreate, glob, fns, out⟩
      ⟨p, [], ⟨false, 0⟩, mapCreate, glob, fns, out⟩ true true
      (cstr "f(" ++ (decimal K ++ (cstr "))" ++ R))) (cstr ")" ++ R)
      (cstr "(" ++ (decimal K ++ (cstr "))" ++ R))) 102 _ rfl (by decide)
      (e1_call ⟨p, [], ⟨false, 0⟩, mapCreate, glob, fns, out⟩ true true []
        (cstr "f") (cstr "(" ++ (decimal K ++ (cstr "))" ++ R)))
        (decimal K ++ (cstr "))" ++ R)) _ _ rfl (by decide) rfl rfl hf hcall)
      ((endsExpression_of_head (cstr ")" ++ R) R 41 rfl rfl (by decide)).noOps 16)
  have hprintcall : Returns (fun f => functionCall f
        ⟨p, cstr "(f(" ++ (decimal K ++ (cstr "))" ++ R)), ⟨false, 0⟩, mapCreate, glob, fns,
          out⟩ true createPrintFunction)
      (.ok 0 ⟨p, R, ⟨false, 0⟩, mapCreate, glob, fns, out ++ [K]⟩) := by
    refine Returns.to (functionCall_print
      ⟨p, cstr "(f(" ++ (decimal K ++ (cstr "))" ++ R)), ⟨false, 0⟩, mapCreate, glob, fns, out⟩
      ⟨p, R, ⟨false, 0⟩, mapCreate, glob, fns, out⟩ true createPrintFunction
      (mapInsert mapCreate (sliceConstructorLen (cstr ".") 1) K)
      (sliceConstructorLen (cstr ".") 1) rfl rfl ?_) ?_
    · refine functionCallLoop_arg ⟨p, [], ⟨false, 0⟩, mapCreate, glob, fns, out⟩
        ⟨p, cstr ")" ++ R, ⟨false, 0⟩, mapCreate, glob, fns, out⟩
        true createPrintFunction mapCreate 0 K
        (cstr "f(" ++ (decimal K ++ (cstr "))" ++ R))) (sliceConstructorLen (cstr ".") 1) _ rfl
        hexpr rfl ?_
      exact Returns.of_add_eq 1 fun f => functionCallLoop_done f
        ⟨p, [], ⟨false, 0⟩, mapCreate, glob, fns, out⟩ true _ _ _ (cstr ")" ++ R) R rfl
    · simp [mapGet_insert _ _ _ _ 0 fitsMap_create (by omega)]
  exact statement_call ⟨p, [], ⟨false, 0⟩, mapCreate, glob, fns, out⟩ true false
    (cstr " ") (cstr "print") [] (cstr "f(" ++ (decimal K ++ (cstr "))" ++ R)))
    createPrintFunction _ rfl (by decide) (by decide) rfl (fun h => by simp at h) hprint
    hprintcall

/-- The run of `fun f(n) { if (n == 0) { return 0 } return 1 + f(n - 1) } print(f(K))`. -/
theorem recProgram_run (K : Nat) (hK : K < 2 ^ 64) :
    ∃ I : Interpreter, I.output = [K] ∧ I.functionReturn = ⟨false, 0⟩ ∧
      Returns (fun f => run f (interpreterConstructor (recProgram K))) (.ok () I) := by
  obtain ⟨kf, pn, hkf, hpn, h1⟩ : ∃ kf pn : Slice, kf.bytes = cstr "f" ∧ pn.bytes = cstr "n" ∧
      Returns (fun f => statement f (interpreterConstructor (recProgram K)) true false)
        (.ok true ⟨recProgram K, cstr " print(f(" ++ (decimal K ++ (cstr "))" ++ [])),
          ⟨false, 0⟩, mapCreate, mapCreate,
          functionMapInsert (interpreterConstructor (recProgram K)).functionNameMap kf
            ⟨kf, (cstr " \x7b if (n == 0) \x7b return 0 \x7d return 1 + f(n - 1) \x7d") ++ (cstr " print(f(" ++ (decimal K ++ cstr "))")), 1, [pn]⟩, []⟩) := by
    obtain ⟨key, slices, hkey, hs, h⟩ := statement_fun_names
      (interpreterConstructor (recProgram K)) true [] (cstr " ") (cstr "f") [cstr "n"]
      ((cstr " \x7b if (n == 0) \x7b return 0 \x7d return 1 + f(n - 1) \x7d") ++ (cstr " print(f(" ++ (decimal K ++ cstr "))")))
      (cstr " if (n == 0) \x7b return 0 \x7d return 1 + f(n - 1) \x7d" ++
        (cstr " print(f(" ++ (decimal K ++ cstr "))")))
      (cstr " print(f(" ++ (decimal K ++ cstr "))"))
      rfl rfl (by decide) (by decide) (by decide) (by decide) rfl rfl
    obtain ⟨pn, rfl, hpn⟩ := map_bytes_one slices _ hs
    exact ⟨key, pn, hkey, hpn, h⟩
  have hprint : functionMapGet
      (functionMapInsert (interpreterConstructor (recProgram K)).functionNameMap kf
        ⟨kf, (cstr " \x7b if (n == 0) \x7b return 0 \x7d return 1 + f(n - 1) \x7d") ++ (cstr " print(f(" ++ (decimal K ++ cstr "))")), 1, [pn]⟩)
      (nameSlice (cstr "print")) = some createPrintFunction := by
    rw [functionMapGet_insert _ _ _ _ 1 (fitsFunctionMap_constructor _) (by omega), hkf,
      bytes_nameSlice, if_neg (by decide), functionMapGet_constructor_print]
  have hf : functionMapGet
      (functionMapInsert (interpreterConstructor (recProgram K)).functionNameMap kf
        ⟨kf, (cstr " \x7b if (n == 0) \x7b return 0 \x7d return 1 + f(n - 1) \x7d") ++ (cstr " print(f(" ++ (decimal K ++ cstr "))")), 1, [pn]⟩)
      (nameSlice (cstr "f")) =
      some ⟨kf, (cstr " \x7b if (n == 0) \x7b return 0 \x7d return 1 + f(n - 1) \x7d") ++ (cstr " print(f(" ++ (decimal K ++ cstr "))")), 1, [pn]⟩ := by
    rw [functionMapGet_insert _ _ _ _ 1 (fitsFunctionMap_constructor _) (by omega), hkf,
      bytes_nameSlice, if_pos rfl]
  generalize functionMapInsert (interpreterConstructor (recProgram K)).functionNameMap kf
        ⟨kf, (cstr " \x7b if (n == 0) \x7b return 0 \x7d return 1 + f(n - 1) \x7d") ++ (cstr " print(f(" ++ (decimal K ++ cstr "))")), 1, [pn]⟩ = fns
    at h1 hprint hf
  have h2 := rec_print (recProgram K) _ [] mapCreate fns [] kf pn hkf hpn hprint hf K hK
  have h3 := statement_none
    ⟨recProgram K, [], ⟨false, 0⟩, mapCreate, mapCreate, fns, [] ++ [K]⟩ true []
    (by decide) (by decide)
  exact ⟨_, rfl, rfl, run_eq _ _ (statements_cons _ _ _ _ h1 (statements_cons _ _ _ _ h2
    (statements_nil _ _ _ h3)))⟩

/-! ## Without effects nothing is written and nothing is printed -/

theorem Result.quiet_stop {α : Type} (S : UnorderedMap) (O : List Nat) (s : Stop) :
    (Result.stop s : Result α).quiet S O := fun _ _ h => by cases h

theorem Result.quiet_fail {α : Type} (S : UnorderedMap) (O : List Nat) (I : Interpreter) :
    (fail I : Result α).quiet S O := fun _ _ h => by cases h

theorem Result.quiet_ok {α : Type} {S : UnorderedMap} {O : List Nat} {v : α} {J : Interpreter}
    (h : J.symbolTable = S) (h2 : J.output = O) : (Result.ok v J).quiet S O := by
  intro v2 J2 hJ
  cases hJ
  exact ⟨h, h2⟩

theorem Result.quiet_bind {α β : Type} {S : UnorderedMap} {O : List Nat} {r : Result α}
    {g : α → Interpreter → Result β} (hr : r.quiet S O)
    (hg : ∀ v J, J.symbolTable = S → J.output = O → (g v J).quiet S O) :
    (r.bind g).quiet S O := by
  cases r with
  | ok v J => exact hg v J (hr v J rfl).1 (hr v J rfl).2
  | stop s => exact Result.quiet_stop S O s

theorem Result.quiet_ite {α : Type} {S : UnorderedMap} {O : List Nat} {c : Prop} [Decidable c]
    {a b : Result α} (ha : c → a.quiet S O) (hb : ¬ c → b.quiet S O) :
    (if c then a else b).quiet S O := by
  split
  · exact ha ‹_›
  · exact hb ‹_›

@[simp] theorem consume_output (I : Interpreter) (s : List Nat) :
    (consume I s).2.output = I.output := by
  unfold consume
  split <;> rfl

@[simp] theorem consumeIdentifier_output (I : Interpreter) :
    (consumeIdentifier I).2.output = I.output := by
  unfold consumeIdentifier
  split
  · rfl
  · split <;> rfl

@[simp] theorem consumeLiteral_output (I : Interpreter) :
    (consumeLiteral I).2.output = I.output := by
  unfold consumeLiteral
  split
  · rfl
  · split <;> rfl

theorem consumeOrFail_quiet (S : UnorderedMap) (O : List Nat) (I : Interpreter) (s : List Nat)
    (h : I.symbolTable = S) (h2 : I.output = O) : (consumeOrFail I s).quiet S O := by
  unfold consumeOrFail
  split
  · exact Result.quiet_fail S O _
  · exact Result.quiet_ok (by rw [consume_symbolTable]; exact h) (by rw [consume_output]; exact h2)

theorem consumePastLoop_quiet (S : UnorderedMap) (O : List Nat) (fuel count : Nat)
    (I : Interpreter) (h : I.symbolTable = S) (h2 : I.output = O) :
    (consumePastLoop fuel count I).quiet S O := by
  induction fuel generalizing count I with
  | zero => exact Result.quiet_stop S O _
  | succ fuel ih =>
    rw [consumePastLoop]
    repeat' first
      | exact Result.quiet_stop S O _
      | exact ih _ _ (by simpa using h) (by simpa using h2)
      | exact Result.quiet_ok (by simpa using h) (by simpa using h2)
      | split

theorem consumePast_quiet (S : UnorderedMap) (O : List Nat) (fuel : Nat) (I : Interpreter)
    (h : I.symbolTable = S) (h2 : I.output = O) : (consumePast fuel I).quiet S O :=
  consumePastLoop_quiet S O fuel 1 I h h2

theorem countParameters_quiet (S : UnorderedMap) (O : List Nat) (fuel k : Nat)
    (I : Interpreter) (h : I.symbolTable = S) (h2 : I.output = O) :
    (countParameters fuel k I).quiet S O := by
  induction fuel generalizing k I with
  | zero => exact Result.quiet_stop S O _
  | succ fuel ih =>
    rw [countParameters]
    repeat' first
      | exact Result.quiet_stop S O _
      | exact Result.quiet_fail S O _
      | exact ih _ _ (by simpa using h) (by simpa using h2)
      | exact Result.quiet_ok (by simpa using h) (by simpa using h2)
      | split

theorem readParameters_quiet (S : UnorderedMap) (O : List Nat) (fuel k : Nat)
    (ps : List Slice) (I : Interpreter) (h : I.symbolTable = S) (h2 : I.output = O) :
    (readParameters fuel k ps I).quiet S O := by
  induction fuel generalizing ps I with
  | zero => exact Result.quiet_stop S O _
  | succ fuel ih =>
    rw [readParameters]
    repeat' first
      | exact Result.quiet_stop S O _
      | exact Result.quiet_fail S O _
      | exact ih _ _ (by simpa using h) (by simpa using h2)
      | exact Result.quiet_ok (by simpa using h) (by simpa using h2)
      | split

theorem quietAt_zero (S : UnorderedMap) (O : List Nat) : QuietAt S O 0 := by
  unfold QuietAt
  refine ⟨?_, ?_, ?_, ?_, ?_, ?_, ?_, ?_, ?_, ?_, ?_, ?_, ?_, ?_, ?_, ?_, ?_, ?_, ?_, ?_, ?_,
    ?_, ?_, ?_, ?_, ?_, ?_, ?_, ?_, ?_, ?_, ?_, ?_⟩
  all_goals intros
  all_goals
    first
    | rw [e1] | rw [e2] | rw [e2Loop] | rw [e3] | rw [e3Loop] | rw [e4] | rw [e4Loop] | rw [e5]
    | rw [e6] | rw [e6Loop] | rw [e7] | rw [e7Loop] | rw [e8] | rw [e9] | rw [e10] | rw [e11]
    | rw [e11Loop] | rw [e12] | rw [e12Loop] | rw [e13] | rw [e14] | rw [e15] | rw [expression]
    | rw [checkReturn] | rw [blockLoop] | rw [whileStatement] | rw [whileStatementLoop]
    | rw [performFunction] | rw [performFunctionLoop] | rw [functionCall]
    | rw [functionCallLoop] | rw [ifStatement] | rw [statement]
  all_goals exact Result.quiet_stop S O _

set_option maxHeartbeats 3200000 in
theorem quietAt_succ (S : UnorderedMap) (O : List Nat) (n : Nat) (ih : QuietAt S O n) :
    QuietAt S O (n + 1) := by
  unfold QuietAt at ih ⊢
  obtain ⟨h1, h2, h2l, h3, h3l, h4, h4l, h5, h6, h6l, h7, h7l, h8, h9, h10, h11, h11l, h12,
    h12l, h13, h14, h15, hex, hcr, hbl, hws, hwl, hpf, hpl, hfc, hfl, hif, hst⟩ := ih
  refine ⟨?_, ?_, ?_, ?_, ?_, ?_, ?_, ?_, ?_, ?_, ?_, ?_, ?_, ?_, ?_, ?_, ?_, ?_, ?_, ?_, ?_,
    ?_, ?_, ?_, ?_, ?_, ?_, ?_, ?_, ?_, ?_, ?_, ?_⟩
  all_goals intros
  all_goals
    first
    | rw [e1] | rw [e2] | rw [e2Loop] | rw [e3] | rw [e3Loop] | rw [e4] | rw [e4Loop] | rw [e5]
    | rw [e6] | rw [e6Loop] | rw [e7] | rw [e7Loop] | rw [e8] | rw [e9] | rw [e10] | rw [e11]
    | rw [e11Loop] | rw [e12] | rw [e12Loop] | rw [e13] | rw [e14] | rw [e15] | rw [expression]
    | rw [checkReturn] | rw [blockLoop] | rw [whileStatement] | rw [whileStatementLoop]
    | rw [performFunction] | rw [performFunctionLoop] | rw [functionCall]
    | rw [functionCallLoop] | rw [ifStatement] | rw [statement]
  all_goals try dsimp only
  all_goals try simp only [Bool.false_eq_true, if_false]
  all_goals
    repeat' with_reducible first
      | exact Result.quiet_stop S O _
      | exact Result.quiet_fail S O _
      | assumption
      | (refine Result.quiet_ok ?_ ?_)
      | (refine h1 _ _ ?_ ?_) | (refine h2 _ _ ?_ ?_) | (refine h2l _ _ _ _ ?_ ?_)
      | (refine h3 _ _ ?_ ?_) | (refine h3l _ _ _ ?_ ?_) | (refine h4 _ _ ?_ ?_)
      | (refine h4l _ _ _ ?_ ?_) | (refine h5 _ _ ?_ ?_) | (refine h6 _ _ ?_ ?_)
      | (refine h6l _ _ _ ?_ ?_) | (refine h7 _ _ ?_ ?_) | (refine h7l _ _ _ ?_ ?_)
      | (refine h8 _ _ ?_ ?_) | (refine h9 _ _ ?_ ?_) | (refine h10 _ _ ?_ ?_)
      | (refine h11 _ _ ?_ ?_) | (refine h11l _ _ _ ?_ ?_) | (refine h12 _ _ ?_ ?_)
      | (refine h12l _ _ _ ?_ ?_) | (refine h13 _ _ ?_ ?_) | (refine h14 _ _ ?_ ?_)
      | (refine h15 _ _ ?_ ?_) | (refine hex _ _ ?_ ?_) | (refine hcr _ _ ?_ ?_)
      | (refine hbl _ _ ?_ ?_) | (refine hws _ _ ?_ ?_) | (refine hwl _ _ _ ?_ ?_)
      | (refine hpf _ _ ?_ ?_) | (refine hpl _ ?_ ?_) | (refine hfc _ _ ?_ ?_)
      | (refine hfl _ _ _ _ ?_ ?_) | (refine hif _ _ ?_ ?_) | (refine hst _ _ ?_ ?_)
      | (refine consumeOrFail_quiet S O _ _ ?_ ?_)
      | (refine consumePast_quiet S O _ _ ?_ ?_)
      | (refine countParameters_quiet S O _ _ _ ?_ ?_)
      | (refine readParameters_quiet S O _ _ _ _ ?_ ?_)
      | (refine Result.quiet_bind ?_ (fun _ _ _ _ => ?_))
      | (refine Result.quiet_ite (fun _ => ?_) (fun _ => ?_))
      | (simp only [consume_symbolTable, consumeIdentifier_symbolTable,
          consumeLiteral_symbolTable, consume_output, consumeIdentifier_output,
          consumeLiteral_output]; done)
      | (simp only [consume_symbolTable, consumeIdentifier_symbolTable,
          consumeLiteral_symbolTable, consume_output, consumeIdentifier_output,
          consumeLiteral_output]; assumption)
      | split

theorem quietAt (S : UnorderedMap) (O : List Nat) (n : Nat) : QuietAt S O n := by
  induction n with
  | zero => exact quietAt_zero S O
  | succ n ih => exact quietAt_succ S O n ih


/-! ## Without effects the local table is not written -/

theorem expression_localIs (L : UnorderedMap) (fuel : Nat) (I : Interpreter) (eff ins : Bool)
    (h : I.currentSymbolTable = L) : (expression fuel I eff ins).localIs L :=
  (localAt L fuel).2.2.2.2.2.2.2.2.2.2.2.2.2.2.2.2.2.2.2.2.2.2 I eff ins h

theorem consumeOrFail_localIs (L : UnorderedMap) (I : Interpreter) (s : List Nat)
    (h : I.currentSymbolTable = L) : (consumeOrFail I s).localIs L := by
  unfold consumeOrFail
  split
  · exact Result.localIs_fail L _
  · exact Result.localIs_ok (by rw [consume_currentSymbolTable]; exact h)

theorem consumePastLoop_localIs (L : UnorderedMap) (fuel count : Nat) (I : Interpreter)
    (h : I.currentSymbolTable = L) : (consumePastLoop fuel count I).localIs L := by
  induction fuel generalizing count I with
  | zero => exact Result.localIs_stop L _
  | succ fuel ih =>
    rw [consumePastLoop]
    repeat' first
      | exact Result.localIs_stop L _
      | exact ih _ _ (by simpa using h)
      | exact Result.localIs_ok (by simpa using h)
      | split

theorem consumePast_localIs (L : UnorderedMap) (fuel : Nat) (I : Interpreter)
    (h : I.currentSymbolTable = L) : (consumePast fuel I).localIs L :=
  consumePastLoop_localIs L fuel 1 I h

theorem countParameters_localIs (L : UnorderedMap) (fuel k : Nat) (I : Interpreter)
    (h : I.currentSymbolTable = L) : (countParameters fuel k I).localIs L := by
  induction fuel generalizing k I with
  | zero => exact Result.localIs_stop L _
  | succ fuel ih =>
    rw [countParameters]
    repeat' first
      | exact Result.localIs_stop L _
      | exact Result.localIs_fail L _
      | exact ih _ _ (by simpa using h)
      | exact Result.localIs_ok (by simpa using h)
      | split

theorem readParameters_localIs (L : UnorderedMap) (fuel k : Nat) (ps : List Slice)
    (I : Interpreter) (h : I.currentSymbolTable = L) :
    (readParameters fuel k ps I).localIs L := by
  induction fuel generalizing ps I with
  | zero => exact Result.localIs_stop L _
  | succ fuel ih =>
    rw [readParameters]
    repeat' first
      | exact Result.localIs_stop L _
      | exact Result.localIs_fail L _
      | exact ih _ _ (by simpa using h)
      | exact Result.localIs_ok (by simpa using h)
      | split

theorem quietLocalAt_zero (L : UnorderedMap) : QuietLocalAt L 0 := by
  unfold QuietLocalAt
  refine ⟨?_, ?_, ?_, ?_, ?_, ?_⟩
  all_goals intros
  all_goals
    first
    | rw [checkReturn] | rw [blockLoop] | rw [whileStatement] | rw [whileStatementLoop]
    | rw [ifStatement] | rw [statement]
  all_goals exact Result.localIs_stop L _

set_option maxHeartbeats 3200000 in
theorem quietLocalAt_succ (L : UnorderedMap) (n : Nat) (ih : QuietLocalAt L n) :
    QuietLocalAt L (n + 1) := by
  unfold QuietLocalAt at ih ⊢
  obtain ⟨hcr, hbl, hws, hwl, hif, hst⟩ := ih
  refine ⟨?_, ?_, ?_, ?_, ?_, ?_⟩
  all_goals intros
  all_goals
    first
    | rw [checkReturn] | rw [blockLoop] | rw [whileStatement] | rw [whileStatementLoop]
    | rw [ifStatement] | rw [statement]
  all_goals try dsimp only
  all_goals try simp only [Bool.false_eq_true, if_false]
  all_goals
    repeat' with_reducible first
      | exact Result.localIs_stop L _
      | exact Result.localIs_fail L _
      | assumption
      | (refine Result.localIs_ok ?_)
      | (refine hcr _ _ ?_) | (refine hbl _ _ ?_) | (refine hws _ _ ?_)
      | (refine hwl _ _ _ ?_) | (refine hif _ _ ?_) | (refine hst _ _ ?_)
      | (refine expression_localIs L _ _ _ _ ?_)
      | (refine functionCall_localIs L _ _ _ _ ?_)
      | (refine consumeOrFail_localIs L _ _ ?_)
      | (refine consumePast_localIs L _ _ ?_)
      | (refine countParameters_localIs L _ _ _ ?_)
      | (refine readParameters_localIs L _ _ _ _ ?_)
      | (refine Result.localIs_bind ?_ (fun _ _ _ => ?_))
      | (refine Result.localIs_ite (fun _ => ?_) (fun _ => ?_))
      | (simp only [consume_currentSymbolTable, consumeIdentifier_currentSymbolTable,
          consumeLiteral_currentSymbolTable]; done)
      | (simp only [consume_currentSymbolTable, consumeIdentifier_currentSymbolTable,
          consumeLiteral_currentSymbolTable]; assumption)
      | split

theorem quietLocalAt (L : UnorderedMap) (n : Nat) : QuietLocalAt L n := by
  induction n with
  | zero => exact quietLocalAt_zero L
  | succ n ih => exact quietLocalAt_succ L n ih

/-- A statement executed without effects returns with the tables and the output it was
entered with. -/
theorem statement_quiet (fuel : Nat) (I J : Interpreter) (ins b : Bool)
    (h : statement fuel I false ins = .ok b J) :
    J.symbolTable = I.symbolTable ∧ J.currentSymbolTable = I.currentSymbolTable ∧
      J.output = I.output := by
  have h1 := (quietAt I.symbolTable I.output fuel).2.2.2.2.2.2.2.2.2.2.2.2.2.2.2.2.2.2.2.2.2.2.2.2.2.2.2.2.2.2.2.2
    I ins rfl rfl b J h
  have h2 := (quietLocalAt I.currentSymbolTable fuel).2.2.2.2.2 I ins rfl b J h
  exact ⟨h1.1, h2, h1.2⟩

/-- Without effects a simple statement changes nothing. -/
theorem Simple.exec_false (s : Simple) (ins : Bool) (I : Interpreter) (rest : List Nat) :
    s.exec false ins I rest = I := by
  cases s <;> rfl

/-! ## Bare identifiers as statements -/

/-- A statement that begins with an identifier which is not a keyword and is not followed
by `=`: when the registry has no function of that name, the statement fails. -/
theorem statement_bare_unknown (I : Interpreter) (eff ins : Bool) (ws name rest : List Nat)
    (hws : ws.all isspace = true) (hname : isIdentifierText name = true)
    (hkw : isKeyword name = false) (hrest : isalnum (rest.headD 0) = false)
    (heq : matchBytes (cstr "=") (skipBytes rest) = none)
    (hp : ins = true → I.functionReturn.exists_ = false)
    (hfn : functionMapGet I.functionNameMap (nameSlice name) = none) :
    Returns (fun f => statement f (I.moveTo (ws ++ name ++ rest)) eff ins)
      (.stop (.fail (I.moveTo (skipBytes rest)))) := by
  obtain ⟨k1, k2, k3, k4, k5⟩ := isKeyword_false name hkw
  obtain ⟨h1, h2, h3⟩ := statement_prelude I eff ins ws name _ hws hname hrest hp (fun _ => k4)
  have hcons := consume_fail I rest (cstr "=") heq
  refine Returns.of_add_eq 2 (fun f => ?_)
  rw [statement]
  simp only [h1, h2, h3, hcons, Result.bind_ok, Bool.false_eq_true, if_false, if_true,
    Bool.not_true, Bool.not_false, sliceEqualString_append, k1, k2, k3, k4, k5, Bool.or_self,
    moveTo_functionNameMap, functionMapGet_append, hfn, fail]

/-- A statement that begins with an identifier which is not a keyword and is not followed
by `=`: when the registry has a function of that name, the statement is the call of the
function, whatever follows the identifier. -/
theorem statement_bare_call (I : Interpreter) (eff ins : Bool) (ws name rest : List Nat)
    (fn : Function) (r : Result Nat)
    (hws : ws.all isspace = true) (hname : isIdentifierText name = true)
    (hkw : isKeyword name = false) (hrest : isalnum (rest.headD 0) = false)
    (heq : matchBytes (cstr "=") (skipBytes rest) = none)
    (hp : ins = true → I.functionReturn.exists_ = false)
    (hfn : functionMapGet I.functionNameMap (nameSlice name) = some fn)
    (hcall : Returns (fun f => functionCall f (I.moveTo (skipBytes rest)) eff fn) r) :
    Returns (fun f => statement f (I.moveTo (ws ++ name ++ rest)) eff ins)
      (r.bind fun _ J => .ok true J) := by
  obtain ⟨k1, k2, k3, k4, k5⟩ := isKeyword_false name hkw
  obtain ⟨h1, h2, h3⟩ := statement_prelude I eff ins ws name _ hws hname hrest hp (fun _ => k4)
  have hcons := consume_fail I rest (cstr "=") heq
  have hstep : ∀ f, statement (f + 2) (I.moveTo (ws ++ name ++ rest)) eff ins =
      (functionCall (f + 1) (I.moveTo (skipBytes rest)) eff fn).bind fun _ J => .ok true J := by
    intro f
    rw [statement]
    simp only [h1, h2, h3, hcons, Result.bind_ok, Bool.false_eq_true, if_false, if_true,
      Bool.not_true, Bool.not_false, sliceEqualString_append, k1, k2, k3, k4, k5, Bool.or_self,
      moveTo_functionNameMap, functionMapGet_append, hfn]
  exact Returns.of_add 2 hstep (Returns.map _ (Returns.shift 1 hcall))

/-! ## What `consume` matches -/

/-- The comparison loop of `consume` succeeds exactly on the texts that begin with the
expected bytes. -/
theorem matchBytes_eq_some (s c r : List Nat) : matchBytes s c = some r ↔ c = s ++ r := by
  induction s generalizing c with
  | nil =>
    cases c <;> simp [matchBytes, eq_comm]
  | cons a as ih =>
    cases c with
    | nil => simp [matchBytes]
    | cons b bs =>
      simp only [matchBytes, List.cons_append, List.cons.injEq]
      by_cases hab : a = b
      · subst hab
        simp [ih]
      · simp [hab, Ne.symm hab]

theorem matchBytes_eq_none (s c : List Nat) : matchBytes s c = none ↔ ∀ r, c ≠ s ++ r := by
  constructor
  · intro h r hc
    rw [(matchBytes_eq_some s c r).2 hc] at h
    cases h
  · intro h
    cases hm : matchBytes s c with
    | none => rfl
    | some r => exact absurd ((matchBytes_eq_some s c r).1 hm) (h r)

/-! ## The scanner stays inside the text -/

theorem skipBytes_suffix (c : List Nat) : skipBytes c <:+ c := by
  induction c with
  | nil => exact List.suffix_refl _
  | cons a as ih =>
    simp only [skipBytes]
    split
    · exact ih.trans (List.suffix_cons a as)
    · exact List.suffix_refl _

theorem matchBytes_suffix (s c r : List Nat) (h : matchBytes s c = some r) : r <:+ c := by
  rw [(matchBytes_eq_some s c r).1 h]
  exact List.suffix_append s r

theorem consume_suffix (I : Interpreter) (s : List Nat) :
    (consume I s).2.current <:+ I.current := by
  unfold consume
  split
  · next r h => exact (matchBytes_suffix s _ r h).trans (skipBytes_suffix _)
  · exact skipBytes_suffix _

theorem identifierLoop_suffix (c : List Nat) : (identifierLoop c).2 <:+ c := by
  induction c with
  | nil => exact List.suffix_refl _
  | cons a as ih =>
    simp only [identifierLoop]
    split
    · exact ih.trans (List.suffix_cons a as)
    · exact List.suffix_refl _

theorem literalLoop_suffix (v : Nat) (c : List Nat) : (literalLoop v c).2 <:+ c := by
  induction c generalizing v with
  | nil => exact List.suffix_refl _
  | cons a as ih =>
    simp only [literalLoop]
    split
    · exact (ih _).trans (List.suffix_cons a as)
    · exact List.suffix_refl _

theorem consumeIdentifier_suffix (I : Interpreter) :
    (consumeIdentifier I).2.current <:+ I.current := by
  unfold consumeIdentifier
  split
  · exact List.nil_suffix
  · next c cs h =>
    have hs := skipBytes_suffix I.current
    rw [h] at hs
    split
    · exact ((identifierLoop_suffix cs).trans (List.suffix_cons c cs)).trans hs
    · exact hs

theorem consumeLiteral_suffix (I : Interpreter) :
    (consumeLiteral I).2.current <:+ I.current := by
  unfold consumeLiteral
  split
  · exact List.nil_suffix
  · next c cs h =>
    have hs := skipBytes_suffix I.current
    rw [h] at hs
    split
    · exact ((literalLoop_suffix _ cs).trans (List.suffix_cons c cs)).trans hs
    · exact hs

/-! ## Tables of any size -/

theorem mem_getD_mem_mapNodes (m : UnorderedMap) (i : Nat) (n : Node)
    (h : n ∈ m.bins.getD i []) : n ∈ mapNodes m := by
  by_cases hi : i < m.bins.length
  · rw [List.getD_eq_getElem _ _ hi] at h
    exact List.mem_flatten_of_mem (List.getElem_mem hi) h
  · rw [List.getD_eq_default _ _ (by omega)] at h
    cases h

theorem mem_mapNodes_getD (m : UnorderedMap) (hm : MapPlaced m) (n : Node)
    (h : n ∈ mapNodes m) : n ∈ m.bins.getD (hashSlice n.key % m.capacity) [] := by
  obtain ⟨bin, hbin, hn⟩ := List.mem_flatten.1 h
  obtain ⟨i, hi, rfl⟩ := List.getElem_of_mem hbin
  have hn2 : n ∈ m.bins.getD i [] := by
    rw [List.getD_eq_getElem _ _ hi]
    exact hn
  rw [hm.2.2.1 i n hn2]
  exact hn2

theorem mapContainsBin_iff (bin : List Node) (k : Slice) :
    mapContainsBin bin k = true ↔ ∃ n ∈ bin, n.key.bytes = k.bytes := by
  induction bin with
  | nil => simp [mapContainsBin]
  | cons c cs ih =>
    simp only [mapContainsBin, sliceEqualSlice_eq, decide_eq_true_eq, List.mem_cons,
      exists_eq_or_imp]
    by_cases hc : c.key.bytes = k.bytes
    · simp [hc]
    · simp [hc, ih]

/-- A table of the right shape contains a key exactly when one of its nodes has the bytes of
the key. -/
theorem mapContains_iff (m : UnorderedMap) (hm : MapPlaced m) (k : Slice) :
    mapContains m k = true ↔ ∃ n ∈ mapNodes m, n.key.bytes = k.bytes := by
  unfold mapContains
  rw [mapContainsBin_iff]
  constructor
  · rintro ⟨n, hn, hb⟩
    exact ⟨n, mem_getD_mem_mapNodes m _ n hn, hb⟩
  · rintro ⟨n, hn, hb⟩
    have := mem_mapNodes_getD m hm n hn
    rw [hashSlice_bytes n.key k hb] at this
    exact ⟨n, this, hb⟩

theorem mapGetBin_of_mem (bin : List Node) (k : Slice) (n : Node)
    (hnd : (bin.map fun n => n.key.bytes).Nodup) (hn : n ∈ bin) (hb : n.key.bytes = k.bytes) :
    mapGetBin bin k = n.value := by
  induction bin with
  | nil => cases hn
  | cons c cs ih =>
    simp only [List.map_cons, List.nodup_cons] at hnd
    simp only [mapGetBin, sliceEqualSlice_eq, decide_eq_true_eq]
    rcases List.mem_cons.1 hn with rfl | hn2
    · rw [if_pos hb]
    · have hc : c.key.bytes ≠ k.bytes := by
        intro hc
        apply hnd.1
        rw [hc, ← hb]
        exact List.mem_map_of_mem _ hn2
      rw [if_neg hc]
      exact ih hnd.2 hn2

theorem nodup_bin (m : UnorderedMap) (hm : MapPlaced m) (i : Nat) :
    ((m.bins.getD i []).map fun n => n.key.bytes).Nodup := by
  by_cases hi : i < m.bins.length
  · rw [List.getD_eq_getElem _ _ hi]
    exact List.Nodup.sublist
      ((List.sublist_flatten_of_mem (List.getElem_mem hi)).map _) hm.2.2.2
  · rw [List.getD_eq_default _ _ (by omega)]
    exact List.nodup_nil

/-- In a table of the right shape a key reads as the value of the node with its bytes. -/
theorem mapGet_of_mem (m : UnorderedMap) (hm : MapPlaced m) (k : Slice) (n : Node)
    (hn : n ∈ mapNodes m) (hb : n.key.bytes = k.bytes) : mapGet m k = n.value := by
  unfold mapGet
  have := mem_mapNodes_getD m hm n hn
  rw [hashSlice_bytes n.key k hb] at this
  exact mapGetBin_of_mem _ k n (nodup_bin m hm _) this hb

/-- Two tables of the right shape with the same nodes, in any order, read the same. -/
theorem map_lookup_of_perm (m m2 : UnorderedMap) (hm : MapPlaced m) (hm2 : MapPlaced m2)
    (hp : (mapNodes m2).Perm (mapNodes m)) (k : Slice) :
    mapContains m2 k = mapContains m k ∧ mapGet m2 k = mapGet m k := by
  cases hc : mapContains m k with
  | true =>
    obtain ⟨n, hn, hb⟩ := (mapContains_iff m hm k).1 hc
    have hn2 : n ∈ mapNodes m2 := hp.mem_iff.2 hn
    exact ⟨(mapContains_iff m2 hm2 k).2 ⟨n, hn2, hb⟩,
      by rw [mapGet_of_mem m2 hm2 k n hn2 hb, mapGet_of_mem m hm k n hn hb]⟩
  | false =>
    have hc2 : mapContains m2 k = false := by
      cases hc2 : mapContains m2 k with
      | false => rfl
      | true =>
        obtain ⟨n, hn, hb⟩ := (mapContains_iff m2 hm2 k).1 hc2
        rw [(mapContains_iff m hm k).2 ⟨n, hp.mem_iff.1 hn, hb⟩] at hc
        cases hc
    exact ⟨hc2, by rw [mapGet_absent m2 k hc2, mapGet_absent m k hc]⟩


/-! ### One node more in a bin -/

theorem flatten_set_cons (bins : List (List Node)) (i : Nat) (hi : i < bins.length) (x : Node) :
    (bins.set i (x :: bins.getD i [])).flatten.Perm (x :: bins.flatten) := by
  induction bins generalizing i with
  | nil => simp at hi
  | cons b bs ih =>
    cases i with
    | zero => simp
    | succ i =>
      simp only [List.length_cons, Nat.add_lt_add_iff_right] at hi
      simp only [List.set_cons_succ, List.getD_cons_succ, List.flatten_cons]
      exact ((ih i hi).append_left b).trans List.perm_middle

theorem mem_getD_set_cons (bins : List (List Node)) (i j : Nat) (x n : Node)
    (h : n ∈ (bins.set i (x :: bins.getD i [])).getD j []) :
    (j = i ∧ n = x) ∨ n ∈ bins.getD j [] := by
  by_cases hj : j < bins.length
  · rw [List.getD_eq_getElem _ _ (by simpa using hj), List.getElem_set] at h
    by_cases hij : i = j
    · subst hij
      rw [if_pos rfl] at h
      rcases List.mem_cons.1 h with h | h
      · exact Or.inl ⟨rfl, h⟩
      · exact Or.inr h
    · rw [if_neg hij] at h
      right
      rw [List.getD_eq_getElem _ _ hj]
      exact h
  · rw [List.getD_eq_default _ _ (by simp; omega)] at h
    cases h

/-- The table with one node more at the head of the bin of its key. -/
theorem mapPlaced_push (m : UnorderedMap) (hm : MapPlaced m) (k : Slice) (v s : Nat)
    (hk : mapContains m k = false) :
    MapPlaced ⟨s, m.capacity, mapInsertWithBin m.bins (hashSlice k % m.capacity) k v⟩ ∧
    (mapNodes ⟨s, m.capacity, mapInsertWithBin m.bins (hashSlice k % m.capacity) k v⟩).Perm
      (⟨k, v⟩ :: mapNodes m) := by
  obtain ⟨h16, hlen, hplace, hnd⟩ := hm
  have hidx : hashSlice k % m.capacity < m.bins.length := by
    rw [hlen]
    exact Nat.mod_lt _ (by omega)
  have hperm := flatten_set_cons m.bins _ hidx ⟨k, v⟩
  refine ⟨⟨h16, by simp [mapInsertWithBin, hlen], ?_, ?_⟩, hperm⟩
  · intro i n hn
    rcases mem_getD_set_cons m.bins _ i ⟨k, v⟩ n hn with ⟨rfl, rfl⟩ | h
    · rfl
    · exact hplace i n h
  · have := (hperm.map fun n : Node => n.key.bytes).nodup_iff.2
    apply this
    simp only [List.map_cons, List.nodup_cons]
    refine ⟨?_, hnd⟩
    intro hmem
    obtain ⟨n, hn, hb⟩ := List.mem_map.1 hmem
    have hc := (mapContains_iff m ⟨h16, hlen, hplace, hnd⟩ k).2 ⟨n, hn, hb⟩
    rw [hk] at hc
    cases hc

/-- Lookups in a table of the right shape whose nodes are those of `m` and one node more. -/
theorem map_lookup_of_cons (m m2 : UnorderedMap) (hm : MapPlaced m) (hm2 : MapPlaced m2)
    (k : Slice) (v : Nat) (hp : (mapNodes m2).Perm (⟨k, v⟩ :: mapNodes m)) (k2 : Slice) :
    mapContains m2 k2 = (decide (k.bytes = k2.bytes) || mapContains m k2) ∧
    mapGet m2 k2 = if k.bytes = k2.bytes then v else mapGet m k2 := by
  by_cases hb : k.bytes = k2.bytes
  · have hn : (⟨k, v⟩ : Node) ∈ mapNodes m2 := hp.mem_iff.2 (List.mem_cons_self _ _)
    rw [if_pos hb]
    exact ⟨by simp [hb, (mapContains_iff m2 hm2 k2).2 ⟨⟨k, v⟩, hn, hb⟩],
      mapGet_of_mem m2 hm2 k2 ⟨k, v⟩ hn hb⟩
  · rw [if_neg hb]
    simp only [hb, decide_False, Bool.false_or]
    cases hc : mapContains m k2 with
    | true =>
      obtain ⟨n, hn, hnb⟩ := (mapContains_iff m hm k2).1 hc
      have hn2 : n ∈ mapNodes m2 := hp.mem_iff.2 (List.mem_cons_of_mem _ hn)
      exact ⟨(mapContains_iff m2 hm2 k2).2 ⟨n, hn2, hnb⟩,
        by rw [mapGet_of_mem m2 hm2 k2 n hn2 hnb, mapGet_of_mem m hm k2 n hn hnb]⟩
    | false =>
      have hc2 : mapContains m2 k2 = false := by
        cases hc2 : mapContains m2 k2 with
        | false => rfl
        | true =>
          obtain ⟨n, hn, hnb⟩ := (mapContains_iff m2 hm2 k2).1 hc2
          rcases List.mem_cons.1 (hp.mem_iff.1 hn) with rfl | hn3
          · exact absurd hnb hb
          · rw [(mapContains_iff m hm k2).2 ⟨n, hn3, hnb⟩] at hc
            cases hc
      exact ⟨hc2, by rw [mapGet_absent m2 k2 hc2, mapGet_absent m k2 hc]⟩

/-! ### `mapExpand` -/

theorem rehash_spec (capacity : Nat) (hcap : 0 < capacity) (nodes : List Node) :
    ∀ acc : List (List Node), acc.length = capacity →
      (∀ i, ∀ n ∈ acc.getD i [], hashSlice n.key % capacity = i) →
      (rehash capacity acc nodes).length = capacity ∧
      (∀ i, ∀ n ∈ (rehash capacity acc nodes).getD i [], hashSlice n.key % capacity = i) ∧
      (rehash capacity acc nodes).flatten.Perm (nodes ++ acc.flatten) := by
  induction nodes with
  | nil => exact fun acc hl hp => ⟨hl, hp, List.Perm.refl _⟩
  | cons x xs ih =>
    intro acc hl hp
    have hidx : hashSlice x.key % capacity < acc.length := by
      rw [hl]
      exact Nat.mod_lt _ hcap
    have hstep := flatten_set_cons acc _ hidx ⟨x.key, x.value⟩
    obtain ⟨h1, h2, h3⟩ := ih (mapInsertWithBin acc (hashSlice x.key % capacity) x.key x.value)
      (by simp [mapInsertWithBin, hl])
      (by
        intro i n hn
        rcases mem_getD_set_cons acc _ i ⟨x.key, x.value⟩ n hn with ⟨rfl, rfl⟩ | h
        · rfl
        · exact hp i n h)
    refine ⟨h1, h2, ?_⟩
    have h4 : (rehash capacity acc (x :: xs)).flatten.Perm
        (xs ++ (mapInsertWithBin acc (hashSlice x.key % capacity) x.key x.value).flatten) := h3
    refine h4.trans ?_
    refine ((hstep.append_left xs).trans ?_)
    exact List.perm_middle

theorem mapExpand_eq (m : UnorderedMap) (hlen : m.bins.length = m.capacity) :
    mapExpand m =
      { m with bins := rehash ((m.capacity * 2) % U64)
                 (List.replicate ((m.capacity * 2) % U64) []) (mapNodes m),
               capacity := (m.capacity * 2) % U64 } := by
  unfold mapExpand rehash mapNodes
  simp only
  rw [List.take_of_length_le (by omega), List.foldl_flatten]

/-- The expanded table has the nodes of the table, each in the bin of its hash. -/
theorem mapPlaced_expand (m : UnorderedMap) (hm : MapPlaced m)
    (hcap : m.capacity < 2 ^ 52) :
    MapPlaced (mapExpand m) ∧ (mapExpand m).capacity = m.capacity * 2 ∧
      (mapExpand m).size = m.size ∧ (mapNodes (mapExpand m)).Perm (mapNodes m) := by
  obtain ⟨h16, hlen, hplace, hnd⟩ := hm
  have hU : (m.capacity * 2) % U64 = m.capacity * 2 := by
    have : U64 = 2 ^ 64 := rfl
    rw [this]
    exact Nat.mod_eq_of_lt (by omega)
  obtain ⟨h1, h2, h3⟩ := rehash_spec (m.capacity * 2) (by omega) (mapNodes m)
    (List.replicate (m.capacity * 2) []) (by simp)
    (by
      intro i n hn
      by_cases hi : i < m.capacity * 2
      · rw [List.getD_eq_getElem _ _ (by simpa using hi), List.getElem_replicate] at hn
        cases hn
      · rw [List.getD_eq_default _ _ (by simp; omega)] at hn
        cases hn)
  have h4 : (rehash (m.capacity * 2) (List.replicate (m.capacity * 2) [])
      (mapNodes m)).flatten.Perm (mapNodes m) := by
    simpa using h3
  rw [mapExpand_eq m hlen, hU]
  refine ⟨⟨by simp only; omega, h1, h2, ?_⟩, rfl, rfl, h4⟩
  exact ((h4.map fun n : Node => n.key.bytes).nodup_iff).2 hnd


/-! ### `mapInsert` -/

theorem mapUpdateBin_keys (bin bin2 : List Node) (k : Slice) (v : Nat)
    (h : mapUpdateBin bin k v = some bin2) :
    bin2.map (fun n => n.key) = bin.map (fun n => n.key) := by
  induction bin generalizing bin2 with
  | nil => simp [mapUpdateBin] at h
  | cons c cs ih =>
    simp only [mapUpdateBin] at h
    split at h
    · cases h
      rfl
    · cases hu : mapUpdateBin cs k v with
      | none => rw [hu] at h; cases h
      | some l =>
        rw [hu] at h
        cases h
        simp [ih l hu]

theorem flatten_set_keys (bins : List (List Node)) (i : Nat) (hi : i < bins.length)
    (bin2 : List Node)
    (h : bin2.map (fun n => n.key) = (bins.getD i []).map (fun n => n.key)) :
    (bins.set i bin2).flatten.map (fun n => n.key) = bins.flatten.map (fun n => n.key) := by
  induction bins generalizing i with
  | nil => simp at hi
  | cons b bs ih =>
    cases i with
    | zero =>
      simp only [List.getD_cons_zero] at h
      simp [h]
    | succ i =>
      simp only [List.length_cons, Nat.add_lt_add_iff_right] at hi
      simp only [List.getD_cons_succ] at h
      simp only [List.set_cons_succ, List.flatten_cons, List.map_append]
      rw [ih i hi h]

/-- Writing the value of a key that the table contains keeps the placement of the nodes. -/
theorem mapPlaced_update (m : UnorderedMap) (hm : MapPlaced m) (k : Slice) (v : Nat)
    (bin2 : List Node)
    (h : mapUpdateBin (m.bins.getD (hashSlice k % m.capacity) []) k v = some bin2) :
    MapPlaced { m with bins := m.bins.set (hashSlice k % m.capacity) bin2 } := by
  obtain ⟨h16, hlen, hplace, hnd⟩ := hm
  have hidx : hashSlice k % m.capacity < m.bins.length := by
    rw [hlen]
    exact Nat.mod_lt _ (by omega)
  have hkeys := mapUpdateBin_keys _ _ k v h
  refine ⟨h16, by simp [hlen], ?_, ?_⟩
  · intro i n hn
    simp only at hn ⊢
    by_cases hi : i < m.bins.length
    · rw [List.getD_eq_getElem _ _ (by simpa using hi), List.getElem_set] at hn
      by_cases hij : hashSlice k % m.capacity = i
      · rw [if_pos hij] at hn
        have hmem : n.key ∈ bin2.map (fun n => n.key) := List.mem_map_of_mem _ hn
        rw [hkeys] at hmem
        obtain ⟨n0, hn0, hk0⟩ := List.mem_map.1 hmem
        have := hplace _ n0 hn0
        rw [hk0, hij] at this
        exact this
      · rw [if_neg hij] at hn
        exact hplace i n (by rw [List.getD_eq_getElem _ _ hi]; exact hn)
    · rw [List.getD_eq_default _ _ (by simp; omega)] at hn
      cases hn
  · have h1 := flatten_set_keys m.bins _ hidx bin2 hkeys
    have h2 : (mapNodes { m with bins := m.bins.set (hashSlice k % m.capacity) bin2 }).map
        (fun n => n.key.bytes) = (mapNodes m).map (fun n => n.key.bytes) := by
      have := congrArg (List.map Slice.bytes) h1
      simpa [mapNodes, List.map_map, Function.comp] using this
    rw [h2]
    exact hnd

/-- `mapInsert` on a table of the right shape with fewer than `2 ^ 52` bins: the shape is
kept, the key and every key with the same bytes is contained and reads as the new value, and
every other key is contained and read as before; also when the table is expanded. -/
theorem mapInsert_shape (m : UnorderedMap) (hm : MapShape m) (hcap : m.capacity < 2 ^ 52)
    (k : Slice) (v : Nat) :
    MapShape (mapInsert m k v) ∧ ∀ k2 : Slice,
      mapContains (mapInsert m k v) k2 = (decide (k.bytes = k2.bytes) || mapContains m k2) ∧
      mapGet (mapInsert m k v) k2 = if k.bytes = k2.bytes then v else mapGet m k2 := by
  obtain ⟨hp, hsize⟩ := hm
  cases hc : mapContains m k with
  | true =>
    have hu : ∃ bin2, mapUpdateBin (m.bins.getD (hashSlice k % m.capacity) []) k v =
        some bin2 := by
      cases hu : mapUpdateBin (m.bins.getD (hashSlice k % m.capacity) []) k v with
      | none =>
        have := (mapUpdateBin_none _ _ _).1 hu
        unfold mapContains at hc
        rw [this] at hc
        cases hc
      | some b => exact ⟨b, rfl⟩
    obtain ⟨bin2, hu⟩ := hu
    have he : mapInsert m k v = { m with bins := m.bins.set (hashSlice k % m.capacity) bin2 } := by
      unfold mapInsert
      simp only [hu]
    refine ⟨?_, fun k2 => ⟨?_, mapGet_insert_present m k k2 v hc⟩⟩
    · rw [he]
      exact ⟨mapPlaced_update m hp k v bin2 hu, hsize⟩
    · rw [mapContains_insert_present m k k2 v hc]
      by_cases hb : k.bytes = k2.bytes
      · rw [← mapContains_bytes m k k2 hb, hc]
        simp [hb]
      · simp [hb]
  | false =>
    have hu : mapUpdateBin (m.bins.getD (hashSlice k % m.capacity) []) k v = none :=
      (mapUpdateBin_none _ _ _).2 hc
    have hU : (m.size + 1) % U64 = m.size + 1 := by
      have : U64 = 2 ^ 64 := rfl
      rw [this]
      exact Nat.mod_eq_of_lt (by omega)
    obtain ⟨hp1, hperm1⟩ := mapPlaced_push m hp k v (m.size + 1) hc
    have he : mapInsert m k v =
        if 4 * (m.size + 1) > 3 * m.capacity then
          mapExpand ⟨m.size + 1, m.capacity,
            mapInsertWithBin m.bins (hashSlice k % m.capacity) k v⟩
        else ⟨m.size + 1, m.capacity,
            mapInsertWithBin m.bins (hashSlice k % m.capacity) k v⟩ := by
      unfold mapInsert
      simp only [hu, hU]
    rw [he]
    split
    · obtain ⟨hp2, hcap2, hs2, hperm2⟩ := mapPlaced_expand
        ⟨m.size + 1, m.capacity, mapInsertWithBin m.bins (hashSlice k % m.capacity) k v⟩
        hp1 hcap
      have hsh : MapShape (mapExpand ⟨m.size + 1, m.capacity,
          mapInsertWithBin m.bins (hashSlice k % m.capacity) k v⟩) := by
        refine ⟨hp2, ?_⟩
        rw [hcap2, hs2]
        have := hp.1
        simp only
        omega
      exact ⟨hsh, fun k2 => map_lookup_of_cons m _ hp hp2 k v (hperm2.trans hperm1) k2⟩
    · next hle =>
      exact ⟨⟨hp1, by simp only; omega⟩,
        fun k2 => map_lookup_of_cons m _ hp hp1 k v hperm1 k2⟩

theorem mapShape_create : MapShape mapCreate := by
  refine ⟨⟨by decide, by decide, ?_, by simp [mapNodes, mapCreate]⟩, by decide⟩
  intro i n hn
  by_cases hi : i < 16
  · rw [mapCreate, List.getD_eq_getElem _ _ (by simpa using hi), List.getElem_replicate] at hn
    cases hn
  · rw [mapCreate, List.getD_eq_default _ _ (by simp; omega)] at hn
    cases hn

/-- Every reachable table has the right shape. -/
theorem mapShape_of_reachable (m : UnorderedMap) (h : MapReachable m) : MapShape m := by
  induction h with
  | create => exact mapShape_create
  | insert m k v _ hcap ih => exact (mapInsert_shape m ih hcap k v).1

theorem sampleTable_reachable : MapReachable (sampleTable 12) := by
  repeat' first
    | exact MapReachable.create
    | refine MapReachable.insert _ _ _ ?_ (by decide!)

/-! ## The pending-return slot is empty at top level -/

theorem Result.slotEmpty_stop {α : Type} (s : Stop) :
    (Result.stop s : Result α).slotEmpty := fun _ _ h => by cases h

theorem Result.slotEmpty_fail {α : Type} (I : Interpreter) :
    (fail I : Result α).slotEmpty := fun _ _ h => by cases h

theorem Result.slotEmpty_ok {α : Type} {v : α} {J : Interpreter}
    (h : J.functionReturn.exists_ = false) : (Result.ok v J).slotEmpty := by
  intro v2 J2 h2
  cases h2
  exact h

theorem Result.slotEmpty_bind {α β : Type} {r : Result α}
    {g : α → Interpreter → Result β} (hr : r.slotEmpty)
    (hg : ∀ v J, J.functionReturn.exists_ = false → (g v J).slotEmpty) :
    (r.bind g).slotEmpty := by
  cases r with
  | ok v J => exact hg v J (hr v J rfl)
  | stop s => exact Result.slotEmpty_stop s

theorem Result.slotEmpty_ite {α : Type} {c : Prop} [Decidable c]
    {a b : Result α} (ha : c → a.slotEmpty) (hb : ¬ c → b.slotEmpty) :
    (if c then a else b).slotEmpty := by
  split
  · exact ha ‹_›
  · exact hb ‹_›

@[simp] theorem consume_functionReturn (I : Interpreter) (s : List Nat) :
    (consume I s).2.functionReturn = I.functionReturn := by
  unfold consume
  split <;> rfl

@[simp] theorem consumeIdentifier_functionReturn (I : Interpreter) :
    (consumeIdentifier I).2.functionReturn = I.functionReturn := by
  unfold consumeIdentifier
  split
  · rfl
  · split <;> rfl

@[simp] theorem consumeLiteral_functionReturn (I : Interpreter) :
    (consumeLiteral I).2.functionReturn = I.functionReturn := by
  unfold consumeLiteral
  split
  · rfl
  · split <;> rfl

theorem consumeOrFail_slotEmpty (I : Interpreter) (s : List Nat)
    (h : I.functionReturn.exists_ = false) : (consumeOrFail I s).slotEmpty := by
  unfold consumeOrFail
  split
  · exact Result.slotEmpty_fail _
  · exact Result.slotEmpty_ok (by rw [consume_functionReturn]; exact h)

theorem consumePastLoop_slotEmpty (fuel count : Nat) (I : Interpreter)
    (h : I.functionReturn.exists_ = false) : (consumePastLoop fuel count I).slotEmpty := by
  induction fuel generalizing count I with
  | zero => exact Result.slotEmpty_stop _
  | succ fuel ih =>
    rw [consumePastLoop]
    repeat' first
      | exact Result.slotEmpty_stop _
      | exact ih _ _ (by simpa using h)
      | exact Result.slotEmpty_ok (by simpa using h)
      | split

theorem consumePast_slotEmpty (fuel : Nat) (I : Interpreter)
    (h : I.functionReturn.exists_ = false) : (consumePast fuel I).slotEmpty :=
  consumePastLoop_slotEmpty fuel 1 I h

theorem countParameters_slotEmpty (fuel k : Nat) (I : Interpreter)
    (h : I.functionReturn.exists_ = false) : (countParameters fuel k I).slotEmpty := by
  induction fuel generalizing k I with
  | zero => exact Result.slotEmpty_stop _
  | succ fuel ih =>
    rw [countParameters]
    repeat' first
      | exact Result.slotEmpty_stop _
      | exact Result.slotEmpty_fail _
      | exact ih _ _ (by simpa using h)
      | exact Result.slotEmpty_ok (by simpa using h)
      | split

theorem readParameters_slotEmpty (fuel k : Nat) (ps : List Slice) (I : Interpreter)
    (h : I.functionReturn.exists_ = false) : (readParameters fuel k ps I).slotEmpty := by
  induction fuel generalizing ps I with
  | zero => exact Result.slotEmpty_stop _
  | succ fuel ih =>
    rw [readParameters]
    repeat' first
      | exact Result.slotEmpty_stop _
      | exact Result.slotEmpty_fail _
      | exact ih _ _ (by simpa using h)
      | exact Result.slotEmpty_ok (by simpa using h)
      | split

/-- `performFunction` returns with the pending-return slot empty, however it was started. -/
theorem performFunction_slotEmpty (fuel : Nat) (I : Interpreter) (eff : Bool) (fn : Function) :
    (performFunction fuel I eff fn).slotEmpty := by
  cases fuel with
  | zero => rw [performFunction]; exact Result.slotEmpty_stop _
  | succ fuel =>
    rw [performFunction]
    cases consumeOrFail { I with current := fn.pointer } (cstr "\x7b") with
    | stop s => exact Result.slotEmpty_stop _
    | ok u I1 =>
      simp only [Result.bind_ok]
      cases performFunctionLoop fuel I1 eff with
      | stop s => exact Result.slotEmpty_stop _
      | ok v I2 =>
        simp only [Result.bind_ok]
        split
        · exact Result.slotEmpty_ok rfl
        · next h => exact Result.slotEmpty_ok (by simpa using h)

theorem slotAt_zero : SlotAt 0 := by
  unfold SlotAt
  refine ⟨?_, ?_, ?_, ?_, ?_, ?_, ?_, ?_, ?_, ?_, ?_, ?_, ?_, ?_, ?_, ?_, ?_, ?_, ?_, ?_, ?_,
    ?_, ?_, ?_, ?_, ?_, ?_, ?_, ?_, ?_, ?_⟩
  all_goals intros
  all_goals
    first
    | rw [e1] | rw [e2] | rw [e2Loop] | rw [e3] | rw [e3Loop] | rw [e4] | rw [e4Loop] | rw [e5]
    | rw [e6] | rw [e6Loop] | rw [e7] | rw [e7Loop] | rw [e8] | rw [e9] | rw [e10] | rw [e11]
    | rw [e11Loop] | rw [e12] | rw [e12Loop] | rw [e13] | rw [e14] | rw [e15] | rw [expression]
    | rw [checkReturn] | rw [blockLoop] | rw [whileStatement] | rw [whileStatementLoop]
    | rw [functionCall] | rw [functionCallLoop] | rw [ifStatement] | rw [statement]
  all_goals exact Result.slotEmpty_stop _

set_option maxHeartbeats 3200000 in
theorem slotAt_succ (n : Nat) (ih : SlotAt n) : SlotAt (n + 1) := by
  unfold SlotAt at ih ⊢
  obtain ⟨h1, h2, h2l, h3, h3l, h4, h4l, h5, h6, h6l, h7, h7l, h8, h9, h10, h11, h11l, h12,
    h12l, h13, h14, h15, hex, hfc, hfl, hcr, hbl, hws, hwl, hif, hst⟩ := ih
  refine ⟨?_, ?_, ?_, ?_, ?_, ?_, ?_, ?_, ?_, ?_, ?_, ?_, ?_, ?_, ?_, ?_, ?_, ?_, ?_, ?_, ?_,
    ?_, ?_, ?_, ?_, ?_, ?_, ?_, ?_, ?_, ?_⟩
  all_goals intros
  all_goals
    first
    | rw [e1] | rw [e2] | rw [e2Loop] | rw [e3] | rw [e3Loop] | rw [e4] | rw [e4Loop] | rw [e5]
    | rw [e6] | rw [e6Loop] | rw [e7] | rw [e7Loop] | rw [e8] | rw [e9] | rw [e10] | rw [e11]
    | rw [e11Loop] | rw [e12] | rw [e12Loop] | rw [e13] | rw [e14] | rw [e15] | rw [expression]
    | rw [checkReturn] | rw [blockLoop] | rw [whileStatement] | rw [whileStatementLoop]
    | rw [functionCall] | rw [functionCallLoop] | rw [ifStatement] | rw [statement]
  all_goals try dsimp only
  all_goals try simp only [Bool.false_eq_true, if_false, Bool.false_and]
  all_goals
    repeat' with_reducible first
      | exact Result.slotEmpty_stop _
      | exact Result.slotEmpty_fail _
      | exact performFunction_slotEmpty _ _ _ _
      | assumption
      | (refine Result.slotEmpty_ok ?_)
      | (refine h1 _ _ _ ?_) | (refine h2 _ _ _ ?_) | (refine h2l _ _ _ _ _ ?_)
      | (refine h3 _ _ _ ?_) | (refine h3l _ _ _ _ ?_) | (refine h4 _ _ _ ?_)
      | (refine h4l _ _ _ _ ?_) | (refine h5 _ _ _ ?_) | (refine h6 _ _ _ ?_)
      | (refine h6l _ _ _ _ ?_) | (refine h7 _ _ _ ?_) | (refine h7l _ _ _ _ ?_)
      | (refine h8 _ _ _ ?_) | (refine h9 _ _ _ ?_) | (refine h10 _ _ _ ?_)
      | (refine h11 _ _ _ ?_) | (refine h11l _ _ _ _ ?_) | (refine h12 _ _ _ ?_)
      | (refine h12l _ _ _ _ ?_) | (refine h13 _ _ _ ?_) | (refine h14 _ _ _ ?_)
      | (refine h15 _ _ _ ?_) | (refine hex _ _ _ ?_)
      | (refine hfc _ _ _ ?_) | (refine hfl _ _ _ _ _ ?_)
      | (refine hcr _ _ ?_) | (refine hbl _ _ ?_) | (refine hws _ _ ?_)
      | (refine hwl _ _ _ ?_) | (refine hif _ _ ?_) | (refine hst _ _ ?_)
      | (refine consumeOrFail_slotEmpty _ _ ?_)
      | (refine consumePast_slotEmpty _ _ ?_)
      | (refine countParameters_slotEmpty _ _ _ ?_)
      | (refine readParameters_slotEmpty _ _ _ _ ?_)
      | (refine Result.slotEmpty_bind ?_ (fun _ _ _ => ?_))
      | (refine Result.slotEmpty_ite (fun _ => ?_) (fun _ => ?_))
      | (simp only [consume_functionReturn, consumeIdentifier_functionReturn,
          consumeLiteral_functionReturn]; done)
      | (simp only [consume_functionReturn, consumeIdentifier_functionReturn,
          consumeLiteral_functionReturn]; assumption)
      | split

theorem slotAt (n : Nat) : SlotAt n := by
  induction n with
  | zero => exact slotAt_zero
  | succ n ih => exact slotAt_succ n ih

/-- A top-level statement that starts with an empty pending-return slot returns with an
empty slot. -/
theorem statement_slotEmpty (fuel : Nat) (I J : Interpreter) (eff b : Bool)
    (hI : I.functionReturn.exists_ = false) (h : statement fuel I eff false = .ok b J) :
    J.functionReturn.exists_ = false :=
  (slotAt fuel).2.2.2.2.2.2.2.2.2.2.2.2.2.2.2.2.2.2.2.2.2.2.2.2.2.2.2.2.2.2 I eff hI b J h

/-- The word `return` at top level: the statement fails at the reserved-word test. -/
theorem statement_return_outside (I : Interpreter) (eff : Bool) (ws rest : List Nat)
    (hws : ws.all isspace = true) (hrest : isalnum (rest.headD 0) = false) :
    Returns (fun f => statement f (I.moveTo (ws ++ cstr "return" ++ rest)) eff false)
      (.stop (.fail (I.moveTo rest))) := by
  obtain ⟨h1, h2, h3⟩ := statement_prelude I eff false ws (cstr "return") rest hws (by decide)
    hrest (fun h => by cases h) (fun h => by cases h)
  have k1 : sliceEqualString (nameSlice (cstr "return")) (cstr "if") = false := by decide
  have k2 : sliceEqualString (nameSlice (cstr "return")) (cstr "else") = false := by decide
  have k3 : sliceEqualString (nameSlice (cstr "return")) (cstr "while") = false := by decide
  have k4 : sliceEqualString (nameSlice (cstr "return")) (cstr "return") = true := by decide
  have k5 : sliceEqualString (nameSlice (cstr "return")) (cstr "fun") = false := by decide
  refine Returns.of_add_eq 2 (fun f => ?_)
  rw [statement]
  simp only [h1, h2, h3, Result.bind_ok, Bool.false_eq_true, if_false, if_true,
    Bool.not_true, Bool.not_false, sliceEqualString_append, k1, k2, k3, k4, k5, Bool.or_true,
    Bool.true_or, Bool.false_or, fail]

/-! ## The table of a call -/

theorem mapTight_create : MapTight mapCreate 0 :=
  ⟨mapShape_create, Nat.le_refl 0, Or.inl rfl⟩

theorem mapTight_mono (m : UnorderedMap) (n n2 : Nat) (h : MapTight m n) (hn : n ≤ n2) :
    MapTight m n2 :=
  ⟨h.1, Nat.le_trans h.2.1 hn, h.2.2⟩

theorem mapTight_capacity (m : UnorderedMap) (n : Nat) (h : MapTight m n) (hn : n < 2 ^ 50) :
    m.capacity < 2 ^ 52 := by
  have h50 : (2 : Nat) ^ 50 = 1125899906842624 := by norm_num
  have h52 : (2 : Nat) ^ 52 = 4503599627370496 := by norm_num
  rw [h50] at hn
  rw [h52]
  obtain ⟨_, hs, hc | hc⟩ := h <;> omega

/-- The size and the capacity of a table after an insertion. -/
theorem mapInsert_size (m : UnorderedMap) (hm : MapShape m) (hcap : m.capacity < 2 ^ 52)
    (k : Slice) (v : Nat) :
    (mapContains m k = true →
      (mapInsert m k v).size = m.size ∧ (mapInsert m k v).capacity = m.capacity) ∧
    (mapContains m k = false →
      (mapInsert m k v).size = m.size + 1 ∧
      ((mapInsert m k v).capacity = m.capacity ∨
        ((mapInsert m k v).capacity = m.capacity * 2 ∧ 3 * m.capacity < 4 * (m.size + 1)))) := by
  obtain ⟨hp, hsize⟩ := hm
  constructor
  · intro hc
    cases hu : mapUpdateBin (m.bins.getD (hashSlice k % m.capacity) []) k v with
    | none =>
      have := (mapUpdateBin_none _ _ _).1 hu
      unfold mapContains at hc
      rw [this] at hc
      cases hc
    | some b =>
      unfold mapInsert
      simp only [hu]
      exact ⟨trivial, trivial⟩
  · intro hc
    have hu : mapUpdateBin (m.bins.getD (hashSlice k % m.capacity) []) k v = none :=
      (mapUpdateBin_none _ _ _).2 hc
    have hU : (m.size + 1) % U64 = m.size + 1 := by
      have : U64 = 2 ^ 64 := rfl
      rw [this]
      exact Nat.mod_eq_of_lt (by omega)
    obtain ⟨hp1, _⟩ := mapPlaced_push m hp k v (m.size + 1) hc
    have he : mapInsert m k v =
        if 4 * (m.size + 1) > 3 * m.capacity then
          mapExpand ⟨m.size + 1, m.capacity,
            mapInsertWithBin m.bins (hashSlice k % m.capacity) k v⟩
        else ⟨m.size + 1, m.capacity,
            mapInsertWithBin m.bins (hashSlice k % m.capacity) k v⟩ := by
      unfold mapInsert
      simp only [hu, hU]
    rw [he]
    split
    · next hgt =>
      obtain ⟨_, hcap2, hs2, _⟩ := mapPlaced_expand
        ⟨m.size + 1, m.capacity, mapInsertWithBin m.bins (hashSlice k % m.capacity) k v⟩
        hp1 hcap
      exact ⟨hs2, Or.inr ⟨hcap2, hgt⟩⟩
    · exact ⟨rfl, Or.inl rfl⟩

/-- An insertion into a tight table gives a tight table with at most one entry more, and
the lookups of `mapInsert_shape`. -/
theorem mapTight_insert (m : UnorderedMap) (n : Nat) (h : MapTight m n) (hn : n < 2 ^ 50)
    (k : Slice) (v : Nat) :
    MapTight (mapInsert m k v) (n + 1) ∧
    (mapContains m k = true → MapTight (mapInsert m k v) n) ∧
    ∀ k2 : Slice,
      mapContains (mapInsert m k v) k2 = (decide (k.bytes = k2.bytes) || mapContains m k2) ∧
      mapGet (mapInsert m k v) k2 = if k.bytes = k2.bytes then v else mapGet m k2 := by
  have hcap := mapTight_capacity m n h hn
  obtain ⟨hsh, hs, hc⟩ := h
  obtain ⟨hsh2, hlook⟩ := mapInsert_shape m hsh hcap k v
  obtain ⟨h1, h2⟩ := mapInsert_size m hsh hcap k v
  refine ⟨?_, ?_, hlook⟩
  · cases hk : mapContains m k with
    | true =>
      obtain ⟨e1, e2⟩ := h1 hk
      refine ⟨hsh2, by omega, ?_⟩
      rw [e1, e2]
      exact hc
    | false =>
      obtain ⟨e1, e2⟩ := h2 hk
      refine ⟨hsh2, by omega, ?_⟩
      rw [e1]
      rcases e2 with e2 | ⟨e2, e3⟩
      · rw [e2]
        rcases hc with hc | hc
        · exact Or.inl hc
        · exact Or.inr (by omega)
      · rw [e2]
        exact Or.inr (by omega)
  · intro hk
    obtain ⟨e1, e2⟩ := h1 hk
    refine ⟨hsh2, by omega, ?_⟩
    rw [e1, e2]
    exact hc

/-- The table that the argument loop of `functionCall` builds: tight, and its keys are the
keys of the table it started from and the parameters that received an argument. -/
theorem functionCallLoop_table (eff : Bool) (fn : Function)
    (hlen : fn.parameters.length < 2 ^ 50) :
    ∀ (fuel : Nat) (I : Interpreter) (table : UnorderedMap) (count : Nat) (t : UnorderedMap)
      (c : Nat) (J : Interpreter), MapTight table count →
      functionCallLoop fuel I eff fn table count = .ok (t, c) J →
      MapTight t c ∧ count ≤ c ∧
      ∀ k : Slice, mapContains t k =
        (mapContains table k ||
          ((fn.parameters.take c).drop count).any fun p => decide (p.bytes = k.bytes)) := by
  intro fuel
  induction fuel with
  | zero =>
    intro I table count t c J _ h
    rw [functionCallLoop] at h
    cases h
  | succ fuel ih =>
    intro I table count t c J ht h
    rw [functionCallLoop] at h
    split at h
    · cases h
      refine ⟨ht, Nat.le_refl _, fun k => ?_⟩
      have hd : List.drop count (List.take count fn.parameters) = [] :=
        List.drop_eq_nil_of_le (by rw [List.length_take]; exact Nat.min_le_left _ _)
      rw [hd]
      simp
    · cases he : expression fuel (consume I (cstr ")")).2 eff true with
      | stop s => rw [he] at h; cases h
      | ok v K =>
        rw [he] at h
        simp only [Result.bind] at h
        cases hp : fn.parameters.get? count with
        | none => rw [hp] at h; cases h
        | some p =>
          rw [hp] at h
          simp only at h
          have hcount : count < fn.parameters.length := by
            rw [List.get?_eq_some] at hp
            exact hp.1
          have hU : (count + 1) % U64 = count + 1 := by
            have : U64 = 2 ^ 64 := rfl
            rw [this]
            have h50 : (2 : Nat) ^ 50 = 1125899906842624 := by norm_num
            rw [h50] at hlen
            exact Nat.mod_eq_of_lt (by norm_num; omega)
          rw [hU] at h
          obtain ⟨ht2, _, hlook⟩ := mapTight_insert table count ht (by omega) p v
          obtain ⟨r1, r2, r4⟩ := ih _ _ _ _ _ _ ht2 h
          refine ⟨r1, by omega, fun k => ?_⟩
          rw [r4 k, (hlook k).1]
          have hd : List.drop count (List.take c fn.parameters) =
              p :: List.drop (count + 1) (List.take c fn.parameters) := by
            have hl : count < (List.take c fn.parameters).length := by
              rw [List.length_take]
              omega
            rw [List.drop_eq_getElem_cons hl, List.getElem_take]
            congr 1
            rw [List.get?_eq_some] at hp
            obtain ⟨_, hp⟩ := hp
            simpa using hp
          rw [hd, List.any_cons]
          cases decide (p.bytes = k.bytes) <;> cases mapContains table k <;> simp

/-- The argument loop of a call adds no key to the global table. -/
theorem functionCallLoop_keeps (fuel : Nat) (I J : Interpreter) (eff : Bool) (fn : Function)
    (t : UnorderedMap) (c : Nat) (r : UnorderedMap × Nat)
    (h : functionCallLoop fuel I eff fn t c = .ok r J) (k : Slice)
    (hk : mapContains I.symbolTable k = false) : mapContains J.symbolTable k = false :=
  (keepsAt I.symbolTable fuel).2.2.2.2.2.2.2.2.2.2.2.2.2.2.2.2.2.2.2.2.2.2.2.2.2.2.2.2.2.2.1
    I eff fn t c (KeysWithin.refl _) r J h k hk

/-- A name that no parameter of the function has is not a key of the table that the
argument loop builds from the empty table. -/
theorem functionCallLoop_absent (fuel : Nat) (I J : Interpreter) (eff : Bool) (fn : Function)
    (t : UnorderedMap) (c : Nat) (hlen : fn.parameters.length < 2 ^ 50)
    (h : functionCallLoop fuel I eff fn mapCreate 0 = .ok (t, c) J) (k : Slice)
    (hk : ∀ p ∈ fn.parameters, p.bytes ≠ k.bytes) : mapContains t k = false := by
  obtain ⟨_, _, hkeys⟩ := functionCallLoop_table eff fn hlen fuel I mapCreate 0 t c J
    mapTight_create h
  rw [hkeys k, mapContains_create, Bool.false_or, List.any_eq_false]
  intro p hp
  have hp2 : p ∈ fn.parameters := List.mem_of_mem_take (List.mem_of_mem_drop hp)
  simpa using hk p hp2

/-- Every parameter that received an argument is a key of the table that the argument loop
builds. -/
theorem functionCallLoop_present (fuel : Nat) (I J : Interpreter) (eff : Bool) (fn : Function)
    (t : UnorderedMap) (c : Nat) (hlen : fn.parameters.length < 2 ^ 50)
    (h : functionCallLoop fuel I eff fn mapCreate 0 = .ok (t, c) J) (i : Nat) (p : Slice)
    (hi : i < c) (hp : fn.parameters.get? i = some p) : mapContains t p = true := by
  obtain ⟨_, _, hkeys⟩ := functionCallLoop_table eff fn hlen fuel I mapCreate 0 t c J
    mapTight_create h
  rw [hkeys p, mapContains_create, Bool.false_or, List.any_eq_true]
  refine ⟨p, ?_, by simp⟩
  rw [List.drop_zero, List.mem_iff_get?]
  refine ⟨i, ?_⟩
  rw [List.get?_eq_getElem?, List.getElem?_take_of_lt hi, ← List.get?_eq_getElem?]
  exact hp

/-- The unfolding of a call of a function other than `print`: the arguments are bound in a
new table, the body runs with that table as the local table, and the local table of the
caller is put back. -/
theorem functionCall_unfold (fuel : Nat) (I : Interpreter) (eff : Bool) (fn : Function)
    (hname : sliceEqualString fn.name (cstr "print") = false) :
    functionCall (fuel + 1) I eff fn =
      (functionCallLoop fuel (consume I (cstr "(")).2 eff fn mapCreate 0).bind
        fun (r : UnorderedMap × Nat) J =>
          if r.2 != fn.numParams then fail J
          else (performFunction fuel { J with currentSymbolTable := r.1 } eff fn).bind
            fun v K => .ok v { K with currentSymbolTable := I.currentSymbolTable } := by
  rw [functionCall]
  simp only [hname, Bool.false_eq_true, if_false]

/-- A read of a name that neither table holds yields `0`. -/
theorem variableValue_absent (K : Interpreter) (ins : Bool) (y : List Nat)
    (hloc : mapContains K.currentSymbolTable (nameSlice y) = false)
    (hglob : mapContains K.symbolTable (nameSlice y) = false) : variableValue K ins y = 0 := by
  unfold variableValue
  simp only [hloc, Bool.and_false, Bool.false_eq_true, if_false]
  exact mapGet_absent _ _ hglob

/-- Inside a function, the assignment to a name that neither table holds creates an entry
of the local table; the global table stays as the right-hand side left it. -/
theorem statement_assign_new (K K2 : Interpreter) (ws y ws2 t : List Nat) (v : Nat)
    (hws : ws.all isspace = true) (hname : isIdentifierText y = true)
    (hkw : isKeyword y = false) (hws2 : ws2.all isspace = true)
    (hp : K.functionReturn.exists_ = false)
    (hloc : mapContains K.currentSymbolTable (nameSlice y) = false)
    (hglob : mapContains K.symbolTable (nameSlice y) = false)
    (hexpr : Returns (fun f => expression f (K.moveTo t) true true) (.ok v K2)) :
    K2.currentSymbolTable = K.currentSymbolTable ∧
    mapContains K2.symbolTable (nameSlice y) = false ∧
    ∃ key : Slice, key.bytes = y ∧
      Returns (fun f => statement f (K.moveTo (ws ++ y ++ (ws2 ++ cstr "=" ++ t))) true true)
        (.ok true { K2 with currentSymbolTable := mapInsert K2.currentSymbolTable key v }) := by
  obtain ⟨n, hn⟩ := hexpr
  have hl : K2.currentSymbolTable = K.currentSymbolTable :=
    expression_local n (K.moveTo t) K2 true true v (hn n (Nat.le_refl n))
  have hg : mapContains K2.symbolTable (nameSlice y) = false :=
    expression_keeps n (K.moveTo t) K2 true true v (hn n (Nat.le_refl n)) _ hglob
  refine ⟨hl, hg, sliceConstructorLen (y ++ (ws2 ++ cstr "=" ++ t)) y.length,
    bytes_append _ _, ?_⟩
  have h := statement_assign K K2 true true ws y ws2 t v hws hname hkw hws2 (fun _ => hp)
    ⟨n, hn⟩
  have hb : (sliceConstructorLen (y ++ (ws2 ++ cstr "=" ++ t)) y.length).bytes =
      (nameSlice y).bytes := by rw [bytes_append, bytes_nameSlice]
  have hl2 : mapContains K2.currentSymbolTable
      (sliceConstructorLen (y ++ (ws2 ++ cstr "=" ++ t)) y.length) = false := by
    rw [mapContains_bytes _ _ (nameSlice y) hb, hl]
    exact hloc
  have hg2 : mapContains K2.symbolTable
      (sliceConstructorLen (y ++ (ws2 ++ cstr "=" ++ t)) y.length) = false := by
    rw [mapContains_bytes _ _ (nameSlice y) hb]
    exact hg
  refine Returns.to h ?_
  simp only [if_true, assignVariable, Bool.not_true, Bool.false_eq_true, if_false, hl2, hg2]

/-- The first word of a simple statement is not `return`. -/
theorem Simple.first_word_not_return (s : Simple) (hs : s.wellFormed = true) (rest : List Nat)
    (I : Interpreter) :
    sliceEqualString (consumeIdentifier (I.moveTo (skipBytes (s.render rest)))).1.item
      (cstr "return") = false := by
  cases s with
  | assign ws name ws2 e =>
    simp only [Simple.wellFormed, Bool.and_eq_true, Bool.not_eq_true',
      List.isEmpty_eq_false] at hs
    obtain ⟨⟨⟨⟨⟨hws, _⟩, hname⟩, hkw⟩, _⟩, _⟩ := hs
    obtain ⟨b, bs, rfl, hb, hsb⟩ := skipBytes_name name
      (ws2 ++ cstr "=" ++ (e.render ++ rest)) hname
    have hsk2 : skipBytes ((Simple.assign ws (b :: bs) ws2 e).render rest) =
        [] ++ (b :: bs) ++ (ws2 ++ cstr "=" ++ (e.render ++ rest)) := by
      simp only [Simple.render, List.append_assoc]
      rw [skipBytes_ws _ _ hws]
      simpa only [List.append_assoc, List.nil_append] using hsb
    rw [hsk2, consumeIdentifier_name I [] (b :: bs) _ rfl hname
      (by rw [List.append_assoc]; exact headD_ws_append ws2 _ 61 (by assumption) (by decide))]
    simp only [sliceEqualString_append]
    exact (isKeyword_false _ hkw).2.2.2.1
  | print ws ws2 e ws3 =>
    simp only [Simple.wellFormed, Bool.and_eq_true, Bool.not_eq_true',
      List.isEmpty_eq_false] at hs
    obtain ⟨⟨⟨⟨hws, _⟩, hws2⟩, _⟩, _⟩ := hs
    have hsk2 : skipBytes ((Simple.print ws ws2 e ws3).render rest) =
        [] ++ cstr "print" ++ (ws2 ++ 40 :: (e.render ++ (ws3 ++ 41 :: rest))) := by
      simp only [Simple.render, List.append_assoc]
      rw [skipBytes_ws _ _ hws]
      rfl
    rw [hsk2, consumeIdentifier_name I [] (cstr "print") _ rfl (by decide)
      (headD_ws_append ws2 _ 40 hws2 (by decide))]
    simp only [sliceEqualString_append]
    decide

/-- A function body of simple statements runs to its closing brace and yields `0`; what it
does is the effect of its statements one after the other. -/
theorem performFunctionLoop_simple (wsEnd tail : List Nat) (hwsEnd : wsEnd.all isspace = true)
    (eff : Bool) (ss : List Simple) :
    (∀ s ∈ ss, s.wellFormed = true) → ∀ (I : Interpreter) (c : List Nat),
      skipBytes c = skipBytes (blockText ss wsEnd tail) →
      I.functionReturn.exists_ = false →
      functionMapGet I.functionNameMap (nameSlice (cstr "print")) = some createPrintFunction →
      Returns (fun f => performFunctionLoop f (I.moveTo c) eff)
        (.ok 0 ((execBlock eff true I ss wsEnd tail).moveTo tail)) := by
  induction ss with
  | nil =>
    intro _ I c hc _ _
    refine Returns.of_add_eq 1 fun f => performFunctionLoop_close f I eff c tail ?_
    rw [hc, blockText, skipBytes_ws _ _ hwsEnd]
    rfl
  | cons s ss ih =>
    intro hwf I c hc hp hprint
    have hs := hwf s (List.mem_cons_self _ _)
    have hss : ∀ x ∈ ss, x.wellFormed = true := fun x hx => hwf x (List.mem_cons_of_mem _ hx)
    obtain ⟨a, as, hsk, ha, _, _⟩ := Simple.skipBytes_statement s hs (blockText ss wsEnd tail)
    have hc2 : skipBytes c = skipBytes (s.render (blockText ss wsEnd tail)) := hc
    have hT : matchBytes [125] (skipBytes c) = none := by
      rw [hc2, hsk]
      have : a ≠ 125 := fun h => by rw [h] at ha; exact absurd ha (by decide)
      simp [matchBytes, Ne.symm this]
    obtain ⟨c2, hc2s, hst⟩ := statement_simple s hs (blockText ss wsEnd tail)
      (endsExpression_blockText ss wsEnd tail hss hwsEnd) I eff true (fun _ => hp) hprint
    rw [← hc2] at hst
    have hid : sliceEqualString (consumeIdentifier (I.moveTo (skipBytes c))).1.item
        (cstr "return") = false := by
      rw [hc2]
      exact Simple.first_word_not_return s hs _ I
    refine performFunctionLoop_statement I (I.moveTo (skipBytes c)) _ eff c _ hT hp
      (Returns.of_forall_succ fun f => checkReturn_other f _ eff true (fun _ => hp)
        (fun _ => hid)) hst ?_
    exact ih hss (s.exec eff true I (blockText ss wsEnd tail)) c2 hc2s
      (by rw [Simple.exec_functionReturn]; exact hp)
      (by rw [Simple.exec_functionNameMap]; exact hprint)

/-- The statements of a body do not write the global entry of a name that the local table
holds: the local table keeps the name, and the global table reads for it as before. -/
theorem execBlock_shadow (P : Slice) (eff : Bool) (wsEnd tail : List Nat) (ss : List Simple) :
    ∀ (I : Interpreter) (n : Nat), MapTight I.currentSymbolTable n → n + ss.length < 2 ^ 50 →
      mapContains I.currentSymbolTable P = true →
      MapTight (execBlock eff true I ss wsEnd tail).currentSymbolTable (n + ss.length) ∧
      mapContains (execBlock eff true I ss wsEnd tail).currentSymbolTable P = true ∧
      mapContains (execBlock eff true I ss wsEnd tail).symbolTable P =
        mapContains I.symbolTable P ∧
      mapGet (execBlock eff true I ss wsEnd tail).symbolTable P = mapGet I.symbolTable P := by
  induction ss with
  | nil =>
    intro I n ht _ hP
    exact ⟨ht, hP, rfl, rfl⟩
  | cons s ss ih =>
    intro I n ht hn hP
    simp only [List.length_cons] at hn
    have hstep : MapTight (s.exec eff true I (blockText ss wsEnd tail)).currentSymbolTable
          (n + 1) ∧
        mapContains (s.exec eff true I (blockText ss wsEnd tail)).currentSymbolTable P = true ∧
        mapContains (s.exec eff true I (blockText ss wsEnd tail)).symbolTable P =
          mapContains I.symbolTable P ∧
        mapGet (s.exec eff true I (blockText ss wsEnd tail)).symbolTable P =
          mapGet I.symbolTable P := by
      have ht1 := mapTight_mono _ n (n + 1) ht (Nat.le_succ n)
      cases s with
      | print ws ws2 e ws3 => exact ⟨ht1, hP, rfl, rfl⟩
      | assign ws name ws2 e =>
        simp only [Simple.exec]
        cases eff with
        | false => exact ⟨ht1, hP, rfl, rfl⟩
        | true =>
          simp only [if_true, assignVariable, Bool.not_true, Bool.false_eq_true, if_false]
          obtain ⟨hi1, _, hlook⟩ := mapTight_insert I.currentSymbolTable n ht (by omega)
            (sliceConstructorLen (name ++ (ws2 ++ cstr "=" ++
              (e.render ++ blockText ss wsEnd tail))) name.length)
            (e.valueIn (variableValue I true))
          have hPin := (hlook P).1
          rw [hP, Bool.or_true] at hPin
          split
          · exact ⟨hi1, hPin, rfl, rfl⟩
          · next hnl =>
            split
            · next hgl =>
              have hne : (sliceConstructorLen (name ++ (ws2 ++ cstr "=" ++
                  (e.render ++ blockText ss wsEnd tail))) name.length).bytes ≠ P.bytes := by
                intro hb
                rw [mapContains_bytes _ _ P hb] at hnl
                exact hnl hP
              refine ⟨ht1, hP, mapContains_insert_present _ _ P _ hgl, ?_⟩
              rw [mapGet_insert_present _ _ P _ hgl, if_neg hne]
            · exact ⟨hi1, hPin, rfl, rfl⟩
    obtain ⟨h1, h2, h3, h4⟩ := hstep
    obtain ⟨r1, r2, r3, r4⟩ := ih (s.exec eff true I (blockText ss wsEnd tail)) (n + 1) h1
      (by omega) h2
    refine ⟨?_, r2, r3.trans h3, r4.trans h4⟩
    simp only [List.length_cons]
    rw [show n + (ss.length + 1) = n + 1 + ss.length by omega]
    exact r1


theorem functionCallLoop_mono (n : Nat) (I : Interpreter) (eff : Bool) (fn : Function)
    (t : UnorderedMap) (c : Nat) :
    (functionCallLoop n I eff fn t c).le (functionCallLoop (n + 1) I eff fn t c) := by
  have h := monoAt n
  unfold MonoAt at h
  exact h.2.2.2.2.2.2.2.2.2.2.2.2.2.2.2.2.2.2.2.2.2.2.2.2.2.2.2.2.2.2.1 I eff fn t c

theorem execBlock_functionReturn (eff ins : Bool) (wsEnd tail : List Nat) (ss : List Simple) :
    ∀ I : Interpreter, (execBlock eff ins I ss wsEnd tail).functionReturn = I.functionReturn := by
  induction ss with
  | nil => intro I; rfl
  | cons s ss ih =>
    intro I
    exact (ih _).trans (Simple.exec_functionReturn eff ins I s _)

/-- The call of a function whose body is a block of simple statements: the arguments are
bound, the statements take their effect on the interpreter with the table of the call, and
the call yields `0` with the cursor behind the arguments and the local table of the
caller. -/
theorem functionCall_simple_body (K I1 : Interpreter) (eff : Bool) (fn : Function)
    (table : UnorderedMap) (ss : List Simple) (wsEnd tail : List Nat)
    (hname : sliceEqualString fn.name (cstr "print") = false)
    (hptr : skipBytes fn.pointer = 123 :: blockText ss wsEnd tail)
    (hwf : ∀ s ∈ ss, s.wellFormed = true) (hwsEnd : wsEnd.all isspace = true)
    (hargs : Returns (fun f => functionCallLoop f (consume K (cstr "(")).2 eff fn mapCreate 0)
      (.ok (table, fn.numParams) I1))
    (hp : I1.functionReturn.exists_ = false)
    (hprint : functionMapGet I1.functionNameMap (nameSlice (cstr "print")) =
      some createPrintFunction) :
    Returns (fun f => functionCall f K eff fn)
      (.ok 0 { execBlock eff true { I1 with currentSymbolTable := table } ss wsEnd tail with
        current := I1.current
        currentSymbolTable := K.currentSymbolTable }) := by
  have hloop := performFunctionLoop_simple wsEnd tail hwsEnd eff ss hwf
    { I1 with currentSymbolTable := table } (blockText ss wsEnd tail) rfl hp hprint
  have hbody := performFunction_body { I1 with currentSymbolTable := table } _ eff fn
    (blockText ss wsEnd tail) 0 hptr hloop
  have hfr : ((execBlock eff true { I1 with currentSymbolTable := table } ss wsEnd
      tail).moveTo tail).functionReturn.exists_ = false := by
    rw [moveTo_functionReturn, execBlock_functionReturn]
    exact hp
  rw [hfr] at hbody
  simp only [Bool.false_eq_true, if_false] at hbody
  exact Returns.to (functionCall_user K I1 _ eff fn table 0 hname hargs hbody) rfl

/-! ## The order of the arguments -/

theorem bindParameters_nil (m : UnorderedMap) (ps : List Slice) : bindParameters m ps [] = m := by
  cases ps <;> rfl

/-- The argument loop binds the values of the arguments to the parameters in the order of
the declaration: the first argument to the first parameter not yet bound, and so on. -/
theorem functionCallLoop_binds (eff : Bool) (fn : Function) (hlen : fn.parameters.length < U64)
    (I J : Interpreter) (vs : List Nat) (h : ArgumentsYield eff I vs J) :
    ∀ (table : UnorderedMap) (count : Nat), count + vs.length ≤ fn.parameters.length →
      Returns (fun f => functionCallLoop f I eff fn table count)
        (.ok (bindParameters table (fn.parameters.drop count) vs, count + vs.length) J) := by
  induction h with
  | done I t ht =>
    intro table count _
    refine Returns.of_add_eq 1 fun f => ?_
    have := functionCallLoop_done f I eff fn table count I.current t ht
    rw [moveTo_self] at this
    rw [this, bindParameters_nil]
    rfl
  | arg I I2 J v vs hT hexpr _ ih =>
    intro table count hc
    simp only [List.length_cons] at hc
    have hcount : count < fn.parameters.length := by omega
    have hp : fn.parameters.get? count = some (fn.parameters.get ⟨count, hcount⟩) :=
      List.get?_eq_get hcount
    have hU : (count + 1) % U64 = count + 1 := Nat.mod_eq_of_lt (by omega)
    have hd : fn.parameters.drop count =
        fn.parameters.get ⟨count, hcount⟩ :: fn.parameters.drop (count + 1) := by
      rw [List.drop_eq_getElem_cons hcount]
      rfl
    have hnext := ih (mapInsert table (fn.parameters.get ⟨count, hcount⟩) v) (count + 1)
      (by omega)
    rw [← hU] at hnext
    have := functionCallLoop_arg I I2 eff fn table count v I.current _ _ hT
      (by rw [moveTo_self]; exact hexpr) hp hnext
    rw [moveTo_self] at this
    refine Returns.to this ?_
    rw [hd, hU]
    simp only [bindParameters, List.length_cons]
    congr 2
    omega

/-- Binding parameters leaves the keys with other bytes as they were. -/
theorem bindParameters_other (ps : List Slice) :
    ∀ (vs : List Nat) (m : UnorderedMap) (n : Nat), MapTight m n → n + ps.length < 2 ^ 50 →
      MapTight (bindParameters m ps vs) (n + ps.length) ∧
      ∀ k : Slice, (∀ p ∈ ps, p.bytes ≠ k.bytes) →
        mapGet (bindParameters m ps vs) k = mapGet m k ∧
        mapContains (bindParameters m ps vs) k = mapContains m k := by
  induction ps with
  | nil =>
    intro vs m n ht _
    exact ⟨ht, fun k _ => ⟨rfl, rfl⟩⟩
  | cons p ps ih =>
    intro vs m n ht hn
    simp only [List.length_cons] at hn
    cases vs with
    | nil => exact ⟨mapTight_mono _ _ _ ht (by simp), fun k _ => ⟨rfl, rfl⟩⟩
    | cons v vs =>
      obtain ⟨ht2, _, hlook⟩ := mapTight_insert m n ht (by omega) p v
      obtain ⟨r1, r2⟩ := ih vs (mapInsert m p v) (n + 1) ht2 (by omega)
      refine ⟨?_, fun k hk => ?_⟩
      · simp only [bindParameters, List.length_cons]
        rw [show n + (ps.length + 1) = n + 1 + ps.length by omega]
        exact r1
      · have hpk : p.bytes ≠ k.bytes := hk p (List.mem_cons_self _ _)
        obtain ⟨g1, g2⟩ := r2 k (fun q hq => hk q (List.mem_cons_of_mem _ hq))
        simp only [bindParameters]
        rw [g1, g2, (hlook k).1, (hlook k).2, if_neg hpk]
        simp [hpk]

/-- After the binding, a parameter whose name no later parameter has reads as the value at
its position: the parameters are bound in the order of the declaration. -/
theorem bindParameters_get (ps : List Slice) :
    ∀ (vs : List Nat) (m : UnorderedMap) (n : Nat), MapTight m n → n + ps.length < 2 ^ 50 →
      (ps.map Slice.bytes).Nodup → ∀ (i : Nat) (p : Slice) (v : Nat),
        ps.get? i = some p → vs.get? i = some v →
        mapGet (bindParameters m ps vs) p = v ∧
        mapContains (bindParameters m ps vs) p = true := by
  induction ps with
  | nil =>
    intro vs m n _ _ _ i p v hp
    cases hp
  | cons q ps ih =>
    intro vs m n ht hn hnd i p v hp hv
    simp only [List.length_cons] at hn
    simp only [List.map_cons, List.nodup_cons] at hnd
    cases vs with
    | nil => cases hv
    | cons u vs =>
      obtain ⟨ht2, _, hlook⟩ := mapTight_insert m n ht (by omega) q u
      cases i with
      | zero =>
        simp only [List.get?_cons_zero, Option.some.injEq] at hp hv
        subst hp hv
        obtain ⟨_, r2⟩ := bindParameters_other ps vs (mapInsert m q u) (n + 1) ht2 (by omega)
        obtain ⟨g1, g2⟩ := r2 q (fun p hp hb => hnd.1 (hb ▸ List.mem_map_of_mem _ hp))
        simp only [bindParameters]
        rw [g1, g2, (hlook q).1, (hlook q).2, if_pos rfl]
        simp
      | succ i =>
        simp only [List.get?_cons_succ] at hp hv
        exact ih vs (mapInsert m q u) (n + 1) ht2 (by omega) hnd.2 i p v hp hv

/-- C1: for every call-free, variable-free expression of the grammar (decimal literals,
parentheses, `!` and the thirteen binary operators, written with any whitespace), followed
by text that does not continue it, `expression` returns, given enough fuel, the value of the
reference evaluator `Expr.value` (precedence chain `!`, `* / %`, `+ -`, relational,
equality, `&&`, `||`; left associative; arithmetic modulo `2 ^ 64`; division and remainder
by zero are `0`), changes nothing but the cursor, and leaves the cursor after the expression
and the whitespace behind it. -/
theorem C1_expression_matches_reference (e : Expr) (hwf : e.wellFormed = true)
    (hfree : e.variableFree = true) (rest : List Nat) (hrest : EndsExpression rest)
    (interpreter : Interpreter) (effects insideFunction : Bool) :
    ∃ n, ∀ fuel, n ≤ fuel →
      expression fuel (interpreter.moveTo (e.render ++ rest)) effects insideFunction =
        .ok e.value (interpreter.moveTo (skipBytes rest)) := by
  have h := expression_render e hwf rest hrest interpreter effects insideFunction
  rw [valueIn_of_variableFree e hfree] at h
  exact h

/-- C1 at `2 + 3 * 4`, which evaluates to `14`. -/
theorem C1_witness :
    (Expr.bin .add (.lit [] (cstr "2")) (cstr " ")
        (.bin .mul (.lit (cstr " ") (cstr "3")) (cstr " ") (.lit (cstr " ") (cstr "4")))).wellFormed
      = true ∧
    (Expr.bin .add (.lit [] (cstr "2")) (cstr " ")
        (.bin .mul (.lit (cstr " ") (cstr "3")) (cstr " ") (.lit (cstr " ") (cstr "4")))).variableFree
      = true ∧ EndsExpression [] ∧
    ∃ n, ∀ fuel, n ≤ fuel →
      expression fuel ((interpreterConstructor []).moveTo (cstr "2 + 3 * 4" ++ [])) true false =
        .ok 14 ((interpreterConstructor []).moveTo (skipBytes [])) :=
  ⟨by decide, by decide, endsExpression_nil,
    C1_expression_matches_reference
      (Expr.bin .add (.lit [] (cstr "2")) (cstr " ")
        (.bin .mul (.lit (cstr " ") (cstr "3")) (cstr " ") (.lit (cstr " ") (cstr "4"))))
      (by decide) (by decide) [] endsExpression_nil (interpreterConstructor []) true false⟩

/-- C2: for all 64-bit values `X` and `Y`, the run of the program
`x = X fun add(a,b) { return a + b } print(add(x, Y))` completes, and its output is exactly
one line, the number `(X + Y) mod 2^64` (first part).  In that run (second part) the two
statements in front of the call leave the global `x` as `X` and `add` registered with the
parameters `a`, `b`; the arguments of `add(x, Y)` evaluate from left to right, in the
interpreter of the caller, to `X` and `Y`; the argument loop binds them in the order of the
declaration, `a` to `X` and `b` to `Y`; and the call yields the returned value
`(X + Y) mod 2^64`.  For every function and every call (third part): when the arguments
evaluate from left to right to the values `vs`, each in the interpreter that the one before
left and with the local table of the caller, the argument loop returns a table in which
the parameter at position `i` reads as the value at position `i` (the parameter names being
distinct).  The program `x = 5 fun sub(a,b) { return a - b } print(sub(x, 3))` prints `2`,
and `fun p(v) { print(v) return v } fun sub(a,b) { return a - b } print(sub(p(5), p(3)))`
prints `5`, `3`, `2`: the first argument is evaluated first and bound to the first
parameter. -/
theorem C2_add_program_prints_sum (X Y : Nat) (hX : X < 2 ^ 64) (hY : Y < 2 ^ 64) :
    (∃ n, ∀ fuel, n ≤ fuel →
      runOutcome fuel (addProgram X Y) = .completed [(X + Y) % 2 ^ 64]) ∧
    (∃ (glob : UnorderedMap) (fns : UnorderedFunctionMap) (add : Function) (pa pb : Slice)
        (table : UnorderedMap),
      pa.bytes = cstr "a" ∧ pb.bytes = cstr "b" ∧ add.parameters = [pa, pb] ∧
      mapGet glob (nameSlice (cstr "x")) = X ∧
      functionMapGet fns (nameSlice (cstr "add")) = some add ∧
      (∃ S1 : Interpreter,
        Returns (fun f => statement f (interpreterConstructor (addProgram X Y)) true false)
          (.ok true S1) ∧
        Returns (fun f => statement f S1 true false)
          (.ok true ⟨addProgram X Y, cstr " print(add(x, " ++ (decimal Y ++ cstr "))"),
            ⟨false, 0⟩, mapCreate, glob, fns, []⟩)) ∧
      ArgumentsYield true
        ⟨addProgram X Y, cstr "x, " ++ (decimal Y ++ cstr "))"), ⟨false, 0⟩, mapCreate, glob,
          fns, []⟩ [X, Y]
        ⟨addProgram X Y, cstr ")", ⟨false, 0⟩, mapCreate, glob, fns, []⟩ ∧
      Returns (fun f => functionCallLoop f
          ⟨addProgram X Y, cstr "x, " ++ (decimal Y ++ cstr "))"), ⟨false, 0⟩, mapCreate, glob,
            fns, []⟩ true add mapCreate 0)
        (.ok (table, 2) ⟨addProgram X Y, cstr ")", ⟨false, 0⟩, mapCreate, glob, fns, []⟩) ∧
      mapGet table pa = X ∧ mapGet table pb = Y ∧
      Returns (fun f => functionCall f
          ⟨addProgram X Y, cstr "x, " ++ (decimal Y ++ cstr "))"), ⟨false, 0⟩, mapCreate, glob,
            fns, []⟩ true add)
        (.ok ((X + Y) % 2 ^ 64)
          ⟨addProgram X Y, cstr ")", ⟨false, 0⟩, mapCreate, glob, fns, []⟩)) ∧
    (∀ (eff : Bool) (fn : Function) (I J : Interpreter) (vs : List Nat),
      fn.parameters.length < 2 ^ 50 → ArgumentsYield eff I vs J →
      vs.length ≤ fn.parameters.length →
        ∃ table : UnorderedMap,
          Returns (fun f => functionCallLoop f I eff fn mapCreate 0)
            (.ok (table, vs.length) J) ∧
          ((fn.parameters.map Slice.bytes).Nodup → ∀ (i : Nat) (p : Slice) (v : Nat),
            fn.parameters.get? i = some p → vs.get? i = some v →
              mapGet table p = v ∧ mapContains table p = true)) ∧
    (∃ n, ∀ fuel, n ≤ fuel →
      runOutcome fuel (cstr "x = 5 fun sub(a,b) \x7b return a - b \x7d print(sub(x, 3))") =
        .completed [2]) ∧
    (∃ n, ∀ fuel, n ≤ fuel →
      runOutcome fuel (cstr ("fun p(v) \x7b print(v) return v \x7d " ++
        "fun sub(a,b) \x7b return a - b \x7d print(sub(p(5), p(3)))")) =
        .completed [5, 3, 2]) := by
  obtain ⟨glob, fns, add, pa, pb, hpa, hpb, hps, hx, hadd, hst, hyield, hargs, -, -, hcall,
    hrun⟩ := addProgram_trace X Y hX hY
  have hnd : ([pa, pb].map Slice.bytes).Nodup := by
    simp only [List.map_cons, List.map_nil, hpa, hpb]
    decide
  refine ⟨runOutcome_of_returns _ _ hrun, ⟨glob, fns, add, pa, pb, _, hpa, hpb, hps, hx, hadd,
    hst, hyield, hargs, ?_, ?_, hcall⟩, ?_, ⟨200, runOutcome_stable (by decide!) (by decide)⟩,
    ⟨200, runOutcome_stable (by decide!) (by decide)⟩⟩
  · exact (bindParameters_get [pa, pb] [X, Y] mapCreate 0 mapTight_create (by norm_num) hnd
      0 pa X rfl rfl).1
  · exact (bindParameters_get [pa, pb] [X, Y] mapCreate 0 mapTight_create (by norm_num) hnd
      1 pb Y rfl rfl).1
  · intro eff fn I J vs hlen hy hvs
    have hU : fn.parameters.length < U64 := by
      have h50 : (2 : Nat) ^ 50 = 1125899906842624 := by norm_num
      have : U64 = 18446744073709551616 := by decide
      omega
    have h := functionCallLoop_binds eff fn hU I J vs hy mapCreate 0 (by omega)
    refine ⟨bindParameters mapCreate fn.parameters vs, ?_, fun hnd i p v hp hv => ?_⟩
    · simpa using h
    · exact bindParameters_get fn.parameters vs mapCreate 0 mapTight_create (by omega) hnd i p v
        hp hv

/-- C2 at `X = 5`, `Y = 3`: the program prints `8`; and for the arguments `5, 3` of a function
with the parameters `a`, `b` the argument loop binds `a` to `5` and `b` to `3`. -/
theorem C2_witness :
    5 < 2 ^ 64 ∧ 3 < 2 ^ 64 ∧
    (∃ n, ∀ fuel, n ≤ fuel →
      runOutcome fuel (cstr "x = 5 fun add(a,b) \x7b return a + b \x7d print(add(x, 3))") =
        .completed [8]) ∧
    ∃ table : UnorderedMap,
      Returns (fun f => functionCallLoop f (sampleState (cstr "5, 3)") mapCreate mapCreate) true
        ⟨nameSlice (cstr "sub"), cstr " \x7b return a - b \x7d", 2,
          [nameSlice (cstr "a"), nameSlice (cstr "b")]⟩ mapCreate 0)
        (.ok (table, 2) (sampleState [] mapCreate mapCreate)) ∧
      mapGet table (nameSlice (cstr "a")) = 5 ∧ mapGet table (nameSlice (cstr "b")) = 3 :=
  ⟨by decide, by decide, (C2_add_program_prints_sum 5 3 (by decide) (by decide)).1,
    match (C2_add_program_prints_sum 5 3 (by decide) (by decide)).2.2.1 true
        ⟨nameSlice (cstr "sub"), cstr " \x7b return a - b \x7d", 2,
          [nameSlice (cstr "a"), nameSlice (cstr "b")]⟩
        (sampleState (cstr "5, 3)") mapCreate mapCreate) (sampleState [] mapCreate mapCreate) [5, 3] (by decide)
        (ArgumentsYield.arg (sampleState (cstr "5, 3)") mapCreate mapCreate)
          (sampleState (cstr ", 3)") mapCreate mapCreate) _ 5 [3] (by decide)
          (Result.le.returns (fun n => expression_mono n _ true true)
            (show expression 30 _ true true = _ from by decide!) (by simp))
          (ArgumentsYield.arg (sampleState (cstr " 3)") mapCreate mapCreate)
            (sampleState (cstr ")") mapCreate mapCreate) _ 3 [] (by decide)
            (Result.le.returns (fun n => expression_mono n _ true true)
              (show expression 30 _ true true = _ from by decide!) (by simp))
            (ArgumentsYield.done (sampleState (cstr ")") mapCreate mapCreate) [] (by decide))))
        (by decide) with
    | ⟨table, h1, h2⟩ =>
      ⟨table, h1, (h2 (by decide) 0 _ 5 rfl rfl).1, (h2 (by decide) 1 _ 3 rfl rfl).1⟩⟩

/-- C3: for all 64-bit values `N` and `M`, the run of the program
`fun f(n) { if (n) { return 1 } return 0 } print(f(N)) print(f(M))` completes and prints,
for each of the two calls, `1` when the argument is nonzero and `0` when it is `0`: the
return executed inside the `if` block stops the body, and `return 0` is reached only when
the block is skipped.  With `N = 0` and `M = 7` the output is `0` then `1`. -/
theorem C3_return_inside_if_stops_the_body (N M : Nat) (hN : N < 2 ^ 64) (hM : M < 2 ^ 64) :
    ∃ n, ∀ fuel, n ≤ fuel →
      runOutcome fuel (signProgram N M) =
        .completed [if N = 0 then 0 else 1, if M = 0 then 0 else 1] := by
  obtain ⟨I, ho, h⟩ := signProgram_run N M hN hM
  have := runOutcome_of_returns _ I h
  rwa [ho] at this

theorem C3_witness :
    0 < 2 ^ 64 ∧ 7 < 2 ^ 64 ∧ ∃ n, ∀ fuel, n ≤ fuel →
      runOutcome fuel
        (cstr "fun f(n) \x7b if (n) \x7b return 1 \x7d return 0 \x7d print(f(0)) print(f(7))")
        = .completed [0, 1] :=
  ⟨by decide, by decide, C3_return_inside_if_stops_the_body 0 7 (by decide) (by decide)⟩


/-- C4: for every `K < 2^64` the run of `i = 0 while (i < K) { print(i) i = i + 1 }`
completes without failure, its output is exactly the lines `0, 1, ..., K-1` in this order
(nothing for `K = 0`), and it leaves the global variable `i` equal to `K`. -/
theorem C4_while_counts_to_K (K : Nat) (hK : K < 2 ^ 64) :
    ∃ I : Interpreter, I.output = List.range K ∧
      mapGet I.symbolTable (nameSlice (cstr "i")) = K ∧
      ∃ n, ∀ fuel, n ≤ fuel → run fuel (interpreterConstructor (countProgram K)) = .ok () I :=
  countProgram_run K hK

theorem C4_witness :
    3 < 2 ^ 64 ∧ ∃ I : Interpreter, I.output = [0, 1, 2] ∧
      mapGet I.symbolTable (nameSlice (cstr "i")) = 3 ∧
      ∃ n, ∀ fuel, n ≤ fuel →
        run fuel (interpreterConstructor
          (cstr "i = 0 while (i < 3) \x7b print(i) i = i + 1 \x7d")) = .ok () I :=
  ⟨by decide, C4_while_counts_to_K 3 (by decide)⟩

/-- C5: the statement `if (e) { A } else { B }`, where the condition `e` is a call-free
expression and the blocks `A` and `B` are sequences of assignments and calls of `print`.
When the value of `e` is nonzero the statement has exactly the effects of the statements of
`A` in their order (`execBlock` on `A`: the variable writes and the printed lines) and none
of `B`; when the value is `0` it has exactly the effects of `B` and none of `A`.  In both
cases the cursor is left just after the closing brace of the `else` block. -/
theorem C5_if_else_runs_exactly_one_block (I : Interpreter) (eff ins : Bool) (e : Expr)
    (A B : List Simple) (wsA wsB rest : List Nat) (hwf : e.wellFormed = true)
    (hA : ∀ s ∈ A, s.wellFormed = true) (hB : ∀ s ∈ B, s.wellFormed = true)
    (hwsA : wsA.all isspace = true) (hwsB : wsB.all isspace = true)
    (hp : ins = true → I.functionReturn.exists_ = false)
    (hprint : functionMapGet I.functionNameMap (nameSlice (cstr "print")) =
      some createPrintFunction) :
    Returns (fun f => statement f
        (I.moveTo (cstr "if (" ++ (e.render ++ (cstr ") \x7b" ++
          blockText A wsA (cstr " else \x7b" ++ blockText B wsB rest))))) eff ins)
      (.ok true ((if e.valueIn (variableValue I ins) = 0 then execBlock eff ins I B wsB rest
        else execBlock eff ins I A wsA (cstr " else \x7b" ++ blockText B wsB rest)).moveTo
          rest)) := by
  have hcond := expression_render e hwf
    (cstr ") \x7b" ++ blockText A wsA (cstr " else \x7b" ++ blockText B wsB rest))
    (endsExpression_of_head _ _ 41 rfl rfl (by decide)) I eff ins
  have hBend := blockEnd_blockText wsB rest hwsB B hB
  have hAend : blockEnd 1 (blockText A wsA (cstr " else \x7b" ++ blockText B wsB rest)) =
      some (cstr " " ++ cstr "else" ++ (cstr " \x7b" ++ blockText B wsB rest)) :=
    blockEnd_blockText wsA _ hwsA A hA
  refine statement_if I eff ins [] (cstr " (" ++ (e.render ++ (cstr ") \x7b" ++
    blockText A wsA (cstr " else \x7b" ++ blockText B wsB rest)))) _ rfl rfl hp ?_
  by_cases hv : e.valueIn (variableValue I ins) = 0
  · rw [if_pos hv]
    rw [hv] at hcond
    exact ifStatement_false_else I I eff ins
      (cstr " (" ++ (e.render ++ (cstr ") \x7b" ++
        blockText A wsA (cstr " else \x7b" ++ blockText B wsB rest))))
      (e.render ++ (cstr ") \x7b" ++ blockText A wsA (cstr " else \x7b" ++ blockText B wsB rest)))
      (cstr ") \x7b" ++ blockText A wsA (cstr " else \x7b" ++ blockText B wsB rest))
      (cstr " \x7b" ++ blockText A wsA (cstr " else \x7b" ++ blockText B wsB rest))
      (blockText A wsA (cstr " else \x7b" ++ blockText B wsB rest))
      (cstr " ") (cstr " \x7b" ++ blockText B wsB rest) (blockText B wsB rest) _
      rfl hcond rfl rfl hAend rfl rfl rfl
      (blockLoop_simple wsB rest hwsB eff ins B hB I _ rfl hp hprint)
  · rw [if_neg hv]
    exact ifStatement_true_else I I
      (execBlock eff ins I A wsA (cstr " else \x7b" ++ blockText B wsB rest)) eff ins
      (cstr " (" ++ (e.render ++ (cstr ") \x7b" ++
        blockText A wsA (cstr " else \x7b" ++ blockText B wsB rest))))
      (e.render ++ (cstr ") \x7b" ++ blockText A wsA (cstr " else \x7b" ++ blockText B wsB rest)))
      (cstr ") \x7b" ++ blockText A wsA (cstr " else \x7b" ++ blockText B wsB rest))
      (cstr " \x7b" ++ blockText A wsA (cstr " else \x7b" ++ blockText B wsB rest))
      (blockText A wsA (cstr " else \x7b" ++ blockText B wsB rest))
      (cstr " ") (cstr " \x7b" ++ blockText B wsB rest) (blockText B wsB rest) rest _
      rfl hcond hv rfl rfl
      (blockLoop_simple wsA _ hwsA eff ins A hA I _ rfl hp hprint) rfl rfl rfl hBend

theorem C5_witness :
    Returns (fun f => statement f
        ((interpreterConstructor []).moveTo
          (cstr "if (7) \x7b x = 1 \x7d else \x7b x = 2 print(x) \x7d")) true false)
      (.ok true (Interpreter.moveTo
        { interpreterConstructor [] with
          symbolTable := (mapInsert mapCreate
            (sliceConstructorLen (cstr "x = 1 \x7d else \x7b x = 2 print(x) \x7d") 1) 1) }
        [])) :=
  C5_if_else_runs_exactly_one_block (interpreterConstructor []) true false
    (.lit [] (cstr "7"))
    [.assign (cstr " ") (cstr "x") (cstr " ") (.lit (cstr " ") (cstr "1"))]
    [.assign (cstr " ") (cstr "x") (cstr " ") (.lit (cstr " ") (cstr "2")),
     .print (cstr " ") [] (.var [] (cstr "x")) []]
    (cstr " ") (cstr " ") [] (by decide) (by decide) (by decide) (by decide) (by decide)
    (fun h => by simp at h) (functionMapGet_constructor_print [])


/-- C6 (the code departs from the specification): in the program `fun g() { return 5 }
fun f() { while (g() == 5) { if (1) { return 1 } } return 2 } print(f())` the call `f()`
yields `2`, not `1`.  The value `1` stored in the pending-return slot by `return 1` is not
drained by the call of `f`: the body loop of `while` leaves at the closing brace without
looking at the slot, the condition is evaluated again, and the call of `g` inside it drains
the slot (yielding `1`), so the loop ends and `return 2` is executed. -/
theorem C6_pending_return_is_drained_by_another_call :
    ∃ n, ∀ fuel, n ≤ fuel →
      runOutcome fuel (cstr ("fun g() \x7b return 5 \x7d fun f() \x7b while (g() == 5) " ++
        "\x7b if (1) \x7b return 1 \x7d \x7d return 2 \x7d print(f())")) = .completed [2] :=
  ⟨200, runOutcome_stable (by decide!) (by decide)⟩

/-- C7: inside a function (`insideFunction = true`), the assignment `name = e` to a name
that the global table does not contain writes the local table of the call only: the global
table is left as it is (first part).  No call adds a key to the global table, so after any
call a name that was not bound globally before it is still not bound there, a top-level
read of it yields `0`, and the local table is again the caller's, the binding being gone
with the table of the call (second part).  The program `fun f() { y = 5 } f() print(y)`
prints `0` (third part). -/
theorem C7_local_assignment_stays_local (I I2 : Interpreter) (ws name ws2 t : List Nat)
    (v : Nat) (hws : ws.all isspace = true) (hname : isIdentifierText name = true)
    (hkw : isKeyword name = false) (hws2 : ws2.all isspace = true)
    (hp : I.functionReturn.exists_ = false)
    (hexpr : Returns (fun f => expression f (I.moveTo t) true true) (.ok v I2))
    (hglob : mapContains I2.symbolTable (nameSlice name) = false) :
    (∃ key : Slice, key.bytes = name ∧
      Returns (fun f => statement f (I.moveTo (ws ++ name ++ (ws2 ++ cstr "=" ++ t))) true true)
        (.ok true { I2 with currentSymbolTable := mapInsert I2.currentSymbolTable key v })) ∧
    (∀ (fuel : Nat) (K L : Interpreter) (eff : Bool) (fn : Function) (r : Nat),
      functionCall fuel K eff fn = .ok r L →
      mapContains K.symbolTable (nameSlice name) = false →
        mapContains L.symbolTable (nameSlice name) = false ∧
        variableValue L false name = 0 ∧
        L.currentSymbolTable = K.currentSymbolTable) ∧
    (∃ n, ∀ fuel, n ≤ fuel →
      runOutcome fuel (cstr "fun f() \x7b y = 5 \x7d f() print(y)") = .completed [0]) := by
  refine ⟨⟨sliceConstructorLen (name ++ (ws2 ++ cstr "=" ++ t)) name.length, bytes_append _ _,
    ?_⟩, ?_, ⟨200, runOutcome_stable (by decide!) (by decide)⟩⟩
  · have h := statement_assign I I2 true true ws name ws2 t v hws hname hkw hws2 (fun _ => hp)
      hexpr
    have hg : mapContains I2.symbolTable
        (sliceConstructorLen (name ++ (ws2 ++ cstr "=" ++ t)) name.length) = false := by
      rw [mapContains_bytes _ _ (nameSlice name) (by rw [bytes_append, bytes_nameSlice])]
      exact hglob
    refine Returns.to h ?_
    simp only [if_true, assignVariable, Bool.not_true, Bool.false_eq_true, if_false, hg]
    split <;> rfl
  · intro fuel K L eff fn r hcall hK
    have hL := functionCall_keeps fuel K L eff fn r hcall _ hK
    refine ⟨hL, ?_, functionCall_restores fuel K L eff fn r hcall⟩
    simp only [variableValue, Bool.false_and, Bool.false_eq_true, if_false]
    exact mapGet_absent _ _ hL

theorem C7_witness :
    (∃ key : Slice, key.bytes = cstr "y" ∧
      Returns (fun f => statement f
          ((interpreterConstructor []).moveTo (cstr " " ++ cstr "y" ++
            (cstr " " ++ cstr "=" ++ cstr " 5 \x7d"))) true true)
        (.ok true { (interpreterConstructor []).moveTo (cstr "\x7d") with
          currentSymbolTable := mapInsert mapCreate key 5 })) :=
  (C7_local_assignment_stays_local (interpreterConstructor [])
    ((interpreterConstructor []).moveTo (cstr "\x7d")) (cstr " ") (cstr "y") (cstr " ")
    (cstr " 5 \x7d") 5 (by decide) (by decide) (by decide) (by decide) rfl
    (Result.le.returns (fun n => expression_mono n _ true true)
      (show expression 30 _ true true = _ from by decide!) (by simp))
    (by decide)).1


/-- C8: inside a function (`insideFunction = true`), the assignment `name = e` to a name
that the local table of the call does not contain and the global table contains writes the
value of `e` to the global entry: the local table is left as it is (no local entry is
created), the keys of the global table are the same as before, and a top-level read of the
name then yields the new value.  The program `x = 1 fun f() { x = 2 } f() print(x)`
prints `2`. -/
theorem C8_assignment_to_global_inside_function (I I2 : Interpreter)
    (ws name ws2 t : List Nat) (v : Nat) (hws : ws.all isspace = true)
    (hname : isIdentifierText name = true) (hkw : isKeyword name = false)
    (hws2 : ws2.all isspace = true) (hp : I.functionReturn.exists_ = false)
    (hexpr : Returns (fun f => expression f (I.moveTo t) true true) (.ok v I2))
    (hloc : mapContains I2.currentSymbolTable (nameSlice name) = false)
    (hglob : mapContains I2.symbolTable (nameSlice name) = true) :
    (∃ J : Interpreter,
      Returns (fun f => statement f (I.moveTo (ws ++ name ++ (ws2 ++ cstr "=" ++ t))) true true)
        (.ok true J) ∧
      J.currentSymbolTable = I2.currentSymbolTable ∧
      (∀ k, mapContains J.symbolTable k = mapContains I2.symbolTable k) ∧
      variableValue J false name = v) ∧
    (∃ n, ∀ fuel, n ≤ fuel →
      runOutcome fuel (cstr "x = 1 fun f() \x7b x = 2 \x7d f() print(x)") = .completed [2]) := by
  refine ⟨?_, ⟨200, runOutcome_stable (by decide!) (by decide)⟩⟩
  have h := statement_assign I I2 true true ws name ws2 t v hws hname hkw hws2 (fun _ => hp)
    hexpr
  have hb : (sliceConstructorLen (name ++ (ws2 ++ cstr "=" ++ t)) name.length).bytes =
      (nameSlice name).bytes := by rw [bytes_append, bytes_nameSlice]
  have hl : mapContains I2.currentSymbolTable
      (sliceConstructorLen (name ++ (ws2 ++ cstr "=" ++ t)) name.length) = false := by
    rw [mapContains_bytes _ _ (nameSlice name) hb]
    exact hloc
  have hg : mapContains I2.symbolTable
      (sliceConstructorLen (name ++ (ws2 ++ cstr "=" ++ t)) name.length) = true := by
    rw [mapContains_bytes _ _ (nameSlice name) hb]
    exact hglob
  refine ⟨{ I2 with symbolTable := (mapInsert I2.symbolTable
      (sliceConstructorLen (name ++ (ws2 ++ cstr "=" ++ t)) name.length) v) }, ?_, rfl, ?_, ?_⟩
  · refine Returns.to h ?_
    simp only [if_true, assignVariable, Bool.not_true, Bool.false_eq_true, if_false, hl, hg]
  · intro k
    exact mapContains_insert_present _ _ k v hg
  · simp only [variableValue, Bool.false_and, Bool.false_eq_true, if_false]
    rw [mapGet_insert_present _ _ _ v hg, if_pos hb]

theorem C8_witness :
    ∃ J : Interpreter,
      Returns (fun f => statement f
          (Interpreter.moveTo
            { interpreterConstructor [] with
              symbolTable := (mapInsert mapCreate (nameSlice (cstr "x")) 1) }
            (cstr " " ++ cstr "x" ++ (cstr " " ++ cstr "=" ++ cstr " 2 \x7d"))) true true)
        (.ok true J) ∧
      J.currentSymbolTable = mapCreate ∧
      (∀ k, mapContains J.symbolTable k =
        mapContains (mapInsert mapCreate (nameSlice (cstr "x")) 1) k) ∧
      variableValue J false (cstr "x") = 2 :=
  (C8_assignment_to_global_inside_function
    { interpreterConstructor [] with
      symbolTable := (mapInsert mapCreate (nameSlice (cstr "x")) 1) }
    (Interpreter.moveTo { interpreterConstructor [] with
      symbolTable := (mapInsert mapCreate (nameSlice (cstr "x")) 1) } (cstr "\x7d"))
    (cstr " ") (cstr "x") (cstr " ")
    (cstr " 2 \x7d") 2 (by decide) (by decide) (by decide) (by decide) rfl
    (Result.le.returns (fun n => expression_mono n _ true true)
      (show expression 30 _ true true = _ from by decide!) (by simp))
    (by decide) (by decide)).1


/-- C9 (the code departs from the specification): a call with more arguments than
parameters does not reach the arity check.  For every argument the loop of `functionCall`
reads `parameters[parameterCount]` before the count is compared, so the first surplus
argument reads the parameter array at index `n`, outside of its `n` elements: the runs of
`fun f() { } f(1)` and of `print(1, 2)` end in undefined behaviour, not in `fail`.  With
too few arguments the call does abort via `fail`: `fun f(a) { } f()`. -/
theorem C9_surplus_argument_reads_outside_the_parameters :
    (∃ n, ∀ fuel, n ≤ fuel →
      runOutcome fuel (cstr "fun f() \x7b \x7d f(1)") = .undefinedBehaviour []) ∧
    (∃ n, ∀ fuel, n ≤ fuel →
      runOutcome fuel (cstr "print(1, 2)") = .undefinedBehaviour []) ∧
    (∃ n, ∀ fuel, n ≤ fuel →
      runOutcome fuel (cstr "fun f(a) \x7b \x7d f()") = .failed []) :=
  ⟨⟨100, runOutcome_stable (by decide!) (by decide)⟩,
   ⟨100, runOutcome_stable (by decide!) (by decide)⟩,
   ⟨100, runOutcome_stable (by decide!) (by decide)⟩⟩


/-- C11: an identifier that no `(` follows and that is bound neither in the active local
table (consulted inside a function body only) nor in the global table evaluates, as the
operand `e1`, to `0`: the evaluation does not fail, and the interpreter that results is the
one before with the cursor moved behind the identifier, so both tables are as they were and
no binding is created.  This holds at top level (`ins = false`) and inside a function body
(`ins = true`).  The program `print(nosuch)` prints `0`, and so does
`fun f() { return nosuch } print(f())`. -/
theorem C11_unbound_variable_yields_zero (I : Interpreter) (eff ins : Bool)
    (ws name rest : List Nat)
    (hws : ws.all isspace = true) (hname : isIdentifierText name = true)
    (hrest : isalnum (rest.headD 0) = false) (hpar : matchBytes [40] (skipBytes rest) = none)
    (hloc : ins = true → mapContains I.currentSymbolTable (nameSlice name) = false)
    (hglob : mapContains I.symbolTable (nameSlice name) = false) :
    (∃ J : Interpreter,
      Returns (fun f => e1 f (I.moveTo (ws ++ name ++ rest)) eff ins) (.ok 0 J) ∧
      J.current = skipBytes rest ∧ J.symbolTable = I.symbolTable ∧
      J.currentSymbolTable = I.currentSymbolTable ∧ J.output = I.output ∧
      mapContains J.symbolTable (nameSlice name) = false ∧
      (ins = true → mapContains J.currentSymbolTable (nameSlice name) = false)) ∧
    (∃ n, ∀ fuel, n ≤ fuel → runOutcome fuel (cstr "print(nosuch)") = .completed [0]) ∧
    (∃ n, ∀ fuel, n ≤ fuel →
      runOutcome fuel (cstr "fun f() \x7b return nosuch \x7d print(f())") = .completed [0]) := by
  refine ⟨⟨I.moveTo (skipBytes rest), ?_, rfl, rfl, rfl, rfl, hglob, hloc⟩,
    ⟨200, runOutcome_stable (by decide!) (by decide)⟩,
    ⟨200, runOutcome_stable (by decide!) (by decide)⟩⟩
  have h := e1_variable I eff ins ws name rest hws hname hrest hpar
  have hv : variableValue I ins name = 0 := by
    unfold variableValue
    cases ins with
    | false => simpa using mapGet_absent _ _ hglob
    | true => simpa [hloc rfl] using mapGet_absent _ _ hglob
  rwa [hv] at h

theorem C11_witness :
    ∃ J : Interpreter,
      Returns (fun f => e1 f ((interpreterConstructor []).moveTo
          (cstr " " ++ cstr "nosuch" ++ cstr ") + 1")) true true) (.ok 0 J) ∧
      J.current = cstr ") + 1" ∧ J.symbolTable = (interpreterConstructor []).symbolTable ∧
      J.currentSymbolTable = (interpreterConstructor []).currentSymbolTable ∧
      J.output = (interpreterConstructor []).output ∧
      mapContains J.symbolTable (nameSlice (cstr "nosuch")) = false ∧
      (true = true → mapContains J.currentSymbolTable (nameSlice (cstr "nosuch")) = false) :=
  (C11_unbound_variable_yields_zero (interpreterConstructor []) true true
    (cstr " ") (cstr "nosuch") (cstr ") + 1") (by decide) (by decide) (by decide) (by decide)
    (fun _ => mapContains_create _) (mapContains_create _)).1

/-- C12: a call `id(...)` of an identifier that the function registry does not contain
fails.  As the operand `e1` and as an expression that begins with the call, the failure
happens right after the `(`; as a bare call statement (the identifier is not a keyword and,
inside a function, no return value is pending) it happens in front of the `(`.  In each
case the interpreter at the failure is the one before the call with the cursor moved, so no
argument has been evaluated: the output and both tables are as before.  The programs
`x = nosuch(print(1))`, `nosuch(print(1))` and `x = 1 + nosuch(print(7))` fail having
printed nothing, and `print(1) nosuch(print(2))` fails having printed `1` only. -/
theorem C12_unknown_function_call_fails (I : Interpreter) (eff ins : Bool)
    (ws name ws2 t : List Nat)
    (hws : ws.all isspace = true) (hname : isIdentifierText name = true)
    (hws2 : ws2.all isspace = true)
    (hfn : functionMapGet I.functionNameMap (nameSlice name) = none) :
    Returns (fun f => e1 f (I.moveTo (ws ++ name ++ (ws2 ++ 40 :: t))) eff ins)
      (.stop (.fail (I.moveTo t))) ∧
    Returns (fun f => expression f (I.moveTo (ws ++ name ++ (ws2 ++ 40 :: t))) eff ins)
      (.stop (.fail (I.moveTo t))) ∧
    (isKeyword name = false → (ins = true → I.functionReturn.exists_ = false) →
      Returns (fun f => statement f (I.moveTo (ws ++ name ++ (ws2 ++ 40 :: t))) eff ins)
        (.stop (.fail (I.moveTo (40 :: t))))) ∧
    (I.moveTo t).output = I.output ∧ (I.moveTo t).symbolTable = I.symbolTable ∧
    (I.moveTo t).currentSymbolTable = I.currentSymbolTable ∧
    (∃ n, ∀ fuel, n ≤ fuel → runOutcome fuel (cstr "x = nosuch(print(1))") = .failed []) ∧
    (∃ n, ∀ fuel, n ≤ fuel → runOutcome fuel (cstr "nosuch(print(1))") = .failed []) ∧
    (∃ n, ∀ fuel, n ≤ fuel → runOutcome fuel (cstr "x = 1 + nosuch(print(7))") = .failed []) ∧
    (∃ n, ∀ fuel, n ≤ fuel →
      runOutcome fuel (cstr "print(1) nosuch(print(2))") = .failed [1]) := by
  have hrest : isalnum ((ws2 ++ 40 :: t).headD 0) = false :=
    headD_ws_append ws2 _ 40 hws2 (by decide)
  have hsk : skipBytes (ws2 ++ 40 :: t) = 40 :: t := by
    rw [skipBytes_ws _ _ hws2]
    rfl
  have h1 := e1_call_unknown I eff ins ws name (ws2 ++ 40 :: t) t hws hname hrest hsk hfn
  obtain ⟨c, cs, hc, hca, hskn⟩ := skipBytes_name name (ws2 ++ 40 :: t) hname
  have hT : skipBytes (ws ++ name ++ (ws2 ++ 40 :: t)) = c :: (cs ++ (ws2 ++ 40 :: t)) := by
    rw [List.append_assoc, skipBytes_ws _ _ hws, hskn, hc]
    rfl
  refine ⟨h1, expression_stop_of_primary I eff ins _ _ c _ hT (isalpha_not_space c hca).2.2.1 h1,
    fun hkw hp => statement_call_unknown I eff ins ws name ws2 t hws hname hkw hws2 hp hfn,
    rfl, rfl, rfl,
    ⟨200, runOutcome_stable (by decide!) (by decide)⟩,
    ⟨200, runOutcome_stable (by decide!) (by decide)⟩,
    ⟨200, runOutcome_stable (by decide!) (by decide)⟩,
    ⟨200, runOutcome_stable (by decide!) (by decide)⟩⟩

theorem C12_witness :
    Returns (fun f => statement f ((interpreterConstructor []).moveTo
        (cstr " " ++ cstr "nosuch" ++ (cstr " " ++ 40 :: cstr "print(1))"))) true false)
      (.stop (.fail ((interpreterConstructor []).moveTo (40 :: cstr "print(1))")))) :=
  (C12_unknown_function_call_fails (interpreterConstructor []) true false
    (cstr " ") (cstr "nosuch") (cstr " ") (cstr "print(1))") (by decide) (by decide) (by decide)
    (by decide!)).2.2.1 (by decide) (fun h => absurd h (by decide))

/-- C13: `k` consecutive `!` in front of an operand of value `x` give, in `e2`, the value
`1` if `x = 0` and `0` otherwise when `k` is odd, the value `0` if `x = 0` and `1` otherwise
when `k` is even and at least two, and `x` itself when `k = 0`.  So `!x` is `0` for a
nonzero `x` and `1` for `x = 0`, and `!!x` is `0` or `1` whatever the size of `x`.  The
interpreter that results is the one the operand leaves. -/
theorem C13_repeated_not (I J : Interpreter) (eff ins : Bool) (wss : List (List Nat))
    (t t2 : List Nat) (d x : Nat) (hws : ∀ ws ∈ wss, ws.all isspace = true)
    (hsk : skipBytes t = d :: t2) (hd : d ≠ 33)
    (h : Returns (fun f => e1 f (I.moveTo t) eff ins) (.ok x J)) :
    Returns (fun f => e2 f (I.moveTo (notText wss t)) eff ins)
      (.ok (if wss.length = 0 then x
            else if wss.length % 2 = 1 then (if x = 0 then 1 else 0)
            else (if x = 0 then 0 else 1)) J) := by
  have h2 := e2Loop_notText I J eff ins wss t t2 d x hws hsk hd h false false
  have hv : notResult (if wss.length % 2 = 1 then !false else false) (false || !wss.isEmpty) x =
      (if wss.length = 0 then x
       else if wss.length % 2 = 1 then (if x = 0 then 1 else 0)
       else (if x = 0 then 0 else 1)) := by
    cases wss with
    | nil => simp [notResult]
    | cons ws wss =>
      have hne : (ws :: wss).length ≠ 0 := by simp
      rw [if_neg hne]
      simp only [List.isEmpty_cons, Bool.not_false, Bool.or_true, Bool.not_false]
      exact notResult_parity _ x
  rw [hv] at h2
  refine Returns.of_succ (fun f => ?_) h2
  rw [e2]

theorem C13_witness :
    Returns (fun f => e2 f ((interpreterConstructor []).moveTo
        (notText [cstr " ", []] (cstr "" ++ cstr "5" ++ cstr " + 1"))) true false)
      (.ok 1 ((interpreterConstructor []).moveTo (cstr " + 1"))) :=
  C13_repeated_not (interpreterConstructor []) ((interpreterConstructor []).moveTo (cstr " + 1"))
    true false [cstr " ", []] (cstr "" ++ cstr "5" ++ cstr " + 1") (cstr " + 1") 53 5
    (by decide) (by decide) (by decide)
    (e1_literal (interpreterConstructor []) true false (cstr "") (cstr "5") (cstr " + 1")
      (by decide) (by decide) (by decide) (by decide))

/-- C14: for each of the operators `<`, `<=`, `>`, `>=`, `==`, `!=` and operands `l` and `r`
of the grammar with the values `a` and `b`, `expression` on the text `l op r` yields `1`
when the unsigned comparison of `a` and `b` holds and `0` when it does not, and no other
value.  A chain `x op1 y op z` of two such operators (with `op1` binding at least as tightly
as `op`, as in `a < b < c`) is evaluated from the left: its value is the comparison by `op`
of the value `0` or `1` of `x op1 y` with the value of `z`. -/
theorem C14_comparisons_yield_zero_or_one (op : BinOp) (l r : Expr) (ws rest : List Nat)
    (I : Interpreter) (eff ins : Bool) (hop : op.isComparison = true)
    (hwf : (Expr.bin op l ws r).wellFormed = true) (hrest : EndsExpression rest) :
    Returns (fun f => expression f
        (I.moveTo (l.render ++ ws ++ op.text ++ r.render ++ rest)) eff ins)
      (.ok (if op.compares (l.valueIn (variableValue I ins)) (r.valueIn (variableValue I ins))
              = true then 1 else 0)
        (I.moveTo (skipBytes rest))) ∧
    ((if op.compares (l.valueIn (variableValue I ins)) (r.valueIn (variableValue I ins))
        = true then 1 else 0) = 0 ∨
     (if op.compares (l.valueIn (variableValue I ins)) (r.valueIn (variableValue I ins))
        = true then 1 else 0) = 1) ∧
    (∀ (op1 : BinOp) (x y : Expr) (ws1 : List Nat), op1.isComparison = true →
      l = .bin op1 x ws1 y →
      Returns (fun f => expression f
          (I.moveTo (x.render ++ ws1 ++ op1.text ++ y.render ++ ws ++ op.text ++ r.render ++ rest))
          eff ins)
        (.ok (if op.compares
                (if op1.compares (x.valueIn (variableValue I ins))
                  (y.valueIn (variableValue I ins)) = true then 1 else 0)
                (r.valueIn (variableValue I ins)) = true then 1 else 0)
          (I.moveTo (skipBytes rest)))) := by
  have main : Returns (fun f => expression f
        (I.moveTo (l.render ++ ws ++ op.text ++ r.render ++ rest)) eff ins)
      (.ok (if op.compares (l.valueIn (variableValue I ins)) (r.valueIn (variableValue I ins))
              = true then 1 else 0)
        (I.moveTo (skipBytes rest))) :=
    expression_value (.bin op l ws r) hwf rest hrest I eff ins _
      (apply_of_isComparison op hop _ _)
  refine ⟨main, ?_, ?_⟩
  · split <;> simp
  · intro op1 x y ws1 hop1 hl
    subst hl
    have := main
    simp only [Expr.render, Expr.valueIn, apply_of_isComparison op1 hop1] at this
    exact this

/-- C14 at `3 < 2 < 1`: the value is `(3 < 2) < 1`, that is `1`, not `3 < (2 < 1)`, which
is `0`. -/
theorem C14_witness :
    Returns (fun f => expression f ((interpreterConstructor []).moveTo (cstr "3 < 2 < 1")) true
      false) (.ok 1 ((interpreterConstructor []).moveTo [])) :=
  (C14_comparisons_yield_zero_or_one .lt
    (.bin .lt (.lit [] (cstr "3")) (cstr " ") (.lit (cstr " ") (cstr "2")))
    (.lit (cstr " ") (cstr "1")) (cstr " ") [] (interpreterConstructor []) true false
    (by decide) (by decide) endsExpression_nil).2.2 .lt (.lit [] (cstr "3"))
      (.lit (cstr " ") (cstr "2")) (cstr " ") (by decide) rfl

/-- C15: `L && R` and `L || R` evaluate both operands.  When `L` evaluates (in `e10` for
`&&`, in `e11` for `||`) to `a` leaving the interpreter `J`, and `R` evaluates from `J` to
`b` leaving the interpreter `K`, then the whole evaluates to `1` or `0`, the logical and
(or) of `a != 0` and `b != 0`, and leaves `K`: whatever `R` did (its output too) has
happened, whatever the value `a` is.  The program `x = 0 && print(7) print(x)` prints `7`
and then the value `0` of `x`; `x = 1 || print(7) print(x)` prints `7` and then `1`. -/
theorem C15_and_or_evaluate_both_operands (I J K : Interpreter) (eff ins : Bool)
    (T cL tR cR : List Nat) (a b : Nat) :
    (Returns (fun f => e10 f (I.moveTo T) eff ins) (.ok a (J.moveTo cL)) →
      skipBytes cL = cstr "&&" ++ tR →
      Returns (fun f => e10 f (J.moveTo tR) eff ins) (.ok b (K.moveTo cR)) →
      matchBytes (cstr "&&") (skipBytes cR) = none →
      Returns (fun f => e11 f (I.moveTo T) eff ins)
        (.ok (if a ≠ 0 ∧ b ≠ 0 then 1 else 0) (K.moveTo (skipBytes cR)))) ∧
    (Returns (fun f => e11 f (I.moveTo T) eff ins) (.ok a (J.moveTo cL)) →
      skipBytes cL = cstr "||" ++ tR →
      Returns (fun f => e11 f (J.moveTo tR) eff ins) (.ok b (K.moveTo cR)) →
      matchBytes (cstr "||") (skipBytes cR) = none →
      Returns (fun f => e12 f (I.moveTo T) eff ins)
        (.ok (if a ≠ 0 ∨ b ≠ 0 then 1 else 0) (K.moveTo (skipBytes cR)))) ∧
    (∃ n, ∀ fuel, n ≤ fuel →
      runOutcome fuel (cstr "x = 0 && print(7) print(x)") = .completed [7, 0]) ∧
    (∃ n, ∀ fuel, n ≤ fuel →
      runOutcome fuel (cstr "x = 1 || print(7) print(x)") = .completed [7, 1]) := by
  refine ⟨fun hL hsk hR hend => ?_, fun hL hsk hR hend => ?_,
    ⟨200, runOutcome_stable (by decide!) (by decide)⟩,
    ⟨200, runOutcome_stable (by decide!) (by decide)⟩⟩
  · have h := levelFn_two_operands 10 .and I J K eff ins T cL tR cR a b (by simp [opsAt]) hL
      (by rw [hsk]; rfl) hR (by simp only [opsAt, selectOp, BinOp.text, hend])
    have hv : BinOp.and.code a b = if a ≠ 0 ∧ b ≠ 0 then 1 else 0 := by
      simp only [BinOp.code]
      by_cases ha : a = 0 <;> by_cases hb : b = 0 <;> simp [ha, hb]
    rw [hv] at h
    exact h
  · have h := levelFn_two_operands 11 .or I J K eff ins T cL tR cR a b (by simp [opsAt]) hL
      (by rw [hsk]; rfl) hR (by simp only [opsAt, selectOp, BinOp.text, hend])
    have hv : BinOp.or.code a b = if a ≠ 0 ∨ b ≠ 0 then 1 else 0 := by
      simp only [BinOp.code]
      by_cases ha : a = 0 <;> by_cases hb : b = 0 <;> simp [ha, hb]
    rw [hv] at h
    exact h

/-- C15 at `0 && print(7)`: the value is `0`, and the `7` has been printed. -/
theorem C15_witness :
    Returns (fun f => e11 f ((interpreterConstructor []).moveTo (cstr " 0 && print(7)")) true
        false)
      (.ok 0
        (Interpreter.moveTo { interpreterConstructor [] with output := [7] } (skipBytes []))) :=
  (C15_and_or_evaluate_both_operands (interpreterConstructor []) (interpreterConstructor [])
    { interpreterConstructor [] with output := [7] } true false
    (cstr " 0 && print(7)") (cstr "&& print(7)") (cstr " print(7)") [] 0 0).1
    (Result.le.returns (fun n => levelFn_mono 10 n _ true false)
      (show levelFn 10 40 _ true false = _ by decide!) (by decide))
    rfl
    (Result.le.returns (fun n => levelFn_mono 10 n _ true false)
      (show levelFn 10 40 _ true false = _ by decide!) (by decide))
    (by decide)

/-- C16: `run` fails exactly when the loop of the top-level statements fails or the loop
ends and, after it, a byte that is not whitespace stands before the terminator.  A failure
inside the loop is the failure of `run`; when the loop has ended at the interpreter `K`,
`run` fails at the first such byte if there is one and completes if only whitespace is left.
The program `x = 1 }` fails and `x = 1 \n` completes. -/
theorem C16_run_fails_iff_loop_fails_or_text_remains (I : Interpreter) :
    ((∃ J, Returns (fun f => run f I) (.stop (.fail J))) ↔
      ((∃ J, Returns (fun f => statements f I true) (.stop (.fail J))) ∨
       (∃ K, Returns (fun f => statements f I true) (.ok () K) ∧
          ∃ b ∈ upToTerminator K.current, isspace b = false))) ∧
    (∀ J, Returns (fun f => statements f I true) (.stop (.fail J)) →
      Returns (fun f => run f I) (.stop (.fail J))) ∧
    (∀ K, Returns (fun f => statements f I true) (.ok () K) →
      (∃ b ∈ upToTerminator K.current, isspace b = false) →
      Returns (fun f => run f I) (.stop (.fail (skip K)))) ∧
    (∀ K, Returns (fun f => statements f I true) (.ok () K) →
      (∀ b ∈ upToTerminator K.current, isspace b = true) →
      Returns (fun f => run f I) (.ok () (skip K))) ∧
    (∃ n, ∀ fuel, n ≤ fuel → runOutcome fuel (cstr "x = 1 \x7d") = .failed []) ∧
    (∃ n, ∀ fuel, n ≤ fuel → runOutcome fuel (cstr "x = 1 \n") = .completed []) := by
  have hfail : ∀ K, Returns (fun f => statements f I true) (.ok () K) →
      (∃ b ∈ upToTerminator K.current, isspace b = false) →
      Returns (fun f => run f I) (.stop (.fail (skip K))) := by
    intro K hK hb
    have h := run_of_statements_ok I K hK
    have hne := (headD_skipBytes_ne_zero K.current).2 hb
    have he : endOrFail K = .stop (.fail (skip K)) := by
      simp only [endOrFail, fail, bne_iff_ne, ne_eq, hne, not_false_eq_true, if_true]
    rwa [he] at h
  refine ⟨⟨?_, ?_⟩, fun J h => run_of_statements_fail I J h, hfail, ?_,
    ⟨200, runOutcome_stable (by decide!) (by decide)⟩,
    ⟨200, runOutcome_stable (by decide!) (by decide)⟩⟩
  · rintro ⟨J, hJ⟩
    obtain ⟨r2, hr2, he⟩ := statements_of_run I _ (by simp) hJ
    cases r2 with
    | stop s =>
      simp only [Result.bind] at he
      rw [← he] at hr2
      exact Or.inl ⟨J, hr2⟩
    | ok u K =>
      refine Or.inr ⟨K, hr2, (headD_skipBytes_ne_zero K.current).1 ?_⟩
      intro h0
      simp only [Result.bind, endOrFail, h0, bne_self_eq_false, Bool.false_eq_true,
        if_false] at he
      exact absurd he (by simp)
  · rintro (⟨J, hJ⟩ | ⟨K, hK, hb⟩)
    · exact ⟨J, run_of_statements_fail I J hJ⟩
    · exact ⟨skip K, hfail K hK hb⟩
  · intro K hK hb
    have h := run_of_statements_ok I K hK
    have h0 : (skipBytes K.current).headD 0 = 0 := by
      by_contra hne
      obtain ⟨b, hb1, hb2⟩ := (headD_skipBytes_ne_zero K.current).1 hne
      rw [hb b hb1] at hb2
      exact absurd hb2 (by decide)
    have he : endOrFail K = .ok () (skip K) := by
      simp only [endOrFail, h0, bne_self_eq_false, Bool.false_eq_true, if_false]
    rwa [he] at h

/-- C16 at `x = 1 }`: the loop ends in front of the brace, and `run` fails there. -/
theorem C16_witness :
    Returns (fun f => run f (interpreterConstructor (cstr "x = 1 \x7d")))
      (.stop (.fail (skip
        { interpreterConstructor (cstr "x = 1 \x7d") with
          current := cstr "\x7d"
          symbolTable := (mapInsert mapCreate (sliceConstructorLen (cstr "x = 1 \x7d") 1) 1) }))) :=
  (C16_run_fails_iff_loop_fails_or_text_remains
    (interpreterConstructor (cstr "x = 1 \x7d"))).2.2.1 _
    (Result.le.returns (fun n => statements_mono n _ true)
      (show statements 40 _ true = _ by decide!) (by decide))
    ⟨125, by decide, by decide⟩

/-- C18 (the code departs from the specification): in expression position the call
`print((1)+2)` prints `1`, not the value `3` of its argument.  `e1` consumes the `(` of the
call and `functionCall` consumes one more `(`, here the one that begins the argument, so the
argument is read as `1` up to the first `)`, which ends the call: the call yields `0` with
the cursor in front of `+2)`.  In the program `x = print((1)+2)` the assignment goes on with
`+2`, and the run fails at the `)` that is left over, having printed `1`.  An argument that
does not begin with `(` is printed as specified: `x = print(1+2) print(x)` prints `3` and
then the value `0` of `x`. -/
theorem C18_print_of_parenthesised_argument :
    Returns (fun f => e1 f ((interpreterConstructor []).moveTo (cstr "print((1)+2)")) true false)
      (.ok 0 { interpreterConstructor [] with current := cstr "+2)", output := [1] }) ∧
    (∃ n, ∀ fuel, n ≤ fuel → runOutcome fuel (cstr "x = print((1)+2)") = .failed [1]) ∧
    (∃ n, ∀ fuel, n ≤ fuel →
      runOutcome fuel (cstr "x = print(1+2) print(x)") = .completed [3, 0]) :=
  ⟨Result.le.returns (fun n => levelFn_mono 1 n _ true false)
      (show levelFn 1 40 _ true false = _ by decide!) (by decide),
    ⟨200, runOutcome_stable (by decide!) (by decide)⟩,
    ⟨200, runOutcome_stable (by decide!) (by decide)⟩⟩

/-- C19, counterexample: the assignment `x = 1` executed with `effects = false` does not
write `x` (the global table contains no `x` afterwards), whereas with `effects = true` the
table binds `x` to `1`; the two executions do not end with the same tables.  In
`x = 1 if (x) { } else { nosuch() }` the difference changes the text that is walked: with
`effects = true` the statements complete, with `effects = false` the variable `x` reads as
`0`, the `else` block is run and the call of the unknown function fails. -/
theorem C19_assignment_without_effects_writes_nothing :
    Returns (fun f => statement f (interpreterConstructor (cstr "x = 1")) false false)
      (.ok true { interpreterConstructor (cstr "x = 1") with current := [] }) ∧
    mapContains (interpreterConstructor (cstr "x = 1")).symbolTable (nameSlice (cstr "x"))
      = false ∧
    Returns (fun f => statement f (interpreterConstructor (cstr "x = 1")) true false)
      (.ok true { interpreterConstructor (cstr "x = 1") with
        current := []
        symbolTable := (mapInsert mapCreate (sliceConstructorLen (cstr "x = 1") 1) 1) }) ∧
    mapContains (mapInsert mapCreate (sliceConstructorLen (cstr "x = 1") 1) 1)
      (nameSlice (cstr "x")) = true ∧
    (∃ J, Returns (fun f => statements f
        (interpreterConstructor (cstr "x = 1 if (x) \x7b \x7d else \x7b nosuch() \x7d")) true)
      (.ok () J)) ∧
    (∃ J, Returns (fun f => statements f
        (interpreterConstructor (cstr "x = 1 if (x) \x7b \x7d else \x7b nosuch() \x7d")) false)
      (.stop (.fail J))) :=
  ⟨Result.le.returns (fun n => statement_mono n _ false false)
      (show statement 40 _ false false = _ by decide!) (by decide),
    by decide!,
    Result.le.returns (fun n => statement_mono n _ true false)
      (show statement 40 _ true false = _ by decide!) (by decide),
    by decide!,
    ⟨_, Result.le.returns (fun n => statements_mono n _ true) (n := 60) rfl (by decide!)⟩,
    ⟨_, Result.le.returns (fun n => statements_mono n _ false) (n := 60) rfl (by decide!)⟩⟩


/-- C19, amended: executing a statement with `effects = false` leaves the global table, the
active local table and the output as they were, whatever the statement and the starting
state: neither the output of `print` nor the writes of assignments happen.  For a simple
statement (an assignment `v = e` or a call `print(e)` with a call-free expression `e`) the
execution with `effects = false` returns `true` having changed nothing but the cursor, and
the execution with `effects = true` ends with the same cursor, having written the entry of
`v` or printed the value of `e`. -/
theorem C19_without_effects_nothing_is_written (s : Simple) (hwf : s.wellFormed = true)
    (rest : List Nat) (hrest : EndsExpression rest) (I : Interpreter) (ins : Bool)
    (hp : ins = true → I.functionReturn.exists_ = false)
    (hprint : functionMapGet I.functionNameMap (nameSlice (cstr "print")) =
      some createPrintFunction) :
    (∀ (fuel : Nat) (I0 J : Interpreter) (ins0 b : Bool),
      statement fuel I0 false ins0 = .ok b J →
      J.symbolTable = I0.symbolTable ∧ J.currentSymbolTable = I0.currentSymbolTable ∧
        J.output = I0.output) ∧
    (∃ c, skipBytes c = skipBytes rest ∧
      Returns (fun f => statement f (I.moveTo (skipBytes (s.render rest))) false ins)
        (.ok true (I.moveTo c)) ∧
      Returns (fun f => statement f (I.moveTo (skipBytes (s.render rest))) true ins)
        (.ok true ((s.exec true ins I rest).moveTo c))) := by
  refine ⟨fun fuel I0 J ins0 b h => statement_quiet fuel I0 J ins0 b h, ?_⟩
  obtain ⟨c, hc, h⟩ := statement_simple_all s hwf rest hrest I ins hp hprint
  refine ⟨c, hc, ?_, h true⟩
  have := h false
  rwa [Simple.exec_false] at this

/-- C19 at the assignment ` x = 1` in a fresh interpreter. -/
theorem C19_witness :
    ∃ c, skipBytes c = skipBytes [] ∧
      Returns (fun f => statement f ((interpreterConstructor []).moveTo (cstr "x = 1")) false
        false) (.ok true ((interpreterConstructor []).moveTo c)) ∧
      Returns (fun f => statement f ((interpreterConstructor []).moveTo (cstr "x = 1")) true
        false)
        (.ok true (Interpreter.moveTo
          { interpreterConstructor [] with
            symbolTable := (mapInsert mapCreate (sliceConstructorLen (cstr "x = 1") 1) 1) } c)) :=
  (C19_without_effects_nothing_is_written
    (.assign (cstr " ") (cstr "x") (cstr " ") (.lit (cstr " ") (cstr "1"))) (by decide) []
    endsExpression_nil (interpreterConstructor []) false (fun h => absurd h (by decide))
    (by decide!)).2

/-- C20: for every `K` below `2 ^ 64` the program
`fun f(n) { if (n == 0) { return 0 } return 1 + f(n - 1) } print(f(K))` completes and prints
`K` (the model has no bound on the depth of the recursion).  Every call of `f` with `n`
bound to `K` in its local table, whatever the cursor and the rest of the interpreter, yields
`K` and returns with the pending-return slot empty again, its own local table still
binding `n` to `K`, and the cursor where the call was made: the inner call has drained its
own return value before the caller's `return 1 + f(n - 1)` is completed.  In
`fun g(n) { if (n == 0) { return 0 } return g(n - 1) + n } print(g(4))`, where `n` is read
after the inner call has returned, the output is `10`. -/
theorem C20_recursive_call_yields_its_argument (K : Nat) (hK : K < 2 ^ 64) :
    (∃ n, ∀ fuel, n ≤ fuel → runOutcome fuel (recProgram K) = .completed [K]) ∧
    (∀ (P p c : List Nat) (glob : UnorderedMap) (fns : UnorderedFunctionMap) (out : List Nat)
        (kf pn : Slice), kf.bytes = cstr "f" → pn.bytes = cstr "n" →
      functionMapGet fns (nameSlice (cstr "f")) = some ⟨kf, (cstr " \x7b if (n == 0) \x7b return 0 \x7d return 1 + f(n - 1) \x7d") ++ P, 1, [pn]⟩ →
      Returns (fun f => performFunction f
          ⟨p, c, ⟨false, 0⟩, mapInsert mapCreate pn K, glob, fns, out⟩ true
          ⟨kf, (cstr " \x7b if (n == 0) \x7b return 0 \x7d return 1 + f(n - 1) \x7d") ++ P, 1, [pn]⟩)
        (.ok K ⟨p, c, ⟨false, 0⟩, mapInsert mapCreate pn K, glob, fns, out⟩)) ∧
    (∃ n, ∀ fuel, n ≤ fuel →
      runOutcome fuel (cstr ("fun g(n) \x7b if (n == 0) \x7b return 0 \x7d " ++
        "return g(n - 1) + n \x7d print(g(4))")) = .completed [10]) := by
  refine ⟨?_, fun P p c glob fns out kf pn hkf hpn hf =>
    rec_body P fns kf pn hkf hpn hf K hK p c glob out,
    ⟨300, runOutcome_stable (by decide!) (by decide)⟩⟩
  obtain ⟨I, ho, _, h⟩ := recProgram_run K hK
  have := runOutcome_of_returns _ I h
  rwa [ho] at this

/-- C20 at `K = 3`. -/
theorem C20_witness :
    ∃ n, ∀ fuel, n ≤ fuel →
      runOutcome fuel (cstr ("fun f(n) \x7b if (n == 0) \x7b return 0 \x7d " ++
        "return 1 + f(n - 1) \x7d print(f(3))")) = .completed [3] :=
  (C20_recursive_call_yields_its_argument 3 (by decide)).1

/-- C21, counterexample: the global variable changes during the call of a function whose
parameter has its name when a function called from the body, or from an argument, assigns
the name: for that function the name is not local, so the assignment writes the global
entry.  In `x = 1 fun g() { x = 9 } fun f(x) { g() return x } print(f(5)) print(x)` the
call `f(5)` yields `5` and the global `x` is `9` after it, not `1`; in
`x = 1 fun g() { x = 9 return 0 } fun f(x) { return x } print(f(g())) print(x)` the call
yields `0` and the global `x` is `9` after it. -/
theorem C21_called_function_assigns_the_global :
    (∃ n, ∀ fuel, n ≤ fuel →
      runOutcome fuel (cstr ("x = 1 fun g() \x7b x = 9 \x7d " ++
        "fun f(x) \x7b g() return x \x7d print(f(5)) print(x)")) = .completed [5, 9]) ∧
    (∃ n, ∀ fuel, n ≤ fuel →
      runOutcome fuel (cstr ("x = 1 fun g() \x7b x = 9 return 0 \x7d " ++
        "fun f(x) \x7b return x \x7d print(f(g())) print(x)")) = .completed [0, 9]) :=
  ⟨⟨200, runOutcome_stable (by decide!) (by decide)⟩,
    ⟨200, runOutcome_stable (by decide!) (by decide)⟩⟩

/-- C21, amended: a parameter `p` shadows a global variable of the same name for the reads
and assignments of the body.  The table that a call builds holds every parameter that
received an argument (first part).  In a function body whose local table holds `p`
(`hloc`), whether or not the global table holds it, the operand `p` evaluates to the value
of the local entry (second part), and the assignment `p = e` writes the local entry only:
the global table is the one that the right-hand side left, and the local table holds `p`
with the new value (third part).  When the body of the function is a block of assignments
and calls of `print`, so that no other function is called from it, the call returns
with the global entry of `p` as it was when the body was entered: bound or not as before,
and with the same value (fourth part).  The program
`x = 1 fun f(x) { x = 2 return x } print(f(5)) print(x)` prints `2` then `1`, and
`x = 1 fun f(x) { print(x) x = x + 1 print(x) } f(5) print(x)` prints `5`, `6`, `1`.  The
bounds keep the sizes of the table of the call in the range where the arithmetic of
`mapInsert` is exact. -/
theorem C21_parameter_shadows_the_global (I : Interpreter) (p : List Nat)
    (hname : isIdentifierText p = true) (hkw : isKeyword p = false)
    (hloc : mapContains I.currentSymbolTable (nameSlice p) = true) :
    (∀ (fuel : Nat) (K J : Interpreter) (eff : Bool) (fn : Function) (table : UnorderedMap)
        (c i : Nat) (q : Slice),
      fn.parameters.length < 2 ^ 50 →
      functionCallLoop fuel K eff fn mapCreate 0 = .ok (table, c) J →
      i < c → fn.parameters.get? i = some q → q.bytes = p →
        mapContains table (nameSlice p) = true) ∧
    (∀ (e : Bool) (ws rest : List Nat), ws.all isspace = true →
      isalnum (rest.headD 0) = false → matchBytes [40] (skipBytes rest) = none →
        Returns (fun f => e1 f (I.moveTo (ws ++ p ++ rest)) e true)
          (.ok (mapGet I.currentSymbolTable (nameSlice p)) (I.moveTo (skipBytes rest)))) ∧
    (∀ (I2 : Interpreter) (ws ws2 t : List Nat) (v : Nat), ws.all isspace = true →
      ws2.all isspace = true → I.functionReturn.exists_ = false →
      Returns (fun f => expression f (I.moveTo t) true true) (.ok v I2) →
        ∃ key : Slice, key.bytes = p ∧
          Returns
            (fun f => statement f (I.moveTo (ws ++ p ++ (ws2 ++ cstr "=" ++ t))) true true)
            (.ok true
              { I2 with currentSymbolTable := mapInsert I2.currentSymbolTable key v }) ∧
          mapContains (mapInsert I2.currentSymbolTable key v) (nameSlice p) = true ∧
          mapGet (mapInsert I2.currentSymbolTable key v) (nameSlice p) = v) ∧
    (∀ (K I1 : Interpreter) (eff : Bool) (fn : Function) (table : UnorderedMap)
        (ss : List Simple) (wsEnd tail : List Nat) (i : Nat) (q : Slice),
      sliceEqualString fn.name (cstr "print") = false →
      skipBytes fn.pointer = 123 :: blockText ss wsEnd tail →
      (∀ s ∈ ss, s.wellFormed = true) → wsEnd.all isspace = true →
      fn.parameters.length < 2 ^ 50 → fn.numParams + ss.length < 2 ^ 50 →
      i < fn.numParams → fn.parameters.get? i = some q → q.bytes = p →
      Returns (fun f => functionCallLoop f (consume K (cstr "(")).2 eff fn mapCreate 0)
        (.ok (table, fn.numParams) I1) →
      I1.functionReturn.exists_ = false →
      functionMapGet I1.functionNameMap (nameSlice (cstr "print")) =
        some createPrintFunction →
        ∃ J : Interpreter, Returns (fun f => functionCall f K eff fn) (.ok 0 J) ∧
          J.currentSymbolTable = K.currentSymbolTable ∧
          mapContains J.symbolTable (nameSlice p) =
            mapContains I1.symbolTable (nameSlice p) ∧
          mapGet J.symbolTable (nameSlice p) = mapGet I1.symbolTable (nameSlice p)) ∧
    (∃ n, ∀ fuel, n ≤ fuel →
      runOutcome fuel (cstr "x = 1 fun f(x) \x7b x = 2 return x \x7d print(f(5)) print(x)") =
        .completed [2, 1]) ∧
    (∃ n, ∀ fuel, n ≤ fuel →
      runOutcome fuel
        (cstr "x = 1 fun f(x) \x7b print(x) x = x + 1 print(x) \x7d f(5) print(x)") =
        .completed [5, 6, 1]) := by
  refine ⟨?_, ?_, ?_, ?_, ⟨200, runOutcome_stable (by decide!) (by decide)⟩,
    ⟨200, runOutcome_stable (by decide!) (by decide)⟩⟩
  · intro fuel K J eff fn table c i q hlen h hi hq hb
    rw [← mapContains_bytes table q (nameSlice p) (by rw [hb, bytes_nameSlice])]
    exact functionCallLoop_present fuel K J eff fn table c hlen h i q hi hq
  · intro e ws rest hws hrest hpar
    have h := e1_variable I e true ws p rest hws hname hrest hpar
    have hv : variableValue I true p = mapGet I.currentSymbolTable (nameSlice p) := by
      simp only [variableValue, hloc, Bool.and_self, if_true]
    rwa [hv] at h
  · intro I2 ws ws2 t v hws hws2 hp hexpr
    have hb : (sliceConstructorLen (p ++ (ws2 ++ cstr "=" ++ t)) p.length).bytes =
        (nameSlice p).bytes := by rw [bytes_append, bytes_nameSlice]
    have hl : I2.currentSymbolTable = I.currentSymbolTable := by
      obtain ⟨n, hn⟩ := hexpr
      exact expression_local n (I.moveTo t) I2 true true v (hn n (Nat.le_refl n))
    have hc : mapContains I2.currentSymbolTable
        (sliceConstructorLen (p ++ (ws2 ++ cstr "=" ++ t)) p.length) = true := by
      rw [mapContains_bytes _ _ (nameSlice p) hb, hl]
      exact hloc
    refine ⟨sliceConstructorLen (p ++ (ws2 ++ cstr "=" ++ t)) p.length, bytes_append _ _,
      ?_, ?_, ?_⟩
    · refine Returns.to (statement_assign I I2 true true ws p ws2 t v hws hname hkw hws2
        (fun _ => hp) hexpr) ?_
      simp only [if_true, assignVariable, Bool.not_true, Bool.false_eq_true, if_false, hc]
    · rw [mapContains_insert_present _ _ _ v hc, hl]
      exact hloc
    · rw [mapGet_insert_present _ _ _ v hc, if_pos hb]
  · intro K I1 eff fn table ss wsEnd tail i q hfn hptr hwf hwsEnd hlen hsize hi hq hb hargs
      hp hprint
    have hcall := functionCall_simple_body K I1 eff fn table ss wsEnd tail hfn hptr hwf hwsEnd
      hargs hp hprint
    obtain ⟨n, hn⟩ := hargs
    have hloop := hn n (Nat.le_refl n)
    obtain ⟨ht, _, _⟩ := functionCallLoop_table eff fn hlen n _ mapCreate 0 table fn.numParams
      I1 mapTight_create hloop
    have hq2 : mapContains table (nameSlice p) = true := by
      rw [← mapContains_bytes table q (nameSlice p) (by rw [hb, bytes_nameSlice])]
      exact functionCallLoop_present n _ I1 eff fn table fn.numParams hlen hloop i q hi hq
    obtain ⟨_, _, r3, r4⟩ := execBlock_shadow (nameSlice p) eff wsEnd tail ss
      { I1 with currentSymbolTable := table } fn.numParams ht hsize hq2
    exact ⟨_, hcall, rfl, r3, r4⟩

/-- C21 in the body of `f(x)` called with `5` while the global `x` is `1`: the operand `x`
reads the local entry; and the call `f(5)` of `fun f(x) { x = 2 print(x) }` returns
with the global entry of `x` as it was. -/
theorem C21_witness :
    Returns
      (fun f => e1 f
        (Interpreter.moveTo
          (sampleState [] (oneEntry (cstr "x") 5) (oneEntry (cstr "x") 1))
          (cstr " " ++ cstr "x" ++ cstr " \x7d")) true true)
      (.ok
        (mapGet
          (sampleState [] (oneEntry (cstr "x") 5) (oneEntry (cstr "x") 1)).currentSymbolTable
          (nameSlice (cstr "x")))
        (Interpreter.moveTo
          (sampleState [] (oneEntry (cstr "x") 5) (oneEntry (cstr "x") 1))
          (skipBytes (cstr " \x7d")))) ∧
    mapGet
      (sampleState [] (oneEntry (cstr "x") 5) (oneEntry (cstr "x") 1)).currentSymbolTable
      (nameSlice (cstr "x")) = 5 ∧
    ∃ J : Interpreter,
      Returns
        (fun f => functionCall f
          (sampleState (cstr "(5) print(x)") mapCreate (oneEntry (cstr "x") 1)) true
          ⟨nameSlice (cstr "f"), cstr " \x7b x = 2 print(x) \x7d f(5) print(x)", 1,
            [nameSlice (cstr "x")]⟩) (.ok 0 J) ∧
      J.currentSymbolTable =
        (sampleState (cstr "(5) print(x)") mapCreate (oneEntry (cstr "x") 1)).currentSymbolTable ∧
      mapContains J.symbolTable (nameSlice (cstr "x")) =
        mapContains
          (sampleState (cstr " print(x)") mapCreate (oneEntry (cstr "x") 1)).symbolTable
          (nameSlice (cstr "x")) ∧
      mapGet J.symbolTable (nameSlice (cstr "x")) =
        mapGet
          (sampleState (cstr " print(x)") mapCreate (oneEntry (cstr "x") 1)).symbolTable
          (nameSlice (cstr "x")) :=
  ⟨(C21_parameter_shadows_the_global
      (sampleState [] (oneEntry (cstr "x") 5) (oneEntry (cstr "x") 1))
      (cstr "x") (by decide) (by decide) (by decide!)).2.1 true (cstr " ") (cstr " \x7d")
      (by decide) (by decide) (by decide),
    by decide!,
    (C21_parameter_shadows_the_global
      (sampleState [] (oneEntry (cstr "x") 5) (oneEntry (cstr "x") 1))
      (cstr "x") (by decide) (by decide) (by decide!)).2.2.2.1
      (sampleState (cstr "(5) print(x)") mapCreate (oneEntry (cstr "x") 1))
      (sampleState (cstr " print(x)") mapCreate (oneEntry (cstr "x") 1)) true
      ⟨nameSlice (cstr "f"), cstr " \x7b x = 2 print(x) \x7d f(5) print(x)", 1,
        [nameSlice (cstr "x")]⟩
      (oneEntry (cstr "x") 5)
      [Simple.assign (cstr " ") (cstr "x") (cstr " ") (Expr.lit (cstr " ") (cstr "2")),
        Simple.print (cstr " ") [] (Expr.var [] (cstr "x")) []]
      (cstr " ") (cstr " f(5) print(x)") 0 (nameSlice (cstr "x")) (by decide) (by decide)
      (by decide) (by decide) (by decide) (by norm_num) (by decide) (by decide) (by decide)
      (Result.le.returns (fun n => functionCallLoop_mono n _ true _ _ _)
        (show functionCallLoop 30 _ true _ mapCreate 0 = _ from by decide!) (by simp))
      (by decide) (by decide)⟩

/-- C22: a variable `y` that is local to the caller (`hloc`: the local table at the call
holds it), not global (`hglob`) and not a parameter of the called function `g` (`hy`) is
invisible in `g`.  The call of `g` binds the arguments in a new table and runs the body with
that table as the local table (first part); at the entry of the body that table does not
hold `y`, nor does the global table, and a read of `y` yields `0` (second part).  Wherever
neither table holds `y`, the operand `y` evaluates to `0` (third part) and the assignment
`y = e` writes a new entry of the local table, the table of `g`, and leaves the global
table as the right-hand side left it (fourth part).  When `g` returns, the local table is
the table of the caller exactly as it was before the call, `y` is still bound in it with the
same value, and `y` is still not global (fifth part).  The program
`fun g() { return y } fun f() { y = 7 return g() } print(f())` prints `0`, and
`fun g() { y = 3 return y } fun f() { y = 7 print(g()) return y } print(f())` prints `3`
and `7`.  The bound on the number of parameters keeps the sizes of the table of the call
in the range where the arithmetic of `mapInsert` is exact. -/
theorem C22_caller_locals_are_invisible_in_the_callee (I : Interpreter) (eff : Bool)
    (g : Function) (y : List Nat)
    (hg : sliceEqualString g.name (cstr "print") = false)
    (hlen : g.parameters.length < 2 ^ 50)
    (hy : ∀ p ∈ g.parameters, p.bytes ≠ y)
    (hname : isIdentifierText y = true) (hkw : isKeyword y = false)
    (hloc : mapContains I.currentSymbolTable (nameSlice y) = true)
    (hglob : mapContains I.symbolTable (nameSlice y) = false) :
    (∀ fuel : Nat, functionCall (fuel + 1) I eff g =
      (functionCallLoop fuel (consume I (cstr "(")).2 eff g mapCreate 0).bind
        fun (r : UnorderedMap × Nat) J =>
          if r.2 != g.numParams then fail J
          else (performFunction fuel { J with currentSymbolTable := r.1 } eff g).bind
            fun v K => .ok v { K with currentSymbolTable := I.currentSymbolTable }) ∧
    (∀ (fuel : Nat) (table : UnorderedMap) (count : Nat) (J : Interpreter),
      functionCallLoop fuel (consume I (cstr "(")).2 eff g mapCreate 0 = .ok (table, count) J →
        mapContains table (nameSlice y) = false ∧
        mapContains J.symbolTable (nameSlice y) = false ∧
        variableValue { J with currentSymbolTable := table } true y = 0) ∧
    (∀ (K : Interpreter) (e : Bool) (ws rest : List Nat),
      mapContains K.currentSymbolTable (nameSlice y) = false →
      mapContains K.symbolTable (nameSlice y) = false →
      ws.all isspace = true → isalnum (rest.headD 0) = false →
      matchBytes [40] (skipBytes rest) = none →
        Returns (fun f => e1 f (K.moveTo (ws ++ y ++ rest)) e true)
          (.ok 0 (K.moveTo (skipBytes rest)))) ∧
    (∀ (K K2 : Interpreter) (ws ws2 t : List Nat) (v : Nat),
      mapContains K.currentSymbolTable (nameSlice y) = false →
      mapContains K.symbolTable (nameSlice y) = false →
      ws.all isspace = true → ws2.all isspace = true → K.functionReturn.exists_ = false →
      Returns (fun f => expression f (K.moveTo t) true true) (.ok v K2) →
        K2.currentSymbolTable = K.currentSymbolTable ∧
        mapContains K2.symbolTable (nameSlice y) = false ∧
        ∃ key : Slice, key.bytes = y ∧
          Returns
            (fun f => statement f (K.moveTo (ws ++ y ++ (ws2 ++ cstr "=" ++ t))) true true)
            (.ok true
              { K2 with currentSymbolTable := mapInsert K2.currentSymbolTable key v })) ∧
    (∀ (fuel : Nat) (J : Interpreter) (v : Nat), functionCall fuel I eff g = .ok v J →
      J.currentSymbolTable = I.currentSymbolTable ∧
      mapContains J.currentSymbolTable (nameSlice y) = true ∧
      mapGet J.currentSymbolTable (nameSlice y) = mapGet I.currentSymbolTable (nameSlice y) ∧
      mapContains J.symbolTable (nameSlice y) = false) ∧
    (∃ n, ∀ fuel, n ≤ fuel →
      runOutcome fuel
        (cstr "fun g() \x7b return y \x7d fun f() \x7b y = 7 return g() \x7d print(f())") =
        .completed [0]) ∧
    (∃ n, ∀ fuel, n ≤ fuel →
      runOutcome fuel (cstr ("fun g() \x7b y = 3 return y \x7d " ++
        "fun f() \x7b y = 7 print(g()) return y \x7d print(f())")) = .completed [3, 7]) := by
  have hyk : ∀ p ∈ g.parameters, p.bytes ≠ (nameSlice y).bytes := by
    intro p hp
    rw [bytes_nameSlice]
    exact hy p hp
  refine ⟨fun fuel => functionCall_unfold fuel I eff g hg, ?_, ?_, ?_, ?_,
    ⟨200, runOutcome_stable (by decide!) (by decide)⟩,
    ⟨200, runOutcome_stable (by decide!) (by decide)⟩⟩
  · intro fuel table count J h
    have h1 := functionCallLoop_absent fuel _ J eff g table count hlen h (nameSlice y) hyk
    have h2 : mapContains J.symbolTable (nameSlice y) = false :=
      functionCallLoop_keeps fuel _ J eff g mapCreate 0 (table, count) h (nameSlice y)
        (by rw [consume_symbolTable]; exact hglob)
    exact ⟨h1, h2, variableValue_absent _ true y h1 h2⟩
  · intro K e ws rest hl hgl hws hrest hpar
    have h := e1_variable K e true ws y rest hws hname hrest hpar
    rwa [variableValue_absent K true y hl hgl] at h
  · intro K K2 ws ws2 t v hl hgl hws hws2 hp hexpr
    exact statement_assign_new K K2 ws y ws2 t v hws hname hkw hws2 hp hl hgl hexpr
  · intro fuel J v h
    have hr := functionCall_restores fuel I J eff g v h
    refine ⟨hr, ?_, ?_, functionCall_keeps fuel I J eff g v h _ hglob⟩
    · rw [hr]; exact hloc
    · rw [hr]

/-- C22 at the call `g()` in the body of `f`, where the local table of `f` holds `y = 7`:
the table of `g` does not hold `y`, and after the call the local table is the one of `f`. -/
theorem C22_witness :
    (mapContains mapCreate (nameSlice (cstr "y")) = false ∧
      mapContains
        (sampleState (cstr " \x7d print(f())") (oneEntry (cstr "y") 7) mapCreate).symbolTable
        (nameSlice (cstr "y")) = false ∧
      variableValue
        { (sampleState (cstr " \x7d print(f())") (oneEntry (cstr "y") 7) mapCreate) with
          currentSymbolTable := mapCreate } true (cstr "y") = 0) ∧
    ((sampleState (cstr " \x7d print(f())") (oneEntry (cstr "y") 7) mapCreate).currentSymbolTable =
        (sampleState (cstr "() \x7d print(f())") (oneEntry (cstr "y") 7) mapCreate).currentSymbolTable ∧
      mapContains
        (sampleState (cstr " \x7d print(f())") (oneEntry (cstr "y") 7) mapCreate).currentSymbolTable
        (nameSlice (cstr "y")) = true ∧
      mapGet
        (sampleState (cstr " \x7d print(f())") (oneEntry (cstr "y") 7) mapCreate).currentSymbolTable
        (nameSlice (cstr "y")) =
        mapGet
          (sampleState (cstr "() \x7d print(f())") (oneEntry (cstr "y") 7) mapCreate).currentSymbolTable
          (nameSlice (cstr "y")) ∧
      mapContains
        (sampleState (cstr " \x7d print(f())") (oneEntry (cstr "y") 7) mapCreate).symbolTable
        (nameSlice (cstr "y")) = false) :=
  ⟨(C22_caller_locals_are_invisible_in_the_callee
      (sampleState (cstr "() \x7d print(f())") (oneEntry (cstr "y") 7) mapCreate) true
      ⟨nameSlice (cstr "g"), cstr " \x7b return y \x7d", 0, []⟩ (cstr "y") (by decide)
      (by decide) (by simp) (by decide) (by decide) (by decide!) (by decide!)).2.1 40 mapCreate 0
      (sampleState (cstr " \x7d print(f())") (oneEntry (cstr "y") 7) mapCreate) (by decide!),
    (C22_caller_locals_are_invisible_in_the_callee
      (sampleState (cstr "() \x7d print(f())") (oneEntry (cstr "y") 7) mapCreate) true
      ⟨nameSlice (cstr "g"), cstr " \x7b return y \x7d", 0, []⟩ (cstr "y") (by decide)
      (by decide) (by simp) (by decide) (by decide) (by decide!) (by decide!)).2.2.2.2.1 40
      (sampleState (cstr " \x7d print(f())") (oneEntry (cstr "y") 7) mapCreate) 0 (by decide!)⟩

/-- C23 (the code departs from the specification): with `fun add(a,b) { return a + b }` the
statement `x = add((1 + 2), 3)` does not set `x` to `6`: the run fails.  `e1` consumes the
`(` of the call, and `functionCall` consumes one more `(`, the one that begins the first
argument; the first argument is then read as `1 + 2` up to its `)`, which `functionCall`
takes for the end of the argument list, and the call fails with one argument for two
parameters.  Without the parentheses `x = add(1 + 2, 3) print(x)` prints `6`, and the bare
call statement `add((1 + 2), 3)`, which enters `functionCall` in front of the `(` of the
call, completes. -/
theorem C23_parenthesised_first_argument_fails :
    (∃ n, ∀ fuel, n ≤ fuel →
      runOutcome fuel (cstr "fun add(a,b) \x7b return a + b \x7d x = add((1 + 2), 3)") =
        .failed []) ∧
    (∃ n, ∀ fuel, n ≤ fuel →
      runOutcome fuel (cstr "fun add(a,b) \x7b return a + b \x7d x = add(1 + 2, 3) print(x)") =
        .completed [6]) ∧
    (∃ n, ∀ fuel, n ≤ fuel →
      runOutcome fuel (cstr "fun add(a,b) \x7b return a + b \x7d add((1 + 2), 3)") =
        .completed []) :=
  ⟨⟨200, runOutcome_stable (by decide!) (by decide)⟩,
    ⟨200, runOutcome_stable (by decide!) (by decide)⟩,
    ⟨200, runOutcome_stable (by decide!) (by decide)⟩⟩

/-- C24 (the code departs from the specification): after `fun f() { print(7) }` the
statement `f )` does not fail: it calls `f`, and the run completes having printed `7`.
When the identifier is not followed by `=`, `statement` looks it up in the registry without
looking for a `(`; `functionCall` begins with an unchecked `consume(interpreter, "(")` and
then takes the `)` for the end of an empty argument list.  With `fun f(a) { print(a) }`
even `f 5 )` is a call and prints `5`.  The statement of the claim, `f )` after
`fun f() { x = 1 }`, completes as well.  An identifier that the registry does not contain
fails as specified: `g )` fails. -/
theorem C24_bare_identifier_of_a_function_is_called :
    (∃ n, ∀ fuel, n ≤ fuel →
      runOutcome fuel (cstr "fun f() \x7b print(7) \x7d f )") = .completed [7]) ∧
    (∃ n, ∀ fuel, n ≤ fuel →
      runOutcome fuel (cstr "fun f() \x7b x = 1 \x7d f )") = .completed []) ∧
    (∃ n, ∀ fuel, n ≤ fuel →
      runOutcome fuel (cstr "fun f(a) \x7b print(a) \x7d f 5 )") = .completed [5]) ∧
    (∃ n, ∀ fuel, n ≤ fuel → runOutcome fuel (cstr "g )") = .failed []) :=
  ⟨⟨200, runOutcome_stable (by decide!) (by decide)⟩,
    ⟨200, runOutcome_stable (by decide!) (by decide)⟩,
    ⟨200, runOutcome_stable (by decide!) (by decide)⟩,
    ⟨200, runOutcome_stable (by decide!) (by decide)⟩⟩

/-- C25, counterexample: on the cursor ` x` (a space, then `x`) the call `consume("(")`
returns `false` and leaves the cursor at `x`, after the space, not where it was. -/
theorem C25_consume_mismatch_moves_past_whitespace :
    consume ((interpreterConstructor []).moveTo (cstr " x")) (cstr "(") =
      (false, (interpreterConstructor []).moveTo (cstr "x")) ∧
    ((interpreterConstructor []).moveTo (cstr "x")).current ≠
      ((interpreterConstructor []).moveTo (cstr " x")).current := by
  decide

/-- C25, amended: for every interpreter and text `s`: if, after the leading whitespace, the
text at the cursor is `s` followed by `r`, `consume` returns `true` and leaves the cursor at
`r`, just past `s`; otherwise it returns `false` and leaves the cursor after the leading
whitespace that it has skipped (where it was, if there was none).  Nothing but the cursor
changes in either case. -/
theorem C25_consume_matches_after_whitespace (I : Interpreter) (s : List Nat) :
    (∀ r, skipBytes I.current = s ++ r → consume I s = (true, I.moveTo r)) ∧
    ((∀ r, skipBytes I.current ≠ s ++ r) →
      consume I s = (false, I.moveTo (skipBytes I.current))) ∧
    (isspace (I.current.headD 0) = false → skipBytes I.current = I.current) := by
  refine ⟨fun r h => ?_, fun h => ?_, fun h => ?_⟩
  · unfold consume
    rw [(matchBytes_eq_some s _ r).2 h]
    rfl
  · unfold consume
    rw [(matchBytes_eq_none s _).2 h]
    rfl
  · cases hc : I.current with
    | nil => rfl
    | cons c cs =>
      rw [hc] at h
      exact skipBytes_cons_of_not_space c cs (by simpa using h)

/-- C25 at ` (x` and `(`: the match succeeds after the space. -/
theorem C25_witness :
    consume ((interpreterConstructor []).moveTo (cstr " (x")) (cstr "(") =
      (true, ((interpreterConstructor []).moveTo (cstr " (x")).moveTo (cstr "x")) :=
  (C25_consume_matches_after_whitespace ((interpreterConstructor []).moveTo (cstr " (x"))
    (cstr "(")).1 (cstr "x") (by decide)

/-- C26 (the code departs from the specification): on the block text ` # }`, newline,
` print(1) }` executing and skipping disagree.  Executed (`blockLoop`), the comment line is
passed over up to the newline, `print(1)` runs, and the block ends after the last brace.
Skipped (`consumePast`), the braces are counted byte by byte, the `}` inside the comment
closes the block, and the cursor is left at the newline, in front of ` print(1) }`.  So the
program `if (0) { # }`, newline, ` print(1) }` prints `1` and then fails at the last brace,
and in `if (0) { # }`, newline, ` x = 1 } print(x)` the assignment is executed and the run
fails as well. -/
theorem C26_skipped_block_ends_inside_a_comment :
    Returns (fun f => blockLoop f
        ((interpreterConstructor []).moveTo (cstr " # \x7d\n print(1) \x7d")) true false)
      (.ok false { interpreterConstructor [] with current := [], output := [1] }) ∧
    Returns (fun f => consumePast f
        ((interpreterConstructor []).moveTo (cstr " # \x7d\n print(1) \x7d")))
      (.ok () ((interpreterConstructor []).moveTo (cstr "\n print(1) \x7d"))) ∧
    (∃ n, ∀ fuel, n ≤ fuel →
      runOutcome fuel (cstr "if (0) \x7b # \x7d\n print(1) \x7d") = .failed [1]) ∧
    Returns (fun f => statements f
        (interpreterConstructor (cstr "if (0) \x7b # \x7d\n x = 1 \x7d print(x)")) true)
      (.ok () { interpreterConstructor (cstr "if (0) \x7b # \x7d\n x = 1 \x7d print(x)") with
        current := cstr "\x7d print(x)"
        symbolTable := (mapInsert mapCreate (sliceConstructorLen (cstr "x = 1 \x7d print(x)") 1) 1) }) ∧
    (∃ n, ∀ fuel, n ≤ fuel →
      runOutcome fuel (cstr "if (0) \x7b # \x7d\n x = 1 \x7d print(x)") = .failed []) :=
  ⟨Result.le.returns (fun n => blockLoop_mono n _ true false)
      (show blockLoop 40 _ true false = _ by decide!) (by decide),
    Result.le.returns (fun n => consumePast_mono n _)
      (show consumePast 40 _ = _ by decide!) (by decide),
    ⟨200, runOutcome_stable (by decide!) (by decide)⟩,
    Result.le.returns (fun n => statements_mono n _ true)
      (show statements 60 _ true = _ by decide!) (by decide),
    ⟨200, runOutcome_stable (by decide!) (by decide)⟩⟩

/-- C27: for every table `m` reachable from `mapCreate` by calls of `mapInsert` (on tables of
fewer than `2 ^ 52` bins), every key `k` and value `v`: after `mapInsert(m, k, v)` the key
reads as `v` and is contained, so does every key with the same bytes (keys are compared by
their bytes, not by their position in the text), and every key with other bytes is read and
contained as before.  This covers the calls that push the size above three quarters of the
capacity and expand the table: the table with twelve keys has sixteen bins, the insertion
of a thirteenth key doubles them to thirty-two, and the thirteen keys read as they were
written. -/
theorem C27_insert_then_lookup (m : UnorderedMap) (hm : MapReachable m)
    (hcap : m.capacity < 2 ^ 52) (k : Slice) (v : Nat) :
    mapGet (mapInsert m k v) k = v ∧ mapContains (mapInsert m k v) k = true ∧
    (∀ k2 : Slice, k2.bytes = k.bytes →
      mapGet (mapInsert m k v) k2 = v ∧ mapContains (mapInsert m k v) k2 = true) ∧
    (∀ k2 : Slice, k2.bytes ≠ k.bytes →
      mapGet (mapInsert m k v) k2 = mapGet m k2 ∧
      mapContains (mapInsert m k v) k2 = mapContains m k2) ∧
    MapReachable (mapInsert m k v) ∧
    ((sampleTable 12).capacity = 16 ∧ (sampleTable 13).capacity = 32 ∧
      (sampleTable 13).size = 13 ∧
      (List.range 13).map (fun i => mapGet (sampleTable 13) (nameSlice [97 + i])) =
        List.range 13) := by
  have h := (mapInsert_shape m (mapShape_of_reachable m hm) hcap k v).2
  refine ⟨?_, ?_, fun k2 hb => ?_, fun k2 hb => ?_, MapReachable.insert m k v hm hcap,
    by decide!, by decide!, by decide!, by decide!⟩
  · rw [(h k).2, if_pos rfl]
  · rw [(h k).1]
    simp
  · rw [(h k2).2, (h k2).1, if_pos hb.symm]
    simp [hb.symm]
  · have hne : k.bytes ≠ k2.bytes := fun hx => hb hx.symm
    rw [(h k2).2, (h k2).1, if_neg hne]
    simp [hne]

/-- C27 at the insertion of the thirteenth key, which expands the table, read with a key
written at another place of a text. -/
theorem C27_witness :
    mapGet (mapInsert (sampleTable 12) (nameSlice (cstr "m")) 12)
        (sliceConstructorLen (cstr "m = 1") 1) = 12 ∧
    mapContains (mapInsert (sampleTable 12) (nameSlice (cstr "m")) 12)
        (sliceConstructorLen (cstr "m = 1") 1) = true :=
  (C27_insert_then_lookup (sampleTable 12) sampleTable_reachable (by decide!)
    (nameSlice (cstr "m")) 12).2.2.1 (sliceConstructorLen (cstr "m = 1") 1) (by decide)

/-- C28: the pending-return slot is empty outside of the calls.  In the run of any program
the slot is empty at every interpreter between two top-level statements: in the fresh
interpreter, and after every top-level statement started at such an interpreter, whatever
the statement returns; more generally every statement with `insideFunction = false` that
starts with the slot empty returns with the slot empty.  `performFunction` returns with
the slot empty, however it was entered.  The word `return` at top level does not set the slot: the statement fails at the
reserved-word test, in the interpreter it was started with (cursor apart); the program
`return 1` fails. -/
theorem C28_slot_is_empty_at_top_level (prog : List Nat) :
    (∀ J, TopLevelState prog J → J.functionReturn.exists_ = false) ∧
    (∀ (fuel : Nat) (I J : Interpreter) (eff b : Bool), I.functionReturn.exists_ = false →
      statement fuel I eff false = .ok b J → J.functionReturn.exists_ = false) ∧
    (∀ (fuel : Nat) (I J : Interpreter) (eff : Bool) (fn : Function) (v : Nat),
      performFunction fuel I eff fn = .ok v J → J.functionReturn.exists_ = false) ∧
    (∀ (I : Interpreter) (eff : Bool) (ws rest : List Nat), ws.all isspace = true →
      isalnum (rest.headD 0) = false →
      Returns (fun f => statement f (I.moveTo (ws ++ cstr "return" ++ rest)) eff false)
        (.stop (.fail (I.moveTo rest))) ∧
      (I.moveTo rest).functionReturn = I.functionReturn) ∧
    (∃ n, ∀ fuel, n ≤ fuel → runOutcome fuel (cstr "return 1") = .failed []) := by
  refine ⟨fun J hJ => ?_, fun fuel I J eff b hI h => statement_slotEmpty fuel I J eff b hI h,
    fun fuel I J eff fn v h => performFunction_slotEmpty fuel I eff fn v J h,
    fun I eff ws rest hws hrest => ⟨statement_return_outside I eff ws rest hws hrest, rfl⟩,
    ⟨200, runOutcome_stable (by decide!) (by decide)⟩⟩
  induction hJ with
  | start => rfl
  | step I J fuel b _ hst ih => exact statement_slotEmpty fuel I J true b ih hst

/-- C28 at the program `fun f() { if (1) { return 1 } } x = f()`: after the two statements
the slot is empty. -/
theorem C28_witness :
    (Interpreter.mk (cstr "fun f() \x7b if (1) \x7b return 1 \x7d \x7d x = f()") []
      ⟨false, 0⟩ mapCreate
      (mapInsert mapCreate (sliceConstructorLen (cstr "x = f()") 1) 1)
      (functionMapInsert
        (interpreterConstructor
          (cstr "fun f() \x7b if (1) \x7b return 1 \x7d \x7d x = f()")).functionNameMap
        (sliceConstructorLen (cstr "f() \x7b if (1) \x7b return 1 \x7d \x7d x = f()") 1)
        ⟨sliceConstructorLen (cstr "f() \x7b if (1) \x7b return 1 \x7d \x7d x = f()") 1,
          cstr " \x7b if (1) \x7b return 1 \x7d \x7d x = f()", 0, []⟩)
      []).functionReturn.exists_ = false :=
  (C28_slot_is_empty_at_top_level
    (cstr "fun f() \x7b if (1) \x7b return 1 \x7d \x7d x = f()")).1 _
    (TopLevelState.step
      (Interpreter.mk (cstr "fun f() \x7b if (1) \x7b return 1 \x7d \x7d x = f()")
        (cstr " x = f()") ⟨false, 0⟩ mapCreate mapCreate
        (functionMapInsert
          (interpreterConstructor
            (cstr "fun f() \x7b if (1) \x7b return 1 \x7d \x7d x = f()")).functionNameMap
          (sliceConstructorLen (cstr "f() \x7b if (1) \x7b return 1 \x7d \x7d x = f()") 1)
          ⟨sliceConstructorLen (cstr "f() \x7b if (1) \x7b return 1 \x7d \x7d x = f()") 1,
            cstr " \x7b if (1) \x7b return 1 \x7d \x7d x = f()", 0, []⟩)
        []) _ 60 true
      (TopLevelState.step _ _ 60 true TopLevelState.start (by decide!)) (by decide!))

/-- C29 (the code departs from the specification): two scanning loops of `run` pass the
terminator.  The loop of the `#` comment, `while (current[0] != '\n') current++`, does not
test for the terminator: on the program `# c`, whose last line is a comment without a
newline, the cursor moves beyond the end of the text (the comment loop finds no newline in
what is left), which the embedding reports as undefined behaviour.  The loop of
`consumePast` does `current++` whenever neither brace is next: on `if (0) { x = 1`, where
the skipped block has no closing brace, it moves beyond the terminator as well.  With the
newline, `# c` followed by a newline completes.  The other scanning operations (`skip`,
`consume`, `consumeIdentifier`, `consumeLiteral`) stop at the terminator: the cursor they
leave is a position of the text they were given. -/
theorem C29_comment_and_block_skip_pass_the_terminator :
    commentLoop (cstr " c") = none ∧
    (∃ n, ∀ fuel, n ≤ fuel → runOutcome fuel (cstr "# c") = .undefinedBehaviour []) ∧
    Returns (fun f => consumePast f ((interpreterConstructor []).moveTo (cstr " x = 1")))
      (.stop (.undefinedBehaviour ((interpreterConstructor []).moveTo []))) ∧
    (∃ n, ∀ fuel, n ≤ fuel →
      runOutcome fuel (cstr "if (0) \x7b x = 1") = .undefinedBehaviour []) ∧
    (∃ n, ∀ fuel, n ≤ fuel → runOutcome fuel (cstr "# c\n") = .completed []) ∧
    (∀ I : Interpreter, (skip I).current <:+ I.current) ∧
    (∀ (I : Interpreter) (s : List Nat), (consume I s).2.current <:+ I.current) ∧
    (∀ I : Interpreter, (consumeIdentifier I).2.current <:+ I.current) ∧
    (∀ I : Interpreter, (consumeLiteral I).2.current <:+ I.current) :=
  ⟨by decide,
    ⟨200, runOutcome_stable (by decide!) (by decide)⟩,
    Result.le.returns (fun n => consumePast_mono n _)
      (show consumePast 40 _ = _ by decide!) (by decide),
    ⟨200, runOutcome_stable (by decide!) (by decide)⟩,
    ⟨200, runOutcome_stable (by decide!) (by decide)⟩,
    fun I => skipBytes_suffix I.current, consume_suffix, consumeIdentifier_suffix,
    consumeLiteral_suffix⟩

end FunInterp
